import Mathlib

/-!
# tyr: the query builder (`query.go`)

A shallow embedding of the SQL builder of `suryakencana007/tyr`, and of the
functions of `common.go` and `db.go` that the statements below are about.  Go
strings are lists of code points, the builder (`*Query` and the `*SQL` it points
to) is an explicit state, a Go panic is `Except.error`, and the clock is an
input.
-/

namespace Tyr

/-- A Go string, as its sequence of code points. -/
abbrev Str := List Char

/-! ## The Go standard library, as far as `query.go` calls it -/

/-- The Unicode tables behind `strings.ToLower`, `unicode.IsLetter` and
`unicode.IsDigit`.  They are a parameter; only their ASCII part is fixed. -/
structure Unicode where
  toLower : Char → Char
  isLetter : Char → Bool
  isDigit : Char → Bool
  toLower_ascii : ∀ c : Char, c.toNat < 128 → toLower c = c.toLower
  isLetter_ascii : ∀ c : Char, c.toNat < 128 → isLetter c = c.isAlpha
  isDigit_ascii : ∀ c : Char, c.toNat < 128 → isDigit c = c.isDigit

/-- The tables that leave every code point outside ASCII alone. -/
def asciiUnicode : Unicode where
  toLower := Char.toLower
  isLetter := fun c => decide (c.toNat < 128) && c.isAlpha
  isDigit := fun c => decide (c.toNat < 128) && c.isDigit
  toLower_ascii := fun _ _ => rfl
  isLetter_ascii := fun c h => by simp [h]
  isDigit_ascii := fun c h => by simp [h]

/-- `strings.ToLower`. -/
def ToLower (U : Unicode) (s : Str) : Str := s.map U.toLower

/-- `strings.Index`: the position of the first occurrence of `substr`, or -1. -/
def Index : Str → Str → Int
  | [], substr => if substr = [] then 0 else -1
  | c :: cs, substr =>
    if substr.isPrefixOf (c :: cs) then 0
    else
      let i := Index cs substr
      if i < 0 then -1 else i + 1

/-- `strings.Contains`, which is `Index(s, substr) >= 0`. -/
def Contains (s substr : Str) : Bool := decide (0 ≤ Index s substr)

/-- `strings.Count(s, sep)` for a one-byte `sep`. -/
def Count (s : Str) (sep : Char) : Nat := s.count sep

/-- `strings.Replace(s, old, new, 1)`: the first occurrence of `old` is replaced. -/
def Replace1 : Str → Str → Str → Str
  | [], old, new => if old = [] then new else []
  | c :: cs, old, new =>
    if old.isPrefixOf (c :: cs) then new ++ (c :: cs).drop old.length
    else c :: Replace1 cs old new

/-- `strings.TrimRight(s, cutset)`. -/
def TrimRight (s cutset : Str) : Str := s.rdropWhile (fun c => cutset.contains c)

/-- `strings.Join`. -/
def Join (elems : List Str) (sep : Str) : Str := sep.intercalate elems

/-- `strings.EqualFold(name, "ID")`: the fold orbits of `I` and `D` are ASCII. -/
def equalFoldID (name : Str) : Bool := name.map Char.toLower == "id".toList

/-- The decimal digits of a natural number, as `%d` prints them. -/
def fmtNat (n : Nat) : Str := Nat.toDigits 10 n

/-- `strconv.Itoa`. -/
def Itoa (i : Int) : Str :=
  if i < 0 then '-' :: fmtNat i.natAbs else fmtNat i.toNat

/-- A Go `int` product or difference, wrapped to 64 bits. -/
def wrapInt (i : Int) : Int := (i + 2 ^ 63) % 2 ^ 64 - 2 ^ 63

/-- `sort.Strings` compares byte-wise, which on UTF-8 is code point order. -/
def strLe : Str → Str → Bool
  | [], _ => true
  | _ :: _, [] => false
  | a :: as, b :: bs =>
    if a.toNat < b.toNat then true
    else if b.toNat < a.toNat then false
    else strLe as bs

/-- `sort.Strings`, here on the distinct keys of a map. -/
def sortStrings (keys : List Str) : List Str :=
  keys.insertionSort (fun a b => strLe a b = true)

/-! ## Entities -/

/-- The option part of a tag. -/
abbrev tagOptions := List Str

/-- Split at every comma. -/
def splitComma : Str → List Str
  | [] => [[]]
  | c :: cs =>
    if c = ',' then [] :: splitComma cs
    else
      match splitComma cs with
      | [] => [[c]]
      | seg :: segs => (c :: seg) :: segs

/-- Modelled from the spec: `parseTag` is called by `TagsToField` and tested in
`tag_test.go`, its file is absent.  It splits the tag on commas; the first
segment is the name, the remaining segments are the options. -/
def parseTag (raw : Str) : Str × tagOptions :=
  match splitComma raw with
  | [] => ([], [])
  | name :: opts => (name, opts)

/-- Modelled from the spec: the membership test of the option set. -/
def tagOptions.Contains (o : tagOptions) (optionName : Str) : Bool := o.contains optionName

/-- The value of a struct field, by the cases `isEmptyValue` and the type switch
of `TagsToField` tell apart.  Where the text of `%v` or of a formatted time is
not computed here, the value carries it. -/
inductive Value where
  | int (i : Int)
  | uint (n : Nat)
  | string (s : Str)
  | bool (b : Bool)
  | float (isZero : Bool) (text : Str)
  | ptrBool (p : Option Bool)
  | ptr (p : Option Str)
  | coll (len : Nat) (text : Str)
  | nullString (s : Str) (valid : Bool)
  | nullInt64 (i : Int) (valid : Bool)
  | nullTime (rfc3339 : Str) (valid : Bool)
  | nullFloat64 (text : Str) (valid : Bool)
  | nullBool (b : Bool) (valid : Bool)
  | time (rfc3339 : Str)
  | struct (text : Str)
  deriving DecidableEq, Repr

/-- A struct field: its Go name, its struct tag as key/value pairs, its value.
The fields are those whose value reflection hands out, the exported ones. -/
structure Field where
  Name : Str
  Tag : List (Str × Str)
  val : Value
  deriving DecidableEq, Repr

/-- `field.Tag.Get(key)`: the value of the first pair with that key, else empty. -/
def Field.TagGet (f : Field) (key : Str) : Str :=
  match f.Tag.find? (fun kv => kv.1 == key) with
  | some kv => kv.2
  | none => []

/-- A struct value (or a non-nil pointer to one) with its `TableName()`. -/
structure Entity where
  TableName : Str
  fields : List Field
  deriving DecidableEq, Repr

/-- What callers pass as `model interface{}`. -/
inductive ModelArg where
  | entity (e : Entity)
  | slice (es : List Entity)
  deriving DecidableEq, Repr

/-- A driver argument. `time t` is the clock reading `t` of `time.Now().UTC()`. -/
inductive Arg where
  | str (s : Str)
  | int (i : Int)
  | bool (b : Bool)
  | time (t : Nat)
  deriving DecidableEq, Repr

/-! ## The builder state -/

/-- One entry of `whereConditions`: the keys `"query"` and `"args"`. -/
structure WhereCond where
  query : Str
  args : List Arg
  deriving DecidableEq, Repr

/-- The struct `SQL` (its back pointer `query` is the `Query` that holds it). -/
structure SQL where
  Model : Option ModelArg
  ID : Str
  TagName : Str
  whereConditions : List WhereCond
  deriving DecidableEq, Repr

/-- The struct `Query`; its field `Query` is `QueryStr` here. -/
structure Query where
  raw : Option SQL
  QueryStr : Str
  Args : List Arg
  Rows : Int
  Offset : Int
  deriving DecidableEq, Repr

/-- `Build()`. -/
def Build : Query := { raw := none, QueryStr := [], Args := [], Rows := 0, Offset := 0 }

/-- `clone`: the `SQL` that `s.raw` points to afterwards, and `s`. -/
def Query.clone (s : Query) : SQL × Query :=
  match s.raw with
  | some r => (r, s)
  | none =>
    let r : SQL := { Model := none, ID := [], TagName := "sql".toList, whereConditions := [] }
    (r, { s with raw := some r })

/-- `NewScope`. -/
def Query.NewScope (s : Query) (model : ModelArg) : SQL × Query :=
  match s.raw with
  | none =>
    let r : SQL := { Model := some model, ID := [], TagName := "sql".toList, whereConditions := [] }
    (r, { s with raw := some r })
  | some r =>
    let r := { r with Model := some model }
    (r, { s with raw := some r })

/-- `SetTag`. -/
def Query.SetTag (s : Query) (tag : Str) : Query :=
  let (r, s) := s.clone
  { s with raw := some { r with TagName := tag } }

/-- `Limit`. -/
def Query.Limit (s : Query) (limit : Int) : Query := { s with Rows := limit }

/-- `Page`. -/
def Query.Page (s : Query) (page : Int) : Query := { s with Offset := page }

/-! ## `query.go`: reflection over an entity -/

/-- `isEmptyValue`, by the kind of the value. -/
def isEmptyValue (v : Value) : Bool :=
  match v with
  | .coll len _ => len == 0
  | .string s => s.length == 0
  | .bool b => !b
  | .int i => i == 0
  | .uint n => n == 0
  | .float isZero _ => isZero
  | .ptrBool p => p.isNone
  | .ptr p => p.isNone
  | _ => false

/-- The loop of `isValidTag`. -/
def isValidTagLoop (U : Unicode) : Str → Bool
  | [] => true
  | c :: cs =>
    if "!#$%&()*+-./:<=>?@[]^_\x7b|\x7d~ ".toList.contains c then isValidTagLoop U cs
    else if !U.isLetter c && !U.isDigit c then false
    else isValidTagLoop U cs

/-- `isValidTag`. -/
def isValidTag (U : Unicode) (s : Str) : Bool :=
  if s = [] then false else isValidTagLoop U s

/-- The text of `%v` for a boolean. -/
def boolText (b : Bool) : Str := if b then "true".toList else "false".toList

/-- The type switch of `TagsToField`: the text appended for the value, `none`
where the switch says `continue`. -/
def renderValue (v : Value) : Option Str :=
  match v with
  | .int i => some (Itoa i)
  | .uint n => some (fmtNat n)
  | .ptrBool (some b) => some (boolText b)
  | .ptrBool none => none -- not reached: a nil pointer is empty
  | .nullString s valid => if !valid then none else some s
  | .nullInt64 i valid => if !valid then none else some (Itoa i)
  | .nullTime t valid => if !valid then none else some t
  | .nullFloat64 text valid => if !valid then none else some text
  | .nullBool b valid => if !valid then none else some (boolText b)
  | .time t => some t
  | .string s => some s
  | .bool b => some (boolText b)
  | .float _ text => some text
  | .ptr (some text) => some text
  | .ptr none => none -- not reached: a nil pointer is empty
  | .coll _ text => some text
  | .struct text => some text

/-- An element of a `[]interface{}` of the field map. -/
inductive Iface where
  | str (s : Str)
  | opts (o : tagOptions)
  deriving DecidableEq, Repr

/-- The `map[string][]interface{}` that `TagsToField` returns, keys distinct. -/
abbrev FieldMap := List (Str × List Iface)

/-- The update `result[name] = append(result[name], v)`. -/
def FieldMap.push : FieldMap → Str → Iface → FieldMap
  | [], name, v => [(name, [v])]
  | (k, vs) :: rest, name, v =>
    if k = name then (k, vs ++ [v]) :: rest else (k, vs) :: FieldMap.push rest name v

/-- The lookup `fields[k]`. -/
def FieldMap.get : FieldMap → Str → List Iface
  | [], _ => []
  | (k, vs) :: rest, name => if k = name then vs else FieldMap.get rest name

/-- The keys of the map. -/
def FieldMap.keys (m : FieldMap) : List Str := m.map Prod.fst

/-- One round of the loop of `TagsToField`, on `r.ID` and `result`. -/
def TagsToFieldStep (U : Unicode) (tag : Str) (acc : Str × FieldMap) (field : Field) :
    Str × FieldMap :=
  let tagVal := field.TagGet tag
  let name := if isValidTag U (parseTag tagVal).1 then (parseTag tagVal).1 else []
  let opts := (parseTag tagVal).2
  let ID := if equalFoldID field.Name then name else acc.1
  if isEmptyValue field.val || decide (tagVal.length < 1) then (ID, acc.2)
  else
    match renderValue field.val with
    | none => (ID, acc.2)
    | some text => (ID, (acc.2.push name (.str text)).push name (.opts opts))

/-- `TagsToField`: the changed `r` and the field map.  Reflection panics on a
slice. -/
def SQL.TagsToField (U : Unicode) (r : SQL) (tag : Str) (value : ModelArg) :
    Except String (SQL × FieldMap) :=
  match value with
  | .slice _ => .error "reflect: call of reflect.Value.NumField on slice Value"
  | .entity e =>
    let res := e.fields.foldl (TagsToFieldStep U tag) (r.ID, [])
    .ok ({ r with ID := res.1 }, res.2)

/-- The type `formatField`. -/
abbrev formatField := Str → Nat → tagOptions → Str

/-- The loop of `fieldsToArgs` over the sorted keys, on `f` and `r.query.Args`.
When `fields[k][0]` is a string, `ok` holds and the branch `!ok` with its
conversions is not entered; otherwise the type assertion in that branch panics. -/
def fieldsToArgsLoop (fn : formatField) (fields : FieldMap) :
    List Str → List Str × List Arg → Except String (List Str × List Arg)
  | [], acc => .ok acc
  | k :: ks, (f, Args) =>
    match fields.get k with
    | v0 :: .opts o :: _ =>
      let field := fn k (Args.length + 1) o
      if field.length < 1 then fieldsToArgsLoop fn fields ks (f, Args)
      else
        match v0 with
        | .str arg => fieldsToArgsLoop fn fields ks (f ++ [field], Args ++ [.str arg])
        | .opts _ => .error "interface conversion: interface {} is tagOptions, not string"
    | _ => .error "fields[k][1] is not a tagOptions"

/-- `fieldsToArgs`; `fn` is given the `r` that `TagsToField` has changed, as the
closure of `updates` reads `r.ID` when it is called. -/
def SQL.fieldsToArgs (U : Unicode) (r : SQL) (s : Query) (model : ModelArg)
    (fn : SQL → formatField) : Except String (List Str × SQL × Query) :=
  match SQL.TagsToField U r r.TagName model with
  | .error e => .error e
  | .ok (r, fields) =>
    match fieldsToArgsLoop (fn r) fields (sortStrings fields.keys) ([], s.Args) with
    | .error e => .error e
    | .ok (f, Args) => .ok (f, r, { s with Args := Args })

/-! ## `query.go`: the statements -/

/-- `SQL.Where`. -/
def SQL.Where (r : SQL) (s : Query) (query : Str) (values : List Arg) : Query :=
  let query := if r.whereConditions.length > 0 then " AND ".toList ++ query else query
  { s with raw := some { r with whereConditions := r.whereConditions ++ [⟨query, values⟩] } }

/-- The inner loop of `Exec`: `i` runs from 1 to `lenQuestion`. -/
def execReplace (lenArgs lenQuestion : Nat) (query : Str) : Str :=
  (List.range' 1 lenQuestion).foldl
    (fun query i => Replace1 query "?".toList ('$' :: fmtNat (lenArgs + i))) query

/-- One round of the outer loop of `Exec`, on `buff` and `r.query.Args`. -/
def execStep (acc : Str × List Arg) (w : WhereCond) : Str × List Arg :=
  let lenArgs := acc.2.length
  let lenQuestion := Count w.query '?'
  (acc.1 ++ execReplace lenArgs lenQuestion w.query, acc.2 ++ w.args)

/-- `Exec`. -/
def SQL.Exec (r : SQL) (s : Query) : Query :=
  let acc : Str × List Arg :=
    if r.whereConditions.length > 0 then
      r.whereConditions.foldl execStep (s.QueryStr ++ " WHERE ".toList, s.Args)
    else (s.QueryStr, s.Args)
  let buff :=
    if Contains s.QueryStr "SELECT".toList then
      acc.1 ++ " LIMIT ".toList ++ (if s.Rows > 0 then Itoa s.Rows else "100".toList)
        ++ " OFFSET ".toList ++ Itoa (wrapInt (s.Rows * wrapInt (s.Offset - 1)))
    else acc.1
  { s with raw := some r, QueryStr := buff, Args := acc.2 }

/-- `SQL.join`. -/
def SQL.join (r : SQL) (s : Query) (model : ModelArg) (tableAlias : Str) (onArgs : List Str) :
    Except String Query :=
  if onArgs.length < 1 && !Contains s.QueryStr "SELECT".toList then
    .error "select syntax or join field not found"
  else
    let idx := Index s.QueryStr "FROM".toList
    if idx < 1 then .error "FROM syntax not found"
    else
      match model with
      | .slice _ => .error "interface conversion: not a Model"
      | .entity m =>
        .ok { s with
          raw := some r
          QueryStr := TrimRight (s.QueryStr.take idx.toNat) " ".toList ++ ", ".toList
            ++ (tableAlias ++ ".* ".toList) ++ s.QueryStr.drop idx.toNat ++ " JOIN ".toList
            ++ (m.TableName ++ " ".toList ++ tableAlias) ++ " ON ".toList ++ onArgs.flatten }

/-- `SQL.operator`. -/
def SQL.operator (U : Unicode) (r : SQL) (s : Query) (model : ModelArg) (tableAlias operator : Str) :
    Except String Query :=
  if !Contains s.QueryStr "SELECT".toList then
    .error "select syntax or join field not found"
  else
    match SQL.fieldsToArgs U r s model
      (fun _ key _ _ => tableAlias ++ ".".toList ++ key ++ " = ?".toList) with
    | .error e => .error e
    | .ok (columns, r, s) =>
      if columns.length > 0 then
        let args := s.Args
        let buff :=
          (if r.whereConditions.length > 0 then " ".toList ++ operator ++ " ".toList else [])
            ++ Join columns (" ".toList ++ operator ++ " ".toList)
        .ok { s with
          raw := some { r with whereConditions := r.whereConditions ++ [⟨buff, args⟩] }
          Args := [] }
      else .ok { s with raw := some r }

/-- `SQL.fromQuery`. -/
def SQL.fromQuery (U : Unicode) (r : SQL) (s : Query) (tableAlias : Str) : Except String Query :=
  match r.Model with
  | none => .error "reflect: nil model"
  | some model =>
    match SQL.fieldsToArgs U r s model
      (fun _ key _ _ => tableAlias ++ ".".toList ++ key ++ " = ?".toList) with
    | .error e => .error e
    | .ok (columns, r, s) =>
      match model with
      | .slice _ => .error "interface conversion: not a Model"
      | .entity m =>
        let s := { s with
          QueryStr := "SELECT ".toList ++ (tableAlias ++ ".* ".toList) ++ "FROM ".toList
            ++ (m.TableName ++ " ".toList ++ tableAlias) }
        if columns.length > 0 then
          let args := s.Args
          .ok { s with
            raw := some { r with
              whereConditions := r.whereConditions ++ [⟨Join columns " AND ".toList, args⟩] }
            Args := [] }
        else .ok { s with raw := some r }

/-- The positional markers `$1`, ..., `$n` of `insert`. -/
def insertParams (n : Nat) : List Str := (List.range' 1 n).map (fun i => '$' :: fmtNat i)

/-- `SQL.insert`; `now k` is the `k`-th reading of the clock. -/
def SQL.insert (U : Unicode) (now : Nat → Nat) (r : SQL) (s : Query) : Except String Query :=
  match r.Model with
  | none => .error "reflect: nil model"
  | some model =>
    match SQL.fieldsToArgs U r s model (fun _ key _ _ => key) with
    | .error e => .error e
    | .ok (columns, r, s) =>
      let columns := columns ++ ["create_date".toList, "write_date".toList]
      let Args := s.Args ++ [Arg.time (now 0), Arg.time (now 1)]
      let params := insertParams Args.length
      match model with
      | .slice _ => .error "interface conversion: not a Model"
      | .entity m =>
        .ok { s with
          raw := some r
          Args := Args
          QueryStr := "INSERT INTO ".toList ++ m.TableName ++ " (".toList
            ++ Join columns ", ".toList ++ ") ".toList ++ "VALUES (".toList
            ++ Join params ", ".toList ++ ")".toList }

/-- The first loop of `inserts`, from element `i` on: one row of markers for
each element, and two readings of the clock. -/
def insertsRows (U : Unicode) (now : Nat → Nat) :
    List Entity → Nat → SQL → Query → List (List Str) →
      Except String (List (List Str) × SQL × Query)
  | [], _, r, s, rows => .ok (rows, r, s)
  | model :: rest, i, r, s, rows =>
    match SQL.fieldsToArgs U r s (.entity model) (fun _ _ n _ => '$' :: fmtNat n) with
    | .error e => .error e
    | .ok (f, r, s) =>
      let f := f ++ ['$' :: fmtNat (s.Args.length + 1), '$' :: fmtNat (s.Args.length + 2)]
      let s := { s with Args := s.Args ++ [Arg.time (now (2 * i)), Arg.time (now (2 * i + 1))] }
      insertsRows U now rest (i + 1) r s (rows ++ [f])

/-- `SQL.inserts`. -/
def SQL.inserts (U : Unicode) (now : Nat → Nat) (r : SQL) (s : Query) : Except String Query :=
  match r.Model with
  | none => .error "reflect: nil model"
  | some (.entity _) => .error "reflect: call of reflect.Value.Index on struct Value"
  | some (.slice val) =>
    match insertsRows U now val 0 r s [] with
    | .error e => .error e
    | .ok (rows, r, s) =>
      match val with
      | [] => .error "reflect: slice index out of range"
      | first :: _ =>
        match SQL.TagsToField U r r.TagName (.entity first) with
        | .error e => .error e
        | .ok (r, cols) =>
          let keys := sortStrings cols.keys ++ ["create_date".toList, "write_date".toList]
          let value :=
            Join (rows.map (fun columns => "(".toList ++ Join columns ", ".toList ++ ")".toList))
              ", ".toList
          .ok { s with
            raw := some r
            QueryStr := "INSERT INTO ".toList ++ first.TableName ++ " (".toList
              ++ Join keys ", ".toList ++ ") ".toList ++ "VALUES ".toList ++ value }

/-- `SQL.updates`. -/
def SQL.updates (U : Unicode) (now : Nat → Nat) (r : SQL) (s : Query) : Except String Query :=
  match r.Model with
  | none => .error "reflect: nil model"
  | some model =>
    let s := { s with Args := s.Args ++ [Arg.time (now 0)] }
    match SQL.fieldsToArgs U r s model
      (fun r key n _ =>
        if !Contains key r.ID then key ++ " = $".toList ++ fmtNat n else []) with
    | .error e => .error e
    | .ok (columns, r, s) =>
      let columns := columns ++ ["write_date = $1".toList]
      match model with
      | .slice _ => .error "interface conversion: not a Model"
      | .entity m =>
        .ok { s with
          raw := some r
          QueryStr := "UPDATE ".toList ++ m.TableName ++ " SET ".toList
            ++ Join columns ", ".toList }

/-! ## `query.go`: the methods of `Query` -/

/-- `Query.Or`. -/
def Query.Or (U : Unicode) (s : Query) (model : ModelArg) (tableAlias : Str) : Except String Query :=
  SQL.operator U s.clone.1 s.clone.2 model tableAlias "OR".toList

/-- `Query.And`. -/
def Query.And (U : Unicode) (s : Query) (model : ModelArg) (tableAlias : Str) : Except String Query :=
  SQL.operator U s.clone.1 s.clone.2 model tableAlias "AND".toList

/-- `Query.Join`. -/
def Query.Join (s : Query) (model : ModelArg) (tableAlias : Str) (onArgs : List Str) : Except String Query :=
  SQL.join s.clone.1 s.clone.2 model tableAlias onArgs

/-- `Query.From`. -/
def Query.From (U : Unicode) (s : Query) (model : ModelArg) (tableAlias : Str) : Except String Query :=
  SQL.fromQuery U (s.NewScope model).1 (s.NewScope model).2 tableAlias

/-- `Query.Insert`. -/
def Query.Insert (U : Unicode) (now : Nat → Nat) (s : Query) (model : ModelArg) :
    Except String Query :=
  SQL.insert U now (s.NewScope model).1 (s.NewScope model).2

/-- `Query.Inserts`. -/
def Query.Inserts (U : Unicode) (now : Nat → Nat) (s : Query) (model : ModelArg) :
    Except String Query :=
  SQL.inserts U now (s.NewScope model).1 (s.NewScope model).2

/-- `Query.Updates`. -/
def Query.Updates (U : Unicode) (now : Nat → Nat) (s : Query) (model : ModelArg) :
    Except String Query :=
  SQL.updates U now (s.NewScope model).1 (s.NewScope model).2

/-- `Query.Where`. -/
def Query.Where (s : Query) (query : Str) (args : List Arg) : Query :=
  SQL.Where s.clone.1 s.clone.2 query args

/-- `Query.ToSQL`: the returned text and arguments, and the builder afterwards.
On a builder without `raw` the call dereferences nil. -/
def Query.ToSQL (U : Unicode) (s : Query) : Except String (Str × List Arg × Query) :=
  match s.raw with
  | none => .error "invalid memory address or nil pointer dereference"
  | some r =>
    let s := SQL.Exec r s
    let s :=
      if Contains (ToLower U s.QueryStr) "update".toList
          || Contains (ToLower U s.QueryStr) "insert".toList then
        { s with QueryStr := s.QueryStr ++ " RETURNING ".toList ++ r.ID }
      else s
    .ok (s.QueryStr, s.Args, s)

/-! ## Vocabulary of the statements -/

/-- The column a field resolves to under the tag key `tag`: the name part of its
tag, or the empty name when that part is not a valid tag name. -/
def Field.column (U : Unicode) (tag : Str) (f : Field) : Str :=
  if isValidTag U (parseTag (f.TagGet tag)).1 then (parseTag (f.TagGet tag)).1 else []

/-- The options of the tag of a field. -/
def Field.options (tag : Str) (f : Field) : tagOptions := (parseTag (f.TagGet tag)).2

/-- A nullable wrapper has its `Valid` flag; any other value counts as valid. -/
def Value.valid (v : Value) : Bool :=
  match v with
  | .nullString _ valid => valid
  | .nullInt64 _ valid => valid
  | .nullTime _ valid => valid
  | .nullFloat64 _ valid => valid
  | .nullBool _ valid => valid
  | _ => true

/-- A populated tagged field: its tag under the key is not empty, its value is
not the empty value of its kind, and a nullable wrapper is valid. -/
def Field.populated (tag : Str) (f : Field) : Bool :=
  !isEmptyValue f.val && decide (f.TagGet tag ≠ []) && f.val.valid

/-- The text a populated field is rendered to. -/
def Field.text (f : Field) : Str := (renderValue f.val).getD []

/-- The columns of the populated tagged fields, in declaration order. -/
def populatedColumns (U : Unicode) (tag : Str) (e : Entity) : List Str :=
  (e.fields.filter (fun f => f.populated tag)).map (fun f => f.column U tag)

/-- The rendered value of column `c`: that of the first populated tagged field
that resolves to `c`. -/
def renderedOf (U : Unicode) (tag : Str) (e : Entity) (c : Str) : Str :=
  match e.fields.find? (fun f => f.populated tag && decide (f.column U tag = c)) with
  | some f => f.text
  | none => []

/-- A strictly ascending list of names, in the order of `sort.Strings`. -/
def Ascending (cs : List Str) : Prop := cs.Pairwise (fun a b => strLe a b = true ∧ a ≠ b)

/-- The column recorded as identifier after reflecting over `e`, when `prev`
was recorded before: the column of the last field named `ID`. -/
def idColumn (U : Unicode) (tag : Str) (prev : Str) (e : Entity) : Str :=
  e.fields.foldl (fun ID f => if equalFoldID f.Name then f.column U tag else ID) prev

/-- What one field adds to the field map. -/
def pushField (U : Unicode) (tag : Str) (m : FieldMap) (f : Field) : FieldMap :=
  if f.populated tag then
    (m.push (f.column U tag) (.str f.text)).push (f.column U tag) (.opts (f.options tag))
  else m

/-- The field map of an entity. -/
def fieldMapOf (U : Unicode) (tag : Str) (e : Entity) : FieldMap :=
  e.fields.foldl (pushField U tag) []

/-- The first text stored under a key of the field map. -/
def FieldMap.val (m : FieldMap) (k : Str) : Str :=
  match m.get k with
  | .str v :: _ => v
  | _ => []

/-- The options stored under a key of the field map. -/
def FieldMap.opt (m : FieldMap) (k : Str) : tagOptions :=
  match m.get k with
  | _ :: .opts o :: _ => o
  | _ => []

/-- What the loop of `fieldsToArgs` emits over the keys `ks` when `n` arguments
are in the list: each fragment that is not empty, with its argument. -/
def emitted (fn : formatField) (m : FieldMap) : List Str → Nat → List (Str × Arg)
  | [], _ => []
  | k :: ks, n =>
    if (fn k (n + 1) (m.opt k)).length < 1 then emitted fn m ks n
    else (fn k (n + 1) (m.opt k), Arg.str (m.val k)) :: emitted fn m ks (n + 1)

/-- The fragment `q` with its `?` marks rewritten from left to right to the
markers `$(n+1)`, `$(n+2)`, ... -/
def renumber : Nat → Str → Str
  | _, [] => []
  | n, c :: cs =>
    if c = '?' then ('$' :: fmtNat (n + 1)) ++ renumber (n + 1) cs else c :: renumber n cs

/-- The pending fragments rendered one after the other when `n` arguments are
in the list: each fragment is renumbered from the arguments before it. -/
def renderWhere : Nat → List WhereCond → Str
  | _, [] => []
  | n, w :: ws => renumber n w.query ++ renderWhere (n + w.args.length) ws

/-- The arguments of the pending fragments, in the order of the fragments. -/
def whereArgs (ws : List WhereCond) : List Arg := (ws.map (fun w => w.args)).flatten

/-- The state of the scan for positional markers. -/
inductive Scan where
  | idle
  | dollar
  | num (n : Nat)
  deriving DecidableEq, Repr

/-- The marker a scan state holds. -/
def Scan.flush : Scan → List Nat
  | .num n => [n]
  | _ => []

/-- The positional markers of a text from a scan state on: a marker is a `$`
with the longest run of decimal digits after it. -/
def markersFrom : Scan → Str → List Nat
  | st, [] => st.flush
  | st, c :: cs =>
    if c = '$' then st.flush ++ markersFrom .dollar cs
    else if c.isDigit then
      match st with
      | .idle => markersFrom .idle cs
      | .dollar => markersFrom (.num (c.toNat - 48)) cs
      | .num n => markersFrom (.num (10 * n + (c.toNat - 48))) cs
    else st.flush ++ markersFrom .idle cs

/-- The positional markers `$n` of a text, from left to right. -/
def markers (s : Str) : List Nat := markersFrom .idle s

/-- The WHERE clause that `Exec` writes for the pending fragments `ws` when `n`
arguments are in the list. -/
def whereClause (n : Nat) (ws : List WhereCond) : Str :=
  if ws = [] then [] else " WHERE ".toList ++ renderWhere n ws

/-- The LIMIT/OFFSET clause that `Exec` writes for the builder `s`. -/
def limitClause (s : Query) : Str :=
  if Contains s.QueryStr "SELECT".toList then
    " LIMIT ".toList ++ (if s.Rows > 0 then Itoa s.Rows else "100".toList)
      ++ " OFFSET ".toList ++ Itoa (wrapInt (s.Rows * wrapInt (s.Offset - 1)))
  else []

/-- The RETURNING clause that `ToSQL` writes after the text `t`. -/
def returningClause (U : Unicode) (ID : Str) (t : Str) : Str :=
  if Contains (ToLower U t) "update".toList || Contains (ToLower U t) "insert".toList then
    " RETURNING ".toList ++ ID
  else []

/-- A name that contains no `?` and, in lower case, neither `update` nor
`insert`. -/
def plainName (U : Unicode) (x : Str) : Prop :=
  Contains x "?".toList = false
    ∧ Contains (ToLower U x) "update".toList = false
    ∧ Contains (ToLower U x) "insert".toList = false

/-- The conditions `a.c = $i` for the columns `cs`, numbered from `n` on. -/
def numberedConditions (a : Str) (cs : List Str) (n : Nat) : List Str :=
  List.zipWith (fun c i => a ++ ".".toList ++ c ++ " = $".toList ++ fmtNat i) cs
    (List.range' n cs.length)

/-- The text `s`, its code points mapped by `f`, does not contain `pat`. -/
def NoPat (f : Char → Char) (pat s : Str) : Prop := ¬ pat <:+: s.map f

/-- The text starts with a decimal digit. -/
def startsDigit (s : Str) : Bool :=
  match s with
  | c :: _ => c.isDigit
  | [] => false

/-- The number of placeholders of the row of an element of `Inserts`: one for
each distinct column of its populated tagged fields, and two timestamps. -/
def rowWidth (U : Unicode) (tag : Str) (e : Entity) : Nat :=
  (populatedColumns U tag e).dedup.length + 2

/-- Rows of consecutive markers of the given widths, the first marker being
`$(n+1)`. -/
def markerRows : Nat → List Nat → List (List Str)
  | _, [] => []
  | n, w :: ws => (List.range' (n + 1) w).map (fun i => '$' :: fmtNat i) :: markerRows (n + w) ws

/-- The VALUES list of `inserts`: each row in parentheses, its markers and the
rows separated by a comma and a blank. -/
def valuesList (rows : List (List Str)) : Str :=
  Join (rows.map (fun columns => "(".toList ++ Join columns ", ".toList ++ ")".toList))
    ", ".toList

/-! ## Chains of calls -/

deriving instance DecidableEq for Except

/-- Run a call on the builder a previous call returned. -/
def andThen (x : Except String Query) (f : Query → Except String Query) : Except String Query :=
  match x with
  | .error e => .error e
  | .ok s => f s

/-- The text and the arguments that `ToSQL` returns after a chain of calls. -/
def rendered (U : Unicode) (x : Except String Query) : Except String (Str × List Arg) :=
  match x with
  | .error e => .error e
  | .ok s =>
    match s.ToSQL U with
    | .error e => .error e
    | .ok res => .ok (res.1, res.2.1)

/-- The statement text of the builder a chain of calls returned. -/
def statementText (x : Except String Query) : Except String Str :=
  match x with
  | .error e => .error e
  | .ok s => .ok s.QueryStr

/-- A call that follows `From` in a chain. -/
inductive Call where
  | And (m : Entity) (a : Str)
  | Or (m : Entity) (a : Str)
  | Where (query : Str) (args : List Arg)
  | Join (m : Entity) (b : Str) (onArgs : List Str)

/-- Make the call on the builder `s`. -/
def Call.run (U : Unicode) (s : Query) : Call → Except String Query
  | .And m a => s.And U (.entity m) a
  | .Or m a => s.Or U (.entity m) a
  | .Where query args => .ok (s.Where query args)
  | .Join m b onArgs => s.Join (.entity m) b onArgs

/-- Make the calls one after the other, each on the builder the call before
returned. -/
def runCalls (U : Unicode) (x : Except String Query) (calls : List Call) : Except String Query :=
  calls.foldl (fun x c => andThen x (fun s => c.run U s)) x

/-- No `?` of the text has a decimal digit right after it. -/
def noDigitAfterQuestion : Str → Bool
  | [] => true
  | c :: cs => if c = '?' then !startsDigit cs && noDigitAfterQuestion cs else noDigitAfterQuestion cs

/-- A name without `$` and without `?`. -/
def markerFreeName (x : Str) : Prop := '$' ∉ x ∧ '?' ∉ x

/-- The columns of all fields of the entity are without `$` and `?`. -/
def markerFreeColumns (U : Unicode) (e : Entity) : Prop :=
  ∀ f ∈ e.fields, markerFreeName (f.column U "sql".toList)

/-- A pending fragment whose `?` marks are as many as its arguments, without `$`
and without a digit right after a `?`. -/
def FragOk (w : WhereCond) : Prop :=
  '$' ∉ w.query ∧ Count w.query '?' = w.args.length ∧ noDigitAfterQuestion w.query = true

/-- The texts a call passes are free of markers, and a fragment passed to `Where`
has as many `?` as arguments. -/
def Call.wellFormed (U : Unicode) : Call → Prop
  | .And m a => markerFreeColumns U m ∧ markerFreeName a
  | .Or m a => markerFreeColumns U m ∧ markerFreeName a
  | .Where query args => FragOk ⟨query, args⟩
  | .Join m b onArgs => '$' ∉ m.TableName ∧ '$' ∉ b ∧ ∀ o ∈ onArgs, '$' ∉ o

/-- What holds of the builder `s`, with `raw` pointing to `r`, all along a chain
of well formed calls after `From` on a fresh builder. -/
structure ChainInv (s : Query) (r : SQL) : Prop where
  raw : s.raw = some r
  args : s.Args = []
  tag : r.TagName = "sql".toList
  id : '$' ∉ r.ID
  text : '$' ∉ s.QueryStr
  sel : "SELECT".toList <+: s.QueryStr
  frm : "FROM".toList <:+: s.QueryStr
  frags : ∀ w ∈ r.whereConditions, FragOk w
  blank : ∀ w ∈ r.whereConditions.tail, ∃ q, w.query = ' ' :: q

/-! ## The entities of `query_test.go` -/

/-- A struct tag with the same name under the keys `json` and `sql`. -/
def jsonSqlTag (name : String) : List (Str × Str) :=
  [("json".toList, name.toList), ("sql".toList, name.toList)]

/-- A struct tag with the key `json` only. -/
def jsonTag (name : String) : List (Str × Str) := [("json".toList, name.toList)]

/-- The zero `time.Time`, formatted. -/
def zeroTime : Value := .time "0001-01-01T00:00:00Z".toList

/-- The struct `Game` with the given values of its tagged fields. -/
def Game (ID : Int) (Code Title : String) (Description : Value) (Enabled : Bool)
    (Rate Release : Value) : Entity where
  TableName := "ref_game".toList
  fields :=
    [ ⟨"CreatedAt".toList, jsonTag "create_date,omitempty", zeroTime⟩,
      ⟨"CreatedBy".toList, jsonTag "created_by,omitempty", .string []⟩,
      ⟨"UpdatedAt".toList, jsonTag "write_date,omitempty", zeroTime⟩,
      ⟨"UpdatedBy".toList, jsonTag "updated_by,omitempty", .string []⟩,
      ⟨"DeletedAt".toList, jsonTag "deleted_at,omitempty", zeroTime⟩,
      ⟨"ID".toList, jsonSqlTag "game_id", .int ID⟩,
      ⟨"Code".toList, jsonSqlTag "game_code", .string Code.toList⟩,
      ⟨"Title".toList, jsonSqlTag "game_title", .string Title.toList⟩,
      ⟨"Description".toList, jsonSqlTag "game_description", Description⟩,
      ⟨"Enabled".toList, jsonSqlTag "enabled", .bool Enabled⟩,
      ⟨"Rate".toList, jsonSqlTag "rate", Rate⟩,
      ⟨"Release".toList, jsonSqlTag "release", Release⟩ ]

/-- The value `NullString{}`. -/
def noString : Value := .nullString [] false

/-- The value `NullInt64{}`. -/
def noInt64 : Value := .nullInt64 0 false

/-- The value `NullTime{}`. -/
def noTime : Value := .nullTime [] false

/-- The value `Game{}`. -/
def emptyGame : Entity := Game 0 "" "" noString false noInt64 noTime

/-- The value of `newGame()` with the code `uuid` and a fixed release time. -/
def newGame : Entity :=
  Game 507 "uuid" "DOTA2" (.nullString "08675467484389".toList true) true (.nullInt64 75 true)
    (.nullTime "2019-11-24T15:00:00Z".toList true)

/-- The struct `User` with the given values of its tagged fields. -/
def User (ID : Int) (Name : String) : Entity where
  TableName := "ref_user".toList
  fields :=
    [ ⟨"CreatedAt".toList, jsonTag "create_date,omitempty", zeroTime⟩,
      ⟨"CreatedBy".toList, jsonTag "created_by,omitempty", .string []⟩,
      ⟨"UpdatedAt".toList, jsonTag "write_date,omitempty", zeroTime⟩,
      ⟨"UpdatedBy".toList, jsonTag "updated_by,omitempty", .string []⟩,
      ⟨"DeletedAt".toList, jsonTag "deleted_at,omitempty", zeroTime⟩,
      ⟨"ID".toList, [("json".toList, "user_id".toList), ("sql".toList, "id".toList)], .int ID⟩,
      ⟨"Name".toList, [("json".toList, "user_name".toList), ("sql".toList, "name".toList)],
        .string Name.toList⟩ ]

/-- The builder after `Build().From(Game{}, "g")`. -/
def selectGames : Query where
  raw := some { Model := some (.entity emptyGame), ID := "game_id".toList,
                TagName := "sql".toList, whereConditions := [] }
  QueryStr := "SELECT g.* FROM ref_game g".toList
  Args := []
  Rows := 0
  Offset := 0

/-- An entity with one populated tagged field, whose column is `updated_by`. -/
def auditEntry : Entity where
  TableName := "audit_log".toList
  fields := [⟨"UpdatedBy".toList, jsonSqlTag "updated_by", .string "budi".toList⟩]

/-- An entity whose table name contains `SELECT`. -/
def selection : Entity where
  TableName := "SELECTIONS".toList
  fields := [⟨"ID".toList, jsonSqlTag "id", .int 7⟩]

/-- An entity with two populated fields tagged with the same column. -/
def twoNames : Entity where
  TableName := "ref_member".toList
  fields :=
    [ ⟨"Name".toList, jsonSqlTag "name", .string "budi".toList⟩,
      ⟨"Nick".toList, jsonSqlTag "name", .string "bud".toList⟩ ]

/-- The calls of `TestRawQuery_Join` after its `From`. -/
def testJoinCalls : List Call :=
  [ Call.Join (User 0 "") "u".toList ["u.id = g.user_id".toList],
    Call.Where "u.name like %| ? |%".toList [Arg.str "budi".toList] ]

/-! ## Vocabulary of `Updates`, of paging and of the field map -/

/-- The assignments `c = $i` for the columns `cs`, numbered from `n` on. -/
def numberedAssignments (cs : List Str) (n : Nat) : List Str :=
  List.zipWith (fun c i => c ++ " = $".toList ++ fmtNat i) cs (List.range' n cs.length)

/-- The columns that `updates` assigns when `ID` is the recorded identifier
column: the sorted keys of the field map in which `ID` does not occur. -/
def assignedColumns (U : Unicode) (tag ID : Str) (e : Entity) : List Str :=
  (sortStrings (fieldMapOf U tag e).keys).filter (fun k => !Contains k ID)

/-- The calls `Where(w.query, w.args...)` for the `w` of `ws`, made one after the
other on the builder `s`. -/
def whereCalls (s : Query) (ws : List WhereCond) : Query :=
  ws.foldl (fun s w => s.Where w.query w.args) s

/-- The text `t` with the RETURNING clause that `ToSQL` writes after it. -/
def withReturning (U : Unicode) (ID : Str) (t : Str) : Str := t ++ returningClause U ID t

/-- The values of the kinds string, boolean, integer, float, pointer, slice and
map (arrays are with the slices). -/
def Value.plainKind (v : Value) : Bool :=
  match v with
  | .int _ => true
  | .uint _ => true
  | .string _ => true
  | .bool _ => true
  | .float _ _ => true
  | .ptrBool _ => true
  | .ptr _ => true
  | .coll _ _ => true
  | _ => false

/-- The zero/empty value of a type, in the words of the specification: "empty
string, zero number, false, nil pointer/interface, zero-length collection".  A
float carries whether it is zero; a value of another kind is none of these. -/
def Value.isZeroOrEmpty (v : Value) : Bool :=
  match v with
  | .string s => decide (s = [])
  | .int i => decide (i = 0)
  | .uint n => decide (n = 0)
  | .float isZero _ => isZero
  | .bool b => decide (b = false)
  | .ptrBool p => decide (p = none)
  | .ptr p => decide (p = none)
  | .coll len _ => decide (len = 0)
  | _ => false

/-- The calls that start a statement. -/
inductive Statement where
  | From (e : Entity) (a : Str)
  | Insert (e : Entity)
  | Inserts (first : Entity) (rest : List Entity)
  | Updates (e : Entity)

/-- Make the call on a fresh builder. -/
def Statement.build (U : Unicode) (now : Nat → Nat) : Statement → Except String Query
  | .From e a => Build.From U (.entity e) a
  | .Insert e => Build.Insert U now (.entity e)
  | .Inserts first rest => Build.Inserts U now (.slice (first :: rest))
  | .Updates e => Build.Updates U now (.entity e)

/-! ## Further entities -/

/-- An entity with two fields whose names equal `ID` when case is ignored. -/
def ticket : Entity where
  TableName := "ref_ticket".toList
  fields :=
    [ ⟨"ID".toList, jsonSqlTag "ticket_id", .int 7⟩,
      ⟨"Id".toList, jsonSqlTag "external_id", .string "x9".toList⟩ ]

/-- An entity whose identifier column `id` occurs in its column `user_id`. -/
def purchase : Entity where
  TableName := "ref_purchase".toList
  fields :=
    [ ⟨"ID".toList, jsonSqlTag "id", .int 1⟩,
      ⟨"UserID".toList, jsonSqlTag "user_id", .int 7⟩ ]

/-- An entity whose table name contains `update`; its identifier is not set. -/
def updateLog : Entity where
  TableName := "update_log".toList
  fields := [⟨"ID".toList, jsonSqlTag "id", .int 0⟩]

/-- The builder after `Build().Updates(&User{ID: 3, Name: "budi"})`, the clock
reading 0. -/
def renameUser : Query where
  raw := some { Model := some (.entity (User 3 "budi")), ID := "id".toList,
                TagName := "sql".toList, whereConditions := [] }
  QueryStr := "UPDATE ref_user SET name = $2, write_date = $1".toList
  Args := [Arg.time 0, Arg.str "budi".toList]
  Rows := 0
  Offset := 0

/-- An entity with two tagged fields of each of the kinds string, boolean,
integer, unsigned integer, float, pointer and slice, the first at its zero or
empty value, and a field that holds a value without the tag key `sql`. -/
def catalog : Entity where
  TableName := "ref_catalog".toList
  fields :=
    [ ⟨"Code".toList, jsonSqlTag "code", .string []⟩,
      ⟨"Title".toList, jsonSqlTag "title", .string "dota".toList⟩,
      ⟨"Enabled".toList, jsonSqlTag "enabled", .bool false⟩,
      ⟨"Visible".toList, jsonSqlTag "visible", .bool true⟩,
      ⟨"Level".toList, jsonSqlTag "level", .int 0⟩,
      ⟨"Rank".toList, jsonSqlTag "rank", .int (-3)⟩,
      ⟨"Seats".toList, jsonSqlTag "seats", .uint 0⟩,
      ⟨"Slots".toList, jsonSqlTag "slots", .uint 8⟩,
      ⟨"Price".toList, jsonSqlTag "price", .float true "0".toList⟩,
      ⟨"Score".toList, jsonSqlTag "score", .float false "4.5".toList⟩,
      ⟨"Flag".toList, jsonSqlTag "flag", .ptrBool none⟩,
      ⟨"Done".toList, jsonSqlTag "done", .ptrBool (some false)⟩,
      ⟨"Owner".toList, jsonSqlTag "owner", .ptr none⟩,
      ⟨"Parent".toList, jsonSqlTag "parent", .ptr (some "0xc000010000".toList)⟩,
      ⟨"Tags".toList, jsonSqlTag "tags", .coll 0 "[]".toList⟩,
      ⟨"Labels".toList, jsonSqlTag "labels", .coll 2 "[a b]".toList⟩,
      ⟨"Note".toList, jsonTag "note", .string "memo".toList⟩ ]

/-- An entity with a populated field whose tag is the literal `-`. -/
def account : Entity where
  TableName := "ref_account".toList
  fields :=
    [ ⟨"ID".toList, jsonSqlTag "id", .int 1⟩,
      ⟨"Password".toList, jsonSqlTag "-", .string "s3cret".toList⟩ ]

/-! ## Vocabulary of the reflection over an entity -/

/-- The columns of the populated tagged fields with their rendered values, in
declaration order. -/
def populatedPairs (U : Unicode) (tag : Str) (e : Entity) : List (Str × Str) :=
  (e.fields.filter (fun f => f.populated tag)).map (fun f => (f.column U tag, f.text))

/-- The columns that `insert` lists for an entity: the sorted keys of the field
map, the empty key left out. -/
def insertedColumns (U : Unicode) (tag : Str) (e : Entity) : List Str :=
  (sortStrings (fieldMapOf U tag e).keys).filter (fun k => decide (k ≠ []))

/-- The values of the nullable wrapper types. -/
def Value.isNullable (v : Value) : Bool :=
  match v with
  | .nullString _ _ => true
  | .nullInt64 _ _ => true
  | .nullTime _ _ => true
  | .nullFloat64 _ _ => true
  | .nullBool _ _ => true
  | _ => false

/-- The wrapped value of a nullable wrapper, rendered as text, whatever its
`Valid` flag. -/
def Value.wrappedText (v : Value) : Str :=
  match v with
  | .nullString s _ => s
  | .nullInt64 i _ => Itoa i
  | .nullTime t _ => t
  | .nullFloat64 text _ => text
  | .nullBool b _ => boolText b
  | _ => []

/-! ## `common.go`: `CloneStruct` -/

/-- The errors that `CloneStruct` returns: the package variables `NotPointer` and
`NilPointer`, and the errors of `json.Marshal` and `json.Unmarshal`. -/
inductive CloneError where
  | NotPointer
  | NilPointer
  | json (msg : String)
  deriving DecidableEq, Repr

/-- An `interface{}` argument of `CloneStruct`, by what `reflect.ValueOf` tells of
it: its kind is not `Ptr`, or it is a nil pointer, or it points to a value. -/
inductive PtrArg (α : Type) where
  | notPointer
  | nilPointer
  | pointer (target : α)
  deriving DecidableEq, Repr

/-- `CloneStruct`: the error returned (`none` is nil) and `dest` afterwards.
`marshal` is `json.Marshal` on what `src` points to; `unmarshal` is
`json.Unmarshal` into what `dest` points to, and gives the value stored there
afterwards together with its error. -/
def CloneStruct {α β : Type} (marshal : α → Except String Str)
    (unmarshal : Str → β → β × Option String) (src : PtrArg α) (dest : PtrArg β) :
    Option CloneError × PtrArg β :=
  match dest with
  | .notPointer => (some .NotPointer, dest)
  | .nilPointer => (some .NilPointer, dest)
  | .pointer d =>
    match src with
    | .notPointer => (some .NotPointer, dest)
    | .nilPointer => (some .NilPointer, dest)
    | .pointer s =>
      match marshal s with
      | .error err => (some (.json err), dest)
      | .ok b => ((unmarshal b d).2.map CloneError.json, .pointer (unmarshal b d).1)

/-! ## Entities with unusual tags and identifiers -/

/-- An entity with a populated field whose tag has an empty name before its
options. -/
def profile : Entity where
  TableName := "ref_profile".toList
  fields :=
    [ ⟨"ID".toList, jsonSqlTag "id", .int 4⟩,
      ⟨"Nick".toList, jsonSqlTag ",omitempty", .string "bud".toList⟩ ]

/-- The fields of `User{ID: 3, Name: "budi"}` declared in another order, the
tagged ones first. -/
def userReordered : Entity where
  TableName := "ref_user".toList
  fields :=
    [ ⟨"Name".toList, [("json".toList, "user_name".toList), ("sql".toList, "name".toList)],
        .string "budi".toList⟩,
      ⟨"ID".toList, [("json".toList, "user_id".toList), ("sql".toList, "id".toList)], .int 3⟩,
      ⟨"CreatedAt".toList, jsonTag "create_date,omitempty", zeroTime⟩ ]

/-- An entity with the table and the name of a user, without a field `ID`. -/
def userName : Entity where
  TableName := "ref_user".toList
  fields :=
    [ ⟨"Name".toList, [("json".toList, "user_name".toList), ("sql".toList, "name".toList)],
        .string "budi".toList⟩ ]

/-- An entity whose field `ID` is an array of 16 bytes, all zero. -/
def device : Entity where
  TableName := "ref_device".toList
  fields :=
    [ ⟨"ID".toList, jsonSqlTag "id", .coll 16 "[0 0 0 0 0 0 0 0 0 0 0 0 0 0 0 0]".toList⟩,
      ⟨"Name".toList, jsonSqlTag "name", .string "probe".toList⟩ ]

/-- An entity whose field `ID` is zero and shares its column with a populated
field. -/
def legacy : Entity where
  TableName := "ref_legacy".toList
  fields :=
    [ ⟨"ID".toList, jsonSqlTag "id", .int 0⟩,
      ⟨"Legacy".toList, jsonSqlTag "id", .int 5⟩ ]

/-! ## `db.go`: the execution layer -/

/-- A Go `error` that is not nil.  `sql.ErrNoRows` is the package variable of
`database/sql`, which the code tells apart with `==`; any other error is given
by its text. -/
inductive GoError where
  | ErrNoRows
  | other (msg : String)
  deriving DecidableEq, Repr

/-- The connection `*sql.DB`, by the calls that `QueryRowCtx` and `QueryCtx` make
on it and on the rows it returns.  `Row` and `Rows` are what the callback is
handed. -/
structure Conn (Row Rows : Type) where
  QueryRowContext : Str → List Arg → Row
  QueryContext : Str → List Arg → Except GoError Rows
  CloseRows : Rows → Option GoError

/-- The struct `DB`, with the field that the two functions read. -/
structure DB (Row Rows : Type) where
  Slave : Option (Conn Row Rows)

/-- `DB.QueryRowCtx`: the error returned, `none` being nil.  The callback `fn`
returns its error; logging is left out. -/
def DB.QueryRowCtx {Row Rows : Type} (r : DB Row Rows) (fn : Row → Option GoError)
    (query : Str) (args : List Arg) : Option GoError :=
  match r.Slave with
  | none => some (.other "event QueryRowCtx: cannot access your db connection")
  | some slave =>
    let rs := slave.QueryRowContext query args
    match fn rs with
    | some err => if err = .ErrNoRows then none else some err
    | none => none

/-- `DB.QueryCtx`: the error returned, `none` being nil.  The deferred function
assigns the error of `rs.Close()` to the local `err`, which the `return`
statements do not read: the result has no name. -/
def DB.QueryCtx {Row Rows : Type} (r : DB Row Rows) (fn : Rows → Option GoError)
    (query : Str) (args : List Arg) : Option GoError :=
  match r.Slave with
  | none => some (.other "event QueryCtx: cannot access your db connection")
  | some slave =>
    match slave.QueryContext query args with
    | .error err => some err
    | .ok rs =>
      match fn rs with
      | some err => if err = .ErrNoRows then none else some err
      | none => none

/-- A call made on the transaction or on the statement prepared on it. -/
inductive TxOp where
  | PrepareContext (query : Str)
  | QueryRowContext (args : List Arg)
  | ExecContext (args : List Arg)
  | RowsAffected
  | Close
  deriving DecidableEq, Repr

/-- The `sql.Result` of an execution: what `RowsAffected()` returns. -/
structure SqlResult where
  RowsAffected : Int × Option GoError

/-- The prepared statement `*sql.Stmt`, by the calls made on it.
`QueryRowScan args` is `stmt.QueryRowContext(ctx, args...).Scan(&ids)`, with the
value left in `ids`. -/
structure Stmt where
  ExecContext : List Arg → Except GoError SqlResult
  QueryRowScan : List Arg → Except GoError (Option Arg)
  Close : Option GoError

/-- The transaction `*sql.Tx`, by the call made on it. -/
structure Tx where
  PrepareContext : Str → Except GoError Stmt

/-- `DB.TxExecContextWithID`: the results `ids` and `err`, and the calls made on
the transaction and the statement, in order. -/
def TxExecContextWithID (tx : Tx) (query : Str) (args : List Arg) :
    (Option Arg × Option GoError) × List TxOp :=
  if Contains query "RETURNING".toList then
    match tx.PrepareContext query with
    | .error er => ((none, some er), [.PrepareContext query])
    | .ok stmt =>
      match stmt.QueryRowScan args with
      | .error er => ((none, some er), [.PrepareContext query, .QueryRowContext args])
      | .ok ids =>
        match stmt.Close with
        | some errStmt =>
          ((none, some errStmt), [.PrepareContext query, .QueryRowContext args, .Close])
        | none => ((ids, none), [.PrepareContext query, .QueryRowContext args, .Close])
  else ((none, some (.other "query has no RETUNING id syntax")), [])

/-- `DB.TxExecContext`: the results `affected` and `err`, and the calls made on
the transaction and the statement, in order.  The named results `affected` and
`err` are not assigned before the `return` statements that read them. -/
def TxExecContext (tx : Tx) (query : Str) (args : List Arg) :
    (Int × Option GoError) × List TxOp :=
  let affected : Int := 0
  let err : Option GoError := none
  match tx.PrepareContext query with
  | .error e => ((affected, some e), [.PrepareContext query])
  | .ok stmt =>
    match stmt.ExecContext args with
    | .error erResult => ((affected, some erResult), [.PrepareContext query, .ExecContext args])
    | .ok result =>
      match result.RowsAffected with
      | (af, some _) =>
        ((af, err), [.PrepareContext query, .ExecContext args, .RowsAffected])
      | (_, none) =>
        match stmt.Close with
        | some _ =>
          ((affected, err), [.PrepareContext query, .ExecContext args, .RowsAffected, .Close])
        | none =>
          ((affected, none), [.PrepareContext query, .ExecContext args, .RowsAffected, .Close])

/-- A transaction on which preparing and executing succeed: the result reports
`af` rows with the error `erAffected`, the statement returns the identifier 7
for a query, and closing it gives `erStmt`. -/
def scriptedTx (af : Int) (erAffected erStmt : Option GoError) : Tx where
  PrepareContext := fun _ =>
    .ok { ExecContext := fun _ => .ok { RowsAffected := (af, erAffected) }
          QueryRowScan := fun _ => .ok (some (Arg.int 7))
          Close := erStmt }

/-- A connection whose queries succeed, on rows that need no content here. -/
def scriptedConn : Conn Unit Unit where
  QueryRowContext := fun _ _ => ()
  QueryContext := fun _ _ => .ok ()
  CloseRows := fun _ => none

/-! ## `common.go`: `colToFieldIndex` -/

/-- How a struct field is declared: under a name of its own, or embedded.  An
embedded field is of a type `T` or `*T`; the search of `reflect` goes into it
when `T` is a struct type. -/
inductive Embedding where
  | no
  | other
  | struct
  deriving DecidableEq, Repr

/-- A `reflect.StructField`, by what `colToFieldIndex` reads of it.  An embedded
field has the name of its type. -/
structure StructField where
  Name : Str
  Tag : List (Str × Str)
  Embedded : Embedding
  deriving DecidableEq, Repr

/-- `field.Tag.Get(key)`. -/
def StructField.TagGet (f : StructField) (key : Str) : Str :=
  match f.Tag.find? (fun kv => kv.1 == key) with
  | some kv => kv.2
  | none => []

/-- The struct types of the program, each under its name with its fields in
declaration order.  The struct type of an embedded field is the one under the
name of the field. -/
abbrev StructTypes := List (Str × List StructField)

/-- The fields of the struct type `T`; a type that is not listed has none. -/
def StructTypes.fields (G : StructTypes) (T : Str) : List StructField :=
  match G.lookup T with
  | some fs => fs
  | none => []

/-- The struct `fieldScan` of `reflect`: a struct type to scan, and the index
path that leads to it. -/
structure fieldScan where
  typ : Str
  index : List Nat
  deriving DecidableEq, Repr

/-- The variables of `FieldByNameFunc`: `result` (`ok` holds when there is one),
the queue `next`, the map `nextCount` and the set `visited`. -/
structure ScanVars where
  result : Option (StructField × List Nat)
  next : List fieldScan
  nextCount : List (Str × Nat)
  visited : List Str
  deriving DecidableEq, Repr

/-- Why a scan ends before its loops do: `return StructField{}, false`, or the
rounds given to the model are used up. -/
inductive ScanEnd where
  | annihilated
  | fuel
  deriving DecidableEq, Repr

/-- The lookup `count[t]` in a map of counts; 0 for a missing key. -/
def countOf (count : List (Str × Nat)) (T : Str) : Nat :=
  match count.lookup T with
  | some n => n
  | none => 0

/-- The loop of `FieldByNameFunc` over the fields of the struct type of `scan`,
from the field of index `i` on.  `matchFn` gives nothing when the rounds of the
model are used up inside it. -/
def scanFields (matchFn : Str → Option Bool) (count : List (Str × Nat)) (scan : fieldScan) :
    List StructField → Nat → ScanVars → Except ScanEnd ScanVars
  | [], _, v => .ok v
  | f :: fs, i, v =>
    match matchFn f.Name with
    | none => .error .fuel
    | some true =>
      if countOf count scan.typ > 1 || v.result.isSome then .error .annihilated
      else
        scanFields matchFn count scan fs (i + 1)
          { v with result := some (f, scan.index ++ [i]) }
    | some false =>
      if v.result.isSome || decide (f.Embedded ≠ .struct) then
        scanFields matchFn count scan fs (i + 1) v
      else if countOf v.nextCount f.Name > 0 then
        scanFields matchFn count scan fs (i + 1)
          { v with nextCount := (f.Name, 2) :: v.nextCount }
      else
        scanFields matchFn count scan fs (i + 1)
          { v with
            nextCount := (f.Name, if countOf count scan.typ > 1 then 2 else 1) :: v.nextCount
            next := v.next ++ [⟨f.Name, scan.index ++ [i]⟩] }

/-- The loop of `FieldByNameFunc` over the scans of one depth level. -/
def scanLevel (G : StructTypes) (matchFn : Str → Option Bool) (count : List (Str × Nat)) :
    List fieldScan → ScanVars → Except ScanEnd ScanVars
  | [], v => .ok v
  | scan :: rest, v =>
    if v.visited.contains scan.typ then scanLevel G matchFn count rest v
    else
      match scanFields matchFn count scan (G.fields scan.typ) 0
          { v with visited := scan.typ :: v.visited } with
      | .error e => .error e
      | .ok v => scanLevel G matchFn count rest v

/-- The outer loop of `FieldByNameFunc`, one depth level in each round, for at
most `fuel` rounds: the field found, or nothing found, or (outer `none`) no
round left. -/
def scanLoop (G : StructTypes) (matchFn : Str → Option Bool) :
    Nat → ScanVars → Option (Option (StructField × List Nat))
  | 0, _ => none
  | fuel + 1, v =>
    if v.next.length > 0 then
      match scanLevel G matchFn v.nextCount v.next { v with next := [], nextCount := [] } with
      | .error .annihilated => some none
      | .error .fuel => none
      | .ok v => if v.result.isSome then some v.result else scanLoop G matchFn fuel v
    else some v.result

/-- `t.FieldByNameFunc(match)` for the struct type `T`: the field found with its
`Index`. -/
def FieldByNameFunc (fuel : Nat) (G : StructTypes) (T : Str) (matchFn : Str → Option Bool) :
    Option (Option (StructField × List Nat)) :=
  scanLoop G matchFn fuel { result := none, next := [⟨T, []⟩], nextCount := [], visited := [] }

/-- `t.FieldByName(name)`: the field of that name at the top when there is one,
else the field that the search finds; the zero `StructField` when there is
none. -/
def FieldByName (fuel : Nat) (G : StructTypes) (T : Str) (name : Str) : Option StructField :=
  match (if name ≠ [] then (G.fields T).find? (fun tf => tf.Name == name) else none) with
  | some tf => some tf
  | none =>
    if name ≠ [] ∧ (G.fields T).any (fun tf => decide (tf.Embedded ≠ .no)) = true then
      match FieldByNameFunc fuel G T (fun s => some (s == name)) with
      | none => none
      | some (some found) => some found.1
      | some none => some { Name := [], Tag := [], Embedded := .no }
    else some { Name := [], Tag := [], Embedded := .no }

/-- The function that `colToFieldIndex` passes to `FieldByNameFunc` for the
column whose lower case is `colName`. -/
def columnMatch (fuel : Nat) (U : Unicode) (G : StructTypes) (T : Str) (colName : Str)
    (fieldName : Str) : Option Bool :=
  match FieldByName fuel G T fieldName with
  | none => none
  | some field =>
    let cArguments := splitComma (field.TagGet "sql".toList)
    let fieldName := cArguments.headD []
    if fieldName = "-".toList then some false
    else
      let fieldName := if fieldName = [] then field.Name else fieldName
      some (colName == ToLower U fieldName)

/-- The loop of `colToFieldIndex` over the columns: the entries, a missing one
left empty. -/
def colToFieldIndexLoop (fuel : Nat) (U : Unicode) (G : StructTypes) (T : Str) :
    List Str → Option (List (List Nat))
  | [] => some []
  | column :: columns =>
    match FieldByNameFunc fuel G T (columnMatch fuel U G T (ToLower U column)) with
    | none => none
    | some found =>
      match colToFieldIndexLoop fuel U G T columns with
      | none => none
      | some entries =>
        some ((match found with
            | some field => field.2
            | none => []) :: entries)

/-- `colToFieldIndex` for the struct type `T`: the entries and the error, which
is nil; nothing when the rounds given to the searches are used up. -/
def colToFieldIndex (fuel : Nat) (U : Unicode) (G : StructTypes) (T : Str)
    (columns : List Str) : Option (List (List Nat) × Option GoError) :=
  match colToFieldIndexLoop fuel U G T columns with
  | none => none
  | some entries => some (entries, none)

/-! ## Vocabulary of the search through embedded structs -/

/-- The fields `fs`, of indexes `i`, `i + 1`, ..., each with its index path under
`index`. -/
def withPaths (index : List Nat) : List StructField → Nat → List (StructField × List Nat)
  | [], _ => []
  | f :: fs, i => (f, index ++ [i]) :: withPaths index fs (i + 1)

/-- The fields of the struct type of a scan, each with its index path. -/
def fieldsOf (G : StructTypes) (s : fieldScan) : List (StructField × List Nat) :=
  withPaths s.index (G.fields s.typ) 0

/-- The embedded struct that a field is, with the index path of the field. -/
def toScan (x : StructField × List Nat) : Option fieldScan :=
  if x.1.Embedded = .struct then some ⟨x.1.Name, x.2⟩ else none

/-- The structs at depth `d` of the struct type `T`: `T` itself at depth 0, and at
depth `d + 1` the embedded structs among the fields of the structs at depth `d`. -/
def scansAt (G : StructTypes) (T : Str) : Nat → List fieldScan
  | 0 => [⟨T, []⟩]
  | d + 1 => (((scansAt G T d).map (fieldsOf G)).flatten).filterMap toScan

/-- The fields at depth `d` of the struct type `T`, each with its index path: the
fields of `T` at depth 0, those of its embedded structs at depth 1, and so on. -/
def fieldsAt (G : StructTypes) (T : Str) (d : Nat) : List (StructField × List Nat) :=
  ((scansAt G T d).map (fieldsOf G)).flatten

/-- The names of the fields at the depths 0 to `D`. -/
def namesUpTo (G : StructTypes) (T : Str) : Nat → List Str
  | 0 => (fieldsAt G T 0).map (fun x => x.1.Name)
  | d + 1 => namesUpTo G T d ++ (fieldsAt G T (d + 1)).map (fun x => x.1.Name)

/-- No struct is embedded more than `D` deep in `T`, and the fields of `T`, those
of its embedded structs included, have names that are not empty and pairwise
distinct. -/
def DistinctNames (G : StructTypes) (T : Str) (D : Nat) : Prop :=
  scansAt G T (D + 1) = [] ∧ (namesUpTo G T D).Nodup ∧ [] ∉ namesUpTo G T D

/-- The name under which a field answers to a result column: the first segment
of its `sql` tag, or its own name when that segment is empty. -/
def StructField.scanName (f : StructField) : Str :=
  if (splitComma (f.TagGet "sql".toList)).headD [] = [] then f.Name
  else (splitComma (f.TagGet "sql".toList)).headD []

/-- The field answers to the column: its segment is not `-`, and its name is the
column when both are put in lower case. -/
def StructField.answers (U : Unicode) (f : StructField) (column : Str) : Bool :=
  decide ((splitComma (f.TagGet "sql".toList)).headD [] ≠ "-".toList)
    && (ToLower U column == ToLower U f.scanName)

/-- The one entry of the first list that is not empty, when that list has no
other entry. -/
def pick {α : Type} : List (List α) → Option α
  | [] => none
  | [] :: rest => pick rest
  | [x] :: _ => some x
  | _ :: _ => none

/-- The fields at depth `d` that answer to the column. -/
def answering (U : Unicode) (G : StructTypes) (T : Str) (column : Str) (d : Nat) :
    List (StructField × List Nat) :=
  (fieldsAt G T d).filter (fun x => x.1.answers U column)

/-- The index path of the field that answers to the column at the least depth
at which a field does, when it is the only one at that depth; empty when no
field down to depth `D` answers, or more than one at that least depth. -/
def columnEntry (U : Unicode) (G : StructTypes) (T : Str) (D : Nat) (column : Str) : List Nat :=
  match pick ((List.range' 0 (D + 1)).map (answering U G T column)) with
  | some x => x.2
  | none => []

/-- The struct type of an entity: its fields, none embedded. -/
def Entity.structFields (e : Entity) : List StructField :=
  e.fields.map (fun f => { Name := f.Name, Tag := f.Tag, Embedded := .no })

/-- The types `Audit`, `Player` and `Match`: `Match` embeds `Player`, which
embeds `Audit`. -/
def matchTypes : StructTypes :=
  [ ("Audit".toList,
      [ ⟨"CreatedBy".toList, jsonSqlTag "created_by", .no⟩,
        ⟨"UpdatedBy".toList, jsonSqlTag "updated_by", .no⟩ ]),
    ("Player".toList,
      [ ⟨"Audit".toList, [], .struct⟩,
        ⟨"Nick".toList, jsonSqlTag "nick", .no⟩,
        ⟨"Secret".toList, jsonSqlTag "-", .no⟩ ]),
    ("Match".toList,
      [ ⟨"ID".toList, jsonSqlTag "match_id", .no⟩,
        ⟨"Player".toList, [], .struct⟩,
        ⟨"Round".toList, [], .no⟩ ]) ]

/-- The types `Base` and `Shadow`: `Shadow` embeds `Base` and has a field `ID` of
its own, kept out of the columns, over the field `ID` of `Base`. -/
def shadowTypes : StructTypes :=
  [ ("Base".toList, [ ⟨"ID".toList, jsonSqlTag "id", .no⟩ ]),
    ("Shadow".toList,
      [ ⟨"ID".toList, jsonSqlTag "-", .no⟩,
        ⟨"Base".toList, [], .struct⟩ ]) ]

/-- The types `Stamp` and `Order`: `Order` embeds `Stamp`, and a field of each
has the column `name`. -/
def orderTypes : StructTypes :=
  [ ("Stamp".toList, [ ⟨"Label".toList, jsonSqlTag "name", .no⟩ ]),
    ("Order".toList,
      [ ⟨"Stamp".toList, [], .struct⟩,
        ⟨"Title".toList, jsonSqlTag "name", .no⟩ ]) ]

/-- The types `Left`, `Right` and `Pair`: `Pair` embeds `Left` and `Right`, and
each of the two has a field `ID`. -/
def pairTypes : StructTypes :=
  [ ("Left".toList, [ ⟨"ID".toList, jsonSqlTag "left_id", .no⟩ ]),
    ("Right".toList, [ ⟨"ID".toList, jsonSqlTag "right_id", .no⟩ ]),
    ("Pair".toList,
      [ ⟨"Left".toList, [], .struct⟩,
        ⟨"Right".toList, [], .struct⟩ ]) ]

/-- The type `Member`, with the fields of `twoNames`. -/
def memberTypes : StructTypes := [ ("Member".toList, twoNames.structFields) ]

/-! ## Vocabulary of the last statements -/

/-- The values of struct kind: times, other structs, and the nullable wrappers. -/
def Value.structKind (v : Value) : Bool :=
  match v with
  | .time _ => true
  | .struct _ => true
  | .nullString _ _ => true
  | .nullInt64 _ _ => true
  | .nullTime _ _ => true
  | .nullFloat64 _ _ => true
  | .nullBool _ _ => true
  | _ => false

/-- The number of distinct columns of the populated tagged fields of an entity. -/
def populatedWidth (U : Unicode) (tag : Str) (e : Entity) : Nat :=
  (populatedColumns U tag e).dedup.length

/-! ## Entities without an identifier, and with values of struct kind -/

/-- An entity without a field named `ID`. -/
def note : Entity where
  TableName := "ref_note".toList
  fields :=
    [ ⟨"Title".toList, jsonSqlTag "title", .string "memo".toList⟩,
      ⟨"Pinned".toList, jsonSqlTag "pinned", .bool true⟩ ]

/-- An entity whose field `ID` has a tag without a name. -/
def badge : Entity where
  TableName := "ref_badge".toList
  fields :=
    [ ⟨"ID".toList, [("sql".toList, ",omitempty".toList)], .int 4⟩,
      ⟨"Label".toList, jsonSqlTag "label", .string "gold".toList⟩ ]

/-- An entity without a field named `ID`, whose table name contains `SELECT`. -/
def selectedItem : Entity where
  TableName := "SELECTED_ITEMS".toList
  fields := [⟨"Title".toList, jsonSqlTag "title", .string "memo".toList⟩]

/-- An entity with a tagged bare time at its zero value and a tagged struct. -/
def event : Entity where
  TableName := "ref_event".toList
  fields :=
    [ ⟨"ID".toList, jsonSqlTag "id", .int 0⟩,
      ⟨"At".toList, jsonSqlTag "at", zeroTime⟩,
      ⟨"Place".toList, jsonSqlTag "place", .struct "\x7b0 0\x7d".toList⟩ ]

/-! ## The order of `sort.Strings` -/

theorem strLe_refl (a : Str) : strLe a a = true := by
  induction a with
  | nil => rfl
  | cons c cs ih => simp [strLe, ih]

theorem strLe_total (a b : Str) : strLe a b = true ∨ strLe b a = true := by
  induction a generalizing b with
  | nil => left; rfl
  | cons c cs ih =>
    cases b with
    | nil => right; rfl
    | cons d ds =>
      simp only [strLe]
      rcases Nat.lt_trichotomy c.toNat d.toNat with h | h | h
      · simp [h]
      · simp [h]; exact ih ds
      · simp [h, Nat.lt_asymm h]

theorem char_eq_of_toNat_eq {c d : Char} (h : c.toNat = d.toNat) : c = d := by
  apply Char.ext
  apply UInt32.ext
  exact h

theorem strLe_antisymm (a b : Str) (h1 : strLe a b = true) (h2 : strLe b a = true) : a = b := by
  induction a generalizing b with
  | nil => cases b with
    | nil => rfl
    | cons d ds => simp [strLe] at h2
  | cons c cs ih =>
    cases b with
    | nil => simp [strLe] at h1
    | cons d ds =>
      simp only [strLe] at h1 h2
      rcases Nat.lt_trichotomy c.toNat d.toNat with h | h | h
      · simp [h, Nat.lt_asymm h] at h2
      · simp [h] at h1 h2
        rw [char_eq_of_toNat_eq h, ih ds h1 h2]
      · simp [h, Nat.lt_asymm h] at h1

theorem strLe_trans (a b c : Str) (h1 : strLe a b = true) (h2 : strLe b c = true) :
    strLe a c = true := by
  induction a generalizing b c with
  | nil => rfl
  | cons x xs ih =>
    cases b with
    | nil => simp [strLe] at h1
    | cons y ys =>
      cases c with
      | nil => simp [strLe] at h2
      | cons z zs =>
        simp only [strLe] at h1 h2 ⊢
        rcases Nat.lt_trichotomy x.toNat y.toNat with h | h | h
        · rcases Nat.lt_trichotomy y.toNat z.toNat with h' | h' | h'
          · simp [Nat.lt_trans h h']
          · simp [← h', h]
          · simp [h', Nat.lt_asymm h'] at h2
        · rcases Nat.lt_trichotomy y.toNat z.toNat with h' | h' | h'
          · simp [h, h']
          · simp [h, h'] at h1 h2 ⊢
            exact ih ys zs h1 h2
          · simp [h', Nat.lt_asymm h'] at h2
        · simp [h, Nat.lt_asymm h] at h1

theorem sortStrings_eq_of_ascending (keys cs : List Str) (hk : keys.Nodup)
    (hasc : Ascending cs) (hmem : ∀ c, c ∈ cs ↔ c ∈ keys) : sortStrings keys = cs := by
  have hnd : cs.Nodup := by
    unfold Ascending at hasc
    exact hasc.imp (fun h => h.2)
  have hperm : keys.Perm cs := (List.perm_ext_iff_of_nodup hk hnd).2 (fun c => (hmem c).symm)
  have hs : cs.Sorted (fun a b => strLe a b = true) := hasc.imp (fun h => h.1)
  haveI : IsTotal Str (fun a b => strLe a b = true) := ⟨strLe_total⟩
  haveI : IsTrans Str (fun a b => strLe a b = true) := ⟨strLe_trans⟩
  haveI : IsAntisymm Str (fun a b => strLe a b = true) := ⟨strLe_antisymm⟩
  exact List.eq_of_perm_of_sorted ((List.perm_insertionSort _ keys).trans hperm)
    (List.sorted_insertionSort _ keys) hs

/-! ## The field map -/

theorem FieldMap.keys_push (m : FieldMap) (k : Str) (v : Iface) :
    (m.push k v).keys = if k ∈ m.keys then m.keys else m.keys ++ [k] := by
  induction m with
  | nil => simp [FieldMap.push, FieldMap.keys]
  | cons kv rest ih =>
    obtain ⟨k', vs⟩ := kv
    unfold FieldMap.keys at ih ⊢
    by_cases h : k' = k
    · simp [FieldMap.push, h]
    · have h' : ¬ k = k' := fun e => h e.symm
      simp only [FieldMap.push, h, if_false, List.map_cons, List.mem_cons, h', false_or]
      rw [ih]
      split <;> simp

theorem FieldMap.mem_keys_push (m : FieldMap) (k : Str) (v : Iface) (c : Str) :
    c ∈ (m.push k v).keys ↔ c = k ∨ c ∈ m.keys := by
  rw [FieldMap.keys_push]
  split
  · rename_i h
    constructor
    · exact Or.inr
    · rintro (rfl | h')
      · exact h
      · exact h'
  · simp [or_comm]

theorem FieldMap.nodup_keys_push (m : FieldMap) (k : Str) (v : Iface) (h : m.keys.Nodup) :
    (m.push k v).keys.Nodup := by
  rw [FieldMap.keys_push]
  split
  · exact h
  · rename_i hk
    exact List.Nodup.append h (List.nodup_singleton k) (by simpa using hk)

theorem FieldMap.get_push (m : FieldMap) (k : Str) (v : Iface) (c : Str) :
    (m.push k v).get c = if k = c then m.get c ++ [v] else m.get c := by
  induction m with
  | nil =>
    by_cases h : k = c <;> simp [FieldMap.push, FieldMap.get, h]
  | cons kv rest ih =>
    obtain ⟨k', vs⟩ := kv
    by_cases h : k' = k
    · subst h
      by_cases h2 : k' = c <;> simp [FieldMap.push, FieldMap.get, h2]
    · by_cases h2 : k' = c
      · subst h2
        have : ¬ k = k' := fun e => h e.symm
        simp [FieldMap.push, FieldMap.get, h, this]
      · simp [FieldMap.push, FieldMap.get, h, h2, ih]

theorem renderValue_isSome (v : Value) (h : isEmptyValue v = false) :
    (renderValue v).isSome = v.valid := by
  cases v <;> simp_all [renderValue, Value.valid, isEmptyValue]
  all_goals (rename_i p; cases p <;> simp_all [renderValue])


theorem TagsToFieldStep_snd (U : Unicode) (tag : Str) (acc : Str × FieldMap) (f : Field) :
    (TagsToFieldStep U tag acc f).2 = pushField U tag acc.2 f := by
  unfold TagsToFieldStep pushField Field.populated
  by_cases he : isEmptyValue f.val = true
  · simp [he]
  · have he' : isEmptyValue f.val = false := by simpa using he
    have hr := renderValue_isSome f.val he'
    by_cases ht : f.TagGet tag = []
    · simp [ht, he']
    · have hlen : ¬ (f.TagGet tag).length < 1 := by
        cases h : f.TagGet tag with
        | nil => exact absurd h ht
        | cons a b => simp
      cases hv : renderValue f.val with
      | none =>
        rw [hv] at hr
        simp [he', hlen, ← hr]
      | some text =>
        rw [hv] at hr
        simp [he', hlen, ht, ← hr, Field.column, Field.text, Field.options, hv]

theorem TagsToFieldStep_fst (U : Unicode) (tag : Str) (acc : Str × FieldMap) (f : Field) :
    (TagsToFieldStep U tag acc f).1 = if equalFoldID f.Name then f.column U tag else acc.1 := by
  unfold TagsToFieldStep Field.column
  simp only []
  split
  · rfl
  · split <;> rfl

theorem TagsToField_foldl (U : Unicode) (tag : Str) (fields : List Field) (acc : Str × FieldMap) :
    fields.foldl (TagsToFieldStep U tag) acc
      = (fields.foldl (fun ID f => if equalFoldID f.Name then f.column U tag else ID) acc.1,
          fields.foldl (pushField U tag) acc.2) := by
  induction fields generalizing acc with
  | nil => rfl
  | cons f fs ih =>
    simp only [List.foldl_cons]
    rw [ih, TagsToFieldStep_fst, TagsToFieldStep_snd]

theorem TagsToField_entity (U : Unicode) (r : SQL) (tag : Str) (e : Entity) :
    SQL.TagsToField U r tag (.entity e)
      = .ok ({ r with ID := idColumn U tag r.ID e }, fieldMapOf U tag e) := by
  simp [SQL.TagsToField, TagsToField_foldl, idColumn, fieldMapOf]

/-! ### Keys and entries of the field map -/

theorem foldl_pushField_keys_nodup (U : Unicode) (tag : Str) (fields : List Field) (m : FieldMap)
    (h : m.keys.Nodup) : (fields.foldl (pushField U tag) m).keys.Nodup := by
  induction fields generalizing m with
  | nil => exact h
  | cons f fs ih =>
    simp only [List.foldl_cons]
    apply ih
    unfold pushField
    split
    · exact FieldMap.nodup_keys_push _ _ _ (FieldMap.nodup_keys_push _ _ _ h)
    · exact h

theorem foldl_pushField_mem_keys (U : Unicode) (tag : Str) (fields : List Field) (m : FieldMap)
    (c : Str) :
    c ∈ (fields.foldl (pushField U tag) m).keys
      ↔ c ∈ m.keys ∨ ∃ f ∈ fields, f.populated tag = true ∧ f.column U tag = c := by
  induction fields generalizing m with
  | nil => simp
  | cons f fs ih =>
    simp only [List.foldl_cons]
    rw [ih]
    unfold pushField
    by_cases hp : f.populated tag = true
    · simp only [hp, if_true, FieldMap.mem_keys_push, List.mem_cons, exists_eq_or_imp]
      constructor
      · rintro ((h | h | h) | h)
        · exact Or.inr (Or.inl ⟨trivial, h.symm⟩)
        · exact Or.inr (Or.inl ⟨trivial, h.symm⟩)
        · exact Or.inl h
        · exact Or.inr (Or.inr h)
      · rintro (h | ⟨_, h⟩ | h)
        · exact Or.inl (Or.inr (Or.inr h))
        · exact Or.inl (Or.inl h.symm)
        · exact Or.inr h
    · simp [hp]

theorem foldl_pushField_get (U : Unicode) (tag : Str) (fields : List Field) (m : FieldMap)
    (c : Str) :
    (fields.foldl (pushField U tag) m).get c
      = m.get c ++ ((fields.filter (fun f => f.populated tag && decide (f.column U tag = c))).map
          (fun f => [Iface.str f.text, Iface.opts (f.options tag)])).flatten := by
  induction fields generalizing m with
  | nil => simp
  | cons f fs ih =>
    simp only [List.foldl_cons]
    rw [ih]
    unfold pushField
    by_cases hp : f.populated tag = true
    · by_cases hc : f.column U tag = c
      · simp [hp, hc, FieldMap.get_push, List.filter_cons]
      · simp [hp, hc, FieldMap.get_push, List.filter_cons]
    · simp [hp, List.filter_cons]

theorem fieldMapOf_keys_nodup (U : Unicode) (tag : Str) (e : Entity) :
    (fieldMapOf U tag e).keys.Nodup :=
  foldl_pushField_keys_nodup U tag e.fields [] (by simp [FieldMap.keys])

theorem mem_fieldMapOf_keys (U : Unicode) (tag : Str) (e : Entity) (c : Str) :
    c ∈ (fieldMapOf U tag e).keys ↔ c ∈ populatedColumns U tag e := by
  unfold fieldMapOf populatedColumns
  rw [foldl_pushField_mem_keys]
  simp [FieldMap.keys, and_assoc]

theorem fieldMapOf_get (U : Unicode) (tag : Str) (e : Entity) (c : Str)
    (hc : c ∈ populatedColumns U tag e) :
    ∃ o rest, (fieldMapOf U tag e).get c = Iface.str (renderedOf U tag e c) :: Iface.opts o :: rest := by
  unfold fieldMapOf renderedOf
  rw [foldl_pushField_get]
  simp only [FieldMap.get, List.nil_append]
  unfold populatedColumns at hc
  simp only [List.mem_map, List.mem_filter] at hc
  obtain ⟨f, ⟨hf, hp⟩, hcol⟩ := hc
  generalize e.fields = fields at hf
  induction fields with
  | nil => simp at hf
  | cons g gs ih =>
    by_cases hg : (g.populated tag && decide (g.column U tag = c)) = true
    · simp [List.filter_cons, hg, List.find?_cons]
    · have hne : f ≠ g := by
        rintro rfl
        simp [hp, hcol] at hg
      have hf' : f ∈ gs := by
        rcases List.mem_cons.1 hf with h | h
        · exact absurd h hne
        · exact h
      have hg' : (g.populated tag && decide (g.column U tag = c)) = false := by simpa using hg
      simp only [List.filter_cons, hg', List.find?_cons]
      exact ih hf'

theorem fieldMapOf_val (U : Unicode) (tag : Str) (e : Entity) (c : Str)
    (hc : c ∈ populatedColumns U tag e) :
    (fieldMapOf U tag e).val c = renderedOf U tag e c := by
  obtain ⟨o, rest, h⟩ := fieldMapOf_get U tag e c hc
  simp [FieldMap.val, h]

/-! ## `fieldsToArgs` -/

theorem fieldsToArgsLoop_eq (fn : formatField) (m : FieldMap) (ks : List Str) (f : List Str)
    (A : List Arg) (h : ∀ k ∈ ks, ∃ v o rest, m.get k = Iface.str v :: Iface.opts o :: rest) :
    fieldsToArgsLoop fn m ks (f, A)
      = .ok (f ++ (emitted fn m ks A.length).map Prod.fst,
          A ++ (emitted fn m ks A.length).map Prod.snd) := by
  induction ks generalizing f A with
  | nil => simp [fieldsToArgsLoop, emitted]
  | cons k ks ih =>
    obtain ⟨v, o, rest, hk⟩ := h k (List.mem_cons_self _ _)
    have h' : ∀ k ∈ ks, ∃ v o rest, m.get k = Iface.str v :: Iface.opts o :: rest :=
      fun k' hk' => h k' (List.mem_cons_of_mem _ hk')
    have ho : m.opt k = o := by simp [FieldMap.opt, hk]
    have hv : m.val k = v := by simp [FieldMap.val, hk]
    unfold fieldsToArgsLoop emitted
    rw [hk]
    simp only [ho, hv]
    by_cases hlen : (fn k (A.length + 1) o).length < 1
    · simp only [hlen, if_true]
      exact ih f A h'
    · simp only [hlen, if_false]
      rw [ih _ _ h']
      simp

theorem mem_sortStrings (keys : List Str) (c : Str) : c ∈ sortStrings keys ↔ c ∈ keys :=
  (List.perm_insertionSort _ keys).mem_iff

theorem fieldsToArgs_entity (U : Unicode) (r : SQL) (s : Query) (e : Entity)
    (fn : SQL → formatField) :
    SQL.fieldsToArgs U r s (.entity e) fn
      = .ok
        ((emitted (fn { r with ID := idColumn U r.TagName r.ID e }) (fieldMapOf U r.TagName e)
            (sortStrings (fieldMapOf U r.TagName e).keys) s.Args.length).map Prod.fst,
          { r with ID := idColumn U r.TagName r.ID e },
          { s with Args := s.Args ++
              (emitted (fn { r with ID := idColumn U r.TagName r.ID e }) (fieldMapOf U r.TagName e)
                (sortStrings (fieldMapOf U r.TagName e).keys) s.Args.length).map Prod.snd }) := by
  unfold SQL.fieldsToArgs
  rw [TagsToField_entity]
  simp only []
  rw [fieldsToArgsLoop_eq]
  · simp
  · intro k hk
    rw [mem_sortStrings, mem_fieldMapOf_keys] at hk
    obtain ⟨o, rest, h⟩ := fieldMapOf_get U r.TagName e k hk
    exact ⟨_, o, rest, h⟩

theorem fieldsToArgs_slice (U : Unicode) (r : SQL) (s : Query) (es : List Entity)
    (fn : SQL → formatField) :
    SQL.fieldsToArgs U r s (.slice es) fn
      = .error "reflect: call of reflect.Value.NumField on slice Value" := by
  simp [SQL.fieldsToArgs, SQL.TagsToField]

/-- A format that ignores the position and never returns the empty text emits
one fragment for every key. -/
theorem emitted_of_nonempty (fn : formatField) (g : Str → Str) (m : FieldMap) (ks : List Str)
    (n : Nat) (hfn : ∀ k i o, fn k i o = g k) (hg : ∀ k ∈ ks, g k ≠ []) :
    emitted fn m ks n = ks.map (fun k => (g k, Arg.str (m.val k))) := by
  induction ks generalizing n with
  | nil => rfl
  | cons k ks ih =>
    have hk : ¬ (g k).length < 1 := by
      have := hg k (List.mem_cons_self _ _)
      cases h : g k with
      | nil => exact absurd h this
      | cons a b => simp
    simp only [emitted, hfn, hk, if_false, List.map_cons]
    rw [ih _ (fun k' hk' => hg k' (List.mem_cons_of_mem _ hk'))]

/-- The positional format of `inserts` emits consecutive markers. -/
theorem emitted_positional_fst (m : FieldMap) (ks : List Str) (n : Nat) :
    (emitted (fun _ i _ => '$' :: fmtNat i) m ks n).map Prod.fst
      = (List.range' (n + 1) ks.length).map (fun i => '$' :: fmtNat i) := by
  induction ks generalizing n with
  | nil => simp [emitted]
  | cons k ks ih =>
    simp only [emitted, List.length_cons, Nat.lt_one_iff, List.length_eq_zero]
    simp only [reduceCtorEq, if_false, List.map_cons]
    rw [ih, List.range'_succ]
    simp

theorem emitted_positional_snd (m : FieldMap) (ks : List Str) (n : Nat) :
    (emitted (fun _ i _ => '$' :: fmtNat i) m ks n).map Prod.snd
      = ks.map (fun k => Arg.str (m.val k)) := by
  induction ks generalizing n with
  | nil => simp [emitted]
  | cons k ks ih =>
    simp only [emitted, List.length_cons, Nat.lt_one_iff, List.length_eq_zero]
    simp only [reduceCtorEq, if_false, List.map_cons]
    rw [ih]

/-! ## Decimal digits -/

theorem toDigitsCore_append (fuel : Nat) :
    ∀ n ds, n < fuel → Nat.toDigitsCore 10 fuel n ds = Nat.toDigitsCore 10 (n + 1) n [] ++ ds := by
  induction fuel using Nat.strong_induction_on with
  | _ fuel ih =>
    intro n ds hn
    cases fuel with
    | zero => omega
    | succ fuel =>
      by_cases h0 : n / 10 = 0
      · simp [Nat.toDigitsCore, h0]
      · have hlt : n / 10 < n := Nat.div_lt_self (by omega) (by decide)
        simp only [Nat.toDigitsCore, h0, if_false]
        rw [ih fuel (Nat.lt_succ_self _) (n / 10) _ (by omega),
          ih n hn (n / 10) [Nat.digitChar (n % 10)] hlt]
        simp

theorem fmtNat_lt (n : Nat) (h : n < 10) : fmtNat n = [Nat.digitChar n] := by
  have h0 : n / 10 = 0 := Nat.div_eq_of_lt h
  simp [fmtNat, Nat.toDigits, Nat.toDigitsCore, h0, Nat.mod_eq_of_lt h]

theorem fmtNat_ge (n : Nat) (h : 10 ≤ n) :
    fmtNat n = fmtNat (n / 10) ++ [Nat.digitChar (n % 10)] := by
  have h0 : ¬ n / 10 = 0 := by
    have : 0 < n / 10 := Nat.div_pos h (by decide)
    omega
  have hlt : n / 10 < n := Nat.div_lt_self (by omega) (by decide)
  have hstep : Nat.toDigitsCore 10 (n + 1) n []
      = if n / 10 = 0 then [Nat.digitChar (n % 10)]
        else Nat.toDigitsCore 10 n (n / 10) [Nat.digitChar (n % 10)] := rfl
  unfold fmtNat Nat.toDigits
  rw [hstep, if_neg h0, toDigitsCore_append n (n / 10) _ hlt]

theorem digitChar_props :
    ∀ d, d < 10 → (Nat.digitChar d).isDigit = true ∧ (Nat.digitChar d).toNat - 48 = d
      ∧ Nat.digitChar d ≠ '$' ∧ Nat.digitChar d ≠ '?' := by
  decide

theorem fmtNat_digits (n : Nat) : ∀ c ∈ fmtNat n, c.isDigit = true := by
  induction n using Nat.strong_induction_on with
  | _ n ih =>
    by_cases h : n < 10
    · rw [fmtNat_lt n h]
      intro c hc
      rw [List.mem_singleton] at hc
      rw [hc]
      exact (digitChar_props n h).1
    · rw [fmtNat_ge n (by omega)]
      intro c hc
      rcases List.mem_append.1 hc with hc | hc
      · exact ih (n / 10) (Nat.div_lt_self (by omega) (by decide)) c hc
      · rw [List.mem_singleton] at hc
        rw [hc]
        exact (digitChar_props (n % 10) (Nat.mod_lt _ (by decide))).1

theorem fmtNat_ne_nil (n : Nat) : fmtNat n ≠ [] := by
  by_cases h : n < 10
  · rw [fmtNat_lt n h]; simp
  · rw [fmtNat_ge n (by omega)]; simp

theorem question_not_mem_fmtNat (n : Nat) : '?' ∉ fmtNat n := by
  intro h
  have := fmtNat_digits n _ h
  revert this
  decide

theorem dollar_not_mem_fmtNat (n : Nat) : '$' ∉ fmtNat n := by
  intro h
  have := fmtNat_digits n _ h
  revert this
  decide

/-! ## `strings.Replace` and the loop of `Exec` -/

theorem Replace1_question_cons (c : Char) (cs new : Str) :
    Replace1 (c :: cs) ['?'] new
      = if c = '?' then new ++ cs else c :: Replace1 cs ['?'] new := by
  by_cases h : c = '?'
  · subst h
    simp [Replace1, List.isPrefixOf]
  · simp only [Replace1, List.isPrefixOf, h, if_false]
    have : ('?' == c) = false := by simpa using fun e : '?' = c => h e.symm
    simp [this]

theorem Replace1_question_append (p s new : Str) (hp : '?' ∉ p) :
    Replace1 (p ++ s) ['?'] new = p ++ Replace1 s ['?'] new := by
  induction p with
  | nil => rfl
  | cons c cs ih =>
    have hc : c ≠ '?' := fun h => hp (by simp [h])
    have hcs : '?' ∉ cs := fun h => hp (List.mem_cons_of_mem _ h)
    rw [List.cons_append, Replace1_question_cons, if_neg hc, ih hcs, List.cons_append]

theorem execReplace_nil (lenArgs k : Nat) : execReplace lenArgs k [] = [] := by
  unfold execReplace
  induction (List.range' 1 k) with
  | nil => rfl
  | cons i is ih => simpa [Replace1] using ih

theorem foldl_Replace1_append (p s : Str) (hp : '?' ∉ p) (f : Nat → Str) (is : List Nat) :
    is.foldl (fun query i => Replace1 query "?".toList (f i)) (p ++ s)
      = p ++ is.foldl (fun query i => Replace1 query "?".toList (f i)) s := by
  induction is generalizing s with
  | nil => rfl
  | cons i is ih =>
    simp only [List.foldl_cons]
    have : "?".toList = ['?'] := rfl
    rw [this, Replace1_question_append p s _ hp]
    exact ih _

theorem execReplace_eq_renumber (lenArgs : Nat) (query : Str) :
    execReplace lenArgs (Count query '?') query = renumber lenArgs query := by
  induction query generalizing lenArgs with
  | nil => simp [execReplace_nil, renumber]
  | cons c cs ih =>
    by_cases h : c = '?'
    · subst h
      have hcount : Count ('?' :: cs) '?' = Count cs '?' + 1 := by simp [Count]
      rw [hcount]
      unfold execReplace
      rw [List.range'_succ, List.foldl_cons]
      have h1 : Replace1 ('?' :: cs) "?".toList ('$' :: fmtNat (lenArgs + 1))
          = ('$' :: fmtNat (lenArgs + 1)) ++ cs := by
        have : "?".toList = ['?'] := rfl
        rw [this, Replace1_question_cons]
        simp
      rw [h1, foldl_Replace1_append _ _ (by
        intro hm
        rcases List.mem_cons.1 hm with hm | hm
        · exact absurd hm (by decide)
        · exact question_not_mem_fmtNat _ hm)]
      simp only [renumber, if_true]
      congr 1
      rw [← ih (lenArgs + 1)]
      unfold execReplace
      have hr : List.range' (1 + 1) (Count cs '?') = (List.range' 1 (Count cs '?')).map (· + 1) := by
        rw [List.range'_eq_map_range, List.range'_eq_map_range]
        simp [Nat.add_comm, Nat.add_left_comm]
      rw [hr, List.foldl_map]
      congr 1
      funext q i
      congr 3
      omega
    · have hcount : Count (c :: cs) '?' = Count cs '?' := by
        simp [Count, List.count_cons, h]
      rw [hcount]
      simp only [renumber, h, if_false]
      rw [← ih lenArgs]
      unfold execReplace
      have := foldl_Replace1_append [c] cs (by simp; exact fun e => h e.symm)
        (fun i => '$' :: fmtNat (lenArgs + i)) (List.range' 1 (Count cs '?'))
      simpa using this

theorem foldl_execStep (ws : List WhereCond) (buff : Str) (A : List Arg) :
    ws.foldl execStep (buff, A) = (buff ++ renderWhere A.length ws, A ++ whereArgs ws) := by
  induction ws generalizing buff A with
  | nil => simp [renderWhere, whereArgs]
  | cons w ws ih =>
    simp only [List.foldl_cons, execStep]
    rw [ih, execReplace_eq_renumber]
    simp [renderWhere, whereArgs]

/-! ## `strings.Index` and `strings.Contains` -/

theorem Index_ge_neg_one (s substr : Str) : -1 ≤ Index s substr := by
  induction s with
  | nil => unfold Index; split <;> simp
  | cons c cs ih =>
    unfold Index
    split
    · simp
    · simp only []
      split
      · simp
      · omega

theorem Index_cons (c : Char) (cs substr : Str) :
    Index (c :: cs) substr
      = if substr.isPrefixOf (c :: cs) then 0
        else if Index cs substr < 0 then -1 else Index cs substr + 1 := by
  rw [Index]

theorem Index_nonneg_iff (s substr : Str) : 0 ≤ Index s substr ↔ substr <:+: s := by
  induction s with
  | nil =>
    unfold Index
    by_cases h : substr = []
    · simp [h]
    · simp [h]
  | cons c cs ih =>
    rw [Index_cons, List.infix_cons_iff]
    by_cases hp : substr.isPrefixOf (c :: cs) = true
    · rw [if_pos hp]
      simp [List.isPrefixOf_iff_prefix.1 hp]
    · have hp' : ¬ substr <+: c :: cs := fun h => hp (List.isPrefixOf_iff_prefix.2 h)
      rw [if_neg hp]
      simp only [hp', false_or]
      rw [← ih]
      have hge := Index_ge_neg_one cs substr
      by_cases hi : Index cs substr < 0
      · rw [if_pos hi]
        constructor <;> intro h <;> omega
      · rw [if_neg hi]
        constructor <;> intro h <;> omega

theorem Contains_iff (s substr : Str) : Contains s substr = true ↔ substr <:+: s := by
  unfold Contains
  rw [decide_eq_true_iff, Index_nonneg_iff]

theorem Contains_eq_false_iff (s substr : Str) : Contains s substr = false ↔ ¬ substr <:+: s := by
  rw [← Contains_iff]
  simp

theorem prefix_of_prefix_append_sep (pat xs ys : Str) (c : Char) (hc : c ∉ pat)
    (h : pat <+: xs ++ c :: ys) : pat <+: xs := by
  rcases List.prefix_or_prefix_of_prefix h (List.prefix_append xs (c :: ys)) with h1 | h1
  · exact h1
  · obtain ⟨t, ht⟩ := h1
    subst ht
    rw [List.prefix_append_right_inj] at h
    cases t with
    | nil => simp
    | cons d ds =>
      rw [List.cons_prefix_cons] at h
      exact absurd (by simp [h.1]) hc

theorem infix_append_sep (pat xs ys : Str) (c : Char) (hc : c ∉ pat) :
    pat <:+: xs ++ c :: ys ↔ pat <:+: xs ∨ pat <:+: ys := by
  constructor
  · intro h
    induction xs with
    | nil =>
      rw [List.nil_append, List.infix_cons_iff] at h
      rcases h with h | h
      · left
        have := prefix_of_prefix_append_sep pat [] ys c hc (by simpa using h)
        exact this.isInfix
      · exact Or.inr h
    | cons x xs ih =>
      rw [List.cons_append, List.infix_cons_iff] at h
      rcases h with h | h
      · left
        exact (prefix_of_prefix_append_sep pat (x :: xs) ys c hc (by simpa using h)).isInfix
      · rcases ih h with h' | h'
        · exact Or.inl (h'.trans (List.infix_cons (List.infix_refl _)))
        · exact Or.inr h'
  · rintro (h | h)
    · exact h.trans (List.infix_append' [] xs (c :: ys) |> fun h => by simpa using h)
    · exact h.trans ((List.infix_cons (List.infix_refl ys)).trans (List.infix_append xs (c :: ys) [] |> fun h => by simpa using h))

theorem Index_append_sep (pat pre rest : Str) (c : Char) (hc : c ∉ pat)
    (hpre : ¬ pat <:+: pre) (hrest : pat <+: rest) :
    Index (pre ++ c :: rest) pat = pre.length + 1 := by
  have hne : pat ≠ [] := by
    rintro rfl
    exact hpre List.nil_infix
  have hrest0 : Index rest pat = 0 := by
    cases rest with
    | nil =>
      exact absurd (List.prefix_nil.1 hrest) hne
    | cons x xs =>
      unfold Index
      simp [List.isPrefixOf_iff_prefix.2 hrest]
  induction pre with
  | nil =>
    have hnp : ¬ pat.isPrefixOf (c :: rest) = true := by
      intro h
      have h := List.isPrefixOf_iff_prefix.1 h
      have := prefix_of_prefix_append_sep pat [] rest c hc (by simpa using h)
      exact hne (List.prefix_nil.1 this)
    rw [List.nil_append, Index_cons, if_neg hnp, hrest0]
    simp
  | cons p ps ih =>
    have hps : ¬ pat <:+: ps := fun h => hpre (h.trans (List.infix_cons (List.infix_refl _)))
    have hnp : ¬ pat.isPrefixOf (p :: ps ++ c :: rest) = true := by
      intro h
      have h := List.isPrefixOf_iff_prefix.1 h
      exact hpre (prefix_of_prefix_append_sep pat (p :: ps) rest c hc h).isInfix
    rw [List.cons_append] at hnp ⊢
    rw [Index_cons, if_neg hnp, ih hps]
    simp
    omega

/-! ## `Exec` and `ToSQL` -/

theorem Exec_eq (r : SQL) (s : Query) :
    SQL.Exec r s
      = { s with
          raw := some r
          QueryStr := s.QueryStr ++ whereClause s.Args.length r.whereConditions ++ limitClause s
          Args := s.Args ++ whereArgs r.whereConditions } := by
  unfold SQL.Exec whereClause limitClause
  cases hws : r.whereConditions with
  | nil =>
    simp only [List.length_nil, gt_iff_lt, Nat.lt_irrefl, if_false, if_true, whereArgs,
      List.map_nil, List.flatten_nil, List.append_nil]
    split <;> simp
  | cons w ws =>
    rw [← hws]
    have hlen : r.whereConditions.length > 0 := by rw [hws]; simp
    have hne : r.whereConditions ≠ [] := by rw [hws]; simp
    simp only [hlen, if_true, hne, if_false, foldl_execStep]
    split <;> simp

theorem ToSQL_eq (U : Unicode) (s : Query) (r : SQL) (hr : s.raw = some r) :
    s.ToSQL U
      = .ok
        (s.QueryStr ++ whereClause s.Args.length r.whereConditions ++ limitClause s
            ++ returningClause U r.ID
              (s.QueryStr ++ whereClause s.Args.length r.whereConditions ++ limitClause s),
          s.Args ++ whereArgs r.whereConditions,
          { s with
            raw := some r
            QueryStr := s.QueryStr ++ whereClause s.Args.length r.whereConditions ++ limitClause s
              ++ returningClause U r.ID
                (s.QueryStr ++ whereClause s.Args.length r.whereConditions ++ limitClause s)
            Args := s.Args ++ whereArgs r.whereConditions }) := by
  unfold Query.ToSQL
  rw [hr]
  simp only [Exec_eq, returningClause]
  split <;> simp

/-! ## WHERE fragments -/

theorem clone_fst_of_raw (s : Query) (r : SQL) (hr : s.raw = some r) : s.clone = (r, s) := by
  unfold Query.clone
  rw [hr]

theorem clone_snd_QueryStr (s : Query) : s.clone.2.QueryStr = s.QueryStr := by
  unfold Query.clone
  cases s.raw <;> rfl

theorem clone_snd_Args (s : Query) : s.clone.2.Args = s.Args := by
  unfold Query.clone
  cases s.raw <;> rfl

theorem clone_snd_Rows (s : Query) : s.clone.2.Rows = s.Rows := by
  unfold Query.clone
  cases s.raw <;> rfl

theorem clone_snd_Offset (s : Query) : s.clone.2.Offset = s.Offset := by
  unfold Query.clone
  cases s.raw <;> rfl

/-- C4. With pending WHERE fragments, `ToSQL` returns the statement text, then
` WHERE `, then the fragments in the order they were added (their `?` marks
renumbered), then the LIMIT/OFFSET and RETURNING clauses; the arguments are those
already in the list followed by the arguments of the fragments in that order.
`Where` adds its fragment at the end, with ` AND ` before it exactly when a
fragment was pending. -/
theorem where_fragments_rendered_in_order (U : Unicode) (s : Query) (r : SQL)
    (hr : s.raw = some r) (hw : r.whereConditions ≠ []) :
    (∃ s', s.ToSQL U
        = .ok
          (s.QueryStr ++ " WHERE ".toList ++ renderWhere s.Args.length r.whereConditions
              ++ limitClause s
              ++ returningClause U r.ID
                (s.QueryStr ++ " WHERE ".toList ++ renderWhere s.Args.length r.whereConditions
                  ++ limitClause s),
            s.Args ++ whereArgs r.whereConditions, s'))
      ∧ ∀ (t : Query) (query : Str) (values : List Arg),
          (t.Where query values).raw
            = some { t.clone.1 with
                whereConditions := t.clone.1.whereConditions ++
                  [⟨if t.clone.1.whereConditions = [] then query else " AND ".toList ++ query,
                    values⟩] } := by
  constructor
  · rw [ToSQL_eq U s r hr]
    simp only [whereClause, hw, if_false, List.append_assoc]
    exact ⟨_, rfl⟩
  · intro t query values
    unfold Query.Where SQL.Where
    cases h : t.clone.1.whereConditions with
    | nil => simp
    | cons w ws => simp

set_option maxRecDepth 100000 in
theorem testRawQuery_AND_OR :
    rendered asciiUnicode
        (andThen
          (andThen (Build.From asciiUnicode (.entity emptyGame) "g".toList)
            (fun s => s.And asciiUnicode
              (.entity (Game 0 "code" "" noString true noInt64 noTime)) "g".toList))
          (fun s => s.Or asciiUnicode
            (.entity (Game 1 "code" "" noString false noInt64 noTime)) "g".toList))
      = .ok
        ("SELECT g.* FROM ref_game g WHERE g.enabled = $1 AND g.game_code = $2 OR g.game_code = $3 OR g.game_id = $4 LIMIT 100 OFFSET 0".toList,
          [.str "true".toList, .str "code".toList, .str "code".toList, .str "1".toList]) := by
  decide

/-- C3. After a SELECT exists, `And` (`Or`) adds one fragment: `a.c = ?` for each
populated tagged column `c` of the entity in ascending order, joined by ` AND `
(` OR `), with that connector in front exactly when a fragment was pending; an
entity without populated tagged column adds none.  The chain of
`TestRawQuery_AND_OR` renders the expected text with 4 arguments. -/
theorem and_or_add_one_fragment (U : Unicode) (s : Query) (m : Entity) (a : Str) (cs : List Str)
    (hsel : Contains s.QueryStr "SELECT".toList = true) (hasc : Ascending cs)
    (hcs : ∀ c, c ∈ cs ↔ c ∈ populatedColumns U s.clone.1.TagName m) :
    let r := s.clone.1
    let fragment (op : Str) : List WhereCond :=
      if cs = [] then []
      else
        [⟨(if r.whereConditions = [] then [] else " ".toList ++ op ++ " ".toList)
            ++ Join (cs.map (fun c => a ++ ".".toList ++ c ++ " = ?".toList))
              (" ".toList ++ op ++ " ".toList),
          s.Args ++ cs.map (fun c => Arg.str (renderedOf U r.TagName m c))⟩]
    let after (op : Str) : Query :=
      { s with
        raw := some { r with
          ID := idColumn U r.TagName r.ID m
          whereConditions := r.whereConditions ++ fragment op }
        Args := if cs = [] then s.Args else [] }
    s.And U (.entity m) a = .ok (after "AND".toList)
      ∧ s.Or U (.entity m) a = .ok (after "OR".toList)
      ∧ rendered asciiUnicode
          (andThen
            (andThen (Build.From asciiUnicode (.entity emptyGame) "g".toList)
              (fun s => s.And asciiUnicode
                (.entity (Game 0 "code" "" noString true noInt64 noTime)) "g".toList))
            (fun s => s.Or asciiUnicode
              (.entity (Game 1 "code" "" noString false noInt64 noTime)) "g".toList))
        = .ok
          ("SELECT g.* FROM ref_game g WHERE g.enabled = $1 AND g.game_code = $2 OR g.game_code = $3 OR g.game_id = $4 LIMIT 100 OFFSET 0".toList,
            [.str "true".toList, .str "code".toList, .str "code".toList, .str "1".toList]) := by
  intro r fragment after
  have hkeys : sortStrings (fieldMapOf U r.TagName m).keys = cs :=
    sortStrings_eq_of_ascending _ cs (fieldMapOf_keys_nodup U r.TagName m) hasc
      (fun c => by rw [hcs c, mem_fieldMapOf_keys])
  have key : ∀ op : Str, SQL.operator U s.clone.1 s.clone.2 (.entity m) a op = .ok (after op) := by
    intro op
    unfold SQL.operator
    rw [clone_snd_QueryStr, hsel]
    simp only [Bool.not_true, Bool.false_eq_true, if_false]
    rw [fieldsToArgs_entity]
    simp only []
    rw [emitted_of_nonempty _ (fun k => a ++ ".".toList ++ k ++ " = ?".toList) _ _ _
      (fun _ _ _ => rfl) (fun k _ => by simp)]
    rw [show sortStrings (fieldMapOf U s.clone.1.TagName m).keys = cs from hkeys]
    have hval : cs.map (fun k => Arg.str ((fieldMapOf U s.clone.1.TagName m).val k))
        = cs.map (fun c => Arg.str (renderedOf U r.TagName m c)) := by
      apply List.map_congr_left
      intro c hc
      rw [fieldMapOf_val U _ m c ((hcs c).1 hc)]
    by_cases hnil : cs = []
    · subst hnil
      simp only [List.map_nil, List.length_nil, gt_iff_lt, Nat.lt_irrefl, if_false]
      simp only [after, fragment, if_true, List.append_nil, clone_snd_Args, clone_snd_QueryStr,
        clone_snd_Rows, clone_snd_Offset, r]
    · have hlen : (List.map Prod.fst
          (cs.map fun k => (a ++ ".".toList ++ k ++ " = ?".toList,
            Arg.str ((fieldMapOf U s.clone.1.TagName m).val k)))).length > 0 := by
        cases cs with
        | nil => exact absurd rfl hnil
        | cons c cs => simp
      rw [if_pos hlen]
      simp only [after, fragment, hnil, if_false, List.map_map, clone_snd_Args,
        clone_snd_QueryStr, clone_snd_Rows, clone_snd_Offset]
      have hfst : (Prod.fst ∘ fun k => (a ++ ".".toList ++ k ++ " = ?".toList,
            Arg.str ((fieldMapOf U s.clone.1.TagName m).val k)))
          = fun c => a ++ ".".toList ++ c ++ " = ?".toList := rfl
      have hsnd : (Prod.snd ∘ fun k => (a ++ ".".toList ++ k ++ " = ?".toList,
            Arg.str ((fieldMapOf U s.clone.1.TagName m).val k)))
          = fun k => Arg.str ((fieldMapOf U s.clone.1.TagName m).val k) := rfl
      rw [hfst, hsnd, hval]
      cases hw : s.clone.1.whereConditions with
      | nil =>
        simp only [List.length_nil, gt_iff_lt, Nat.lt_irrefl, if_false, if_true, r, hw]
      | cons w ws =>
        simp only [List.length_cons, gt_iff_lt, Nat.succ_pos, if_true, r, hw]
        simp only [reduceCtorEq, if_false]
  exact ⟨key _, key _, testRawQuery_AND_OR⟩

/-! ## `Join` -/

theorem from_entity (U : Unicode) (s : Query) (e : Entity) (a : Str) :
    s.From U (.entity e) a
      = .ok
        { s with
          raw := some
            { (s.NewScope (.entity e)).1 with
              ID := idColumn U (s.NewScope (.entity e)).1.TagName (s.NewScope (.entity e)).1.ID e
              whereConditions :=
                (s.NewScope (.entity e)).1.whereConditions ++
                  (if sortStrings (fieldMapOf U (s.NewScope (.entity e)).1.TagName e).keys = [] then []
                   else
                    [⟨Join
                        ((sortStrings (fieldMapOf U (s.NewScope (.entity e)).1.TagName e).keys).map
                          (fun c => a ++ ".".toList ++ c ++ " = ?".toList))
                        " AND ".toList,
                      s.Args ++
                        (sortStrings (fieldMapOf U (s.NewScope (.entity e)).1.TagName e).keys).map
                          (fun c => Arg.str
                            ((fieldMapOf U (s.NewScope (.entity e)).1.TagName e).val c))⟩]) }
          QueryStr := "SELECT ".toList ++ (a ++ ".* ".toList) ++ "FROM ".toList
            ++ (e.TableName ++ " ".toList ++ a)
          Args :=
            if sortStrings (fieldMapOf U (s.NewScope (.entity e)).1.TagName e).keys = [] then s.Args
            else [] } := by
  have hM : (s.NewScope (.entity e)).1.Model = some (.entity e) := by
    unfold Query.NewScope; cases s.raw <;> rfl
  have hA : (s.NewScope (.entity e)).2.Args = s.Args := by
    unfold Query.NewScope; cases s.raw <;> rfl
  have hR : (s.NewScope (.entity e)).2.Rows = s.Rows := by
    unfold Query.NewScope; cases s.raw <;> rfl
  have hO : (s.NewScope (.entity e)).2.Offset = s.Offset := by
    unfold Query.NewScope; cases s.raw <;> rfl
  unfold Query.From SQL.fromQuery
  rw [hM]
  simp only []
  rw [fieldsToArgs_entity]
  simp only []
  rw [emitted_of_nonempty _ (fun k => a ++ ".".toList ++ k ++ " = ?".toList) _ _ _
    (fun _ _ _ => rfl) (fun k _ => by simp)]
  generalize sortStrings (fieldMapOf U (s.NewScope (.entity e)).1.TagName e).keys = ks
  cases ks with
  | nil => simp [hA, hR, hO]
  | cons k ks => simp [hA, hR, hO, Function.comp_def]


theorem join_step (t : Query) (m : Entity) (b : Str) (onArgs : List Str) (sel rest : Str)
    (hq : t.QueryStr = "SELECT ".toList ++ sel ++ ".*".toList ++ ' ' :: ("FROM ".toList ++ rest))
    (hsel : ¬ "FROM".toList <:+: "SELECT ".toList ++ sel ++ ".*".toList) :
    t.Join (.entity m) b onArgs
      = .ok
        { t with
          raw := some t.clone.1
          QueryStr := "SELECT ".toList ++ (sel ++ ".*, ".toList ++ b) ++ ".*".toList
            ++ ' ' :: ("FROM ".toList
              ++ (rest ++ " JOIN ".toList ++ (m.TableName ++ " ".toList ++ b) ++ " ON ".toList
                ++ onArgs.flatten)) } := by
  have hcont : Contains t.QueryStr "SELECT".toList = true := by
    rw [Contains_iff, hq]
    exact ⟨[], ' ' :: (sel ++ ".*".toList ++ ' ' :: ("FROM ".toList ++ rest)), rfl⟩
  have hidx : Index t.QueryStr "FROM".toList
      = (("SELECT ".toList ++ sel ++ ".*".toList).length + 1 : Nat) := by
    rw [hq, Index_append_sep _ _ _ ' ' (by decide) hsel ⟨' ' :: rest, by simp⟩]
    simp
  unfold Query.Join SQL.join
  rw [clone_snd_QueryStr, hcont, hidx]
  have h1 : ¬ (((("SELECT ".toList ++ sel ++ ".*".toList).length + 1 : Nat) : Int) < 1) := by
    omega
  simp only [Bool.not_true, Bool.and_false, Bool.false_eq_true, if_false, h1, Int.toNat_ofNat]
  have htake : t.QueryStr.take (("SELECT ".toList ++ sel ++ ".*".toList).length + 1)
      = ("SELECT ".toList ++ sel ++ ".".toList ++ ['*']) ++ [' '] := by
    rw [hq]
    have : "SELECT ".toList ++ sel ++ ".*".toList ++ ' ' :: ("FROM ".toList ++ rest)
        = (("SELECT ".toList ++ sel ++ ".*".toList) ++ [' ']) ++ ("FROM ".toList ++ rest) := by
      simp
    rw [this, List.take_left' (by simp)]
    simp
  have hdrop : t.QueryStr.drop (("SELECT ".toList ++ sel ++ ".*".toList).length + 1)
      = "FROM ".toList ++ rest := by
    rw [hq]
    have : "SELECT ".toList ++ sel ++ ".*".toList ++ ' ' :: ("FROM ".toList ++ rest)
        = (("SELECT ".toList ++ sel ++ ".*".toList) ++ [' ']) ++ ("FROM ".toList ++ rest) := by
      simp
    rw [this, List.drop_left' (by simp)]
  rw [htake, hdrop]
  have htrim : TrimRight (("SELECT ".toList ++ sel ++ ".".toList ++ ['*']) ++ [' ']) " ".toList
      = "SELECT ".toList ++ sel ++ ".".toList ++ ['*'] := by
    unfold TrimRight
    rw [List.rdropWhile_concat_pos _ _ _ (by decide), List.rdropWhile_concat_neg _ _ _ (by decide)]
  rw [htrim]
  simp [clone_snd_QueryStr, clone_snd_Args, clone_snd_Rows, clone_snd_Offset]

theorem not_from_infix_select (sel b : Str)
    (hsel : ¬ "FROM".toList <:+: "SELECT ".toList ++ sel ++ ".*".toList)
    (hb : ¬ "FROM".toList <:+: b) :
    ¬ "FROM".toList <:+: "SELECT ".toList ++ (sel ++ ".*, ".toList ++ b) ++ ".*".toList := by
  have e : "SELECT ".toList ++ (sel ++ ".*, ".toList ++ b) ++ ".*".toList
      = ("SELECT ".toList ++ sel ++ ".*".toList) ++ ',' :: ([] ++ ' ' :: (b ++ '.' :: ['*'])) := by
    simp
  rw [e, infix_append_sep _ _ _ ',' (by decide), infix_append_sep _ _ _ ' ' (by decide),
    infix_append_sep _ _ _ '.' (by decide)]
  intro h
  rcases h with h | h | h | h
  · exact hsel h
  · revert h; decide
  · exact hb h
  · revert h; decide

/-- The select list and the JOIN clauses after the given joins. -/
theorem joins_text (joins : List (Entity × Str × List Str)) (t : Query) (sel rest : Str)
    (hq : t.QueryStr = "SELECT ".toList ++ sel ++ ".*".toList ++ ' ' :: ("FROM ".toList ++ rest))
    (hsel : ¬ "FROM".toList <:+: "SELECT ".toList ++ sel ++ ".*".toList)
    (hb : ∀ j ∈ joins, Contains j.2.1 "FROM".toList = false) :
    ∃ t', joins.foldl (fun x j => andThen x (fun u => u.Join (.entity j.1) j.2.1 j.2.2)) (.ok t)
        = .ok t'
      ∧ t'.QueryStr
        = "SELECT ".toList ++ sel ++ ".*".toList
          ++ (joins.map (fun j => ", ".toList ++ j.2.1 ++ ".*".toList)).flatten
          ++ " FROM ".toList ++ rest
          ++ (joins.map (fun j => " JOIN ".toList ++ j.1.TableName ++ " ".toList ++ j.2.1
              ++ " ON ".toList ++ j.2.2.flatten)).flatten := by
  induction joins generalizing t sel rest with
  | nil => exact ⟨t, rfl, by simp [hq]⟩
  | cons j js ih =>
    obtain ⟨m, b, onArgs⟩ := j
    have hbj : ¬ "FROM".toList <:+: b := by
      have := hb (m, b, onArgs) (List.mem_cons_self _ _)
      exact (Contains_eq_false_iff _ _).1 this
    simp only [List.foldl_cons, andThen]
    rw [join_step t m b onArgs sel rest hq hsel]
    obtain ⟨t', h1, h2⟩ := ih
      { t with
        raw := some t.clone.1
        QueryStr := "SELECT ".toList ++ (sel ++ ".*, ".toList ++ b) ++ ".*".toList
          ++ ' ' :: ("FROM ".toList
            ++ (rest ++ " JOIN ".toList ++ (m.TableName ++ " ".toList ++ b) ++ " ON ".toList
              ++ onArgs.flatten)) }
      (sel ++ ".*, ".toList ++ b)
      (rest ++ " JOIN ".toList ++ (m.TableName ++ " ".toList ++ b) ++ " ON ".toList
        ++ onArgs.flatten) rfl (not_from_infix_select sel b hsel hbj)
      (fun j hj => hb j (List.mem_cons_of_mem _ hj))
    refine ⟨t', h1, ?_⟩
    rw [h2]
    simp

/-- C5. `From(e, a)` followed by `Join(m1, b1, on1...)`, ..., `Join(mk, bk, onk...)`,
no alias containing `FROM`, leaves the statement text
`SELECT a.*, b1.*, ..., bk.* FROM T a JOIN M1 b1 ON on1 ... JOIN Mk bk ON onk`,
each `oni` being the concatenation of its fragments. -/
theorem from_joins_text (U : Unicode) (s : Query) (e : Entity) (a : Str)
    (joins : List (Entity × Str × List Str))
    (ha : Contains a "FROM".toList = false)
    (hb : ∀ j ∈ joins, Contains j.2.1 "FROM".toList = false) :
    ∃ t, joins.foldl (fun x j => andThen x (fun u => u.Join (.entity j.1) j.2.1 j.2.2))
          (s.From U (.entity e) a) = .ok t
      ∧ t.QueryStr
        = "SELECT ".toList ++ a ++ ".*".toList
          ++ (joins.map (fun j => ", ".toList ++ j.2.1 ++ ".*".toList)).flatten
          ++ " FROM ".toList ++ (e.TableName ++ " ".toList ++ a)
          ++ (joins.map (fun j => " JOIN ".toList ++ j.1.TableName ++ " ".toList ++ j.2.1
              ++ " ON ".toList ++ j.2.2.flatten)).flatten := by
  rw [from_entity]
  apply joins_text joins _ a (e.TableName ++ " ".toList ++ a)
  · simp
  · have ha' : ¬ "FROM".toList <:+: a := (Contains_eq_false_iff _ _).1 ha
    have e1 : "SELECT ".toList ++ a ++ ".*".toList
        = "SELECT".toList ++ ' ' :: (a ++ '.' :: ['*']) := by simp
    rw [e1, infix_append_sep _ _ _ ' ' (by decide), infix_append_sep _ _ _ '.' (by decide)]
    intro h
    rcases h with h | h | h
    · revert h; decide
    · exact ha' h
    · revert h; decide
  · exact hb

/-! ## Renumbering a joined fragment -/

theorem renumber_of_not_mem (n : Nat) (p : Str) (hp : '?' ∉ p) : renumber n p = p := by
  induction p with
  | nil => rfl
  | cons c cs ih =>
    have hc : c ≠ '?' := fun h => hp (by simp [h])
    have hcs : '?' ∉ cs := fun h => hp (List.mem_cons_of_mem _ h)
    simp [renumber, hc, ih hcs]

theorem renumber_append (n : Nat) (p q : Str) :
    renumber n (p ++ q) = renumber n p ++ renumber (n + Count p '?') q := by
  induction p generalizing n with
  | nil => simp [renumber, Count]
  | cons c cs ih =>
    by_cases hc : c = '?'
    · subst hc
      have h1 : Count ('?' :: cs) '?' = Count cs '?' + 1 := by simp [Count]
      have h2 : n + (Count cs '?' + 1) = n + 1 + Count cs '?' := by omega
      simp only [List.cons_append, renumber, if_true, List.append_eq]
      rw [h1, h2, ih]
      simp
    · have h1 : Count (c :: cs) '?' = Count cs '?' := by simp [Count, List.count_cons, hc]
      simp only [List.cons_append, renumber, hc, if_false, List.append_eq]
      rw [h1, ih]

theorem Count_of_not_mem (p : Str) (hp : '?' ∉ p) : Count p '?' = 0 := by
  unfold Count
  exact List.count_eq_zero.2 hp

theorem Count_append (p q : Str) : Count (p ++ q) '?' = Count p '?' + Count q '?' := by
  simp [Count]

theorem not_mem_of_Contains_false (x : Str) (c : Char) (h : Contains x [c] = false) : c ∉ x := by
  rw [Contains_eq_false_iff] at h
  intro hm
  obtain ⟨s, t, hst⟩ := List.append_of_mem hm
  exact h ⟨s, t, by simp [hst]⟩

/-- One condition `a.c = ?`, renumbered. -/
theorem renumber_condition (n : Nat) (a c : Str) (ha : '?' ∉ a) (hc : '?' ∉ c) :
    renumber n (a ++ ".".toList ++ c ++ " = ?".toList)
      = a ++ ".".toList ++ c ++ " = $".toList ++ fmtNat (n + 1) := by
  have e : a ++ ".".toList ++ c ++ " = ?".toList = (a ++ ".".toList ++ c ++ " = ".toList) ++ ['?'] := by
    simp
  have hp : '?' ∉ a ++ ".".toList ++ c ++ " = ".toList := by
    simp only [List.mem_append, not_or]
    exact ⟨⟨⟨ha, by decide⟩, hc⟩, by decide⟩
  rw [e, renumber_append, renumber_of_not_mem _ _ hp, Count_of_not_mem _ hp]
  simp [renumber]

theorem Count_condition (a c : Str) (ha : '?' ∉ a) (hc : '?' ∉ c) :
    Count (a ++ ".".toList ++ c ++ " = ?".toList) '?' = 1 := by
  have hp : '?' ∉ a ++ ".".toList ++ c := by
    simp only [List.mem_append, not_or]
    exact ⟨⟨ha, by decide⟩, hc⟩
  rw [Count_append, Count_of_not_mem _ hp]
  rfl

theorem Join_cons_cons (x y : Str) (rest : List Str) (sep : Str) :
    Join (x :: y :: rest) sep = x ++ sep ++ Join (y :: rest) sep := by
  simp [Join, List.intercalate, List.intersperse]

theorem Join_cons_of_ne_nil (x : Str) (rest : List Str) (sep : Str) (h : rest ≠ []) :
    Join (x :: rest) sep = x ++ sep ++ Join rest sep := by
  cases rest with
  | nil => exact absurd rfl h
  | cons y ys => exact Join_cons_cons x y ys sep

theorem numberedConditions_cons (a c : Str) (cs : List Str) (n : Nat) :
    numberedConditions a (c :: cs) n
      = (a ++ ".".toList ++ c ++ " = $".toList ++ fmtNat n) :: numberedConditions a cs (n + 1) := by
  simp [numberedConditions, List.range'_succ]

theorem numberedConditions_length (a : Str) (cs : List Str) (n : Nat) :
    (numberedConditions a cs n).length = cs.length := by
  simp [numberedConditions]

theorem Join_singleton (x sep : Str) : Join [x] sep = x := by
  simp [Join, List.intercalate, List.intersperse]

theorem Join_nil (sep : Str) : Join [] sep = [] := by
  simp [Join, List.intercalate, List.intersperse]

/-- The fragment of `From`, `And` and `Or`, renumbered: the conditions joined by
a connector without `?`, and one argument for each. -/
theorem renumber_joined_conditions (a sep : Str) (cs : List Str) (n : Nat) (ha : '?' ∉ a)
    (hsep : '?' ∉ sep) (hcs : ∀ c ∈ cs, '?' ∉ c) :
    renumber n (Join (cs.map (fun c => a ++ ".".toList ++ c ++ " = ?".toList)) sep)
        = Join (numberedConditions a cs (n + 1)) sep
      ∧ Count (Join (cs.map (fun c => a ++ ".".toList ++ c ++ " = ?".toList)) sep) '?'
        = cs.length := by
  induction cs generalizing n with
  | nil => simp [numberedConditions, Join_nil, renumber, Count]
  | cons c cs ih =>
    have hc : '?' ∉ c := hcs c (List.mem_cons_self _ _)
    have hcs' : ∀ c ∈ cs, '?' ∉ c := fun c hc => hcs c (List.mem_cons_of_mem _ hc)
    cases cs with
    | nil =>
      rw [numberedConditions_cons]
      simp only [List.map_cons, List.map_nil, Join_singleton, numberedConditions,
        List.length_nil, List.range'_zero, List.zipWith_nil_right, List.length_singleton]
      exact ⟨renumber_condition n a c ha hc, Count_condition a c ha hc⟩
    | cons d ds =>
      obtain ⟨ih1, ih2⟩ := ih (n + 1) hcs'
      simp only [List.map_cons] at ih1 ih2 ⊢
      rw [Join_cons_cons]
      constructor
      · rw [renumber_append, renumber_append, renumber_condition n a c ha hc,
          renumber_of_not_mem _ sep hsep, Count_append, Count_condition a c ha hc,
          Count_of_not_mem sep hsep, ih1]
        rw [numberedConditions_cons a c, Join_cons_of_ne_nil]
        intro h
        have := numberedConditions_length a (d :: ds) (n + 1 + 1)
        rw [h] at this
        simp at this
      · rw [Count_append, Count_append, Count_condition a c ha hc, Count_of_not_mem sep hsep, ih2]
        simp
        omega

/-! ## Texts that do not contain a keyword -/

theorem NoPat_sep (f : Char → Char) (pat xs ys : Str) (c : Char) (hc : f c ∉ pat) :
    NoPat f pat (xs ++ c :: ys) ↔ NoPat f pat xs ∧ NoPat f pat ys := by
  unfold NoPat
  rw [List.map_append, List.map_cons, infix_append_sep _ _ _ _ hc, not_or]

theorem NoPat_nil (f : Char → Char) (pat : Str) (hne : pat ≠ []) : NoPat f pat [] := by
  unfold NoPat
  intro h
  exact hne (List.infix_nil.1 h)

theorem NoPat_cons_sep (f : Char → Char) (pat ys : Str) (c : Char) (hc : f c ∉ pat)
    (hne : pat ≠ []) : NoPat f pat (c :: ys) ↔ NoPat f pat ys := by
  have := NoPat_sep f pat [] ys c hc
  rw [List.nil_append] at this
  rw [this]
  exact ⟨fun h => h.2, fun h => ⟨NoPat_nil f pat hne, h⟩⟩

theorem NoPat_of_all (f : Char → Char) (pat s : Str) (hne : pat ≠ [])
    (h : ∀ c ∈ s, f c ∉ pat) : NoPat f pat s := by
  induction s with
  | nil => exact NoPat_nil f pat hne
  | cons c cs ih =>
    rw [NoPat_cons_sep f pat cs c (h c (List.mem_cons_self _ _)) hne]
    exact ih (fun d hd => h d (List.mem_cons_of_mem _ hd))

theorem NoPat_iff_Contains (U : Unicode) (pat s : Str) :
    NoPat U.toLower pat s ↔ Contains (ToLower U s) pat = false := by
  rw [Contains_eq_false_iff]
  rfl

theorem NoPat_id_iff_Contains (pat s : Str) : NoPat id pat s ↔ Contains s pat = false := by
  rw [Contains_eq_false_iff]
  unfold NoPat
  rw [List.map_id]

theorem map_toLower_ascii (U : Unicode) (s : Str) (h : ∀ c ∈ s, c.toNat < 128) :
    s.map U.toLower = s.map Char.toLower := by
  apply List.map_congr_left
  intro c hc
  exact U.toLower_ascii c (h c hc)

/-- An ASCII text is judged with the ASCII lower case. -/
theorem NoPat_ascii (U : Unicode) (pat s : Str) (h : ∀ c ∈ s, c.toNat < 128)
    (hs : ¬ pat <:+: s.map Char.toLower) : NoPat U.toLower pat s := by
  unfold NoPat
  rw [map_toLower_ascii U s h]
  exact hs

theorem not_mem_toLower_ascii (U : Unicode) (pat : Str) (c : Char) (h : c.toNat < 128)
    (hc : c.toLower ∉ pat) : U.toLower c ∉ pat := by
  rw [U.toLower_ascii c h]
  exact hc

theorem isDigit_toNat_lt (c : Char) (h : c.isDigit = true) : c.toNat < 128 := by
  simp only [Char.isDigit, Bool.and_eq_true, decide_eq_true_eq] at h
  have h2 := h.2
  have : c.val.toNat ≤ 57 := h2
  show c.val.toNat < 128
  omega

theorem isDigit_toLower (c : Char) (h : c.isDigit = true) : c.toLower = c := by
  have h2 : c.toNat < 58 := by
    simp only [Char.isDigit, Bool.and_eq_true, decide_eq_true_eq] at h
    have : c.val.toNat ≤ 57 := h.2
    show c.val.toNat < 58
    omega
  unfold Char.toLower
  simp only []
  rw [if_neg]
  omega

/-- A decimal digit is in neither keyword. -/
theorem digit_sep (U : Unicode) (pat : Str) (hpat : ∀ p ∈ pat, p.isDigit = false) (c : Char)
    (h : c.isDigit = true) : U.toLower c ∉ pat := by
  rw [U.toLower_ascii c (isDigit_toNat_lt c h), isDigit_toLower c h]
  intro hm
  rw [hpat c hm] at h
  exact absurd h (by decide)

/-! ## `From` and `ToSQL` -/

theorem NoPat_condition (f : Char → Char) (pat a c : Str) (i : Nat) (hne : pat ≠ [])
    (hsp : f ' ' ∉ pat) (hdot : f '.' ∉ pat) (hdol : f '$' ∉ pat) (heq : f '=' ∉ pat)
    (hdig : ∀ d : Char, d.isDigit = true → f d ∉ pat)
    (ha : NoPat f pat a) (hc : NoPat f pat c) :
    NoPat f pat (a ++ ".".toList ++ c ++ " = $".toList ++ fmtNat i) := by
  have e : a ++ ".".toList ++ c ++ " = $".toList ++ fmtNat i
      = a ++ '.' :: (c ++ ' ' :: ('=' :: ' ' :: '$' :: fmtNat i)) := by simp
  rw [e, NoPat_sep _ _ _ _ _ hdot, NoPat_sep _ _ _ _ _ hsp, NoPat_cons_sep _ _ _ _ heq hne,
    NoPat_cons_sep _ _ _ _ hsp hne, NoPat_cons_sep _ _ _ _ hdol hne]
  exact ⟨ha, hc, NoPat_of_all f pat _ hne (fun d hd => hdig d (fmtNat_digits i d hd))⟩

theorem NoPat_numberedConditions (f : Char → Char) (pat a : Str) (cs : List Str) (n : Nat)
    (hne : pat ≠ []) (hsp : f ' ' ∉ pat) (hdot : f '.' ∉ pat) (hdol : f '$' ∉ pat)
    (heq : f '=' ∉ pat) (hdig : ∀ d : Char, d.isDigit = true → f d ∉ pat)
    (ha : NoPat f pat a) (hcs : ∀ c ∈ cs, NoPat f pat c) :
    ∀ x ∈ numberedConditions a cs n, NoPat f pat x := by
  induction cs generalizing n with
  | nil => simp [numberedConditions]
  | cons c cs ih =>
    rw [numberedConditions_cons]
    intro x hx
    rcases List.mem_cons.1 hx with hx | hx
    · rw [hx]
      exact NoPat_condition f pat a c n hne hsp hdot hdol heq hdig ha
        (hcs c (List.mem_cons_self _ _))
    · exact ih (n + 1) (fun c hc => hcs c (List.mem_cons_of_mem _ hc)) x hx

theorem NoPat_Join (f : Char → Char) (pat : Str) (word : Str) (xs : List Str) (hne : pat ≠ [])
    (hsp : f ' ' ∉ pat) (hword : NoPat f pat word) (hxs : ∀ x ∈ xs, NoPat f pat x) :
    NoPat f pat (Join xs (" ".toList ++ word ++ " ".toList)) := by
  induction xs with
  | nil => rw [Join_nil]; exact NoPat_nil f pat hne
  | cons x xs ih =>
    cases xs with
    | nil => rw [Join_singleton]; exact hxs x (List.mem_cons_self _ _)
    | cons y ys =>
      rw [Join_cons_cons]
      have e : x ++ (" ".toList ++ word ++ " ".toList) ++ Join (y :: ys) (" ".toList ++ word ++ " ".toList)
          = x ++ ' ' :: (word ++ ' ' :: Join (y :: ys) (" ".toList ++ word ++ " ".toList)) := by
        simp
      rw [e, NoPat_sep _ _ _ _ _ hsp, NoPat_sep _ _ _ _ _ hsp]
      exact ⟨hxs x (List.mem_cons_self _ _), hword,
        ih (fun z hz => hxs z (List.mem_cons_of_mem _ hz))⟩

/-- The text of a rendered SELECT over plain names contains neither keyword. -/
theorem NoPat_select_text (U : Unicode) (pat T a : Str) (cs : List Str)
    (hpat : pat = "update".toList ∨ pat = "insert".toList)
    (hT : NoPat U.toLower pat T) (ha : NoPat U.toLower pat a)
    (hcs : ∀ c ∈ cs, NoPat U.toLower pat c) :
    NoPat U.toLower pat
      ("SELECT ".toList ++ (a ++ ".* ".toList) ++ "FROM ".toList ++ (T ++ " ".toList ++ a)
        ++ (if cs = [] then []
            else " WHERE ".toList ++ Join (numberedConditions a cs 1) " AND ".toList)
        ++ " LIMIT 100 OFFSET 0".toList) := by
  have hne : pat ≠ [] := by rcases hpat with h | h <;> rw [h] <;> decide
  have hsep : ∀ c : Char, c.toNat < 128 → c.toLower ∉ "update".toList →
      c.toLower ∉ "insert".toList → U.toLower c ∉ pat := by
    intro c h1 h2 h3
    rcases hpat with h | h <;> rw [h]
    · exact not_mem_toLower_ascii U _ c h1 h2
    · exact not_mem_toLower_ascii U _ c h1 h3
  have hlit : ∀ s : Str, (∀ c ∈ s, c.toNat < 128) → ¬ "update".toList <:+: s.map Char.toLower →
      ¬ "insert".toList <:+: s.map Char.toLower → NoPat U.toLower pat s := by
    intro s h1 h2 h3
    rcases hpat with h | h <;> rw [h]
    · exact NoPat_ascii U _ s h1 h2
    · exact NoPat_ascii U _ s h1 h3
  have hsp : U.toLower ' ' ∉ pat := hsep ' ' (by decide) (by decide) (by decide)
  have hdot : U.toLower '.' ∉ pat := hsep '.' (by decide) (by decide) (by decide)
  have hdol : U.toLower '$' ∉ pat := hsep '$' (by decide) (by decide) (by decide)
  have heq : U.toLower '=' ∉ pat := hsep '=' (by decide) (by decide) (by decide)
  have hdig : ∀ d : Char, d.isDigit = true → U.toLower d ∉ pat := by
    intro d hd
    apply digit_sep U pat _ d hd
    rcases hpat with h | h <;> rw [h] <;> decide
  have hAND : NoPat U.toLower pat "AND".toList := hlit _ (by decide) (by decide) (by decide)
  have hJ := NoPat_Join U.toLower pat "AND".toList (numberedConditions a cs 1) hne hsp hAND
    (NoPat_numberedConditions U.toLower pat a cs 1 hne hsp hdot hdol heq hdig ha hcs)
  have hJ' : NoPat U.toLower pat (Join (numberedConditions a cs 1) " AND ".toList) := hJ
  have htail : NoPat U.toLower pat "LIMIT 100 OFFSET 0".toList :=
    hlit _ (by decide) (by decide) (by decide)
  have hrest : NoPat U.toLower pat
      ((if cs = [] then []
        else "WHERE".toList ++ ' ' :: (Join (numberedConditions a cs 1) " AND ".toList ++ [' ']))
        ++ "LIMIT 100 OFFSET 0".toList) := by
    split
    · exact htail
    · have e : "WHERE".toList ++ ' ' :: (Join (numberedConditions a cs 1) " AND ".toList ++ [' '])
          ++ "LIMIT 100 OFFSET 0".toList
          = "WHERE".toList ++ ' ' :: (Join (numberedConditions a cs 1) " AND ".toList
            ++ ' ' :: "LIMIT 100 OFFSET 0".toList) := by simp
      rw [e, NoPat_sep _ _ _ _ _ hsp, NoPat_sep _ _ _ _ _ hsp]
      exact ⟨hlit _ (by decide) (by decide) (by decide), hJ', htail⟩
  have e : "SELECT ".toList ++ (a ++ ".* ".toList) ++ "FROM ".toList ++ (T ++ " ".toList ++ a)
        ++ (if cs = [] then []
            else " WHERE ".toList ++ Join (numberedConditions a cs 1) " AND ".toList)
        ++ " LIMIT 100 OFFSET 0".toList
      = "SELECT".toList ++ ' ' :: (a ++ '.' :: ("*".toList ++ ' ' :: ("FROM".toList ++ ' ' ::
          (T ++ ' ' :: (a ++ ' ' ::
            ((if cs = [] then []
              else "WHERE".toList ++ ' ' ::
                (Join (numberedConditions a cs 1) " AND ".toList ++ [' ']))
              ++ "LIMIT 100 OFFSET 0".toList)))))) := by
    split <;> simp
  rw [e, NoPat_sep _ _ _ _ _ hsp, NoPat_sep _ _ _ _ _ hdot, NoPat_sep _ _ _ _ _ hsp,
    NoPat_sep _ _ _ _ _ hsp, NoPat_sep _ _ _ _ _ hsp, NoPat_sep _ _ _ _ _ hsp]
  exact ⟨hlit _ (by decide) (by decide) (by decide), ha,
    hlit _ (by decide) (by decide) (by decide), hlit _ (by decide) (by decide) (by decide),
    hT, ha, hrest⟩

theorem from_build (U : Unicode) (e : Entity) (a : Str) :
    Build.From U (.entity e) a
      = .ok
        { raw := some
            { Model := some (.entity e)
              ID := idColumn U "sql".toList [] e
              TagName := "sql".toList
              whereConditions :=
                if sortStrings (fieldMapOf U "sql".toList e).keys = [] then []
                else
                  [⟨Join ((sortStrings (fieldMapOf U "sql".toList e).keys).map
                        (fun c => a ++ ".".toList ++ c ++ " = ?".toList)) " AND ".toList,
                    (sortStrings (fieldMapOf U "sql".toList e).keys).map
                      (fun c => Arg.str ((fieldMapOf U "sql".toList e).val c))⟩] }
          QueryStr := "SELECT ".toList ++ (a ++ ".* ".toList) ++ "FROM ".toList
            ++ (e.TableName ++ " ".toList ++ a)
          Args := []
          Rows := 0
          Offset := 0 } := by
  rw [from_entity]
  simp only [Build, Query.NewScope, List.nil_append]
  split <;> rfl

theorem limitClause_default (s : Query) (hsel : Contains s.QueryStr "SELECT".toList = true)
    (hR : s.Rows = 0) : limitClause s = " LIMIT 100 OFFSET 0".toList := by
  unfold limitClause
  rw [hsel, hR, Int.zero_mul]
  rfl

theorem Contains_SELECT_head (rest : Str) :
    Contains ("SELECT ".toList ++ rest) "SELECT".toList = true := by
  rw [Contains_iff]
  exact ⟨[], ' ' :: rest, rfl⟩

/-- C2, amended. On a fresh builder, for an entity with table name `T`, an alias
`a` and populated tagged columns `c1 < ... < ck`, the table name, the alias and
the columns being plain (no `?` and, in lower case, neither `update` nor
`insert`), `From(e, a).ToSQL()` returns
`SELECT a.* FROM T a`, then ` WHERE a.c1 = $1 AND ... AND a.ck = $k` when
`k >= 1`, then ` LIMIT 100 OFFSET 0`, with the rendered values of `c1..ck` as
the `k` arguments. -/
theorem from_toSQL_text (U : Unicode) (e : Entity) (a : Str) (cs : List Str)
    (hasc : Ascending cs) (hcs : ∀ c, c ∈ cs ↔ c ∈ populatedColumns U "sql".toList e)
    (hT : plainName U e.TableName) (ha : plainName U a) (hc : ∀ c ∈ cs, plainName U c) :
    rendered U (Build.From U (.entity e) a)
      = .ok
        ("SELECT ".toList ++ a ++ ".* FROM ".toList ++ e.TableName ++ " ".toList ++ a
            ++ (if cs = [] then []
                else " WHERE ".toList ++ Join (numberedConditions a cs 1) " AND ".toList)
            ++ " LIMIT 100 OFFSET 0".toList,
          cs.map (fun c => Arg.str (renderedOf U "sql".toList e c))) := by
  have hkeys : sortStrings (fieldMapOf U "sql".toList e).keys = cs :=
    sortStrings_eq_of_ascending _ cs (fieldMapOf_keys_nodup U _ e) hasc
      (fun c => by rw [hcs c, mem_fieldMapOf_keys])
  have hval : cs.map (fun k => Arg.str ((fieldMapOf U "sql".toList e).val k))
      = cs.map (fun c => Arg.str (renderedOf U "sql".toList e c)) := by
    apply List.map_congr_left
    intro c hc'
    rw [fieldMapOf_val U _ e c ((hcs c).1 hc')]
  have hren := renumber_joined_conditions a " AND ".toList cs 0
    (not_mem_of_Contains_false a '?' ha.1) (by decide)
    (fun c hc' => not_mem_of_Contains_false c '?' (hc c hc').1)
  have htext : "SELECT ".toList ++ (a ++ ".* ".toList) ++ "FROM ".toList
        ++ (e.TableName ++ " ".toList ++ a)
        ++ (if cs = [] then []
            else " WHERE ".toList ++ Join (numberedConditions a cs 1) " AND ".toList)
        ++ " LIMIT 100 OFFSET 0".toList
      = "SELECT ".toList ++ a ++ ".* FROM ".toList ++ e.TableName ++ " ".toList ++ a
        ++ (if cs = [] then []
            else " WHERE ".toList ++ Join (numberedConditions a cs 1) " AND ".toList)
        ++ " LIMIT 100 OFFSET 0".toList := by
    simp
  have hno : ∀ pat, pat = "update".toList ∨ pat = "insert".toList →
      Contains (ToLower U ("SELECT ".toList ++ (a ++ ".* ".toList) ++ "FROM ".toList
        ++ (e.TableName ++ " ".toList ++ a)
        ++ (if cs = [] then []
            else " WHERE ".toList ++ Join (numberedConditions a cs 1) " AND ".toList)
        ++ " LIMIT 100 OFFSET 0".toList)) pat = false := by
    intro pat hpat
    rw [← NoPat_iff_Contains]
    apply NoPat_select_text U pat e.TableName a cs hpat
    · rw [NoPat_iff_Contains]
      rcases hpat with h | h <;> rw [h]
      · exact hT.2.1
      · exact hT.2.2
    · rw [NoPat_iff_Contains]
      rcases hpat with h | h <;> rw [h]
      · exact ha.2.1
      · exact ha.2.2
    · intro c hc'
      rw [NoPat_iff_Contains]
      rcases hpat with h | h <;> rw [h]
      · exact (hc c hc').2.1
      · exact (hc c hc').2.2
  rw [from_build, hkeys]
  unfold rendered
  simp only []
  rw [ToSQL_eq U _ _ rfl]
  simp only []
  rw [limitClause_default _ (Contains_SELECT_head _) rfl]
  have hwhere : whereClause ([] : List Arg).length
        (if cs = [] then []
          else [⟨Join (cs.map (fun c => a ++ ".".toList ++ c ++ " = ?".toList)) " AND ".toList,
            cs.map (fun c => Arg.str ((fieldMapOf U "sql".toList e).val c))⟩])
      = if cs = [] then []
        else " WHERE ".toList ++ Join (numberedConditions a cs 1) " AND ".toList := by
    by_cases h : cs = []
    · simp [h, whereClause]
    · simp only [h, if_false, whereClause, List.length_nil, renderWhere, List.append_nil]
      rw [hren.1]
      simp
  have hargs : whereArgs
        (if cs = [] then []
          else [⟨Join (cs.map (fun c => a ++ ".".toList ++ c ++ " = ?".toList)) " AND ".toList,
            cs.map (fun c => Arg.str ((fieldMapOf U "sql".toList e).val c))⟩])
      = cs.map (fun c => Arg.str (renderedOf U "sql".toList e c)) := by
    by_cases h : cs = []
    · simp [h, whereArgs]
    · simp only [h, if_false, whereArgs, List.map_cons, List.map_nil, List.flatten_cons,
        List.flatten_nil, List.append_nil]
      exact hval
  rw [hwhere, hargs]
  unfold returningClause
  rw [hno _ (Or.inl rfl), hno _ (Or.inr rfl)]
  simp only [Bool.or_self, Bool.false_eq_true, if_false, List.append_nil, List.nil_append]
  rw [htext]

/-! ## `Insert` -/

theorem NoPat_Join_sep (f : Char → Char) (pat : Str) (c d : Char) (xs : List Str) (hne : pat ≠ [])
    (hc : f c ∉ pat) (hd : f d ∉ pat) (hxs : ∀ x ∈ xs, NoPat f pat x) :
    NoPat f pat (Join xs [c, d]) := by
  induction xs with
  | nil => rw [Join_nil]; exact NoPat_nil f pat hne
  | cons x xs ih =>
    cases xs with
    | nil => rw [Join_singleton]; exact hxs x (List.mem_cons_self _ _)
    | cons y ys =>
      rw [Join_cons_cons]
      have e : x ++ [c, d] ++ Join (y :: ys) [c, d] = x ++ c :: d :: Join (y :: ys) [c, d] := by
        simp
      rw [e, NoPat_sep _ _ _ _ _ hc, NoPat_cons_sep _ _ _ _ hd hne]
      exact ⟨hxs x (List.mem_cons_self _ _), ih (fun z hz => hxs z (List.mem_cons_of_mem _ hz))⟩

theorem NoPat_insertParams (n : Nat) : ∀ x ∈ insertParams n, NoPat id "SELECT".toList x := by
  intro x hx
  unfold insertParams at hx
  rw [List.mem_map] at hx
  obtain ⟨i, _, rfl⟩ := hx
  apply NoPat_of_all _ _ _ (by decide)
  intro c hc
  rcases List.mem_cons.1 hc with hc | hc
  · rw [hc]; decide
  · have := fmtNat_digits i c hc
    intro hm
    simp only [id] at hm
    revert this
    revert hm
    simp only [String.toList, List.mem_cons, List.mem_singleton, List.not_mem_nil, or_false]
    rintro (h | h | h | h | h | h) <;> rw [h] <;> decide

/-- The text of an INSERT over names without `SELECT` does not contain it. -/
theorem NoPat_insert_text (T : Str) (cols params : List Str)
    (hT : NoPat id "SELECT".toList T) (hcols : ∀ c ∈ cols, NoPat id "SELECT".toList c)
    (hparams : ∀ x ∈ params, NoPat id "SELECT".toList x) :
    NoPat id "SELECT".toList
      ("INSERT INTO ".toList ++ T ++ " (".toList ++ Join cols ", ".toList ++ ") ".toList
        ++ "VALUES (".toList ++ Join params ", ".toList ++ ")".toList) := by
  have hne : "SELECT".toList ≠ [] := by decide
  have e : "INSERT INTO ".toList ++ T ++ " (".toList ++ Join cols ", ".toList ++ ") ".toList
        ++ "VALUES (".toList ++ Join params ", ".toList ++ ")".toList
      = "INSERT".toList ++ ' ' :: ("INTO".toList ++ ' ' :: (T ++ ' ' :: ([] ++ '(' ::
          (Join cols [',', ' '] ++ ')' :: ([] ++ ' ' :: ("VALUES".toList ++ ' ' :: ([] ++ '(' ::
            (Join params [',', ' '] ++ ')' :: [])))))))) := by
    simp
  rw [e]
  iterate 9 rw [NoPat_sep _ _ _ _ _ (by decide)]
  refine ⟨by unfold NoPat; decide, by unfold NoPat; decide, hT, NoPat_nil _ _ hne,
    NoPat_Join_sep id _ ',' ' ' cols hne (by decide) (by decide) hcols, NoPat_nil _ _ hne,
    by unfold NoPat; decide, NoPat_nil _ _ hne,
    NoPat_Join_sep id _ ',' ' ' params hne (by decide) (by decide) hparams, NoPat_nil _ _ hne⟩

theorem Contains_insert_head (U : Unicode) (rest : Str) :
    Contains (ToLower U ("INSERT INTO ".toList ++ rest)) "insert".toList = true := by
  rw [Contains_iff]
  unfold ToLower
  rw [List.map_append, map_toLower_ascii U "INSERT INTO ".toList (by decide)]
  exact ⟨[], " into ".toList ++ rest.map U.toLower, rfl⟩

theorem returningClause_insert (U : Unicode) (ID rest : Str) :
    returningClause U ID ("INSERT INTO ".toList ++ rest) = " RETURNING ".toList ++ ID := by
  unfold returningClause
  rw [Contains_insert_head]
  simp

theorem insert_build (U : Unicode) (now : Nat → Nat) (e : Entity) (cs : List Str)
    (hkeys : sortStrings (fieldMapOf U "sql".toList e).keys = cs) (hne : ∀ c ∈ cs, c ≠ []) :
    Build.Insert U now (.entity e)
      = .ok
        { raw := some
            { Model := some (.entity e)
              ID := idColumn U "sql".toList [] e
              TagName := "sql".toList
              whereConditions := [] }
          QueryStr := "INSERT INTO ".toList ++ e.TableName ++ " (".toList
            ++ Join (cs ++ ["create_date".toList, "write_date".toList]) ", ".toList
            ++ ") ".toList ++ "VALUES (".toList
            ++ Join (insertParams (cs.length + 2)) ", ".toList ++ ")".toList
          Args := cs.map (fun c => Arg.str ((fieldMapOf U "sql".toList e).val c))
            ++ [Arg.time (now 0), Arg.time (now 1)]
          Rows := 0
          Offset := 0 } := by
  unfold Query.Insert SQL.insert
  simp only [Build, Query.NewScope]
  rw [fieldsToArgs_entity]
  simp only []
  rw [hkeys, emitted_of_nonempty _ (fun k => k) _ _ _ (fun _ _ _ => rfl) hne]
  simp [Function.comp_def]

set_option maxRecDepth 100000 in
theorem testRawQuery_Insert (now : Nat → Nat) :
    rendered asciiUnicode (Build.Insert asciiUnicode now (.entity newGame))
      = .ok
        ("INSERT INTO ref_game (enabled, game_code, game_description, game_id, game_title, rate, release, create_date, write_date) VALUES ($1, $2, $3, $4, $5, $6, $7, $8, $9) RETURNING game_id".toList,
          [.str "true".toList, .str "uuid".toList, .str "08675467484389".toList,
            .str "507".toList, .str "DOTA2".toList, .str "75".toList,
            .str "2019-11-24T15:00:00Z".toList, .time (now 0), .time (now 1)]) := by
  rfl

/-- C8, amended. On a fresh builder, for an entity with table name `T` whose
populated tagged fields have the valid columns `c1 < ... < ck`, neither `T` nor a
column containing `SELECT`, `Insert(e).ToSQL()` returns
`INSERT INTO T (c1, ..., ck, create_date, write_date) VALUES ($1, ..., $(k+2))`
followed by ` RETURNING ` and the identifier column, with `k + 2` arguments: the
rendered values of `c1..ck`, then two timestamps.  For `newGame()`, with seven
populated fields, that is nine placeholders and nine arguments. -/
theorem insert_toSQL_text (U : Unicode) (now : Nat → Nat) (e : Entity) (cs : List Str)
    (hasc : Ascending cs) (hcs : ∀ c, c ∈ cs ↔ c ∈ populatedColumns U "sql".toList e)
    (hne : ∀ c ∈ cs, c ≠ [])
    (hT : Contains e.TableName "SELECT".toList = false)
    (hc : ∀ c ∈ cs, Contains c "SELECT".toList = false) :
    rendered U (Build.Insert U now (.entity e))
        = .ok
          ("INSERT INTO ".toList ++ e.TableName ++ " (".toList
              ++ Join (cs ++ ["create_date".toList, "write_date".toList]) ", ".toList
              ++ ") VALUES (".toList ++ Join (insertParams (cs.length + 2)) ", ".toList
              ++ ")".toList ++ " RETURNING ".toList ++ idColumn U "sql".toList [] e,
            cs.map (fun c => Arg.str (renderedOf U "sql".toList e c))
              ++ [Arg.time (now 0), Arg.time (now 1)])
      ∧ rendered asciiUnicode (Build.Insert asciiUnicode now (.entity newGame))
        = .ok
          ("INSERT INTO ref_game (enabled, game_code, game_description, game_id, game_title, rate, release, create_date, write_date) VALUES ($1, $2, $3, $4, $5, $6, $7, $8, $9) RETURNING game_id".toList,
            [.str "true".toList, .str "uuid".toList, .str "08675467484389".toList,
              .str "507".toList, .str "DOTA2".toList, .str "75".toList,
              .str "2019-11-24T15:00:00Z".toList, .time (now 0), .time (now 1)]) := by
  refine ⟨?_, testRawQuery_Insert now⟩
  have hkeys : sortStrings (fieldMapOf U "sql".toList e).keys = cs :=
    sortStrings_eq_of_ascending _ cs (fieldMapOf_keys_nodup U _ e) hasc
      (fun c => by rw [hcs c, mem_fieldMapOf_keys])
  have hval : cs.map (fun k => Arg.str ((fieldMapOf U "sql".toList e).val k))
      = cs.map (fun c => Arg.str (renderedOf U "sql".toList e c)) := by
    apply List.map_congr_left
    intro c hc'
    rw [fieldMapOf_val U _ e c ((hcs c).1 hc')]
  have hnosel : Contains
      ("INSERT INTO ".toList ++ e.TableName ++ " (".toList
        ++ Join (cs ++ ["create_date".toList, "write_date".toList]) ", ".toList ++ ") ".toList
        ++ "VALUES (".toList ++ Join (insertParams (cs.length + 2)) ", ".toList ++ ")".toList)
      "SELECT".toList = false := by
    rw [← NoPat_id_iff_Contains]
    apply NoPat_insert_text
    · rw [NoPat_id_iff_Contains]; exact hT
    · intro c hc'
      rcases List.mem_append.1 hc' with h | h
      · rw [NoPat_id_iff_Contains]; exact hc c h
      · simp only [List.mem_cons, List.mem_singleton, List.not_mem_nil, or_false] at h
        rcases h with h | h <;> rw [h] <;> unfold NoPat <;> decide
    · exact NoPat_insertParams _
  rw [insert_build U now e cs hkeys hne]
  unfold rendered
  simp only []
  rw [ToSQL_eq U _ _ rfl]
  simp only [whereClause, if_true, List.append_nil, whereArgs, List.map_nil, List.flatten_nil]
  have hlimit : limitClause
      { raw := some
          { Model := some (.entity e), ID := idColumn U "sql".toList [] e,
            TagName := "sql".toList, whereConditions := [] }
        QueryStr := "INSERT INTO ".toList ++ e.TableName ++ " (".toList
          ++ Join (cs ++ ["create_date".toList, "write_date".toList]) ", ".toList
          ++ ") ".toList ++ "VALUES (".toList
          ++ Join (insertParams (cs.length + 2)) ", ".toList ++ ")".toList
        Args := cs.map (fun c => Arg.str ((fieldMapOf U "sql".toList e).val c))
          ++ [Arg.time (now 0), Arg.time (now 1)]
        Rows := 0
        Offset := 0 } = [] := by
    unfold limitClause
    simp only []
    rw [hnosel]
    simp
  rw [hlimit, hval]
  simp only [List.append_nil]
  have hret := returningClause_insert U (idColumn U "sql".toList [] e)
    (e.TableName ++ " (".toList
      ++ Join (cs ++ ["create_date".toList, "write_date".toList]) ", ".toList ++ ") ".toList
      ++ "VALUES (".toList ++ Join (insertParams (cs.length + 2)) ", ".toList ++ ")".toList)
  simp only [List.append_assoc] at hret ⊢
  rw [hret]
  simp

/-! ## Positional markers -/

theorem markersFrom_idle_append (xs ys : Str) (h : '$' ∉ xs) :
    markersFrom .idle (xs ++ ys) = markersFrom .idle ys := by
  induction xs with
  | nil => rfl
  | cons c cs ih =>
    have hc : c ≠ '$' := fun e => h (by simp [e])
    have hcs : '$' ∉ cs := fun e => h (List.mem_cons_of_mem _ e)
    simp only [List.cons_append, markersFrom, hc, if_false, Scan.flush, List.nil_append]
    split <;> exact ih hcs

theorem markers_append (xs ys : Str) (h : '$' ∉ xs) : markers (xs ++ ys) = markers ys :=
  markersFrom_idle_append xs ys h

theorem markers_of_not_mem (xs : Str) (h : '$' ∉ xs) : markers xs = [] := by
  have := markers_append xs [] h
  rw [List.append_nil] at this
  rw [this]
  rfl

theorem markersFrom_digit (st : Scan) (d : Nat) (hd : d < 10) (rest : Str) :
    markersFrom st (Nat.digitChar d :: rest)
      = match st with
        | .idle => markersFrom .idle rest
        | .dollar => markersFrom (.num d) rest
        | .num n => markersFrom (.num (10 * n + d)) rest := by
  obtain ⟨h1, h2, h3, _⟩ := digitChar_props d hd
  cases st <;> simp only [markersFrom, h3, if_false, h1, if_true, h2]

theorem markersFrom_dollar_fmtNat (n : Nat) (rest : Str) :
    markersFrom .dollar (fmtNat n ++ rest) = markersFrom (.num n) rest := by
  induction n using Nat.strong_induction_on generalizing rest with
  | _ n ih =>
    by_cases h : n < 10
    · rw [fmtNat_lt n h, List.singleton_append, markersFrom_digit _ n h]
    · rw [fmtNat_ge n (by omega), List.append_assoc, List.singleton_append,
        ih (n / 10) (Nat.div_lt_self (by omega) (by decide)),
        markersFrom_digit _ (n % 10) (Nat.mod_lt _ (by decide))]
      simp only []
      congr 2
      omega

theorem markersFrom_num (n : Nat) (rest : Str) (h : startsDigit rest = false) :
    markersFrom (.num n) rest = n :: markers rest := by
  cases rest with
  | nil => rfl
  | cons c cs =>
    have hc : c.isDigit = false := h
    unfold markers
    by_cases hd : c = '$'
    · simp [markersFrom, hd, Scan.flush]
    · simp [markersFrom, hd, hc, Scan.flush]

/-- A marker in front of a text that does not start with a digit. -/
theorem markers_marker (n : Nat) (rest : Str) (h : startsDigit rest = false) :
    markers (('$' :: fmtNat n) ++ rest) = n :: markers rest := by
  unfold markers
  rw [List.cons_append]
  simp only [markersFrom, if_true, Scan.flush, List.nil_append]
  rw [markersFrom_dollar_fmtNat, markersFrom_num n rest h]
  rfl

/-- Consecutive markers joined by a comma and a blank. -/
theorem markers_Join_markers (a w : Nat) (rest : Str) (h : startsDigit rest = false) :
    markers (Join ((List.range' a w).map (fun i => '$' :: fmtNat i)) ", ".toList ++ rest)
      = List.range' a w ++ markers rest := by
  induction w generalizing a with
  | zero => simp [Join_nil]
  | succ w ih =>
    cases w with
    | zero =>
      simp only [List.range'_one, List.map_cons, List.map_nil, Join_singleton, zero_add]
      rw [markers_marker a rest h]
      rfl
    | succ w =>
      rw [List.range'_succ, List.map_cons, Join_cons_of_ne_nil _ _ _ (by simp [List.range'_succ]),
        List.append_assoc, List.append_assoc, markers_marker a _ (by rfl),
        markers_append ", ".toList _ (by decide), ih (a + 1)]
      simp [List.range'_succ]

theorem range'_add (a m n : Nat) :
    List.range' a (m + n) = List.range' a m ++ List.range' (a + m) n := by
  induction m generalizing a with
  | zero => simp
  | succ m ih =>
    rw [show m + 1 + n = (m + n) + 1 by omega, List.range'_succ, List.range'_succ, ih (a + 1),
      show a + 1 + m = a + (m + 1) by omega]
    rfl

theorem valuesList_cons (row : List Str) (rows : List (List Str)) (h : rows ≠ []) :
    valuesList (row :: rows)
      = "(".toList ++ Join row ", ".toList ++ ")".toList ++ ", ".toList ++ valuesList rows := by
  unfold valuesList
  rw [List.map_cons, Join_cons_of_ne_nil _ _ _ (by simpa using h)]

theorem markerRows_ne_nil (n w : Nat) (ws : List Nat) : markerRows n (w :: ws) ≠ [] := by
  simp [markerRows]

/-- The markers of the VALUES list are consecutive across the rows. -/
theorem markers_valuesList (n : Nat) (ws : List Nat) (rest : Str)
    (h : startsDigit rest = false) :
    markers (valuesList (markerRows n ws) ++ rest)
      = List.range' (n + 1) ws.sum ++ markers rest := by
  induction ws generalizing n with
  | nil => simp [markerRows, valuesList, Join_nil]
  | cons w ws ih =>
    have hrow : ∀ tail : Str, startsDigit tail = false →
        markers ("(".toList ++ Join ((List.range' (n + 1) w).map (fun i => '$' :: fmtNat i))
            ", ".toList ++ ")".toList ++ tail)
          = List.range' (n + 1) w ++ markers tail := by
      intro tail _
      rw [List.append_assoc, List.append_assoc, markers_append "(".toList _ (by decide),
        markers_Join_markers _ _ _ (by rfl), markers_append ")".toList _ (by decide)]
    cases ws with
    | nil =>
      simp only [markerRows, valuesList, List.map_cons, List.map_nil, Join_singleton,
        List.sum_cons, List.sum_nil, Nat.add_zero]
      exact hrow rest h
    | cons w' ws' =>
      rw [markerRows, valuesList_cons _ _ (markerRows_ne_nil _ _ _), List.append_assoc,
        List.append_assoc, hrow _ (by rfl), markers_append ", ".toList _ (by decide),
        ih (n + w), ← List.append_assoc, show n + w + 1 = n + 1 + w by omega,
        ← range'_add, List.sum_cons (a := w)]

/-! ## `Inserts` -/

theorem sortStrings_keys_length (U : Unicode) (tag : Str) (e : Entity) :
    (sortStrings (fieldMapOf U tag e).keys).length + 2 = rowWidth U tag e := by
  unfold rowWidth sortStrings
  rw [List.length_insertionSort]
  congr 1
  apply List.Perm.length_eq
  rw [List.perm_ext_iff_of_nodup (fieldMapOf_keys_nodup U tag e) (List.nodup_dedup _)]
  intro c
  rw [mem_fieldMapOf_keys, List.mem_dedup]

theorem insertsRows_eq (U : Unicode) (now : Nat → Nat) (es : List Entity) (i : Nat) (r : SQL)
    (s : Query) (rows : List (List Str)) :
    ∃ ID A, insertsRows U now es i r s rows
        = .ok (rows ++ markerRows s.Args.length (es.map (rowWidth U r.TagName)),
            { r with ID := ID }, { s with Args := s.Args ++ A })
      ∧ A.length = (es.map (rowWidth U r.TagName)).sum := by
  induction es generalizing i r s rows with
  | nil => exact ⟨r.ID, [], by simp [insertsRows, markerRows], rfl⟩
  | cons e es ih =>
    unfold insertsRows
    rw [fieldsToArgs_entity]
    simp only []
    rw [emitted_positional_fst, emitted_positional_snd]
    have hw := sortStrings_keys_length U r.TagName e
    obtain ⟨ID, A, h1, h2⟩ := ih (i + 1) { r with ID := idColumn U r.TagName r.ID e }
      { s with
        Args := s.Args ++ (sortStrings (fieldMapOf U r.TagName e).keys).map
            (fun k => Arg.str ((fieldMapOf U r.TagName e).val k))
          ++ [Arg.time (now (2 * i)), Arg.time (now (2 * i + 1))] }
      (rows ++
        [(List.range' (s.Args.length + 1) (sortStrings (fieldMapOf U r.TagName e).keys).length).map
            (fun i => '$' :: fmtNat i)
          ++ ['$' :: fmtNat ((s.Args ++ (sortStrings (fieldMapOf U r.TagName e).keys).map
                (fun k => Arg.str ((fieldMapOf U r.TagName e).val k))).length + 1),
              '$' :: fmtNat ((s.Args ++ (sortStrings (fieldMapOf U r.TagName e).keys).map
                (fun k => Arg.str ((fieldMapOf U r.TagName e).val k))).length + 2)]])
    refine ⟨ID, (sortStrings (fieldMapOf U r.TagName e).keys).map
        (fun k => Arg.str ((fieldMapOf U r.TagName e).val k))
        ++ [Arg.time (now (2 * i)), Arg.time (now (2 * i + 1))] ++ A, ?_, ?_⟩
    · rw [h1]
      simp only [List.map_cons, markerRows, List.length_append, List.length_map,
        List.length_cons, List.length_nil, List.append_assoc]
      rw [← hw]
      have hrow : (List.range' (s.Args.length + 1)
            ((sortStrings (fieldMapOf U r.TagName e).keys).length + 2)).map
              (fun i => '$' :: fmtNat i)
          = (List.range' (s.Args.length + 1) (sortStrings (fieldMapOf U r.TagName e).keys).length).map
              (fun i => '$' :: fmtNat i)
            ++ ['$' :: fmtNat (s.Args.length + (sortStrings (fieldMapOf U r.TagName e).keys).length + 1),
                '$' :: fmtNat (s.Args.length + (sortStrings (fieldMapOf U r.TagName e).keys).length + 2)] := by
        rw [range'_add]
        simp [List.range'_succ, Nat.add_assoc, Nat.add_comm 1]
      rw [hrow]
      simp [Nat.add_assoc]
    · simp only [List.length_append, List.length_map, List.length_cons, List.length_nil,
        List.map_cons, List.sum_cons]
      rw [h2, ← hw]


theorem inserts_build (U : Unicode) (now : Nat → Nat) (first : Entity) (rest : List Entity) :
    ∃ s r, Build.Inserts U now (.slice (first :: rest)) = .ok s
      ∧ s.raw = some r ∧ r.whereConditions = []
      ∧ s.QueryStr
        = "INSERT INTO ".toList ++ first.TableName ++ " (".toList
          ++ Join (sortStrings (fieldMapOf U "sql".toList first).keys
              ++ ["create_date".toList, "write_date".toList]) ", ".toList
          ++ ") VALUES ".toList
          ++ valuesList (markerRows 0 ((first :: rest).map (rowWidth U "sql".toList)))
      ∧ s.Args.length = ((first :: rest).map (rowWidth U "sql".toList)).sum := by
  obtain ⟨ID, A, h1, h2⟩ := insertsRows_eq U now (first :: rest) 0
    { Model := some (.slice (first :: rest)), ID := [], TagName := "sql".toList,
      whereConditions := [] }
    { raw := some { Model := some (.slice (first :: rest)), ID := [], TagName := "sql".toList,
                    whereConditions := [] },
      QueryStr := [], Args := [], Rows := 0, Offset := 0 } []
  refine ⟨{ raw := some
              { Model := some (.slice (first :: rest))
                ID := idColumn U "sql".toList ID first
                TagName := "sql".toList
                whereConditions := [] }
            QueryStr := "INSERT INTO ".toList ++ first.TableName ++ " (".toList
              ++ Join (sortStrings (fieldMapOf U "sql".toList first).keys
                  ++ ["create_date".toList, "write_date".toList]) ", ".toList
              ++ ") ".toList ++ "VALUES ".toList
              ++ valuesList (markerRows 0 ((first :: rest).map (rowWidth U "sql".toList)))
            Args := A
            Rows := 0
            Offset := 0 },
          { Model := some (.slice (first :: rest))
            ID := idColumn U "sql".toList ID first
            TagName := "sql".toList
            whereConditions := [] }, ?_, rfl, rfl, ?_, ?_⟩
  · unfold Query.Inserts SQL.inserts
    simp only [Build, Query.NewScope]
    rw [h1]
    simp only [TagsToField_entity, List.nil_append, List.length_nil, valuesList]
  · simp
  · simpa using h2

/-- C9, amended. For every non-empty slice passed to `Inserts` on a fresh
builder, the VALUES list has one row of markers for each element, the markers
read from left to right across the rows being exactly `$1`, ..., `$N`; `N` is the
number of returned arguments and the sum over the rows of the number of distinct
columns of the populated tagged fields of the row, plus 2.  Three rows of
`newGame()` give 27 arguments. -/
theorem inserts_markers_contiguous (U : Unicode) (now : Nat → Nat) (first : Entity)
    (rest : List Entity) :
    (∃ s tail args,
        Build.Inserts U now (.slice (first :: rest)) = .ok s
          ∧ s.QueryStr
            = "INSERT INTO ".toList ++ first.TableName ++ " (".toList
              ++ Join (sortStrings (fieldMapOf U "sql".toList first).keys
                  ++ ["create_date".toList, "write_date".toList]) ", ".toList
              ++ ") VALUES ".toList
              ++ valuesList (markerRows 0 ((first :: rest).map (rowWidth U "sql".toList)))
          ∧ rendered U (.ok s) = .ok (s.QueryStr ++ tail, args)
          ∧ markers (valuesList (markerRows 0 ((first :: rest).map (rowWidth U "sql".toList))))
            = List.range' 1 args.length
          ∧ args.length = ((first :: rest).map (rowWidth U "sql".toList)).sum)
      ∧ ∃ text args,
          rendered asciiUnicode (Build.Inserts asciiUnicode now (.slice [newGame, newGame, newGame]))
            = .ok (text, args) ∧ args.length = 27 := by
  have main : ∀ (U : Unicode) (first : Entity) (rest : List Entity),
      ∃ s tail args,
        Build.Inserts U now (.slice (first :: rest)) = .ok s
          ∧ s.QueryStr
            = "INSERT INTO ".toList ++ first.TableName ++ " (".toList
              ++ Join (sortStrings (fieldMapOf U "sql".toList first).keys
                  ++ ["create_date".toList, "write_date".toList]) ", ".toList
              ++ ") VALUES ".toList
              ++ valuesList (markerRows 0 ((first :: rest).map (rowWidth U "sql".toList)))
          ∧ rendered U (.ok s) = .ok (s.QueryStr ++ tail, args)
          ∧ markers (valuesList (markerRows 0 ((first :: rest).map (rowWidth U "sql".toList))))
            = List.range' 1 args.length
          ∧ args.length = ((first :: rest).map (rowWidth U "sql".toList)).sum := by
    intro U first rest
    obtain ⟨s, r, h1, hraw, hws, hq, hlen⟩ := inserts_build U now first rest
    refine ⟨s, limitClause s ++ returningClause U r.ID (s.QueryStr ++ limitClause s), s.Args,
      h1, hq, ?_, ?_, hlen⟩
    · unfold rendered
      simp only []
      rw [ToSQL_eq U s r hraw, hws]
      simp only [whereClause, if_true, List.append_nil, whereArgs, List.map_nil,
        List.flatten_nil, List.append_assoc]
    · have := markers_valuesList 0 ((first :: rest).map (rowWidth U "sql".toList)) [] rfl
      rw [List.append_nil] at this
      rw [this, hlen]
      simp [markers, markersFrom, Scan.flush]
  refine ⟨main U first rest, ?_⟩
  obtain ⟨s, tail, args, h1, _, h3, _, h5⟩ := main asciiUnicode newGame [newGame, newGame]
  refine ⟨s.QueryStr ++ tail, args, ?_, ?_⟩
  · rw [h1]
    exact h3
  · rw [h5]
    decide

/-! ## Markers of the rendered WHERE clause -/

theorem startsDigit_renumber (n : Nat) (q rest : Str) (hq : startsDigit q = false)
    (hrest : startsDigit rest = false) : startsDigit (renumber n q ++ rest) = false := by
  cases q with
  | nil => exact hrest
  | cons c cs =>
    by_cases hc : c = '?'
    · simp [renumber, hc, startsDigit]
    · simp only [renumber, hc, if_false, List.cons_append, startsDigit]
      exact hq

theorem markers_renumber (q : Str) (n : Nat) (rest : Str) (hd : '$' ∉ q)
    (hq : noDigitAfterQuestion q = true) (hrest : startsDigit rest = false) :
    markers (renumber n q ++ rest) = List.range' (n + 1) (Count q '?') ++ markers rest := by
  induction q generalizing n with
  | nil => simp [renumber, Count]
  | cons c cs ih =>
    have hcs : '$' ∉ cs := fun h => hd (List.mem_cons_of_mem _ h)
    by_cases hc : c = '?'
    · subst hc
      simp only [noDigitAfterQuestion, if_true, Bool.and_eq_true, Bool.not_eq_true'] at hq
      have hcount : Count ('?' :: cs) '?' = Count cs '?' + 1 := by simp [Count]
      simp only [renumber, if_true]
      rw [List.append_assoc, markers_marker _ _ (startsDigit_renumber _ _ _ hq.1 hrest),
        ih (n + 1) hcs hq.2, hcount, List.range'_succ]
      rfl
    · have hq' : noDigitAfterQuestion cs = true := by
        simpa [noDigitAfterQuestion, hc] using hq
      have hcount : Count (c :: cs) '?' = Count cs '?' := by simp [Count, List.count_cons, hc]
      have hc' : '$' ∉ [c] := by
        intro h
        rw [List.mem_singleton] at h
        exact hd (h ▸ List.mem_cons_self _ _)
      simp only [renumber, hc, if_false]
      rw [hcount, ← ih n hcs hq']
      exact markers_append [c] _ hc'

theorem whereArgs_cons (w : WhereCond) (ws : List WhereCond) :
    whereArgs (w :: ws) = w.args ++ whereArgs ws := by
  simp [whereArgs]

theorem markers_renderWhere (ws : List WhereCond) (n : Nat) (rest : Str)
    (hok : ∀ w ∈ ws, FragOk w) (hblank : ∀ w ∈ ws.tail, ∃ q, w.query = ' ' :: q)
    (hrest : startsDigit rest = false) :
    markers (renderWhere n ws ++ rest)
      = List.range' (n + 1) (whereArgs ws).length ++ markers rest := by
  induction ws generalizing n with
  | nil => simp [renderWhere, whereArgs]
  | cons w ws ih =>
    obtain ⟨h1, h2, h3⟩ := hok w (List.mem_cons_self _ _)
    have hok' : ∀ w ∈ ws, FragOk w := fun w hw => hok w (List.mem_cons_of_mem _ hw)
    have hblank' : ∀ w ∈ ws.tail, ∃ q, w.query = ' ' :: q :=
      fun w hw => hblank w (List.mem_of_mem_tail hw)
    have hnext : startsDigit (renderWhere (n + w.args.length) ws ++ rest) = false := by
      cases ws with
      | nil => exact hrest
      | cons w' ws' =>
        obtain ⟨q, hq⟩ := hblank w' (by simp)
        simp only [renderWhere]
        rw [hq]
        simp [renumber, startsDigit]
    simp only [renderWhere]
    rw [List.append_assoc, markers_renumber _ _ _ h1 h3 hnext, ih _ hok' hblank', whereArgs_cons,
      List.length_append, h2, range'_add, List.append_assoc]
    rw [show n + w.args.length + 1 = n + 1 + w.args.length by omega]

/-! ## Fragments made of conditions -/

theorem mem_Join (sep : Str) (xs : List Str) (c : Char) (h : c ∈ Join xs sep) :
    c ∈ sep ∨ ∃ x ∈ xs, c ∈ x := by
  induction xs with
  | nil => simp [Join_nil] at h
  | cons x xs ih =>
    cases xs with
    | nil =>
      rw [Join_singleton] at h
      exact Or.inr ⟨x, List.mem_cons_self _ _, h⟩
    | cons y ys =>
      rw [Join_cons_cons, List.mem_append, List.mem_append] at h
      rcases h with (h | h) | h
      · exact Or.inr ⟨x, List.mem_cons_self _ _, h⟩
      · exact Or.inl h
      · rcases ih h with h' | ⟨z, hz, hc⟩
        · exact Or.inl h'
        · exact Or.inr ⟨z, List.mem_cons_of_mem _ hz, hc⟩

theorem noDigitAfterQuestion_append (p q : Str) (hp : '?' ∉ p) :
    noDigitAfterQuestion (p ++ q) = noDigitAfterQuestion q := by
  induction p with
  | nil => rfl
  | cons c cs ih =>
    have hc : c ≠ '?' := fun h => hp (by simp [h])
    have hcs : '?' ∉ cs := fun h => hp (List.mem_cons_of_mem _ h)
    simp only [List.cons_append, noDigitAfterQuestion, hc, if_false]
    exact ih hcs

theorem noDigitAfterQuestion_condition (a c rest : Str) (ha : '?' ∉ a) (hc : '?' ∉ c) :
    noDigitAfterQuestion (a ++ ".".toList ++ c ++ " = ?".toList ++ rest)
      = (!startsDigit rest && noDigitAfterQuestion rest) := by
  have e : a ++ ".".toList ++ c ++ " = ?".toList ++ rest
      = (a ++ ".".toList ++ c ++ " = ".toList) ++ ('?' :: rest) := by simp
  have hp : '?' ∉ a ++ ".".toList ++ c ++ " = ".toList := by
    simp only [List.mem_append, not_or]
    exact ⟨⟨⟨ha, by decide⟩, hc⟩, by decide⟩
  rw [e, noDigitAfterQuestion_append _ _ hp]
  simp [noDigitAfterQuestion]

theorem noDigitAfterQuestion_joined (a sep : Str) (cs : List Str) (ha : '?' ∉ a)
    (hsep : '?' ∉ ' ' :: sep) (hcs : ∀ c ∈ cs, '?' ∉ c) :
    noDigitAfterQuestion
      (Join (cs.map (fun c => a ++ ".".toList ++ c ++ " = ?".toList)) (' ' :: sep)) = true := by
  induction cs with
  | nil => simp [Join_nil, noDigitAfterQuestion]
  | cons c cs ih =>
    have hc : '?' ∉ c := hcs c (List.mem_cons_self _ _)
    have hcs' : ∀ c ∈ cs, '?' ∉ c := fun c hc => hcs c (List.mem_cons_of_mem _ hc)
    cases cs with
    | nil =>
      simp only [List.map_cons, List.map_nil, Join_singleton]
      have := noDigitAfterQuestion_condition a c [] ha hc
      rw [List.append_nil] at this
      rw [this]
      rfl
    | cons d ds =>
      have ih' := ih hcs'
      simp only [List.map_cons] at ih' ⊢
      rw [Join_cons_cons, List.append_assoc, noDigitAfterQuestion_condition a c _ ha hc,
        noDigitAfterQuestion_append _ _ hsep, ih']
      rfl

/-- The fragment of `From`, `And` and `Or` is well formed when the names are
free of markers. -/
theorem FragOk_conditions (a pre sep : Str) (cs : List Str) (vals : List Arg)
    (ha : markerFreeName a) (hcs : ∀ c ∈ cs, markerFreeName c)
    (hpre : '$' ∉ pre ∧ '?' ∉ pre) (hsep : '$' ∉ ' ' :: sep ∧ '?' ∉ ' ' :: sep)
    (hvals : vals.length = cs.length) :
    FragOk ⟨pre ++ Join (cs.map (fun c => a ++ ".".toList ++ c ++ " = ?".toList)) (' ' :: sep),
      vals⟩ := by
  refine ⟨?_, ?_, ?_⟩
  · simp only [List.mem_append, not_or]
    refine ⟨hpre.1, ?_⟩
    intro h
    rcases mem_Join _ _ _ h with h | ⟨x, hx, hc⟩
    · exact hsep.1 h
    · rw [List.mem_map] at hx
      obtain ⟨c, hc', rfl⟩ := hx
      simp only [List.mem_append] at hc
      rcases hc with ((hc | hc) | hc) | hc
      · exact ha.1 hc
      · revert hc; decide
      · exact (hcs c hc').1 hc
      · revert hc; decide
  · simp only []
    rw [Count_append, Count_of_not_mem _ hpre.2,
      (renumber_joined_conditions a (' ' :: sep) cs 0 ha.2 hsep.2 (fun c hc => (hcs c hc).2)).2,
      hvals]
    simp
  · simp only []
    rw [noDigitAfterQuestion_append _ _ hpre.2]
    exact noDigitAfterQuestion_joined a sep cs ha.2 hsep.2 (fun c hc => (hcs c hc).2)

theorem idColumn_mem (U : Unicode) (tag prev : Str) (e : Entity) :
    idColumn U tag prev e = prev ∨ ∃ f ∈ e.fields, idColumn U tag prev e = f.column U tag := by
  unfold idColumn
  generalize e.fields = fields
  induction fields using List.reverseRecOn with
  | nil => exact Or.inl rfl
  | append_singleton fs f ih =>
    rw [List.foldl_append, List.foldl_cons, List.foldl_nil]
    by_cases h : equalFoldID f.Name = true
    · rw [if_pos h]
      exact Or.inr ⟨f, by simp, rfl⟩
    · rw [if_neg h]
      rcases ih with h' | ⟨g, hg, h'⟩
      · exact Or.inl h'
      · exact Or.inr ⟨g, by simp [hg], h'⟩

theorem populatedColumns_markerFree (U : Unicode) (e : Entity) (h : markerFreeColumns U e)
    (c : Str) (hc : c ∈ sortStrings (fieldMapOf U "sql".toList e).keys) : markerFreeName c := by
  rw [mem_sortStrings, mem_fieldMapOf_keys] at hc
  unfold populatedColumns at hc
  rw [List.mem_map] at hc
  obtain ⟨f, hf, rfl⟩ := hc
  exact h f (List.mem_filter.1 hf).1

theorem idColumn_markerFree (U : Unicode) (prev : Str) (e : Entity) (h : markerFreeColumns U e)
    (hprev : '$' ∉ prev) : '$' ∉ idColumn U "sql".toList prev e := by
  rcases idColumn_mem U "sql".toList prev e with h' | ⟨f, hf, h'⟩
  · rw [h']; exact hprev
  · rw [h']; exact (h f hf).1

/-! ## `Join` on any SELECT -/

theorem Index_prefix_drop (s sub : Str) (h : 0 ≤ Index s sub) :
    sub <+: s.drop (Index s sub).toNat := by
  induction s with
  | nil =>
    unfold Index at h ⊢
    by_cases hs : sub = []
    · simp [hs]
    · simp [hs] at h
  | cons c cs ih =>
    rw [Index_cons] at h ⊢
    by_cases hp : sub.isPrefixOf (c :: cs) = true
    · rw [if_pos hp]
      exact List.isPrefixOf_iff_prefix.1 hp
    · rw [if_neg hp] at h ⊢
      by_cases hi : Index cs sub < 0
      · rw [if_pos hi] at h
        omega
      · rw [if_neg hi]
        have h0 : 0 ≤ Index cs sub := by omega
        have := ih h0
        have e : (Index cs sub + 1).toNat = (Index cs sub).toNat + 1 := by omega
        rw [e, List.drop_succ_cons]
        exact this

theorem Index_cons_ne (c : Char) (xs : Str) (hc : c ≠ 'F') :
    Index (c :: xs) "FROM".toList
      = if Index xs "FROM".toList < 0 then -1 else Index xs "FROM".toList + 1 := by
  rw [Index_cons]
  have : "FROM".toList.isPrefixOf (c :: xs) = false := by
    have e : "FROM".toList = 'F' :: "ROM".toList := rfl
    rw [e, List.isPrefixOf]
    have : ('F' == c) = false := by
      simpa using fun h : 'F' = c => hc h.symm
    simp [this]
  rw [this]
  simp

theorem Index_cons_ne_nonneg (c : Char) (xs : Str) (hc : c ≠ 'F')
    (h : 0 ≤ Index (c :: xs) "FROM".toList) :
    0 ≤ Index xs "FROM".toList
      ∧ Index (c :: xs) "FROM".toList = Index xs "FROM".toList + 1 := by
  rw [Index_cons_ne c xs hc] at h ⊢
  by_cases hi : Index xs "FROM".toList < 0
  · rw [if_pos hi] at h
    omega
  · rw [if_neg hi]
    exact ⟨by omega, rfl⟩

theorem Index_SELECT (rest : Str) (h : 0 ≤ Index ("SELECT".toList ++ rest) "FROM".toList) :
    0 ≤ Index rest "FROM".toList
      ∧ Index ("SELECT".toList ++ rest) "FROM".toList = Index rest "FROM".toList + 6 := by
  have e : "SELECT".toList ++ rest = 'S' :: 'E' :: 'L' :: 'E' :: 'C' :: 'T' :: rest := rfl
  rw [e] at h ⊢
  obtain ⟨h1, e1⟩ := Index_cons_ne_nonneg _ _ (by decide) h
  obtain ⟨h2, e2⟩ := Index_cons_ne_nonneg _ _ (by decide) h1
  obtain ⟨h3, e3⟩ := Index_cons_ne_nonneg _ _ (by decide) h2
  obtain ⟨h4, e4⟩ := Index_cons_ne_nonneg _ _ (by decide) h3
  obtain ⟨h5, e5⟩ := Index_cons_ne_nonneg _ _ (by decide) h4
  obtain ⟨h6, e6⟩ := Index_cons_ne_nonneg _ _ (by decide) h5
  exact ⟨h6, by omega⟩

theorem rdropWhile_cons_of_neg (p : Char → Bool) (x : Char) (xs : Str) (hx : ¬ p x = true) :
    (x :: xs).rdropWhile p = x :: xs.rdropWhile p := by
  induction xs using List.reverseRecOn with
  | nil =>
    have := List.rdropWhile_concat_neg p [] x hx
    simpa using this
  | append_singleton ys y ih =>
    rw [← List.cons_append, List.rdropWhile_concat, List.rdropWhile_concat, ih]
    split <;> rfl

theorem TrimRight_SELECT (xs : Str) :
    TrimRight ("SELECT".toList ++ xs) " ".toList = "SELECT".toList ++ TrimRight xs " ".toList := by
  unfold TrimRight
  have e : "SELECT".toList ++ xs = 'S' :: 'E' :: 'L' :: 'E' :: 'C' :: 'T' :: xs := rfl
  rw [e, rdropWhile_cons_of_neg _ _ _ (by decide), rdropWhile_cons_of_neg _ _ _ (by decide),
    rdropWhile_cons_of_neg _ _ _ (by decide), rdropWhile_cons_of_neg _ _ _ (by decide),
    rdropWhile_cons_of_neg _ _ _ (by decide), rdropWhile_cons_of_neg _ _ _ (by decide)]
  rfl

theorem mem_TrimRight (xs cut : Str) (c : Char) (h : c ∈ TrimRight xs cut) : c ∈ xs :=
  (List.rdropWhile_prefix _ xs).subset h

/-- After a SELECT that holds a FROM, `Join` returns: the new text still starts
with SELECT and holds a FROM, and it has no `$` when the texts passed have none. -/
theorem join_select (s : Query) (r : SQL) (m : Entity) (b : Str) (onArgs : List Str)
    (hr : s.raw = some r) (hsel : "SELECT".toList <+: s.QueryStr)
    (hfrm : "FROM".toList <:+: s.QueryStr) :
    ∃ text, s.Join (.entity m) b onArgs = .ok { s with raw := some r, QueryStr := text }
      ∧ "SELECT".toList <+: text ∧ "FROM".toList <:+: text
      ∧ (('$' ∉ s.QueryStr ∧ '$' ∉ m.TableName ∧ '$' ∉ b ∧ ∀ o ∈ onArgs, '$' ∉ o) → '$' ∉ text) := by
  obtain ⟨rest, hq⟩ := hsel
  have hcont : Contains s.QueryStr "SELECT".toList = true := by
    rw [Contains_iff, ← hq]
    exact ⟨[], rest, rfl⟩
  have hidx0 : 0 ≤ Index ("SELECT".toList ++ rest) "FROM".toList := by
    rw [Index_nonneg_iff, hq]
    exact hfrm
  obtain ⟨h0, hidx⟩ := Index_SELECT rest hidx0
  obtain ⟨k, hk⟩ : ∃ k : Nat, Index rest "FROM".toList = k := ⟨(Index rest "FROM".toList).toNat, by omega⟩
  have hpre := Index_prefix_drop rest "FROM".toList h0
  rw [hk, Int.toNat_ofNat] at hpre
  rw [hk] at hidx
  have hlen : ((k : Int) + 6).toNat = "SELECT".toList.length + k := by
    have : "SELECT".toList.length = 6 := rfl
    omega
  have htake : (("SELECT".toList ++ rest).take ((k : Int) + 6).toNat)
      = "SELECT".toList ++ rest.take k := by
    rw [hlen, List.take_append]
  have hdrop : (("SELECT".toList ++ rest).drop ((k : Int) + 6).toNat) = rest.drop k := by
    rw [hlen, List.drop_append]
  have hnot : ¬ ((k : Int) + 6 < 1) := by omega
  refine ⟨"SELECT".toList ++ TrimRight (rest.take k) " ".toList ++ ", ".toList
      ++ (b ++ ".* ".toList) ++ rest.drop k ++ " JOIN ".toList
      ++ (m.TableName ++ " ".toList ++ b) ++ " ON ".toList ++ onArgs.flatten, ?_, ?_, ?_, ?_⟩
  · unfold Query.Join SQL.join
    rw [clone_fst_of_raw s r hr]
    simp only []
    rw [hcont, ← hq, hidx, htake, hdrop, TrimRight_SELECT]
    simp only [Bool.not_true, Bool.and_false, Bool.false_eq_true, if_false, hnot]
  · exact ⟨_, by simp only [List.append_assoc]; rfl⟩
  · obtain ⟨t, ht⟩ := hpre
    refine ⟨"SELECT".toList ++ TrimRight (rest.take k) " ".toList ++ ", ".toList
      ++ (b ++ ".* ".toList), t ++ " JOIN ".toList
      ++ (m.TableName ++ " ".toList ++ b) ++ " ON ".toList ++ onArgs.flatten, ?_⟩
    rw [← ht]
    simp only [List.append_assoc]
  · rintro ⟨h1, h2, h3, h4⟩
    have hrest : '$' ∉ rest := by
      intro h
      exact h1 (by rw [← hq]; exact List.mem_append_right _ h)
    simp only [List.mem_append, not_or, List.mem_flatten, not_exists, not_and]
    refine ⟨⟨⟨⟨⟨⟨⟨⟨by decide, ?_⟩, by decide⟩, ⟨h3, by decide⟩⟩, ?_⟩, by decide⟩,
      ⟨⟨h2, by decide⟩, h3⟩⟩, by decide⟩, ?_⟩
    · intro h
      exact hrest (List.mem_of_mem_take (mem_TrimRight _ _ _ h))
    · intro h
      exact hrest (List.mem_of_mem_drop h)
    · intro o ho h
      exact h4 o ho h

/-! ## The invariant of a chain -/

theorem from_ChainInv (U : Unicode) (e : Entity) (a : Str) (hT : '$' ∉ e.TableName)
    (he : markerFreeColumns U e) (ha : markerFreeName a) :
    ∃ s r, Build.From U (.entity e) a = .ok s ∧ ChainInv s r := by
  rw [from_build]
  refine ⟨_, _, rfl, ChainInv.mk rfl rfl rfl ?_ ?_ ?_ ?_ ?_ ?_⟩
  · exact idColumn_markerFree U [] e he (by simp)
  · simp only [List.mem_append, not_or]
    exact ⟨⟨⟨by decide, ⟨ha.1, by decide⟩⟩, by decide⟩, ⟨⟨hT, by decide⟩, ha.1⟩⟩
  · exact ⟨_, by simp only [List.append_assoc]; rfl⟩
  · exact ⟨"SELECT ".toList ++ (a ++ ".* ".toList), " ".toList ++ (e.TableName ++ " ".toList ++ a),
      by simp⟩
  · intro w hw
    simp only [] at hw
    split at hw
    · simp at hw
    · rw [List.mem_singleton] at hw
      rw [hw]
      have := FragOk_conditions a [] "AND ".toList
        (sortStrings (fieldMapOf U "sql".toList e).keys)
        ((sortStrings (fieldMapOf U "sql".toList e).keys).map
          (fun c => Arg.str ((fieldMapOf U "sql".toList e).val c)))
        ha (populatedColumns_markerFree U e he) (by simp) (by decide) (by simp)
      simpa using this
  · intro w hw
    simp only [] at hw
    split at hw <;> simp at hw

theorem where_ChainInv (s : Query) (r : SQL) (query : Str) (args : List Arg)
    (h : ChainInv s r) (hw : FragOk ⟨query, args⟩) :
    ∃ r', ChainInv (s.Where query args) r' := by
  obtain ⟨h1, h2, h3, h4, h5, h6, h7, h8, h9⟩ := h
  unfold Query.Where SQL.Where
  rw [clone_fst_of_raw s r h1]
  refine ⟨_, ChainInv.mk rfl h2 h3 h4 h5 h6 h7 ?_ ?_⟩
  · intro w hmem
    simp only [List.mem_append, List.mem_singleton] at hmem
    rcases hmem with hmem | hmem
    · exact h8 w hmem
    · rw [hmem]
      obtain ⟨a1, a2, a3⟩ := hw
      split
      · refine ⟨?_, ?_, ?_⟩
        · simp only [List.mem_append, not_or]
          exact ⟨by decide, a1⟩
        · simp only []
          rw [Count_append, Count_of_not_mem _ (by decide)]
          simpa using a2
        · simp only []
          rw [noDigitAfterQuestion_append _ _ (by decide)]
          exact a3
      · exact ⟨a1, a2, a3⟩
  · intro w hmem
    simp only [] at hmem
    cases hws : r.whereConditions with
    | nil => rw [hws] at hmem; simp at hmem
    | cons w0 ws =>
      rw [hws] at hmem h9
      simp only [List.cons_append, List.tail_cons, List.mem_append, List.mem_singleton] at hmem h9
      rcases hmem with hmem | hmem
      · exact h9 w hmem
      · rw [hmem]
        simp only [List.length_cons, gt_iff_lt, Nat.succ_pos, if_true]
        exact ⟨"AND ".toList ++ query, rfl⟩

theorem operator_ChainInv (U : Unicode) (s : Query) (r : SQL) (m : Entity) (a op : Str)
    (h : ChainInv s r) (hm : markerFreeColumns U m) (ha : markerFreeName a)
    (hop : '$' ∉ op ∧ '?' ∉ op) :
    ∃ s' r', SQL.operator U s.clone.1 s.clone.2 (.entity m) a op = .ok s' ∧ ChainInv s' r' := by
  obtain ⟨h1, h2, h3, h4, h5, h6, h7, h8, h9⟩ := h
  have hcont : Contains s.QueryStr "SELECT".toList = true := by
    rw [Contains_iff]
    exact h6.isInfix
  unfold SQL.operator
  rw [clone_fst_of_raw s r h1]
  simp only []
  rw [hcont]
  simp only [Bool.not_true, Bool.false_eq_true, if_false]
  rw [fieldsToArgs_entity]
  simp only []
  rw [emitted_of_nonempty _ (fun k => a ++ ".".toList ++ k ++ " = ?".toList) _ _ _
    (fun _ _ _ => rfl) (fun k _ => by simp), h3, h2]
  have hid := idColumn_markerFree U r.ID m hm h4
  by_cases hks : sortStrings (fieldMapOf U "sql".toList m).keys = []
  · rw [hks]
    simp only [List.map_nil, List.length_nil, gt_iff_lt, Nat.lt_irrefl, if_false]
    exact ⟨_, _, rfl, ChainInv.mk rfl (by simp) rfl hid h5 h6 h7 h8 h9⟩
  · have hlen : (List.map Prod.fst
        ((sortStrings (fieldMapOf U "sql".toList m).keys).map
          fun k => (a ++ ".".toList ++ k ++ " = ?".toList,
            Arg.str ((fieldMapOf U "sql".toList m).val k)))).length > 0 := by
      cases hk : sortStrings (fieldMapOf U "sql".toList m).keys with
      | nil => exact absurd hk hks
      | cons c cs => simp
    rw [if_pos hlen]
    refine ⟨_, _, rfl, ChainInv.mk rfl rfl rfl hid h5 h6 h7 ?_ ?_⟩
    · intro w hmem
      simp only [List.mem_append, List.mem_singleton] at hmem
      rcases hmem with hmem | hmem
      · exact h8 w hmem
      · rw [hmem]
        have hsep : " ".toList ++ op ++ " ".toList = ' ' :: (op ++ " ".toList) := rfl
        have hsepOk : '$' ∉ ' ' :: (op ++ " ".toList) ∧ '?' ∉ ' ' :: (op ++ " ".toList) := by
          simp only [List.mem_cons, List.mem_append, not_or]
          exact ⟨⟨by decide, hop.1, by decide⟩, ⟨by decide, hop.2, by decide⟩⟩
        have := FragOk_conditions a
          (if r.whereConditions.length > 0 then ' ' :: (op ++ " ".toList) else [])
          (op ++ " ".toList) (sortStrings (fieldMapOf U "sql".toList m).keys)
          ([] ++ (sortStrings (fieldMapOf U "sql".toList m).keys).map
            (fun c => Arg.str ((fieldMapOf U "sql".toList m).val c)))
          ha (populatedColumns_markerFree U m hm)
          (by split
              · exact hsepOk
              · simp) hsepOk (by simp)
        simp only [List.map_map, hsep]
        exact this
    · intro w hmem
      simp only [] at hmem
      cases hws : r.whereConditions with
      | nil => rw [hws] at hmem; simp at hmem
      | cons w0 ws =>
        rw [hws] at hmem h9
        simp only [List.cons_append, List.tail_cons, List.mem_append, List.mem_singleton]
          at hmem h9
        rcases hmem with hmem | hmem
        · exact h9 w hmem
        · rw [hmem]
          simp only [List.length_cons, gt_iff_lt, Nat.succ_pos, if_true]
          exact ⟨_, rfl⟩

theorem join_ChainInv (s : Query) (r : SQL) (m : Entity) (b : Str) (onArgs : List Str)
    (h : ChainInv s r) (hm : '$' ∉ m.TableName) (hb : '$' ∉ b) (hon : ∀ o ∈ onArgs, '$' ∉ o) :
    ∃ s', s.Join (.entity m) b onArgs = .ok s' ∧ ChainInv s' r := by
  obtain ⟨h1, h2, h3, h4, h5, h6, h7, h8, h9⟩ := h
  obtain ⟨text, e1, e2, e3, e4⟩ := join_select s r m b onArgs h1 h6 h7
  exact ⟨_, e1, ChainInv.mk rfl h2 h3 h4 (e4 ⟨h5, hm, hb, hon⟩) e2 e3 h8 h9⟩

theorem runCalls_ChainInv (U : Unicode) (calls : List Call) (s : Query) (r : SQL)
    (h : ChainInv s r) (hcalls : ∀ c ∈ calls, c.wellFormed U) :
    ∃ s' r', runCalls U (.ok s) calls = .ok s' ∧ ChainInv s' r' := by
  induction calls generalizing s r with
  | nil => exact ⟨s, r, rfl, h⟩
  | cons c cs ih =>
    have hc := hcalls c (List.mem_cons_self _ _)
    have hcs : ∀ c ∈ cs, c.wellFormed U := fun c hc => hcalls c (List.mem_cons_of_mem _ hc)
    unfold runCalls
    rw [List.foldl_cons]
    simp only [andThen]
    cases c with
    | And m a =>
      obtain ⟨s', r', e, h'⟩ := operator_ChainInv U s r m a "AND".toList h hc.1 hc.2
        (by decide)
      have e' : Call.run U s (Call.And m a) = .ok s' := e
      rw [e']
      exact ih s' r' h' hcs
    | Or m a =>
      obtain ⟨s', r', e, h'⟩ := operator_ChainInv U s r m a "OR".toList h hc.1 hc.2
        (by decide)
      have e' : Call.run U s (Call.Or m a) = .ok s' := e
      rw [e']
      exact ih s' r' h' hcs
    | Where query args =>
      obtain ⟨r', h'⟩ := where_ChainInv s r query args h hc
      exact ih _ r' h' hcs
    | Join m b onArgs =>
      obtain ⟨s', e, h'⟩ := join_ChainInv s r m b onArgs h hc.1 hc.2.1 hc.2.2
      have e' : Call.run U s (Call.Join m b onArgs) = .ok s' := e
      rw [e']
      exact ih s' r h' hcs

/-! ## Contiguous markers -/

theorem dollar_not_mem_Itoa (i : Int) : '$' ∉ Itoa i := by
  unfold Itoa
  split
  · intro h
    rcases List.mem_cons.1 h with h | h
    · exact absurd h (by decide)
    · exact dollar_not_mem_fmtNat _ h
  · exact dollar_not_mem_fmtNat _

theorem dollar_not_mem_limitClause (s : Query) : '$' ∉ limitClause s := by
  unfold limitClause
  split
  · simp only [List.mem_append, not_or]
    refine ⟨⟨⟨by decide, ?_⟩, by decide⟩, dollar_not_mem_Itoa _⟩
    split
    · exact dollar_not_mem_Itoa _
    · decide
  · simp

theorem startsDigit_limitClause (s : Query) (rest : Str) (h : startsDigit rest = false) :
    startsDigit (limitClause s ++ rest) = false := by
  unfold limitClause
  split
  · rfl
  · exact h

theorem dollar_not_mem_returningClause (U : Unicode) (ID t : Str) (h : '$' ∉ ID) :
    '$' ∉ returningClause U ID t := by
  unfold returningClause
  split
  · simp only [List.mem_append, not_or]
    exact ⟨by decide, h⟩
  · simp

theorem startsDigit_returningClause (U : Unicode) (ID t : Str) :
    startsDigit (returningClause U ID t) = false := by
  unfold returningClause
  split <;> rfl

/-- The text of a builder of a chain has the markers `$1`, ..., `$N` of its `N`
arguments. -/
theorem markers_of_ChainInv (U : Unicode) (s : Query) (r : SQL) (h : ChainInv s r) :
    ∃ text args, s.ToSQL U = .ok (text, args,
        { s with raw := some r, QueryStr := text, Args := args })
      ∧ markers text = List.range' 1 args.length := by
  obtain ⟨h1, h2, h3, h4, h5, h6, h7, h8, h9⟩ := h
  refine ⟨_, _, ToSQL_eq U s r h1, ?_⟩
  have hrest : ∀ t, startsDigit (limitClause s ++ returningClause U r.ID t) = false :=
    fun t => startsDigit_limitClause s _ (startsDigit_returningClause U r.ID t)
  have hrest0 : ∀ t, markers (limitClause s ++ returningClause U r.ID t) = [] := by
    intro t
    apply markers_of_not_mem
    simp only [List.mem_append, not_or]
    exact ⟨dollar_not_mem_limitClause s, dollar_not_mem_returningClause U r.ID t h4⟩
  rw [h2, List.append_assoc, List.append_assoc, markers_append _ _ h5, List.nil_append,
    List.length_nil]
  unfold whereClause
  split
  · rename_i hws
    rw [List.nil_append, hrest0, hws]
    rfl
  · rw [List.append_assoc, markers_append " WHERE ".toList _ (by decide),
      markers_renderWhere _ _ _ h8 h9 (hrest _), hrest0, List.append_nil]

/-- C1, amended. A chain that starts with `From` on a fresh builder and goes on
with `And`, `Or`, `Where` and `Join` calls returns from `ToSQL` a text whose
positional markers are exactly `$1`, ..., `$N`, in this order, `N` being the
number of returned arguments, provided every fragment passed to `Where` has as
many `?` as arguments and no digit right after a `?`, no alias or column has a
`?`, and no text passed (table names, aliases, columns, ON and WHERE fragments)
has a `$`. -/
theorem markers_contiguous (U : Unicode) (e : Entity) (a : Str) (calls : List Call)
    (hT : '$' ∉ e.TableName) (he : markerFreeColumns U e) (ha : markerFreeName a)
    (hcalls : ∀ c ∈ calls, c.wellFormed U) :
    ∃ text args,
      rendered U (runCalls U (Build.From U (.entity e) a) calls) = .ok (text, args)
        ∧ markers text = List.range' 1 args.length := by
  obtain ⟨s0, r0, e0, h0⟩ := from_ChainInv U e a hT he ha
  obtain ⟨s, r, e1, h⟩ := runCalls_ChainInv U calls s0 r0 h0 hcalls
  obtain ⟨text, args, e2, hm⟩ := markers_of_ChainInv U s r h
  refine ⟨text, args, ?_, hm⟩
  rw [e0, e1]
  unfold rendered
  simp only []
  rw [e2]

set_option maxRecDepth 100000 in
/-- C1 as stated fails: a fragment passed to `Where` without `?` but with an
argument leaves one argument and no marker. -/
theorem markers_contiguous_counterexample :
    rendered asciiUnicode
        (runCalls asciiUnicode (Build.From asciiUnicode (.entity emptyGame) "g".toList)
          [Call.Where "g.game_id = 1".toList [Arg.int 7]])
      = .ok ("SELECT g.* FROM ref_game g WHERE g.game_id = 1 LIMIT 100 OFFSET 0".toList,
          [Arg.int 7])
      ∧ markers "SELECT g.* FROM ref_game g WHERE g.game_id = 1 LIMIT 100 OFFSET 0".toList
        ≠ List.range' 1 [Arg.int 7].length := by
  decide

/-! ## Failing on a builder without SELECT, and on an empty slice -/

/-- C6. On a builder whose statement text is empty (no SELECT exists), `Join`,
`And` and `Or` panic for every entity, alias and list of ON fragments. -/
theorem join_and_or_without_select_panic (U : Unicode) (s : Query) (hs : s.QueryStr = [])
    (model : ModelArg) (tableAlias : Str) (onArgs : List Str) :
    (∃ e, s.Join model tableAlias onArgs = .error e)
      ∧ (∃ e, s.And U model tableAlias = .error e)
      ∧ (∃ e, s.Or U model tableAlias = .error e) := by
  have hc : s.clone.2.QueryStr = [] := by rw [clone_snd_QueryStr, hs]
  refine ⟨?_, ?_, ?_⟩
  · unfold Query.Join SQL.join
    rw [hc]
    by_cases h : onArgs.length < 1
    · exact ⟨"select syntax or join field not found", by simp [h, Contains, Index]⟩
    · refine ⟨"FROM syntax not found", ?_⟩
      simp [h, Contains, Index]
  · exact ⟨"select syntax or join field not found",
      by unfold Query.And SQL.operator; rw [hc]; simp [Contains, Index]⟩
  · exact ⟨"select syntax or join field not found",
      by unfold Query.Or SQL.operator; rw [hc]; simp [Contains, Index]⟩

/-- Witness of C6: the fresh builder of `Build()`. -/
theorem join_and_or_without_select_panic_witness :
    Build.QueryStr = []
      ∧ ((∃ e, Build.Join (.entity (User 0 "")) "u".toList ["u.id = g.user_id".toList] = .error e)
        ∧ (∃ e, Build.And asciiUnicode (.entity (User 0 "")) "u".toList = .error e)
        ∧ (∃ e, Build.Or asciiUnicode (.entity (User 0 "")) "u".toList = .error e)) :=
  ⟨rfl, join_and_or_without_select_panic asciiUnicode Build rfl (.entity (User 0 "")) "u".toList
    ["u.id = g.user_id".toList]⟩

/-- C7, the code at the failing input. After `From`, `Join` without any ON
fragment does not panic: it returns the builder with an empty ON clause. -/
theorem join_without_on_fragment_returns :
    statementText
        (andThen (Build.From asciiUnicode (.entity emptyGame) "g".toList)
          (fun s => s.Join (.entity (User 0 "")) "u".toList []))
      = .ok "SELECT g.*, u.* FROM ref_game g JOIN ref_user u ON ".toList := by
  decide

/-- C10. `Inserts` with an empty slice panics, whatever the builder: element 0 is
read although the slice has none. -/
theorem inserts_empty_slice_panics (U : Unicode) (now : Nat → Nat) (s : Query) :
    s.Inserts U now (.slice []) = .error "reflect: slice index out of range" := by
  unfold Query.Inserts SQL.inserts Query.NewScope
  cases h : s.raw <;> simp [insertsRows]

/-! ## Witnesses for the WHERE fragments and the joins -/

/-- Witness of C4: the builder after `Build().Where("x = ?", 1)`. -/
theorem where_fragments_rendered_in_order_witness :
    (Build.Where "x = ?".toList [Arg.int 1]).raw
        = some { Model := none, ID := [], TagName := "sql".toList,
                 whereConditions := [⟨"x = ?".toList, [Arg.int 1]⟩] }
      ∧ ([⟨"x = ?".toList, [Arg.int 1]⟩] : List WhereCond) ≠ []
      ∧ ((∃ s', (Build.Where "x = ?".toList [Arg.int 1]).ToSQL asciiUnicode
            = .ok
              ((Build.Where "x = ?".toList [Arg.int 1]).QueryStr ++ " WHERE ".toList
                  ++ renderWhere (Build.Where "x = ?".toList [Arg.int 1]).Args.length
                      [⟨"x = ?".toList, [Arg.int 1]⟩]
                  ++ limitClause (Build.Where "x = ?".toList [Arg.int 1])
                  ++ returningClause asciiUnicode []
                    ((Build.Where "x = ?".toList [Arg.int 1]).QueryStr ++ " WHERE ".toList
                      ++ renderWhere (Build.Where "x = ?".toList [Arg.int 1]).Args.length
                          [⟨"x = ?".toList, [Arg.int 1]⟩]
                      ++ limitClause (Build.Where "x = ?".toList [Arg.int 1])),
                (Build.Where "x = ?".toList [Arg.int 1]).Args
                  ++ whereArgs [⟨"x = ?".toList, [Arg.int 1]⟩], s'))
        ∧ ∀ (t : Query) (query : Str) (values : List Arg),
            (t.Where query values).raw
              = some { t.clone.1 with
                  whereConditions := t.clone.1.whereConditions ++
                    [⟨if t.clone.1.whereConditions = [] then query else " AND ".toList ++ query,
                      values⟩] }) :=
  ⟨rfl, by decide,
    where_fragments_rendered_in_order asciiUnicode (Build.Where "x = ?".toList [Arg.int 1])
      { Model := none, ID := [], TagName := "sql".toList,
        whereConditions := [⟨"x = ?".toList, [Arg.int 1]⟩] } rfl (by decide)⟩

/-- Witness of C5: `From(Game{}, "g")` and the join of `TestRawQuery_Join`. -/
theorem from_joins_text_witness :
    Contains "g".toList "FROM".toList = false
      ∧ (∀ j ∈ [(User 0 "", "u".toList, ["u.id = g.user_id".toList])],
          Contains j.2.1 "FROM".toList = false)
      ∧ ∃ t, [(User 0 "", "u".toList, ["u.id = g.user_id".toList])].foldl
            (fun x j => andThen x (fun u => u.Join (.entity j.1) j.2.1 j.2.2))
            (Build.From asciiUnicode (.entity emptyGame) "g".toList) = .ok t
        ∧ t.QueryStr
          = "SELECT ".toList ++ "g".toList ++ ".*".toList
            ++ ([(User 0 "", "u".toList, ["u.id = g.user_id".toList])].map
                (fun j => ", ".toList ++ j.2.1 ++ ".*".toList)).flatten
            ++ " FROM ".toList ++ (emptyGame.TableName ++ " ".toList ++ "g".toList)
            ++ ([(User 0 "", "u".toList, ["u.id = g.user_id".toList])].map
                (fun j => " JOIN ".toList ++ j.1.TableName ++ " ".toList ++ j.2.1
                  ++ " ON ".toList ++ j.2.2.flatten)).flatten :=
  ⟨by decide, by decide,
    from_joins_text asciiUnicode Build emptyGame "g".toList
      [(User 0 "", "u".toList, ["u.id = g.user_id".toList])] (by decide) (by decide)⟩

/-- Witness of C3: `And(&Game{Code, Enabled}, "g")` after `From(Game{}, "g")`. -/
theorem and_or_add_one_fragment_witness :
    Contains selectGames.QueryStr "SELECT".toList = true
      ∧ Ascending ["enabled".toList, "game_code".toList]
      ∧ (∀ c, c ∈ ["enabled".toList, "game_code".toList]
          ↔ c ∈ populatedColumns asciiUnicode selectGames.clone.1.TagName
              (Game 0 "code" "" noString true noInt64 noTime))
      ∧ (selectGames.And asciiUnicode (.entity (Game 0 "code" "" noString true noInt64 noTime))
            "g".toList
          = .ok
            { selectGames with
              raw := some
                { selectGames.clone.1 with
                  whereConditions :=
                    [⟨"g.enabled = ? AND g.game_code = ?".toList,
                      [Arg.str "true".toList, Arg.str "code".toList]⟩] }
              Args := [] }) := by
  have h1 : Contains selectGames.QueryStr "SELECT".toList = true := by decide
  have h2 : Ascending ["enabled".toList, "game_code".toList] := by unfold Ascending; decide
  have h3 : ∀ c, c ∈ ["enabled".toList, "game_code".toList]
      ↔ c ∈ populatedColumns asciiUnicode selectGames.clone.1.TagName
          (Game 0 "code" "" noString true noInt64 noTime) := by
    have e : populatedColumns asciiUnicode selectGames.clone.1.TagName
        (Game 0 "code" "" noString true noInt64 noTime)
        = ["game_code".toList, "enabled".toList] := by decide
    intro c
    rw [e]
    simp only [List.mem_cons, List.mem_singleton, List.not_mem_nil, or_false]
    exact or_comm
  exact ⟨h1, h2, h3,
    (and_or_add_one_fragment asciiUnicode selectGames
      (Game 0 "code" "" noString true noInt64 noTime) "g".toList
      ["enabled".toList, "game_code".toList] h1 h2 h3).1⟩

/-! ## Witnesses and counterexamples for the rendered statements -/

set_option maxRecDepth 100000 in
/-- Witness of C1: the chain of `TestRawQuery_Join`. -/
theorem markers_contiguous_witness :
    '$' ∉ (Game 1 "code" "" noString false noInt64 noTime).TableName
      ∧ markerFreeColumns asciiUnicode (Game 1 "code" "" noString false noInt64 noTime)
      ∧ markerFreeName "g".toList
      ∧ (∀ c ∈ testJoinCalls, c.wellFormed asciiUnicode)
      ∧ ∃ text args,
          rendered asciiUnicode
              (runCalls asciiUnicode
                (Build.From asciiUnicode
                  (.entity (Game 1 "code" "" noString false noInt64 noTime)) "g".toList)
                testJoinCalls)
            = .ok (text, args)
          ∧ markers text = List.range' 1 args.length := by
  have h1 : '$' ∉ (Game 1 "code" "" noString false noInt64 noTime).TableName := by decide
  have h2 : markerFreeColumns asciiUnicode (Game 1 "code" "" noString false noInt64 noTime) := by
    unfold markerFreeColumns markerFreeName
    decide
  have h3 : markerFreeName "g".toList := by
    unfold markerFreeName
    decide
  have h4 : ∀ c ∈ testJoinCalls, c.wellFormed asciiUnicode := by
    intro c hc
    simp only [testJoinCalls, List.mem_cons, List.mem_singleton, List.not_mem_nil, or_false] at hc
    rcases hc with hc | hc <;> rw [hc]
    · unfold Call.wellFormed
      decide
    · unfold Call.wellFormed FragOk
      decide
  exact ⟨h1, h2, h3, h4,
    markers_contiguous asciiUnicode (Game 1 "code" "" noString false noInt64 noTime) "g".toList
      testJoinCalls h1 h2 h3 h4⟩

set_option maxRecDepth 100000 in
/-- C2 as stated fails: with a plain table name and alias, a populated column
`updated_by` makes `ToSQL` append a RETURNING clause to the SELECT. -/
theorem from_toSQL_text_counterexample :
    plainName asciiUnicode auditEntry.TableName ∧ plainName asciiUnicode "a".toList
      ∧ populatedColumns asciiUnicode "sql".toList auditEntry = ["updated_by".toList]
      ∧ rendered asciiUnicode (Build.From asciiUnicode (.entity auditEntry) "a".toList)
        = .ok
          ("SELECT a.* FROM audit_log a WHERE a.updated_by = $1 LIMIT 100 OFFSET 0 RETURNING ".toList,
            [Arg.str "budi".toList])
      ∧ rendered asciiUnicode (Build.From asciiUnicode (.entity auditEntry) "a".toList)
        ≠ .ok
          ("SELECT a.* FROM audit_log a WHERE a.updated_by = $1 LIMIT 100 OFFSET 0".toList,
            [Arg.str "budi".toList]) := by
  unfold plainName
  decide

set_option maxRecDepth 100000 in
/-- Witness of C2: the entity of `TestRawQuery_From`. -/
theorem from_toSQL_text_witness :
    Ascending ["game_description".toList, "game_id".toList]
      ∧ (∀ c, c ∈ ["game_description".toList, "game_id".toList]
          ↔ c ∈ populatedColumns asciiUnicode "sql".toList
              (Game 507 "" "" (.nullString "Froze".toList true) false noInt64 noTime))
      ∧ plainName asciiUnicode (Game 507 "" "" (.nullString "Froze".toList true) false noInt64 noTime).TableName
      ∧ plainName asciiUnicode "g".toList
      ∧ (∀ c ∈ ["game_description".toList, "game_id".toList], plainName asciiUnicode c)
      ∧ rendered asciiUnicode
          (Build.From asciiUnicode
            (.entity (Game 507 "" "" (.nullString "Froze".toList true) false noInt64 noTime))
            "g".toList)
        = .ok
          ("SELECT g.* FROM ref_game g WHERE g.game_description = $1 AND g.game_id = $2 LIMIT 100 OFFSET 0".toList,
            [Arg.str "Froze".toList, Arg.str "507".toList]) := by
  have h1 : Ascending ["game_description".toList, "game_id".toList] := by
    unfold Ascending; decide
  have h2 : ∀ c, c ∈ ["game_description".toList, "game_id".toList]
      ↔ c ∈ populatedColumns asciiUnicode "sql".toList
          (Game 507 "" "" (.nullString "Froze".toList true) false noInt64 noTime) := by
    have e : populatedColumns asciiUnicode "sql".toList
        (Game 507 "" "" (.nullString "Froze".toList true) false noInt64 noTime)
        = ["game_id".toList, "game_description".toList] := by decide
    intro c
    rw [e]
    simp only [List.mem_cons, List.mem_singleton, List.not_mem_nil, or_false]
    exact or_comm
  have h3 : plainName asciiUnicode
      (Game 507 "" "" (.nullString "Froze".toList true) false noInt64 noTime).TableName := by
    unfold plainName; decide
  have h4 : plainName asciiUnicode "g".toList := by unfold plainName; decide
  have h5 : ∀ c ∈ ["game_description".toList, "game_id".toList], plainName asciiUnicode c := by
    unfold plainName; decide
  exact ⟨h1, h2, h3, h4, h5,
    from_toSQL_text asciiUnicode
      (Game 507 "" "" (.nullString "Froze".toList true) false noInt64 noTime) "g".toList
      ["game_description".toList, "game_id".toList] h1 h2 h3 h4 h5⟩

set_option maxRecDepth 100000 in
/-- C8 as stated fails: for a table name that contains `SELECT`, `Exec` writes a
LIMIT/OFFSET clause between the VALUES list and the RETURNING clause. -/
theorem insert_toSQL_text_counterexample :
    populatedColumns asciiUnicode "sql".toList selection = ["id".toList]
      ∧ isValidTag asciiUnicode "id".toList = true
      ∧ rendered asciiUnicode (Build.Insert asciiUnicode id (.entity selection))
        = .ok
          ("INSERT INTO SELECTIONS (id, create_date, write_date) VALUES ($1, $2, $3) LIMIT 100 OFFSET 0 RETURNING id".toList,
            [Arg.str "7".toList, Arg.time 0, Arg.time 1])
      ∧ rendered asciiUnicode (Build.Insert asciiUnicode id (.entity selection))
        ≠ .ok
          ("INSERT INTO SELECTIONS (id, create_date, write_date) VALUES ($1, $2, $3) RETURNING id".toList,
            [Arg.str "7".toList, Arg.time 0, Arg.time 1]) := by
  decide

set_option maxRecDepth 100000 in
/-- C9 as stated fails: a row with two populated fields tagged with the same
column has one placeholder for them, so the arguments are 3 and not 2 + 2. -/
theorem inserts_markers_contiguous_counterexample :
    (twoNames.fields.filter (fun f => f.populated "sql".toList)).length = 2
      ∧ rendered asciiUnicode (Build.Inserts asciiUnicode id (.slice [twoNames]))
        = .ok
          ("INSERT INTO ref_member (name, create_date, write_date) VALUES ($1, $2, $3) RETURNING ".toList,
            [Arg.str "budi".toList, Arg.time 0, Arg.time 1])
      ∧ [Arg.str "budi".toList, Arg.time 0, Arg.time 1].length
        ≠ (twoNames.fields.filter (fun f => f.populated "sql".toList)).length + 2 := by
  decide


set_option maxRecDepth 100000 in
/-- Witness of C8: the entity of `TestRawQuery_Insert`. -/
theorem insert_toSQL_text_witness :
    Ascending ["enabled".toList, "game_code".toList, "game_description".toList,
        "game_id".toList, "game_title".toList, "rate".toList, "release".toList]
      ∧ (∀ c, c ∈ ["enabled".toList, "game_code".toList, "game_description".toList,
            "game_id".toList, "game_title".toList, "rate".toList, "release".toList]
          ↔ c ∈ populatedColumns asciiUnicode "sql".toList newGame)
      ∧ (∀ c ∈ ["enabled".toList, "game_code".toList, "game_description".toList,
            "game_id".toList, "game_title".toList, "rate".toList, "release".toList], c ≠ [])
      ∧ Contains newGame.TableName "SELECT".toList = false
      ∧ (∀ c ∈ ["enabled".toList, "game_code".toList, "game_description".toList,
            "game_id".toList, "game_title".toList, "rate".toList, "release".toList],
          Contains c "SELECT".toList = false)
      ∧ rendered asciiUnicode (Build.Insert asciiUnicode id (.entity newGame))
        = .ok
          ("INSERT INTO ref_game (enabled, game_code, game_description, game_id, game_title, rate, release, create_date, write_date) VALUES ($1, $2, $3, $4, $5, $6, $7, $8, $9) RETURNING game_id".toList,
            [.str "true".toList, .str "uuid".toList, .str "08675467484389".toList,
              .str "507".toList, .str "DOTA2".toList, .str "75".toList,
              .str "2019-11-24T15:00:00Z".toList, .time 0, .time 1]) := by
  have h1 : Ascending ["enabled".toList, "game_code".toList, "game_description".toList,
      "game_id".toList, "game_title".toList, "rate".toList, "release".toList] := by
    unfold Ascending; decide
  have h2 : ∀ c, c ∈ ["enabled".toList, "game_code".toList, "game_description".toList,
        "game_id".toList, "game_title".toList, "rate".toList, "release".toList]
      ↔ c ∈ populatedColumns asciiUnicode "sql".toList newGame := by
    have e : populatedColumns asciiUnicode "sql".toList newGame
        = ["game_id".toList, "game_code".toList, "game_title".toList,
            "game_description".toList, "enabled".toList, "rate".toList, "release".toList] := by
      decide
    intro c
    rw [e]
    simp only [List.mem_cons, List.mem_singleton, List.not_mem_nil, or_false]
    tauto
  have h3 : ∀ c ∈ ["enabled".toList, "game_code".toList, "game_description".toList,
      "game_id".toList, "game_title".toList, "rate".toList, "release".toList], c ≠ [] := by
    decide
  have h4 : Contains newGame.TableName "SELECT".toList = false := by decide
  have h5 : ∀ c ∈ ["enabled".toList, "game_code".toList, "game_description".toList,
      "game_id".toList, "game_title".toList, "rate".toList, "release".toList],
      Contains c "SELECT".toList = false := by
    decide
  exact ⟨h1, h2, h3, h4, h5,
    (insert_toSQL_text asciiUnicode id newGame
      ["enabled".toList, "game_code".toList, "game_description".toList,
        "game_id".toList, "game_title".toList, "rate".toList, "release".toList]
      h1 h2 h3 h4 h5).1⟩

/-! ## `Updates` -/

theorem numberedAssignments_cons (c : Str) (cs : List Str) (n : Nat) :
    numberedAssignments (c :: cs) n
      = (c ++ " = $".toList ++ fmtNat n) :: numberedAssignments cs (n + 1) := by
  simp [numberedAssignments, List.range'_succ]

theorem numberedAssignments_length (cs : List Str) (n : Nat) :
    (numberedAssignments cs n).length = cs.length := by
  simp [numberedAssignments]

/-- The format of `updates` emits one numbered assignment for every key in which
the identifier column does not occur, and nothing for the other keys. -/
theorem emitted_updates_fst (ID : Str) (m : FieldMap) (ks : List Str) (n : Nat) :
    (emitted (fun key i _ => if !Contains key ID then key ++ " = $".toList ++ fmtNat i else [])
        m ks n).map Prod.fst
      = numberedAssignments (ks.filter (fun k => !Contains k ID)) (n + 1) := by
  induction ks generalizing n with
  | nil => simp [emitted, numberedAssignments]
  | cons k ks ih =>
    cases hk : Contains k ID with
    | true =>
      simp only [emitted, hk, Bool.not_true, Bool.false_eq_true, if_false, List.length_nil,
        Nat.lt_one_iff, if_true, List.filter_cons]
      exact ih n
    | false =>
      simp only [emitted, hk, Bool.not_false, if_true, List.filter_cons, List.length_append,
        List.map_cons, numberedAssignments_cons]
      rw [if_neg (by simp), List.map_cons, ih]

theorem emitted_updates_snd (ID : Str) (m : FieldMap) (ks : List Str) (n : Nat) :
    (emitted (fun key i _ => if !Contains key ID then key ++ " = $".toList ++ fmtNat i else [])
        m ks n).map Prod.snd
      = (ks.filter (fun k => !Contains k ID)).map (fun k => Arg.str (m.val k)) := by
  induction ks generalizing n with
  | nil => simp [emitted]
  | cons k ks ih =>
    cases hk : Contains k ID with
    | true =>
      simp only [emitted, hk, Bool.not_true, Bool.false_eq_true, if_false, List.length_nil,
        Nat.lt_one_iff, if_true, List.filter_cons]
      exact ih n
    | false =>
      simp only [emitted, hk, Bool.not_false, if_true, List.filter_cons, List.length_append,
        List.map_cons]
      rw [if_neg (by simp), List.map_cons, ih]

theorem NewScope_snd (s : Query) (model : ModelArg) :
    (s.NewScope model).2 = { s with raw := some (s.NewScope model).1 } := by
  unfold Query.NewScope
  cases s.raw <;> rfl

theorem NewScope_Model (s : Query) (model : ModelArg) :
    (s.NewScope model).1.Model = some model := by
  unfold Query.NewScope
  cases s.raw <;> rfl

/-- The builder that `Updates` returns for an entity. -/
theorem updates_entity (U : Unicode) (now : Nat → Nat) (s : Query) (e : Entity) :
    s.Updates U now (.entity e)
      = .ok
        { s with
          raw := some
            { (s.NewScope (.entity e)).1 with
              ID := idColumn U (s.NewScope (.entity e)).1.TagName (s.NewScope (.entity e)).1.ID e }
          QueryStr := "UPDATE ".toList ++ e.TableName ++ " SET ".toList
            ++ Join
              (numberedAssignments
                  (assignedColumns U (s.NewScope (.entity e)).1.TagName
                    (idColumn U (s.NewScope (.entity e)).1.TagName (s.NewScope (.entity e)).1.ID e)
                    e)
                  (s.Args.length + 2)
                ++ ["write_date = $1".toList]) ", ".toList
          Args := s.Args ++ Arg.time (now 0) ::
            (assignedColumns U (s.NewScope (.entity e)).1.TagName
                (idColumn U (s.NewScope (.entity e)).1.TagName (s.NewScope (.entity e)).1.ID e)
                e).map
              (fun c => Arg.str ((fieldMapOf U (s.NewScope (.entity e)).1.TagName e).val c)) } := by
  unfold Query.Updates SQL.updates
  rw [NewScope_Model, NewScope_snd]
  simp only []
  rw [fieldsToArgs_entity]
  simp only [emitted_updates_fst, emitted_updates_snd, List.length_append, List.length_singleton,
    assignedColumns]
  simp

theorem numberedAssignments_getElem? (cs : List Str) (n i : Nat) (c : Str)
    (h : cs[i]? = some c) :
    (numberedAssignments cs n)[i]? = some (c ++ " = $".toList ++ fmtNat (n + i)) := by
  induction cs generalizing n i with
  | nil => simp at h
  | cons d ds ih =>
    rw [numberedAssignments_cons]
    cases i with
    | zero =>
      simp only [List.getElem?_cons_zero, Option.some.injEq] at h
      simp [h]
    | succ j =>
      simp only [List.getElem?_cons_succ] at h
      simp only [List.getElem?_cons_succ]
      rw [ih (n + 1) j h]
      congr 3
      omega

theorem mem_assignedColumns (U : Unicode) (tag ID : Str) (e : Entity) (c : Str) :
    c ∈ assignedColumns U tag ID e ↔ c ∈ populatedColumns U tag e ∧ Contains c ID = false := by
  simp [assignedColumns, mem_sortStrings, mem_fieldMapOf_keys]

/-- The arguments of the assigned columns are the rendered values of the
columns. -/
theorem assignedColumns_args (U : Unicode) (tag ID : Str) (e : Entity) :
    (assignedColumns U tag ID e).map (fun c => Arg.str ((fieldMapOf U tag e).val c))
      = (assignedColumns U tag ID e).map (fun c => Arg.str (renderedOf U tag e c)) := by
  apply List.map_congr_left
  intro c hc
  rw [fieldMapOf_val U tag e c ((mem_assignedColumns U tag ID e c).1 hc).1]

/-- The builder that `Updates` returns on a fresh builder. -/
theorem updates_build (U : Unicode) (now : Nat → Nat) (e : Entity) :
    ∃ s r, Build.Updates U now (.entity e) = .ok s
      ∧ s.raw = some r ∧ r.ID = idColumn U "sql".toList [] e ∧ r.whereConditions = []
      ∧ s.QueryStr
        = "UPDATE ".toList ++ e.TableName ++ " SET ".toList
          ++ Join
            (numberedAssignments
                (assignedColumns U "sql".toList (idColumn U "sql".toList [] e) e) 2
              ++ ["write_date = $1".toList]) ", ".toList
      ∧ s.Args
        = Arg.time (now 0) ::
          (assignedColumns U "sql".toList (idColumn U "sql".toList [] e) e).map
            (fun c => Arg.str (renderedOf U "sql".toList e c))
      ∧ s.Rows = 0 ∧ s.Offset = 0 := by
  refine ⟨_, _, updates_entity U now Build e, rfl, rfl, rfl, rfl, ?_, rfl, rfl⟩
  simp only [assignedColumns_args]
  rfl

set_option maxRecDepth 100000 in
/-- The chain of `TestRawQuery_Updates`, the code of the game being `uuid` and the
clock reading 0. -/
theorem testRawQuery_Updates :
    rendered asciiUnicode
        (andThen (Build.Updates asciiUnicode id (.entity newGame))
          (fun s => .ok (s.Where "game_code = ? AND game_description > ?".toList
            [.str "uuid".toList, .int 23])))
      = .ok
        ("UPDATE ref_game SET enabled = $2, game_code = $3, game_description = $4, game_title = $5, rate = $6, release = $7, write_date = $1 WHERE game_code = $8 AND game_description > $9 RETURNING game_id".toList,
          [.time 0, .str "true".toList, .str "uuid".toList, .str "08675467484389".toList,
            .str "DOTA2".toList, .str "75".toList, .str "2019-11-24T15:00:00Z".toList,
            .str "uuid".toList, .int 23]) := by
  decide

/-- C11. For every entity, `Updates` on a fresh builder returns a builder whose
argument list starts with the write timestamp; the SET list is the assignments
`c = $(i+1)` for the assigned columns, the `i`-th counted from 1, followed by
`write_date = $1`; the rendered value of the `i`-th assigned column is the
argument at position `i+1`; and the argument list has one entry more than there
are column assignments.  `ToSQL` returns that list when no WHERE fragment was
added. -/
theorem updates_timestamp_first (U : Unicode) (now : Nat → Nat) (e : Entity) :
    ∃ s text,
      Build.Updates U now (.entity e) = .ok s
        ∧ s.QueryStr
          = "UPDATE ".toList ++ e.TableName ++ " SET ".toList
            ++ Join
              (numberedAssignments
                  (assignedColumns U "sql".toList (idColumn U "sql".toList [] e) e) 2
                ++ ["write_date = $1".toList]) ", ".toList
        ∧ s.Args[0]? = some (Arg.time (now 0))
        ∧ (∀ i c, (assignedColumns U "sql".toList (idColumn U "sql".toList [] e) e)[i]? = some c →
            (numberedAssignments
                (assignedColumns U "sql".toList (idColumn U "sql".toList [] e) e) 2)[i]?
              = some (c ++ " = $".toList ++ fmtNat (i + 2))
            ∧ s.Args[i + 1]? = some (Arg.str (renderedOf U "sql".toList e c)))
        ∧ s.Args.length
          = (numberedAssignments
              (assignedColumns U "sql".toList (idColumn U "sql".toList [] e) e) 2).length + 1
        ∧ rendered U (.ok s) = .ok (text, s.Args) := by
  obtain ⟨s, r, h1, hraw, _, hws, hq, hargs, _, _⟩ := updates_build U now e
  refine ⟨s, s.QueryStr ++ limitClause s ++ returningClause U r.ID (s.QueryStr ++ limitClause s),
    h1, hq, ?_, ?_, ?_, ?_⟩
  · rw [hargs]
    simp
  · intro i c hc
    refine ⟨?_, ?_⟩
    · rw [numberedAssignments_getElem? _ 2 i c hc, Nat.add_comm]
    · rw [hargs]
      simp only [List.getElem?_cons_succ, List.getElem?_map, hc, Option.map_some']
  · rw [hargs]
    simp [numberedAssignments_length]
  · simp only [rendered]
    rw [ToSQL_eq U s r hraw, hws]
    simp [whereArgs, whereClause]

/-! ## The identifier column in `Updates` -/

theorem idColumn_foldl_of_none (U : Unicode) (tag : Str) (post : List Field) (prev : Str)
    (h : ∀ g ∈ post, equalFoldID g.Name = false) :
    post.foldl (fun ID f => if equalFoldID f.Name then f.column U tag else ID) prev = prev := by
  induction post generalizing prev with
  | nil => rfl
  | cons g gs ih =>
    simp only [List.foldl_cons, h g (List.mem_cons_self _ _), Bool.false_eq_true, if_false]
    exact ih prev (fun g' hg' => h g' (List.mem_cons_of_mem _ hg'))

/-- The recorded identifier column is that of the last field named `ID`. -/
theorem idColumn_last (U : Unicode) (tag prev : Str) (e : Entity) (pre post : List Field)
    (f : Field) (hf : e.fields = pre ++ f :: post) (hid : equalFoldID f.Name = true)
    (hlast : ∀ g ∈ post, equalFoldID g.Name = false) :
    idColumn U tag prev e = f.column U tag := by
  unfold idColumn
  rw [hf, List.foldl_append, List.foldl_cons, if_pos hid]
  exact idColumn_foldl_of_none U tag post _ hlast

theorem Contains_self (x : Str) : Contains x x = true := by
  rw [Contains_iff]

theorem not_mem_assignedColumns_self (U : Unicode) (tag ID : Str) (e : Entity) :
    ID ∉ assignedColumns U tag ID e := by
  intro h
  have := ((mem_assignedColumns U tag ID e ID).1 h).2
  rw [Contains_self] at this
  exact Bool.noConfusion this

theorem Contains_update_head (U : Unicode) (rest : Str) :
    Contains (ToLower U ("UPDATE ".toList ++ rest)) "update".toList = true := by
  rw [Contains_iff]
  unfold ToLower
  rw [List.map_append, map_toLower_ascii U "UPDATE ".toList (by decide)]
  exact ⟨[], " ".toList ++ rest.map U.toLower, rfl⟩

theorem returningClause_update (U : Unicode) (ID rest : Str) :
    returningClause U ID ("UPDATE ".toList ++ rest) = " RETURNING ".toList ++ ID := by
  unfold returningClause
  rw [Contains_update_head]
  simp

/-- The calls of `Where` change the pending fragments only. -/
theorem whereCalls_raw (ws : List WhereCond) (s : Query) (r : SQL) (hr : s.raw = some r) :
    ∃ r', (whereCalls s ws).raw = some r' ∧ r'.ID = r.ID ∧ r'.TagName = r.TagName
      ∧ (whereCalls s ws).QueryStr = s.QueryStr ∧ (whereCalls s ws).Args = s.Args
      ∧ (whereCalls s ws).Rows = s.Rows ∧ (whereCalls s ws).Offset = s.Offset := by
  induction ws generalizing s r with
  | nil => exact ⟨r, hr, rfl, rfl, rfl, rfl, rfl, rfl⟩
  | cons w ws ih =>
    have hstep : (s.Where w.query w.args).raw
        = some { r with whereConditions := r.whereConditions ++
            [⟨if r.whereConditions.length > 0 then " AND ".toList ++ w.query else w.query,
              w.args⟩] } := by
      unfold Query.Where SQL.Where
      rw [clone_fst_of_raw s r hr]
    obtain ⟨r', h1, h2, h3, h4, h5, h6, h7⟩ := ih (s.Where w.query w.args) _ hstep
    refine ⟨r', h1, h2, h3, ?_, ?_, ?_, ?_⟩
    · rw [show whereCalls s (w :: ws) = whereCalls (s.Where w.query w.args) ws from rfl, h4]
      unfold Query.Where SQL.Where
      rw [clone_fst_of_raw s r hr]
    · rw [show whereCalls s (w :: ws) = whereCalls (s.Where w.query w.args) ws from rfl, h5]
      unfold Query.Where SQL.Where
      rw [clone_fst_of_raw s r hr]
    · rw [show whereCalls s (w :: ws) = whereCalls (s.Where w.query w.args) ws from rfl, h6]
      unfold Query.Where SQL.Where
      rw [clone_fst_of_raw s r hr]
    · rw [show whereCalls s (w :: ws) = whereCalls (s.Where w.query w.args) ws from rfl, h7]
      unfold Query.Where SQL.Where
      rw [clone_fst_of_raw s r hr]

/-- The builder that `Updates` returns for an entity, by its fields. -/
theorem updates_entity_fields (U : Unicode) (now : Nat → Nat) (s0 : Query) (e : Entity) :
    ∃ s r, s0.Updates U now (.entity e) = .ok s ∧ s.raw = some r
      ∧ r.ID = idColumn U (s0.NewScope (.entity e)).1.TagName (s0.NewScope (.entity e)).1.ID e
      ∧ s.QueryStr
        = "UPDATE ".toList ++ e.TableName ++ " SET ".toList
          ++ Join
            (numberedAssignments
                (assignedColumns U (s0.NewScope (.entity e)).1.TagName
                  (idColumn U (s0.NewScope (.entity e)).1.TagName (s0.NewScope (.entity e)).1.ID e)
                  e)
                (s0.Args.length + 2)
              ++ ["write_date = $1".toList]) ", ".toList :=
  ⟨_, _, updates_entity U now s0 e, rfl, rfl, rfl⟩

/-- C12, amended. For every entity whose last field named `ID` (names compared
without regard to case, as `TagsToField` compares them) is `f`, with column `c`
under the tag key of the builder: `c` is not among the columns that the SET list
of `Updates` assigns from the fields of the entity (the list then closes with
`write_date = $1`), and the text that `ToSQL` returns, whatever `Where` calls
came in between, ends with ` RETURNING c`. -/
theorem updates_identifier_excluded (U : Unicode) (now : Nat → Nat) (s0 : Query) (e : Entity)
    (pre post : List Field) (f : Field) (ws : List WhereCond)
    (hf : e.fields = pre ++ f :: post) (hid : equalFoldID f.Name = true)
    (hlast : ∀ g ∈ post, equalFoldID g.Name = false) :
    ∃ s body args,
      s0.Updates U now (.entity e) = .ok s
        ∧ s.QueryStr
          = "UPDATE ".toList ++ e.TableName ++ " SET ".toList
            ++ Join
              (numberedAssignments
                  (assignedColumns U (s0.NewScope (.entity e)).1.TagName
                    (f.column U (s0.NewScope (.entity e)).1.TagName) e)
                  (s0.Args.length + 2)
                ++ ["write_date = $1".toList]) ", ".toList
        ∧ f.column U (s0.NewScope (.entity e)).1.TagName
            ∉ assignedColumns U (s0.NewScope (.entity e)).1.TagName
                (f.column U (s0.NewScope (.entity e)).1.TagName) e
        ∧ rendered U (.ok (whereCalls s ws))
          = .ok (body ++ " RETURNING ".toList ++ f.column U (s0.NewScope (.entity e)).1.TagName,
              args) := by
  have hidc := idColumn_last U (s0.NewScope (.entity e)).1.TagName (s0.NewScope (.entity e)).1.ID
    e pre post f hf hid hlast
  obtain ⟨s, r, hupd, hraw, hID, hq⟩ := updates_entity_fields U now s0 e
  rw [hidc] at hID hq
  obtain ⟨r', h1, h2, _, h4, _, _, _⟩ := whereCalls_raw ws s r hraw
  refine ⟨s, (whereCalls s ws).QueryStr
      ++ whereClause (whereCalls s ws).Args.length r'.whereConditions
      ++ limitClause (whereCalls s ws),
    (whereCalls s ws).Args ++ whereArgs r'.whereConditions, hupd, hq,
    not_mem_assignedColumns_self U _ _ e, ?_⟩
  have hret : returningClause U r'.ID ((whereCalls s ws).QueryStr
      ++ whereClause (whereCalls s ws).Args.length r'.whereConditions
      ++ limitClause (whereCalls s ws))
      = " RETURNING ".toList ++ f.column U (s0.NewScope (.entity e)).1.TagName := by
    rw [h4, hq]
    simp only [List.append_assoc]
    rw [returningClause_update, h2, hID]
  simp only [rendered]
  rw [ToSQL_eq U _ r' h1, hret]
  simp only [List.append_assoc]

set_option maxRecDepth 100000 in
/-- Witness of C12: `User{ID: 3, Name: "budi"}` on a fresh builder, with the
fragment `name = ?` added by `Where`. -/
theorem updates_identifier_excluded_witness :
    (User 3 "budi").fields
        = (User 3 "budi").fields.take 5
          ++ ⟨"ID".toList, [("json".toList, "user_id".toList), ("sql".toList, "id".toList)], .int 3⟩
            :: (User 3 "budi").fields.drop 6
      ∧ equalFoldID "ID".toList = true
      ∧ (∀ g ∈ (User 3 "budi").fields.drop 6, equalFoldID g.Name = false)
      ∧ Field.column asciiUnicode "sql".toList
          ⟨"ID".toList, [("json".toList, "user_id".toList), ("sql".toList, "id".toList)], .int 3⟩
        = "id".toList
      ∧ ∃ s body args,
          Build.Updates asciiUnicode id (.entity (User 3 "budi")) = .ok s
            ∧ s.QueryStr
              = "UPDATE ".toList ++ (User 3 "budi").TableName ++ " SET ".toList
                ++ Join
                  (numberedAssignments
                      (assignedColumns asciiUnicode
                        (Build.NewScope (.entity (User 3 "budi"))).1.TagName
                        (Field.column asciiUnicode
                          (Build.NewScope (.entity (User 3 "budi"))).1.TagName
                          ⟨"ID".toList,
                            [("json".toList, "user_id".toList), ("sql".toList, "id".toList)],
                            .int 3⟩)
                        (User 3 "budi"))
                      (Build.Args.length + 2)
                    ++ ["write_date = $1".toList]) ", ".toList
            ∧ Field.column asciiUnicode (Build.NewScope (.entity (User 3 "budi"))).1.TagName
                ⟨"ID".toList, [("json".toList, "user_id".toList), ("sql".toList, "id".toList)],
                  .int 3⟩
              ∉ assignedColumns asciiUnicode (Build.NewScope (.entity (User 3 "budi"))).1.TagName
                  (Field.column asciiUnicode (Build.NewScope (.entity (User 3 "budi"))).1.TagName
                    ⟨"ID".toList, [("json".toList, "user_id".toList), ("sql".toList, "id".toList)],
                      .int 3⟩)
                  (User 3 "budi")
            ∧ rendered asciiUnicode
                (.ok (whereCalls s [⟨"name = ?".toList, [Arg.str "b".toList]⟩]))
              = .ok
                (body ++ " RETURNING ".toList
                    ++ Field.column asciiUnicode (Build.NewScope (.entity (User 3 "budi"))).1.TagName
                      ⟨"ID".toList,
                        [("json".toList, "user_id".toList), ("sql".toList, "id".toList)], .int 3⟩,
                  args) :=
  ⟨rfl, rfl, by decide, by decide,
    updates_identifier_excluded asciiUnicode id Build (User 3 "budi")
      ((User 3 "budi").fields.take 5) ((User 3 "budi").fields.drop 6)
      ⟨"ID".toList, [("json".toList, "user_id".toList), ("sql".toList, "id".toList)], .int 3⟩
      [⟨"name = ?".toList, [Arg.str "b".toList]⟩] rfl rfl (by decide)⟩

set_option maxRecDepth 100000 in
/-- C12 as stated fails.  The entity `ticket` has the field `ID` with the column
`ticket_id`, and after it the field `Id` with the column `external_id`:
`Updates` assigns `ticket_id` in the SET list, and the RETURNING clause names
`external_id`. -/
theorem updates_identifier_excluded_counterexample :
    (⟨"ID".toList, jsonSqlTag "ticket_id", .int 7⟩ : Field) ∈ ticket.fields
      ∧ Field.column asciiUnicode "sql".toList ⟨"ID".toList, jsonSqlTag "ticket_id", .int 7⟩
        = "ticket_id".toList
      ∧ rendered asciiUnicode (Build.Updates asciiUnicode id (.entity ticket))
        = .ok
          ("UPDATE ref_ticket SET ticket_id = $2, write_date = $1 RETURNING external_id".toList,
            [Arg.time 0, Arg.str "7".toList])
      ∧ "ticket_id".toList
        ∈ assignedColumns asciiUnicode "sql".toList (idColumn asciiUnicode "sql".toList [] ticket)
            ticket
      ∧ ¬ " RETURNING ticket_id".toList
          <:+ "UPDATE ref_ticket SET ticket_id = $2, write_date = $1 RETURNING external_id".toList := by
  decide

set_option maxRecDepth 100000 in
/-- C13, the code at the failing input. The populated tagged columns of
`purchase` are `id`, the identifier, and `user_id`: `Updates` assigns no column,
since `id` occurs in `user_id`. -/
theorem updates_skips_column_containing_id :
    populatedColumns asciiUnicode "sql".toList purchase = ["id".toList, "user_id".toList]
      ∧ idColumn asciiUnicode "sql".toList [] purchase = "id".toList
      ∧ rendered asciiUnicode (Build.Updates asciiUnicode id (.entity purchase))
        = .ok ("UPDATE ref_purchase SET write_date = $1 RETURNING id".toList, [Arg.time 0]) := by
  decide

/-! ## Paging -/

set_option maxRecDepth 100000 in
/-- The builder `selectGames` is the one `From` returns. -/
theorem selectGames_built :
    Build.From asciiUnicode (.entity emptyGame) "g".toList = .ok selectGames := by
  decide

set_option maxRecDepth 100000 in
/-- The builder `renameUser` is the one `Updates` returns when the clock reads 0. -/
theorem renameUser_built :
    Build.Updates asciiUnicode id (.entity (User 3 "budi")) = .ok renameUser := by
  decide

/-- A value in the range of a 64-bit `int` is not wrapped. -/
theorem wrapInt_eq (x : Int) (h1 : -2 ^ 63 ≤ x) (h2 : x < 2 ^ 63) : wrapInt x = x := by
  unfold wrapInt
  rw [Int.emod_eq_of_lt (by omega) (by omega)]
  omega

theorem limitClause_select (s : Query) (hsel : Contains s.QueryStr "SELECT".toList = true) :
    limitClause s
      = " LIMIT ".toList ++ (if s.Rows > 0 then Itoa s.Rows else "100".toList)
        ++ " OFFSET ".toList ++ Itoa (wrapInt (s.Rows * wrapInt (s.Offset - 1))) := by
  unfold limitClause
  rw [if_pos hsel]

theorem limitClause_no_select (s : Query) (hsel : Contains s.QueryStr "SELECT".toList = false) :
    limitClause s = [] := by
  unfold limitClause
  rw [hsel]
  rfl

/-- Without a limit the offset is 0, whatever the page. -/
theorem limitClause_no_limit (s : Query) (hsel : Contains s.QueryStr "SELECT".toList = true)
    (hR : s.Rows = 0) : limitClause s = " LIMIT 100".toList ++ " OFFSET 0".toList := by
  rw [limitClause_select s hsel, hR, Int.zero_mul]
  rfl

/-- On page 1 the offset is 0, whatever the limit. -/
theorem limitClause_page_one (s : Query) (hsel : Contains s.QueryStr "SELECT".toList = true)
    (hO : s.Offset = 1) :
    limitClause s
      = " LIMIT ".toList ++ (if s.Rows > 0 then Itoa s.Rows else "100".toList)
        ++ " OFFSET 0".toList := by
  rw [limitClause_select s hsel, hO]
  have : wrapInt (s.Rows * wrapInt (1 - 1)) = 0 := by
    rw [show wrapInt (1 - 1) = 0 from by decide, Int.mul_zero]
    decide
  rw [this]
  simp only [List.append_assoc]
  rfl

/-- The product of a positive limit and the page offset, when it is in the range
of a 64-bit `int`, is not wrapped. -/
theorem wrapInt_offset (n p : Int) (hn : 0 < n) (h1 : -2 ^ 63 ≤ n * (p - 1))
    (h2 : n * (p - 1) < 2 ^ 63) : wrapInt (n * wrapInt (p - 1)) = n * (p - 1) := by
  have hp : wrapInt (p - 1) = p - 1 := by
    apply wrapInt_eq
    · by_contra hlt
      have : n * (p - 1) ≤ 1 * (p - 1) :=
        Int.mul_le_mul_of_nonpos_right (by omega) (by omega)
      omega
    · by_contra hge
      have : 1 * (p - 1) ≤ n * (p - 1) :=
        Int.mul_le_mul_of_nonneg_right (by omega) (by omega)
      omega
  rw [hp, wrapInt_eq _ h1 h2]

/-- What `ToSQL` returns after `Limit(n)` and `Page(p)`. -/
theorem toSQL_limit_page (U : Unicode) (s : Query) (r : SQL) (n p : Int) (hr : s.raw = some r) :
    ∃ t, ((s.Limit n).Page p).ToSQL U
      = .ok
        (s.QueryStr ++ whereClause s.Args.length r.whereConditions
            ++ limitClause ((s.Limit n).Page p)
            ++ returningClause U r.ID
              (s.QueryStr ++ whereClause s.Args.length r.whereConditions
                ++ limitClause ((s.Limit n).Page p)),
          s.Args ++ whereArgs r.whereConditions, t) :=
  ⟨_, ToSQL_eq U ((s.Limit n).Page p) r hr⟩

/-- The builder that `From` returns on a fresh builder, by its fields. -/
theorem from_build_fields (U : Unicode) (e : Entity) (a : Str) :
    ∃ s r, Build.From U (.entity e) a = .ok s ∧ s.raw = some r
      ∧ r.ID = idColumn U "sql".toList [] e
      ∧ s.QueryStr
        = "SELECT ".toList ++ (a ++ ".* ".toList) ++ "FROM ".toList
          ++ (e.TableName ++ " ".toList ++ a)
      ∧ s.Args = [] ∧ s.Rows = 0 ∧ s.Offset = 0 :=
  ⟨_, _, from_build U e a, rfl, rfl, rfl, rfl, rfl, rfl⟩

theorem rendered_of_raw (U : Unicode) (s : Query) (r : SQL) (hr : s.raw = some r) :
    rendered U (.ok s)
      = .ok
        (withReturning U r.ID
            (s.QueryStr ++ whereClause s.Args.length r.whereConditions ++ limitClause s),
          s.Args ++ whereArgs r.whereConditions) := by
  simp only [rendered]
  rw [ToSQL_eq U s r hr]
  rfl

/-- C14, amended. For every SELECT built with `From` on a fresh builder, the text
that `ToSQL` returns is the statement with its WHERE clause, then the
LIMIT/OFFSET clause, then the RETURNING clause when there is one.  When `Limit`
was never called the LIMIT/OFFSET clause starts with ` LIMIT 100`, whatever the
page; after `Page(1)` it ends with ` OFFSET 0`, whatever the limit; and when
neither was called it is ` LIMIT 100 OFFSET 0`. -/
theorem default_paging (U : Unicode) (e : Entity) (a : Str) (n p : Int) :
    ∃ s r,
      Build.From U (.entity e) a = .ok s ∧ s.raw = some r
        ∧ rendered U (.ok (s.Page p))
          = .ok
            (withReturning U r.ID
                (s.QueryStr ++ whereClause s.Args.length r.whereConditions
                  ++ (" LIMIT 100".toList ++ " OFFSET 0".toList)),
              s.Args ++ whereArgs r.whereConditions)
        ∧ rendered U (.ok ((s.Limit n).Page 1))
          = .ok
            (withReturning U r.ID
                (s.QueryStr ++ whereClause s.Args.length r.whereConditions
                  ++ (" LIMIT ".toList ++ (if n > 0 then Itoa n else "100".toList)
                    ++ " OFFSET 0".toList)),
              s.Args ++ whereArgs r.whereConditions)
        ∧ rendered U (.ok s)
          = .ok
            (withReturning U r.ID
                (s.QueryStr ++ whereClause s.Args.length r.whereConditions
                  ++ " LIMIT 100 OFFSET 0".toList),
              s.Args ++ whereArgs r.whereConditions) := by
  obtain ⟨s, r, h1, hraw, _, hq, _, hR, hO⟩ := from_build_fields U e a
  have hsel : Contains s.QueryStr "SELECT".toList = true := by
    rw [hq]
    simp only [List.append_assoc]
    exact Contains_SELECT_head _
  refine ⟨s, r, h1, hraw, ?_, ?_, ?_⟩
  · rw [rendered_of_raw U (s.Page p) r hraw, limitClause_no_limit (s.Page p) hsel hR]
    rfl
  · rw [rendered_of_raw U ((s.Limit n).Page 1) r hraw,
      limitClause_page_one ((s.Limit n).Page 1) hsel rfl]
    rfl
  · rw [rendered_of_raw U s r hraw, limitClause_no_limit s hsel hR]
    rfl

set_option maxRecDepth 100000 in
/-- C14 as stated fails.  The table of `updateLog` is `update_log`: the text of
`From(updateLog, "u")`, neither `Limit` nor `Page` called, ends with the
RETURNING clause, not with ` LIMIT 100 OFFSET 0`. -/
theorem default_paging_counterexample :
    rendered asciiUnicode (Build.From asciiUnicode (.entity updateLog) "u".toList)
        = .ok ("SELECT u.* FROM update_log u LIMIT 100 OFFSET 0 RETURNING id".toList, [])
      ∧ ¬ " LIMIT 100 OFFSET 0".toList
          <:+ "SELECT u.* FROM update_log u LIMIT 100 OFFSET 0 RETURNING id".toList := by
  decide

/-- C15, amended. After `Limit(n)` with `n > 0` and `Page(p)`, `ToSQL` appends to a
statement whose text contains `SELECT`, after its WHERE clause, ` LIMIT n OFFSET `
and the decimal rendering of `n*(p-1)` as a 64-bit `int` computes it; that is
`n*(p-1)` itself when the product lies between `-2^63` and `2^63 - 1`.  A
statement whose text does not contain `SELECT` gets no LIMIT/OFFSET clause,
whatever `n` and `p` are. -/
theorem limit_page_clause (U : Unicode) (s : Query) (r : SQL) (n p : Int)
    (hr : s.raw = some r) :
    (Contains s.QueryStr "SELECT".toList = true → 0 < n →
        rendered U (.ok ((s.Limit n).Page p))
            = .ok
              (withReturning U r.ID
                  (s.QueryStr ++ whereClause s.Args.length r.whereConditions
                    ++ (" LIMIT ".toList ++ Itoa n ++ " OFFSET ".toList
                      ++ Itoa (wrapInt (n * wrapInt (p - 1))))),
                s.Args ++ whereArgs r.whereConditions)
          ∧ (-2 ^ 63 ≤ n * (p - 1) → n * (p - 1) < 2 ^ 63 →
              wrapInt (n * wrapInt (p - 1)) = n * (p - 1)))
      ∧ (Contains s.QueryStr "SELECT".toList = false →
          rendered U (.ok ((s.Limit n).Page p))
            = .ok
              (withReturning U r.ID
                  (s.QueryStr ++ whereClause s.Args.length r.whereConditions),
                s.Args ++ whereArgs r.whereConditions)) := by
  refine ⟨fun hsel hn => ⟨?_, wrapInt_offset n p hn⟩, fun hsel => ?_⟩
  · rw [rendered_of_raw U ((s.Limit n).Page p) r hr,
      limitClause_select ((s.Limit n).Page p) hsel]
    simp only [Query.Limit, Query.Page, gt_iff_lt, hn, if_true]
  · rw [rendered_of_raw U ((s.Limit n).Page p) r hr,
      limitClause_no_select ((s.Limit n).Page p) hsel, List.append_nil]
    rfl

set_option maxRecDepth 100000 in
/-- Witness of C15: the builder after `Build().From(Game{}, "g")` with `Limit(10)`
and `Page(3)`, and the builder after `Build().Updates(&User{ID: 3, Name: "budi"})`. -/
theorem limit_page_clause_witness :
    selectGames.raw
        = some { Model := some (.entity emptyGame), ID := "game_id".toList,
                 TagName := "sql".toList, whereConditions := [] }
      ∧ rendered asciiUnicode (.ok ((selectGames.Limit 10).Page 3))
        = .ok
          (withReturning asciiUnicode "game_id".toList
              (selectGames.QueryStr ++ whereClause selectGames.Args.length []
                ++ (" LIMIT ".toList ++ Itoa 10 ++ " OFFSET ".toList
                  ++ Itoa (wrapInt (10 * wrapInt (3 - 1))))),
            selectGames.Args ++ whereArgs [])
      ∧ wrapInt (10 * wrapInt (3 - 1)) = 10 * (3 - 1)
      ∧ rendered asciiUnicode (.ok ((selectGames.Limit 10).Page 3))
        = .ok ("SELECT g.* FROM ref_game g LIMIT 10 OFFSET 20".toList, [])
      ∧ rendered asciiUnicode (.ok ((renameUser.Limit 10).Page 3))
        = .ok
          (withReturning asciiUnicode "id".toList
              (renameUser.QueryStr ++ whereClause renameUser.Args.length []),
            renameUser.Args ++ whereArgs []) :=
  ⟨rfl,
    ((limit_page_clause asciiUnicode selectGames _ 10 3 rfl).1 (by decide) (by decide)).1,
    ((limit_page_clause asciiUnicode selectGames _ 10 3 rfl).1 (by decide) (by decide)).2
      (by decide) (by decide),
    by decide,
    (limit_page_clause asciiUnicode renameUser _ 10 3 rfl).2 (by decide)⟩

set_option maxRecDepth 100000 in
/-- C15 as stated fails.  With `Limit(4611686018427387904)` and `Page(3)` the
product `n*(p-1)` is `9223372036854775808`, and the rendered offset is
`-9223372036854775808`. -/
theorem limit_page_clause_counterexample :
    rendered asciiUnicode (.ok ((selectGames.Limit 4611686018427387904).Page 3))
        = .ok
          ("SELECT g.* FROM ref_game g LIMIT 4611686018427387904 OFFSET -9223372036854775808".toList,
            [])
      ∧ Itoa (4611686018427387904 * (3 - 1)) = "9223372036854775808".toList
      ∧ rendered asciiUnicode (.ok ((selectGames.Limit 4611686018427387904).Page 3))
        ≠ .ok
          ("SELECT g.* FROM ref_game g".toList ++ " LIMIT 4611686018427387904 OFFSET ".toList
              ++ Itoa (4611686018427387904 * (3 - 1)),
            []) := by
  decide

/-- C16, amended. For every statement whose text contains `SELECT`, rendered with
the page number 0: when the limit is `n > 0` the OFFSET value is `-n`, which is
negative; when no limit is set (0) the clause is ` LIMIT 100 OFFSET 0`. -/
theorem page_zero_offset (U : Unicode) (s : Query) (r : SQL) (hr : s.raw = some r)
    (hsel : Contains s.QueryStr "SELECT".toList = true) (hO : s.Offset = 0) :
    (0 < s.Rows → s.Rows < 2 ^ 63 →
        -s.Rows < 0
          ∧ rendered U (.ok s)
            = .ok
              (withReturning U r.ID
                  (s.QueryStr ++ whereClause s.Args.length r.whereConditions
                    ++ (" LIMIT ".toList ++ Itoa s.Rows ++ " OFFSET ".toList ++ Itoa (-s.Rows))),
                s.Args ++ whereArgs r.whereConditions))
      ∧ (s.Rows = 0 →
          rendered U (.ok s)
            = .ok
              (withReturning U r.ID
                  (s.QueryStr ++ whereClause s.Args.length r.whereConditions
                    ++ (" LIMIT 100".toList ++ " OFFSET ".toList ++ Itoa 0)),
                s.Args ++ whereArgs r.whereConditions)) := by
  refine ⟨fun hn hlt => ⟨by omega, ?_⟩, fun hR => ?_⟩
  · rw [rendered_of_raw U s r hr, limitClause_select s hsel, hO]
    have h1 : wrapInt (0 - 1) = -1 := by decide
    have h2 : wrapInt (s.Rows * -1) = -s.Rows := by
      rw [Int.mul_neg_one]
      exact wrapInt_eq _ (by omega) (by omega)
    rw [h1, h2]
    simp only [gt_iff_lt, hn, if_true]
  · rw [rendered_of_raw U s r hr, limitClause_no_limit s hsel hR]
    rfl

set_option maxRecDepth 100000 in
/-- Witness of C16: the builder after `Build().From(Game{}, "g")` with
`Limit(10)`. -/
theorem page_zero_offset_witness :
    (selectGames.Limit 10).raw
        = some { Model := some (.entity emptyGame), ID := "game_id".toList,
                 TagName := "sql".toList, whereConditions := [] }
      ∧ Contains (selectGames.Limit 10).QueryStr "SELECT".toList = true
      ∧ (selectGames.Limit 10).Offset = 0
      ∧ -(selectGames.Limit 10).Rows < 0
      ∧ rendered asciiUnicode (.ok (selectGames.Limit 10))
        = .ok
          (withReturning asciiUnicode "game_id".toList
              ((selectGames.Limit 10).QueryStr
                ++ whereClause (selectGames.Limit 10).Args.length []
                ++ (" LIMIT ".toList ++ Itoa (selectGames.Limit 10).Rows ++ " OFFSET ".toList
                  ++ Itoa (-(selectGames.Limit 10).Rows))),
            (selectGames.Limit 10).Args ++ whereArgs [])
      ∧ rendered asciiUnicode (.ok (selectGames.Limit 10))
        = .ok ("SELECT g.* FROM ref_game g LIMIT 10 OFFSET -10".toList, []) :=
  ⟨rfl, by decide, rfl,
    ((page_zero_offset asciiUnicode (selectGames.Limit 10) _ rfl (by decide) rfl).1
      (by decide) (by decide)).1,
    ((page_zero_offset asciiUnicode (selectGames.Limit 10) _ rfl (by decide) rfl).1
      (by decide) (by decide)).2,
    by decide⟩

set_option maxRecDepth 100000 in
/-- C16 as stated fails.  `From(Game{}, "g")` followed by `Page(0)`, no limit
set, renders the offset 0, which is not negative. -/
theorem page_zero_offset_counterexample :
    rendered asciiUnicode
        (andThen (Build.From asciiUnicode (.entity emptyGame) "g".toList)
          (fun s => .ok (s.Page 0)))
        = .ok ("SELECT g.* FROM ref_game g LIMIT 100 OFFSET ".toList ++ Itoa 0, [])
      ∧ ¬ (0 : Int) < 0 := by
  decide

/-! ## The RETURNING clause -/

theorem returningClause_of_contains (U : Unicode) (ID t : Str)
    (h : Contains (ToLower U t) "update".toList = true
      ∨ Contains (ToLower U t) "insert".toList = true) :
    returningClause U ID t = " RETURNING ".toList ++ ID := by
  unfold returningClause
  rcases h with h | h <;> rw [h]
  · rfl
  · rw [Bool.or_true]
    rfl

theorem returningClause_of_not_contains (U : Unicode) (ID t : Str)
    (h1 : Contains (ToLower U t) "update".toList = false)
    (h2 : Contains (ToLower U t) "insert".toList = false) :
    returningClause U ID t = [] := by
  unfold returningClause
  rw [h1, h2]
  rfl

/-- The text that `Exec` renders for a SELECT built with `From` on a fresh
builder, over plain names, contains neither `update` nor `insert`. -/
theorem from_exec_text_plain (U : Unicode) (e : Entity) (a : Str) (pat : Str)
    (hpat : pat = "update".toList ∨ pat = "insert".toList)
    (hT : plainName U e.TableName) (ha : plainName U a)
    (hc : ∀ c ∈ populatedColumns U "sql".toList e, plainName U c) :
    Contains
        (ToLower U
          ("SELECT ".toList ++ (a ++ ".* ".toList) ++ "FROM ".toList
            ++ (e.TableName ++ " ".toList ++ a)
            ++ whereClause 0
              (if sortStrings (fieldMapOf U "sql".toList e).keys = [] then []
                else
                  [⟨Join ((sortStrings (fieldMapOf U "sql".toList e).keys).map
                        (fun c => a ++ ".".toList ++ c ++ " = ?".toList)) " AND ".toList,
                    (sortStrings (fieldMapOf U "sql".toList e).keys).map
                      (fun c => Arg.str ((fieldMapOf U "sql".toList e).val c))⟩])
            ++ " LIMIT 100 OFFSET 0".toList)) pat
      = false := by
  have hmem : ∀ c ∈ sortStrings (fieldMapOf U "sql".toList e).keys, plainName U c := by
    intro c hc'
    rw [mem_sortStrings, mem_fieldMapOf_keys] at hc'
    exact hc c hc'
  generalize sortStrings (fieldMapOf U "sql".toList e).keys = cs at hmem
  have hren := renumber_joined_conditions a " AND ".toList cs 0
    (not_mem_of_Contains_false a '?' ha.1) (by decide)
    (fun c hc' => not_mem_of_Contains_false c '?' (hmem c hc').1)
  have hwhere : whereClause 0
        (if cs = [] then []
          else [⟨Join (cs.map (fun c => a ++ ".".toList ++ c ++ " = ?".toList)) " AND ".toList,
            cs.map (fun c => Arg.str ((fieldMapOf U "sql".toList e).val c))⟩])
      = if cs = [] then []
        else " WHERE ".toList ++ Join (numberedConditions a cs 1) " AND ".toList := by
    by_cases h : cs = []
    · simp [h, whereClause]
    · simp only [h, if_false, whereClause, renderWhere, List.append_nil]
      rw [hren.1]
      simp
  rw [hwhere, ← NoPat_iff_Contains]
  apply NoPat_select_text U pat e.TableName a cs hpat
  · rw [NoPat_iff_Contains]
    rcases hpat with h | h <;> rw [h]
    · exact hT.2.1
    · exact hT.2.2
  · rw [NoPat_iff_Contains]
    rcases hpat with h | h <;> rw [h]
    · exact ha.2.1
    · exact ha.2.2
  · intro c hc'
    rw [NoPat_iff_Contains]
    rcases hpat with h | h <;> rw [h]
    · exact (hmem c hc').2.1
    · exact (hmem c hc').2.2

/-- C17, amended. `ToSQL` appends ` RETURNING ` and the recorded identifier column
exactly when the text that `Exec` has rendered (the statement with its WHERE and
LIMIT/OFFSET clauses) contains, in lower case, `update` or `insert` anywhere;
every other statement is returned without a RETURNING clause, in particular a
SELECT built with `From` on a fresh builder whose table name, alias and
populated columns are plain. -/
theorem returning_clause (U : Unicode) (s : Query) (r : SQL) (e : Entity) (a : Str)
    (hr : s.raw = some r) :
    ((Contains
            (ToLower U
              (s.QueryStr ++ whereClause s.Args.length r.whereConditions ++ limitClause s))
            "update".toList = true
        ∨ Contains
            (ToLower U
              (s.QueryStr ++ whereClause s.Args.length r.whereConditions ++ limitClause s))
            "insert".toList = true) →
        rendered U (.ok s)
          = .ok
            (s.QueryStr ++ whereClause s.Args.length r.whereConditions ++ limitClause s
                ++ (" RETURNING ".toList ++ r.ID),
              s.Args ++ whereArgs r.whereConditions))
      ∧ (Contains
            (ToLower U
              (s.QueryStr ++ whereClause s.Args.length r.whereConditions ++ limitClause s))
            "update".toList = false →
          Contains
            (ToLower U
              (s.QueryStr ++ whereClause s.Args.length r.whereConditions ++ limitClause s))
            "insert".toList = false →
          rendered U (.ok s)
            = .ok
              (s.QueryStr ++ whereClause s.Args.length r.whereConditions ++ limitClause s,
                s.Args ++ whereArgs r.whereConditions))
      ∧ (plainName U e.TableName → plainName U a →
          (∀ c ∈ populatedColumns U "sql".toList e, plainName U c) →
          ∃ t u, Build.From U (.entity e) a = .ok t ∧ t.raw = some u
            ∧ rendered U (.ok t)
              = .ok
                (t.QueryStr ++ whereClause t.Args.length u.whereConditions
                    ++ " LIMIT 100 OFFSET 0".toList,
                  t.Args ++ whereArgs u.whereConditions)) := by
  refine ⟨fun h => ?_, fun h1 h2 => ?_, fun hT ha hc => ?_⟩
  · rw [rendered_of_raw U s r hr]
    unfold withReturning
    rw [returningClause_of_contains U _ _ h]
  · rw [rendered_of_raw U s r hr]
    unfold withReturning
    rw [returningClause_of_not_contains U _ _ h1 h2, List.append_nil]
  · refine ⟨_, _, from_build U e a, rfl, ?_⟩
    rw [rendered_of_raw U _ _ rfl]
    unfold withReturning
    simp only []
    rw [limitClause_default _ (Contains_SELECT_head _) rfl]
    simp only [List.length_nil]
    rw [returningClause_of_not_contains U _ _
      (from_exec_text_plain U e a _ (Or.inl rfl) hT ha hc)
      (from_exec_text_plain U e a _ (Or.inr rfl) hT ha hc), List.append_nil]

set_option maxRecDepth 100000 in
/-- Witness of C17: the builder after `Build().Updates(&User{ID: 3, Name: "budi"})`,
the builder after `Build().From(Game{}, "g")`, and `From(&Game{ID: 1}, "g")`. -/
theorem returning_clause_witness :
    renameUser.raw
        = some { Model := some (.entity (User 3 "budi")), ID := "id".toList,
                 TagName := "sql".toList, whereConditions := [] }
      ∧ rendered asciiUnicode (.ok renameUser)
        = .ok
          (renameUser.QueryStr ++ whereClause renameUser.Args.length [] ++ limitClause renameUser
              ++ (" RETURNING ".toList ++ "id".toList),
            renameUser.Args ++ whereArgs [])
      ∧ rendered asciiUnicode (.ok renameUser)
        = .ok ("UPDATE ref_user SET name = $2, write_date = $1 RETURNING id".toList,
            [Arg.time 0, Arg.str "budi".toList])
      ∧ rendered asciiUnicode (.ok selectGames)
        = .ok
          (selectGames.QueryStr ++ whereClause selectGames.Args.length []
              ++ limitClause selectGames,
            selectGames.Args ++ whereArgs [])
      ∧ ∃ t u, Build.From asciiUnicode (.entity (Game 1 "" "" noString false noInt64 noTime))
              "g".toList = .ok t
          ∧ t.raw = some u
          ∧ rendered asciiUnicode (.ok t)
            = .ok
              (t.QueryStr ++ whereClause t.Args.length u.whereConditions
                  ++ " LIMIT 100 OFFSET 0".toList,
                t.Args ++ whereArgs u.whereConditions) := by
  have h3 : plainName asciiUnicode (Game 1 "" "" noString false noInt64 noTime).TableName := by
    unfold plainName; decide
  have h4 : plainName asciiUnicode "g".toList := by unfold plainName; decide
  have h5 : ∀ c ∈ populatedColumns asciiUnicode "sql".toList
      (Game 1 "" "" noString false noInt64 noTime), plainName asciiUnicode c := by
    rw [show populatedColumns asciiUnicode "sql".toList
      (Game 1 "" "" noString false noInt64 noTime) = ["game_id".toList] from by decide]
    unfold plainName; decide
  exact ⟨rfl,
    (returning_clause asciiUnicode renameUser _ emptyGame "g".toList rfl).1
      (Or.inl (by decide)),
    by decide,
    (returning_clause asciiUnicode selectGames _ emptyGame "g".toList rfl).2.1
      (by decide) (by decide),
    (returning_clause asciiUnicode selectGames _
      (Game 1 "" "" noString false noInt64 noTime) "g".toList rfl).2.2 h3 h4 h5⟩

set_option maxRecDepth 100000 in
/-- C17 as stated fails.  With the alias `inserted`, the SELECT that `From`
builds is returned with a RETURNING clause. -/
theorem returning_clause_counterexample :
    rendered asciiUnicode (Build.From asciiUnicode (.entity emptyGame) "inserted".toList)
        = .ok
          ("SELECT inserted.* FROM ref_game inserted LIMIT 100 OFFSET 0 RETURNING game_id".toList,
            [])
      ∧ " RETURNING ".toList
          <:+: "SELECT inserted.* FROM ref_game inserted LIMIT 100 OFFSET 0 RETURNING game_id".toList := by
  decide

/-! ## `ToSQL` called twice -/

theorem Contains_append_left (x y pat : Str) (h : Contains x pat = true) :
    Contains (x ++ y) pat = true := by
  rw [Contains_iff] at h ⊢
  exact h.trans (List.prefix_append x y).isInfix

theorem Contains_ToLower_append_left (U : Unicode) (x y pat : Str)
    (h : Contains (ToLower U x) pat = true) : Contains (ToLower U (x ++ y)) pat = true := by
  unfold ToLower at h ⊢
  rw [List.map_append]
  exact Contains_append_left _ _ _ h

/-- The statement text that `Insert` writes starts with `INSERT INTO`. -/
theorem insert_head (U : Unicode) (now : Nat → Nat) (e : Entity) :
    ∃ s r rest, Build.Insert U now (.entity e) = .ok s ∧ s.raw = some r
      ∧ s.QueryStr = "INSERT INTO ".toList ++ rest := by
  unfold Query.Insert SQL.insert
  rw [NewScope_Model, NewScope_snd]
  simp only []
  rw [fieldsToArgs_entity]
  refine ⟨_, _, ?_, rfl, rfl, ?_⟩
  · exact e.TableName ++ " (".toList
      ++ Join
        ((emitted (fun key _ _ => key) (fieldMapOf U (Build.NewScope (.entity e)).1.TagName e)
            (sortStrings (fieldMapOf U (Build.NewScope (.entity e)).1.TagName e).keys)
            Build.Args.length).map Prod.fst
          ++ ["create_date".toList, "write_date".toList]) ", ".toList
      ++ ") ".toList ++ "VALUES (".toList
      ++ Join
        (insertParams
          (Build.Args
            ++ (emitted (fun key _ _ => key)
                (fieldMapOf U (Build.NewScope (.entity e)).1.TagName e)
                (sortStrings (fieldMapOf U (Build.NewScope (.entity e)).1.TagName e).keys)
                Build.Args.length).map Prod.snd
            ++ [Arg.time (now 0), Arg.time (now 1)]).length) ", ".toList
      ++ ")".toList
  · simp only [List.append_assoc]

/-- Every statement is built, and its text has `SELECT`, or in lower case
`update` or `insert`, in it. -/
theorem Statement.build_kind (U : Unicode) (now : Nat → Nat) (st : Statement) :
    ∃ s r, st.build U now = .ok s ∧ s.raw = some r
      ∧ (Contains s.QueryStr "SELECT".toList = true
        ∨ Contains (ToLower U s.QueryStr) "update".toList = true
        ∨ Contains (ToLower U s.QueryStr) "insert".toList = true) := by
  cases st with
  | From e a =>
    obtain ⟨s, r, h1, hraw, _, hq, _⟩ := from_build_fields U e a
    refine ⟨s, r, h1, hraw, Or.inl ?_⟩
    rw [hq]
    simp only [List.append_assoc]
    exact Contains_SELECT_head _
  | Insert e =>
    obtain ⟨s, r, rest, h1, hraw, hq⟩ := insert_head U now e
    refine ⟨s, r, h1, hraw, Or.inr (Or.inr ?_)⟩
    rw [hq]
    exact Contains_insert_head U rest
  | Inserts first rest =>
    obtain ⟨s, r, h1, hraw, _, hq, _⟩ := inserts_build U now first rest
    refine ⟨s, r, h1, hraw, Or.inr (Or.inr ?_)⟩
    rw [hq]
    simp only [List.append_assoc]
    exact Contains_insert_head U _
  | Updates e =>
    obtain ⟨s, r, h1, hraw, _, _, hq, _⟩ := updates_build U now e
    refine ⟨s, r, h1, hraw, Or.inr (Or.inl ?_)⟩
    rw [hq]
    simp only [List.append_assoc]
    exact Contains_update_head U _

/-- Two calls of `ToSQL` one after the other, on a builder whose statement text
has `SELECT`, or in lower case `update` or `insert`, in it. -/
theorem toSQL_twice (U : Unicode) (s : Query) (r : SQL) (hr : s.raw = some r)
    (hkind : Contains s.QueryStr "SELECT".toList = true
      ∨ Contains (ToLower U s.QueryStr) "update".toList = true
      ∨ Contains (ToLower U s.QueryStr) "insert".toList = true) :
    ∃ t1 A1 s1 t2 A2 s2 extra,
      s.ToSQL U = .ok (t1, A1, s1) ∧ s1.ToSQL U = .ok (t2, A2, s2)
        ∧ t2 = t1 ++ extra ∧ extra ≠ []
        ∧ A1 = s.Args ++ whereArgs r.whereConditions
        ∧ A2 = A1 ++ whereArgs r.whereConditions := by
  have h1 := ToSQL_eq U s r hr
  generalize ht1 : s.QueryStr ++ whereClause s.Args.length r.whereConditions ++ limitClause s
      ++ returningClause U r.ID
        (s.QueryStr ++ whereClause s.Args.length r.whereConditions ++ limitClause s) = t1 at h1
  have hpre : ∃ rest, t1 = s.QueryStr ++ rest := ⟨_, by rw [← ht1]; simp only [List.append_assoc]; rfl⟩
  obtain ⟨rest, hrest⟩ := hpre
  have h2 := ToSQL_eq U
    { s with raw := some r, QueryStr := t1, Args := s.Args ++ whereArgs r.whereConditions } r rfl
  refine ⟨_, _, _, _, _, _,
    whereClause (s.Args ++ whereArgs r.whereConditions).length r.whereConditions
      ++ limitClause
        { s with raw := some r, QueryStr := t1, Args := s.Args ++ whereArgs r.whereConditions }
      ++ returningClause U r.ID
        (t1 ++ whereClause (s.Args ++ whereArgs r.whereConditions).length r.whereConditions
          ++ limitClause
            { s with raw := some r, QueryStr := t1,
                     Args := s.Args ++ whereArgs r.whereConditions }),
    h1, h2, ?_, ?_, rfl, rfl⟩
  · simp only [List.append_assoc]
  · rcases hkind with hsel | hup | hin
    · have hsel1 : Contains t1 "SELECT".toList = true := by
        rw [hrest]
        exact Contains_append_left _ _ _ hsel
      rw [limitClause_select _ hsel1]
      simp
    · rw [returningClause_of_contains U r.ID _ (Or.inl (by
        rw [hrest]
        simp only [List.append_assoc]
        exact Contains_ToLower_append_left U _ _ _ hup))]
      simp
    · rw [returningClause_of_contains U r.ID _ (Or.inr (by
        rw [hrest]
        simp only [List.append_assoc]
        exact Contains_ToLower_append_left U _ _ _ hin))]
      simp

/-- C18. `ToSQL` is not idempotent.  For every statement built by `From`,
`Insert`, `Inserts` or `Updates` on a fresh builder, whatever `Where` calls
follow, a second `ToSQL` on the builder returns the text of the first call with a
non-empty text after it, and the arguments of the first call with the arguments
of the pending WHERE fragments after them: when these carry arguments, the second
list is strictly longer. -/
theorem toSQL_not_idempotent (U : Unicode) (now : Nat → Nat) (st : Statement)
    (ws : List WhereCond) :
    ∃ s r t1 A1 s1 t2 A2 s2 extra,
      st.build U now = .ok s
        ∧ (whereCalls s ws).raw = some r
        ∧ (whereCalls s ws).ToSQL U = .ok (t1, A1, s1)
        ∧ s1.ToSQL U = .ok (t2, A2, s2)
        ∧ t2 = t1 ++ extra ∧ extra ≠ []
        ∧ A2 = A1 ++ whereArgs r.whereConditions
        ∧ (whereArgs r.whereConditions ≠ [] → A1.length < A2.length) := by
  obtain ⟨s, r0, hb, hraw, hkind⟩ := Statement.build_kind U now st
  obtain ⟨r, hr, _, _, hq, _, _, _⟩ := whereCalls_raw ws s r0 hraw
  rw [← hq] at hkind
  obtain ⟨t1, A1, s1, t2, A2, s2, extra, h1, h2, h3, h4, _, h6⟩ :=
    toSQL_twice U (whereCalls s ws) r hr hkind
  refine ⟨s, r, t1, A1, s1, t2, A2, s2, extra, hb, hr, h1, h2, h3, h4, h6, ?_⟩
  intro hne
  rw [h6, List.length_append]
  have : 0 < (whereArgs r.whereConditions).length := List.length_pos.2 hne
  omega

/-! ## The field map of `TagsToField` -/

theorem isValidTag_ne_nil (U : Unicode) (s : Str) (h : isValidTag U s = true) : s ≠ [] := by
  intro hs
  rw [hs] at h
  simp [isValidTag] at h

theorem column_of_untagged (U : Unicode) (tag : Str) (f : Field) (h : f.TagGet tag = []) :
    f.column U tag = [] := by
  unfold Field.column
  rw [h]
  rfl

theorem column_ne_nil_of_valid (U : Unicode) (tag : Str) (f : Field)
    (h : isValidTag U (parseTag (f.TagGet tag)).1 = true) : f.column U tag ≠ [] := by
  unfold Field.column
  rw [if_pos h]
  exact isValidTag_ne_nil U _ h

theorem valid_of_plainKind (v : Value) (h : v.plainKind = true) : v.valid = true := by
  cases v <;> simp_all [Value.plainKind, Value.valid]

theorem mem_populatedColumns (U : Unicode) (tag : Str) (e : Entity) (c : Str) :
    c ∈ populatedColumns U tag e ↔ ∃ g ∈ e.fields, g.populated tag = true ∧ g.column U tag = c := by
  simp [populatedColumns, and_assoc]

theorem tagged_of_populated (tag : Str) (g : Field) (h : g.populated tag = true) :
    g.TagGet tag ≠ [] := by
  simp only [Field.populated, Bool.and_eq_true, decide_eq_true_eq] at h
  exact h.1.2

theorem nonempty_of_populated (tag : Str) (g : Field) (h : g.populated tag = true) :
    isEmptyValue g.val = false := by
  simp only [Field.populated, Bool.and_eq_true, Bool.not_eq_true'] at h
  exact h.1.1

/-- For the kinds string, boolean, integer, float, pointer, slice and map,
`isEmptyValue` holds exactly of the zero/empty values that the specification
lists. -/
theorem isEmptyValue_eq_isZeroOrEmpty (v : Value) (h : v.plainKind = true) :
    isEmptyValue v = v.isZeroOrEmpty := by
  cases v with
  | int i => by_cases hi : i = 0 <;> simp [isEmptyValue, Value.isZeroOrEmpty, hi]
  | uint n => by_cases hn : n = 0 <;> simp [isEmptyValue, Value.isZeroOrEmpty, hn]
  | string s => cases s <;> simp [isEmptyValue, Value.isZeroOrEmpty]
  | bool b => cases b <;> rfl
  | float isZero text => rfl
  | ptrBool p => cases p <;> simp [isEmptyValue, Value.isZeroOrEmpty]
  | ptr p => cases p <;> simp [isEmptyValue, Value.isZeroOrEmpty]
  | coll len text => by_cases hl : len = 0 <;> simp [isEmptyValue, Value.isZeroOrEmpty, hl]
  | nullString s valid => simp [Value.plainKind] at h
  | nullInt64 i valid => simp [Value.plainKind] at h
  | nullTime t valid => simp [Value.plainKind] at h
  | nullFloat64 t valid => simp [Value.plainKind] at h
  | nullBool b valid => simp [Value.plainKind] at h
  | time t => simp [Value.plainKind] at h
  | struct t => simp [Value.plainKind] at h

/-- C19. For every entity whose tagged fields (those with a tag under the key
`tag`) have valid and pairwise distinct column names and are of string, boolean,
integer, float, pointer, slice or map kind, `TagsToField` returns a map that has
the column of a field among its keys if and only if the field is tagged and its
value is not the zero/empty value of its type (the empty string, a zero number,
false, a nil pointer, a collection of length zero); and every key is the column
of a field.  So a field with an empty value and a valid tag is left out, and so
is a field that holds a value and has no tag. -/
theorem tagsToField_includes_iff (U : Unicode) (r : SQL) (tag : Str) (e : Entity)
    (hkind : ∀ f ∈ e.fields, f.TagGet tag ≠ [] → f.val.plainKind = true)
    (hvalid : ∀ f ∈ e.fields, f.TagGet tag ≠ [] →
      isValidTag U (parseTag (f.TagGet tag)).1 = true)
    (hdistinct :
      ((e.fields.filter (fun f => decide (f.TagGet tag ≠ []))).map
        (fun f => f.column U tag)).Nodup) :
    ∃ r' m, SQL.TagsToField U r tag (.entity e) = .ok (r', m)
      ∧ (∀ f ∈ e.fields,
          f.column U tag ∈ m.keys ↔ (f.TagGet tag ≠ [] ∧ f.val.isZeroOrEmpty = false))
      ∧ (∀ c ∈ m.keys, ∃ f ∈ e.fields, f.column U tag = c)
      ∧ (∀ f ∈ e.fields, f.TagGet tag ≠ [] → f.val.isZeroOrEmpty = true →
          f.column U tag ∉ m.keys)
      ∧ (∀ f ∈ e.fields, f.TagGet tag = [] → f.column U tag ∉ m.keys) := by
  have hiff : ∀ f ∈ e.fields,
      f.column U tag ∈ (fieldMapOf U tag e).keys
        ↔ (f.TagGet tag ≠ [] ∧ f.val.isZeroOrEmpty = false) := by
    intro f hf
    rw [mem_fieldMapOf_keys, mem_populatedColumns]
    constructor
    · rintro ⟨g, hg, hpop, hcol⟩
      have hgt := tagged_of_populated tag g hpop
      by_cases hft : f.TagGet tag = []
      · exfalso
        rw [column_of_untagged U tag f hft] at hcol
        exact column_ne_nil_of_valid U tag g (hvalid g hg hgt) hcol
      · have hfg : g = f := by
          apply List.inj_on_of_nodup_map hdistinct
          · simp [hg, hgt]
          · simp [hf, hft]
          · exact hcol
        rw [hfg] at hpop
        have hne := nonempty_of_populated tag f hpop
        rw [isEmptyValue_eq_isZeroOrEmpty _ (hkind f hf hft)] at hne
        exact ⟨hft, hne⟩
    · rintro ⟨hft, hne⟩
      refine ⟨f, hf, ?_, rfl⟩
      rw [← isEmptyValue_eq_isZeroOrEmpty _ (hkind f hf hft)] at hne
      simp [Field.populated, hne, hft, valid_of_plainKind _ (hkind f hf hft)]
  refine ⟨_, _, TagsToField_entity U r tag e, hiff, ?_, ?_, ?_⟩
  · intro c hc
    rw [mem_fieldMapOf_keys, mem_populatedColumns] at hc
    obtain ⟨g, hg, _, hcol⟩ := hc
    exact ⟨g, hg, hcol⟩
  · intro f hf _ hz hmem
    have := ((hiff f hf).1 hmem).2
    rw [hz] at this
    exact absurd this (by decide)
  · intro f hf ht hmem
    exact ((hiff f hf).1 hmem).1 ht

set_option maxRecDepth 100000 in
/-- Witness of C19: `catalog` has, for each of the kinds, a tagged field at its
zero or empty value and a tagged field that holds a value, and a field that
holds a value without the tag key.  The map has the columns of the tagged fields
that hold a value, and no other key. -/
theorem tagsToField_includes_iff_witness :
    (∀ f ∈ catalog.fields, f.TagGet "sql".toList ≠ [] → f.val.plainKind = true)
      ∧ (∀ f ∈ catalog.fields, f.TagGet "sql".toList ≠ [] →
          isValidTag asciiUnicode (parseTag (f.TagGet "sql".toList)).1 = true)
      ∧ ((catalog.fields.filter (fun f => decide (f.TagGet "sql".toList ≠ []))).map
          (fun f => f.column asciiUnicode "sql".toList)).Nodup
      ∧ (∃ r' m,
          SQL.TagsToField asciiUnicode
              { Model := none, ID := [], TagName := "sql".toList, whereConditions := [] }
              "sql".toList (.entity catalog)
            = .ok (r', m)
          ∧ (∀ f ∈ catalog.fields,
              f.column asciiUnicode "sql".toList ∈ m.keys
                ↔ (f.TagGet "sql".toList ≠ [] ∧ f.val.isZeroOrEmpty = false))
          ∧ (∀ c ∈ m.keys, ∃ f ∈ catalog.fields, f.column asciiUnicode "sql".toList = c)
          ∧ (∀ f ∈ catalog.fields, f.TagGet "sql".toList ≠ [] → f.val.isZeroOrEmpty = true →
              f.column asciiUnicode "sql".toList ∉ m.keys)
          ∧ (∀ f ∈ catalog.fields, f.TagGet "sql".toList = [] →
              f.column asciiUnicode "sql".toList ∉ m.keys))
      ∧ SQL.TagsToField asciiUnicode
            { Model := none, ID := [], TagName := "sql".toList, whereConditions := [] }
            "sql".toList (.entity catalog)
          = .ok
            ({ Model := none, ID := [], TagName := "sql".toList, whereConditions := [] },
              [("title".toList, [Iface.str "dota".toList, Iface.opts []]),
                ("visible".toList, [Iface.str "true".toList, Iface.opts []]),
                ("rank".toList, [Iface.str "-3".toList, Iface.opts []]),
                ("slots".toList, [Iface.str "8".toList, Iface.opts []]),
                ("score".toList, [Iface.str "4.5".toList, Iface.opts []]),
                ("done".toList, [Iface.str "false".toList, Iface.opts []]),
                ("parent".toList, [Iface.str "0xc000010000".toList, Iface.opts []]),
                ("labels".toList, [Iface.str "[a b]".toList, Iface.opts []])])
      ∧ (catalog.fields.filter (fun f => f.val.isZeroOrEmpty)).map (fun f => f.Name)
          = ["Code".toList, "Enabled".toList, "Level".toList, "Seats".toList, "Price".toList,
              "Flag".toList, "Owner".toList, "Tags".toList] :=
  ⟨by decide, by decide, by decide,
    tagsToField_includes_iff asciiUnicode _ "sql".toList catalog
      (by decide) (by decide) (by decide),
    by decide, by decide⟩

set_option maxRecDepth 100000 in
/-- C20, the code at the failing input. The field `Password` of `account` holds
`s3cret` under the tag `-`: `From`, `Insert` and `Updates` write the column `-`
and pass the value. -/
theorem dash_tag_is_emitted :
    isValidTag asciiUnicode "-".toList = true
      ∧ rendered asciiUnicode (Build.From asciiUnicode (.entity account) "a".toList)
        = .ok
          ("SELECT a.* FROM ref_account a WHERE a.- = $1 AND a.id = $2 LIMIT 100 OFFSET 0".toList,
            [Arg.str "s3cret".toList, Arg.str "1".toList])
      ∧ rendered asciiUnicode (Build.Insert asciiUnicode id (.entity account))
        = .ok
          ("INSERT INTO ref_account (-, id, create_date, write_date) VALUES ($1, $2, $3, $4) RETURNING id".toList,
            [Arg.str "s3cret".toList, Arg.str "1".toList, Arg.time 0, Arg.time 1])
      ∧ rendered asciiUnicode (Build.Updates asciiUnicode id (.entity account))
        = .ok
          ("UPDATE ref_account SET - = $2, write_date = $1 RETURNING id".toList,
            [Arg.time 0, Arg.str "s3cret".toList]) := by
  decide

/-! ## Invalid tag names and the type of the arguments -/

/-- Every argument that `fieldsToArgs` appends for an entity is a string. -/
theorem fieldsToArgs_appends_strings (U : Unicode) (r : SQL) (s : Query) (e : Entity)
    (fn : SQL → formatField) :
    ∃ f r' s' A, SQL.fieldsToArgs U r s (.entity e) fn = .ok (f, r', s')
      ∧ s'.Args = s.Args ++ A ∧ ∀ x ∈ A, ∃ text, x = Arg.str text := by
  refine ⟨_, _, _, _, fieldsToArgs_entity U r s e fn, rfl, ?_⟩
  intro x hx
  simp only [List.mem_map] at hx
  obtain ⟨p, hp, rfl⟩ := hx
  suffices h : ∀ (ks : List Str) (n : Nat) (p : Str × Arg),
      p ∈ emitted (fn { r with ID := idColumn U r.TagName r.ID e }) (fieldMapOf U r.TagName e) ks n →
        ∃ text, p.2 = Arg.str text from h _ _ p hp
  intro ks
  induction ks with
  | nil => intro n p hp; simp [emitted] at hp
  | cons k ks ih =>
    intro n p hp
    simp only [emitted] at hp
    split at hp
    · exact ih n p hp
    · rcases List.mem_cons.1 hp with h | h
      · exact ⟨_, by rw [h]⟩
      · exact ih (n + 1) p h

set_option maxRecDepth 100000 in
/-- C21, the code at the failing input. The field `Nick` of `profile` has the tag
`,omitempty`, whose name is empty and so not valid: `From`, `Inserts` and
`Updates` write a fragment with the empty column and pass the value of the
field; `Insert` leaves the field out. -/
theorem invalid_tag_name_is_emitted :
    isValidTag asciiUnicode (parseTag ",omitempty".toList).1 = false
      ∧ rendered asciiUnicode (Build.From asciiUnicode (.entity profile) "p".toList)
        = .ok
          ("SELECT p.* FROM ref_profile p WHERE p. = $1 AND p.id = $2 LIMIT 100 OFFSET 0".toList,
            [Arg.str "bud".toList, Arg.str "4".toList])
      ∧ rendered asciiUnicode (Build.Inserts asciiUnicode id (.slice [profile]))
        = .ok
          ("INSERT INTO ref_profile (, id, create_date, write_date) VALUES ($1, $2, $3, $4) RETURNING id".toList,
            [Arg.str "bud".toList, Arg.str "4".toList, Arg.time 0, Arg.time 1])
      ∧ rendered asciiUnicode (Build.Updates asciiUnicode id (.entity profile))
        = .ok
          ("UPDATE ref_profile SET  = $2, write_date = $1 RETURNING id".toList,
            [Arg.time 0, Arg.str "bud".toList])
      ∧ rendered asciiUnicode (Build.Insert asciiUnicode id (.entity profile))
        = .ok
          ("INSERT INTO ref_profile (id, create_date, write_date) VALUES ($1, $2, $3) RETURNING id".toList,
            [Arg.str "4".toList, Arg.time 0, Arg.time 1]) := by
  decide

set_option maxRecDepth 100000 in
/-- C22, the code at the failing input. For `&Game{ID: 507, Enabled: true}` the
arguments of `From` are the strings `true` and `507`, not a boolean and an
integer. -/
theorem arguments_are_strings :
    rendered asciiUnicode
        (Build.From asciiUnicode (.entity (Game 507 "" "" noString true noInt64 noTime))
          "g".toList)
        = .ok
          ("SELECT g.* FROM ref_game g WHERE g.enabled = $1 AND g.game_id = $2 LIMIT 100 OFFSET 0".toList,
            [Arg.str "true".toList, Arg.str "507".toList])
      ∧ [Arg.str "true".toList, Arg.str "507".toList] ≠ [Arg.bool true, Arg.int 507] := by
  decide

/-! ## Independence of the declaration order -/

/-- The sorted keys of a map are strictly ascending. -/
theorem ascending_sortStrings (keys : List Str) (h : keys.Nodup) :
    Ascending (sortStrings keys) := by
  haveI : IsTotal Str (fun a b => strLe a b = true) := ⟨strLe_total⟩
  haveI : IsTrans Str (fun a b => strLe a b = true) := ⟨strLe_trans⟩
  have hs : (sortStrings keys).Pairwise (fun a b => strLe a b = true) :=
    List.sorted_insertionSort _ keys
  have hn : (sortStrings keys).Pairwise (fun a b => a ≠ b) :=
    (List.perm_insertionSort _ keys).nodup_iff.2 h
  exact hs.and hn

/-- Two maps with the same keys have the same sorted keys. -/
theorem sortStrings_congr (keys1 keys2 : List Str) (h1 : keys1.Nodup) (h2 : keys2.Nodup)
    (hmem : ∀ c, c ∈ keys1 ↔ c ∈ keys2) : sortStrings keys1 = sortStrings keys2 :=
  sortStrings_eq_of_ascending keys1 (sortStrings keys2) h1 (ascending_sortStrings keys2 h2)
    (fun c => by rw [mem_sortStrings, hmem c])

theorem mem_populatedPairs (U : Unicode) (tag : Str) (e : Entity) (p : Str × Str) :
    p ∈ populatedPairs U tag e
      ↔ ∃ f ∈ e.fields, f.populated tag = true ∧ (f.column U tag, f.text) = p := by
  simp [populatedPairs, and_assoc]

theorem mem_populatedColumns_iff_pair (U : Unicode) (tag : Str) (e : Entity) (c : Str) :
    c ∈ populatedColumns U tag e ↔ ∃ v, (c, v) ∈ populatedPairs U tag e := by
  rw [mem_populatedColumns]
  constructor
  · rintro ⟨f, hf, hp, hc⟩
    exact ⟨f.text, (mem_populatedPairs U tag e _).2 ⟨f, hf, hp, by rw [hc]⟩⟩
  · rintro ⟨v, hv⟩
    obtain ⟨f, hf, hp, heq⟩ := (mem_populatedPairs U tag e _).1 hv
    exact ⟨f, hf, hp, (Prod.mk.inj heq).1⟩

/-- With distinct columns, the rendered value of a column is that of its pair. -/
theorem renderedOf_of_pair (U : Unicode) (tag : Str) (e : Entity) (c v : Str)
    (hd : (populatedColumns U tag e).Nodup) (h : (c, v) ∈ populatedPairs U tag e) :
    renderedOf U tag e c = v := by
  obtain ⟨f, hf, hp, heq⟩ := (mem_populatedPairs U tag e _).1 h
  obtain ⟨hc, hv⟩ := Prod.mk.inj heq
  unfold renderedOf
  cases hfind : e.fields.find? (fun f => f.populated tag && decide (f.column U tag = c)) with
  | none =>
    have := List.find?_eq_none.1 hfind f hf
    simp [hp, hc] at this
  | some g =>
    have hg := List.mem_of_find?_eq_some hfind
    have hpg := List.find?_some hfind
    simp only [Bool.and_eq_true, decide_eq_true_eq] at hpg
    have hfg : g = f := by
      unfold populatedColumns at hd
      apply List.inj_on_of_nodup_map hd
      · simp [hg, hpg.1]
      · simp [hf, hp]
      · rw [hpg.2, hc]
    simp only []
    rw [hfg, hv]

/-- Two builders that agree on the text, the arguments, the paging, the pending
fragments and the identifier column are rendered alike. -/
theorem rendered_congr (U : Unicode) (s1 s2 : Query) (r1 r2 : SQL) (h1 : s1.raw = some r1)
    (h2 : s2.raw = some r2) (hID : r1.ID = r2.ID)
    (hw : r1.whereConditions = r2.whereConditions) (hq : s1.QueryStr = s2.QueryStr)
    (ha : s1.Args = s2.Args) (hR : s1.Rows = s2.Rows) (hO : s1.Offset = s2.Offset) :
    rendered U (.ok s1) = rendered U (.ok s2) := by
  rw [rendered_of_raw U s1 r1 h1, rendered_of_raw U s2 r2 h2]
  have hl : limitClause s1 = limitClause s2 := by
    unfold limitClause
    rw [hq, hR, hO]
  rw [hID, hw, hq, ha, hl]

/-- The format of `insert` emits every key but the empty one. -/
theorem emitted_insert (m : FieldMap) (ks : List Str) (n : Nat) :
    emitted (fun key _ _ => key) m ks n
      = (ks.filter (fun k => decide (k ≠ []))).map (fun k => (k, Arg.str (m.val k))) := by
  induction ks generalizing n with
  | nil => simp [emitted]
  | cons k ks ih =>
    cases k with
    | nil => simp [emitted, ih]
    | cons c cs => simp [emitted, ih]

/-- The builder that `Insert` returns on a fresh builder, by its fields. -/
theorem insert_build_fields (U : Unicode) (now : Nat → Nat) (e : Entity) :
    ∃ s r, Build.Insert U now (.entity e) = .ok s ∧ s.raw = some r
      ∧ r.ID = idColumn U "sql".toList [] e ∧ r.whereConditions = []
      ∧ s.QueryStr
        = "INSERT INTO ".toList ++ e.TableName ++ " (".toList
          ++ Join (insertedColumns U "sql".toList e
              ++ ["create_date".toList, "write_date".toList]) ", ".toList
          ++ ") ".toList ++ "VALUES (".toList
          ++ Join (insertParams ((insertedColumns U "sql".toList e).length + 2)) ", ".toList
          ++ ")".toList
      ∧ s.Args
        = (insertedColumns U "sql".toList e).map
            (fun c => Arg.str (renderedOf U "sql".toList e c))
          ++ [Arg.time (now 0), Arg.time (now 1)]
      ∧ s.Rows = 0 ∧ s.Offset = 0 := by
  have hargs : (insertedColumns U "sql".toList e).map
        (fun c => Arg.str ((fieldMapOf U "sql".toList e).val c))
      = (insertedColumns U "sql".toList e).map
        (fun c => Arg.str (renderedOf U "sql".toList e c)) := by
    apply List.map_congr_left
    intro c hc
    unfold insertedColumns at hc
    rw [List.mem_filter, mem_sortStrings, mem_fieldMapOf_keys] at hc
    rw [fieldMapOf_val U _ e c hc.1]
  unfold Query.Insert SQL.insert
  rw [NewScope_Model, NewScope_snd]
  simp only []
  rw [fieldsToArgs_entity]
  simp only [emitted_insert]
  refine ⟨_, _, rfl, rfl, rfl, rfl, ?_, ?_, rfl, rfl⟩
  · simp [insertedColumns, Build, Query.NewScope, Function.comp_def]
  · simp only [← hargs]
    simp [insertedColumns, Build, Query.NewScope, Function.comp_def]

/-- The builder that `From` returns on a fresh builder, with its pending
fragment. -/
theorem from_build_where (U : Unicode) (e : Entity) (a : Str) :
    ∃ s r, Build.From U (.entity e) a = .ok s ∧ s.raw = some r
      ∧ r.ID = idColumn U "sql".toList [] e
      ∧ r.whereConditions
        = (if sortStrings (fieldMapOf U "sql".toList e).keys = [] then []
          else
            [⟨Join ((sortStrings (fieldMapOf U "sql".toList e).keys).map
                  (fun c => a ++ ".".toList ++ c ++ " = ?".toList)) " AND ".toList,
              (sortStrings (fieldMapOf U "sql".toList e).keys).map
                (fun c => Arg.str (renderedOf U "sql".toList e c))⟩])
      ∧ s.QueryStr
        = "SELECT ".toList ++ (a ++ ".* ".toList) ++ "FROM ".toList
          ++ (e.TableName ++ " ".toList ++ a)
      ∧ s.Args = [] ∧ s.Rows = 0 ∧ s.Offset = 0 := by
  have hargs : (sortStrings (fieldMapOf U "sql".toList e).keys).map
        (fun c => Arg.str ((fieldMapOf U "sql".toList e).val c))
      = (sortStrings (fieldMapOf U "sql".toList e).keys).map
        (fun c => Arg.str (renderedOf U "sql".toList e c)) := by
    apply List.map_congr_left
    intro c hc
    rw [mem_sortStrings, mem_fieldMapOf_keys] at hc
    rw [fieldMapOf_val U _ e c hc]
  refine ⟨_, _, from_build U e a, rfl, rfl, ?_, rfl, rfl, rfl, rfl⟩
  simp only [hargs]

/-- C23, amended. For any two entities with the same table name and the same
recorded identifier column, whose populated tagged fields have distinct columns
and yield the same set of pairs of column and rendered value, `From`, `Insert`
and `Updates` on a fresh builder return the same text and the same arguments
(the clock being the same).  The columns are written in strictly ascending
order: for the ascending list `cs` of the populated columns, `From` conjoins the
conditions `a.c = ?` for `cs`, `Insert` lists the columns of `cs` but the empty
one, and `Updates` assigns the columns of `cs` in which the identifier column
does not occur. -/
theorem declaration_order_independent (U : Unicode) (now : Nat → Nat) (e1 e2 : Entity) (a : Str)
    (hT : e1.TableName = e2.TableName)
    (hid : idColumn U "sql".toList [] e1 = idColumn U "sql".toList [] e2)
    (hd1 : (populatedColumns U "sql".toList e1).Nodup)
    (hd2 : (populatedColumns U "sql".toList e2).Nodup)
    (hpairs : ∀ p, p ∈ populatedPairs U "sql".toList e1 ↔ p ∈ populatedPairs U "sql".toList e2) :
    rendered U (Build.From U (.entity e1) a) = rendered U (Build.From U (.entity e2) a)
      ∧ rendered U (Build.Insert U now (.entity e1)) = rendered U (Build.Insert U now (.entity e2))
      ∧ rendered U (Build.Updates U now (.entity e1))
        = rendered U (Build.Updates U now (.entity e2))
      ∧ ∃ cs, Ascending cs ∧ (∀ c, c ∈ cs ↔ c ∈ populatedColumns U "sql".toList e1)
        ∧ (∃ s r, Build.From U (.entity e1) a = .ok s ∧ s.raw = some r
            ∧ r.whereConditions
              = if cs = [] then []
                else
                  [⟨Join (cs.map (fun c => a ++ ".".toList ++ c ++ " = ?".toList))
                      " AND ".toList,
                    cs.map (fun c => Arg.str (renderedOf U "sql".toList e1 c))⟩])
        ∧ statementText (Build.Insert U now (.entity e1))
          = .ok
            ("INSERT INTO ".toList ++ e1.TableName ++ " (".toList
              ++ Join (cs.filter (fun k => decide (k ≠ []))
                  ++ ["create_date".toList, "write_date".toList]) ", ".toList
              ++ ") ".toList ++ "VALUES (".toList
              ++ Join (insertParams ((cs.filter (fun k => decide (k ≠ []))).length + 2))
                ", ".toList
              ++ ")".toList)
        ∧ statementText (Build.Updates U now (.entity e1))
          = .ok
            ("UPDATE ".toList ++ e1.TableName ++ " SET ".toList
              ++ Join
                (numberedAssignments
                    (cs.filter (fun k => !Contains k (idColumn U "sql".toList [] e1))) 2
                  ++ ["write_date = $1".toList]) ", ".toList) := by
  have hcols : ∀ c, c ∈ populatedColumns U "sql".toList e1
      ↔ c ∈ populatedColumns U "sql".toList e2 := by
    intro c
    rw [mem_populatedColumns_iff_pair, mem_populatedColumns_iff_pair]
    exact exists_congr (fun v => hpairs (c, v))
  have hkeys : sortStrings (fieldMapOf U "sql".toList e1).keys
      = sortStrings (fieldMapOf U "sql".toList e2).keys :=
    sortStrings_congr _ _ (fieldMapOf_keys_nodup U _ e1) (fieldMapOf_keys_nodup U _ e2)
      (fun c => by rw [mem_fieldMapOf_keys, mem_fieldMapOf_keys, hcols c])
  have hval : ∀ c ∈ populatedColumns U "sql".toList e1,
      renderedOf U "sql".toList e1 c = renderedOf U "sql".toList e2 c := by
    intro c hc
    obtain ⟨v, hv⟩ := (mem_populatedColumns_iff_pair U _ e1 c).1 hc
    rw [renderedOf_of_pair U _ e1 c v hd1 hv,
      renderedOf_of_pair U _ e2 c v hd2 ((hpairs (c, v)).1 hv)]
  have hvals : ∀ cs : List Str, (∀ c ∈ cs, c ∈ populatedColumns U "sql".toList e1) →
      cs.map (fun c => Arg.str (renderedOf U "sql".toList e1 c))
        = cs.map (fun c => Arg.str (renderedOf U "sql".toList e2 c)) := by
    intro cs hcs
    apply List.map_congr_left
    intro c hc
    rw [hval c (hcs c hc)]
  have hsorted : ∀ c ∈ sortStrings (fieldMapOf U "sql".toList e1).keys,
      c ∈ populatedColumns U "sql".toList e1 := by
    intro c hc
    rwa [mem_sortStrings, mem_fieldMapOf_keys] at hc
  obtain ⟨f1, rf1, hf1, hf1raw, hf1id, hf1w, hf1q, hf1a, hf1R, hf1O⟩ := from_build_where U e1 a
  obtain ⟨f2, rf2, hf2, hf2raw, hf2id, hf2w, hf2q, hf2a, hf2R, hf2O⟩ := from_build_where U e2 a
  obtain ⟨i1, ri1, hi1, hi1raw, hi1id, hi1w, hi1q, hi1a, hi1R, hi1O⟩ :=
    insert_build_fields U now e1
  obtain ⟨i2, ri2, hi2, hi2raw, hi2id, hi2w, hi2q, hi2a, hi2R, hi2O⟩ :=
    insert_build_fields U now e2
  obtain ⟨u1, ru1, hu1, hu1raw, hu1id, hu1w, hu1q, hu1a, hu1R, hu1O⟩ := updates_build U now e1
  obtain ⟨u2, ru2, hu2, hu2raw, hu2id, hu2w, hu2q, hu2a, hu2R, hu2O⟩ := updates_build U now e2
  have hins : insertedColumns U "sql".toList e1 = insertedColumns U "sql".toList e2 := by
    unfold insertedColumns
    rw [hkeys]
  have hass : assignedColumns U "sql".toList (idColumn U "sql".toList [] e1) e1
      = assignedColumns U "sql".toList (idColumn U "sql".toList [] e2) e2 := by
    unfold assignedColumns
    rw [hkeys, hid]
  refine ⟨?_, ?_, ?_, sortStrings (fieldMapOf U "sql".toList e1).keys,
    ascending_sortStrings _ (fieldMapOf_keys_nodup U _ e1),
    fun c => by rw [mem_sortStrings, mem_fieldMapOf_keys],
    ⟨f1, rf1, hf1, hf1raw, hf1w⟩, ?_, ?_⟩
  · rw [hf1, hf2]
    apply rendered_congr U f1 f2 rf1 rf2 hf1raw hf2raw
    · rw [hf1id, hf2id, hid]
    · rw [hf1w, hf2w, hvals _ hsorted, hkeys]
    · rw [hf1q, hf2q, hT]
    · rw [hf1a, hf2a]
    · rw [hf1R, hf2R]
    · rw [hf1O, hf2O]
  · rw [hi1, hi2]
    apply rendered_congr U i1 i2 ri1 ri2 hi1raw hi2raw
    · rw [hi1id, hi2id, hid]
    · rw [hi1w, hi2w]
    · rw [hi1q, hi2q, hT, hins]
    · rw [hi1a, hi2a, hvals (insertedColumns U "sql".toList e1)
        (fun c hc => hsorted c (List.mem_filter.1 hc).1), hins]
    · rw [hi1R, hi2R]
    · rw [hi1O, hi2O]
  · rw [hu1, hu2]
    apply rendered_congr U u1 u2 ru1 ru2 hu1raw hu2raw
    · rw [hu1id, hu2id, hid]
    · rw [hu1w, hu2w]
    · rw [hu1q, hu2q, hT, hass]
    · rw [hu1a, hu2a, hvals (assignedColumns U "sql".toList (idColumn U "sql".toList [] e1) e1)
        (fun c hc => hsorted c (List.mem_filter.1 hc).1), hass]
    · rw [hu1R, hu2R]
    · rw [hu1O, hu2O]
  · rw [hi1]
    simp only [statementText, hi1q]
    rfl
  · rw [hu1]
    simp only [statementText, hu1q]
    rfl

set_option maxRecDepth 100000 in
/-- Witness of C23: `User{ID: 3, Name: "budi"}` and the entity with the same
fields declared in another order. -/
theorem declaration_order_independent_witness :
    (User 3 "budi").TableName = userReordered.TableName
      ∧ idColumn asciiUnicode "sql".toList [] (User 3 "budi")
        = idColumn asciiUnicode "sql".toList [] userReordered
      ∧ (populatedColumns asciiUnicode "sql".toList (User 3 "budi")).Nodup
      ∧ (populatedColumns asciiUnicode "sql".toList userReordered).Nodup
      ∧ (∀ p, p ∈ populatedPairs asciiUnicode "sql".toList (User 3 "budi")
          ↔ p ∈ populatedPairs asciiUnicode "sql".toList userReordered)
      ∧ rendered asciiUnicode (Build.From asciiUnicode (.entity (User 3 "budi")) "u".toList)
        = rendered asciiUnicode (Build.From asciiUnicode (.entity userReordered) "u".toList)
      ∧ rendered asciiUnicode (Build.Insert asciiUnicode id (.entity (User 3 "budi")))
        = rendered asciiUnicode (Build.Insert asciiUnicode id (.entity userReordered))
      ∧ rendered asciiUnicode (Build.Updates asciiUnicode id (.entity (User 3 "budi")))
        = rendered asciiUnicode (Build.Updates asciiUnicode id (.entity userReordered))
      ∧ rendered asciiUnicode (Build.From asciiUnicode (.entity userReordered) "u".toList)
        = .ok
          ("SELECT u.* FROM ref_user u WHERE u.id = $1 AND u.name = $2 LIMIT 100 OFFSET 0".toList,
            [Arg.str "3".toList, Arg.str "budi".toList]) := by
  have h1 : populatedPairs asciiUnicode "sql".toList (User 3 "budi")
      = [("id".toList, "3".toList), ("name".toList, "budi".toList)] := by decide
  have h2 : populatedPairs asciiUnicode "sql".toList userReordered
      = [("name".toList, "budi".toList), ("id".toList, "3".toList)] := by decide
  have hp : ∀ p, p ∈ populatedPairs asciiUnicode "sql".toList (User 3 "budi")
      ↔ p ∈ populatedPairs asciiUnicode "sql".toList userReordered := by
    intro p
    rw [h1, h2]
    simp only [List.mem_cons, List.mem_singleton, List.not_mem_nil, or_false]
    exact or_comm
  have h := declaration_order_independent asciiUnicode id (User 3 "budi") userReordered
    "u".toList (by decide) (by decide) (by decide) (by decide) hp
  exact ⟨by decide, by decide, by decide, by decide, hp, h.1, h.2.1, h.2.2.1, by decide⟩

set_option maxRecDepth 100000 in
/-- C23 as stated fails.  `User{Name: "budi"}`, whose field `ID` is zero, and the
entity `userName` without a field `ID` have the same table name and the same
populated pair of column and value, and `Insert` returns different texts for
them. -/
theorem declaration_order_independent_counterexample :
    (User 0 "budi").TableName = userName.TableName
      ∧ populatedPairs asciiUnicode "sql".toList (User 0 "budi")
        = [("name".toList, "budi".toList)]
      ∧ populatedPairs asciiUnicode "sql".toList userName = [("name".toList, "budi".toList)]
      ∧ rendered asciiUnicode (Build.Insert asciiUnicode id (.entity (User 0 "budi")))
        = .ok
          ("INSERT INTO ref_user (name, create_date, write_date) VALUES ($1, $2, $3) RETURNING id".toList,
            [Arg.str "budi".toList, Arg.time 0, Arg.time 1])
      ∧ rendered asciiUnicode (Build.Insert asciiUnicode id (.entity userName))
        = .ok
          ("INSERT INTO ref_user (name, create_date, write_date) VALUES ($1, $2, $3) RETURNING ".toList,
            [Arg.str "budi".toList, Arg.time 0, Arg.time 1]) := by
  decide

/-! ## Nullable wrappers and the identifier in the field map -/

theorem FieldMap.push_push_get (m : FieldMap) (k : Str) (v w : Iface) :
    ((m.push k v).push k w).get k = m.get k ++ [v, w] := by
  rw [FieldMap.get_push, FieldMap.get_push]
  simp

theorem FieldMap.push_push_ne (m : FieldMap) (k : Str) (v w : Iface) :
    (m.push k v).push k w ≠ m := by
  intro h
  have := FieldMap.push_push_get m k v w
  rw [h] at this
  have hl := congrArg List.length this
  simp at hl

theorem renderValue_nullable (v : Value) (h : v.isNullable = true) :
    renderValue v = if v.valid then some v.wrappedText else none := by
  cases v <;> simp_all [Value.isNullable, renderValue, Value.valid, Value.wrappedText] <;>
    split <;> simp_all

theorem isEmptyValue_nullable (v : Value) (h : v.isNullable = true) : isEmptyValue v = false := by
  cases v <;> simp_all [Value.isNullable, isEmptyValue]

set_option maxRecDepth 100000 in
/-- C24. In the round of `TagsToField` for a tagged field of a nullable wrapper
type, the field map gets an entry under the column of the field if and only if
the `Valid` flag is set: a valid wrapper adds its wrapped value rendered as text,
also when that is the zero value, and an invalid wrapper leaves the map as it
is, whatever it holds.  So `Updates` sets the columns of
`Game{ID: 507, Description: String(""), Rate: Int64(0)}` to the empty string and
to 0, and assigns no column for a description and a rate that are not valid. -/
theorem nullable_emitted_iff_valid (U : Unicode) (tag : Str) (acc : Str × FieldMap) (f : Field)
    (hk : f.val.isNullable = true) (ht : f.TagGet tag ≠ []) :
    (f.val.valid = true →
        (TagsToFieldStep U tag acc f).2
          = (acc.2.push (f.column U tag) (.str f.val.wrappedText)).push (f.column U tag)
              (.opts (f.options tag)))
      ∧ (f.val.valid = false → (TagsToFieldStep U tag acc f).2 = acc.2)
      ∧ ((TagsToFieldStep U tag acc f).2 ≠ acc.2 ↔ f.val.valid = true)
      ∧ rendered asciiUnicode
          (Build.Updates asciiUnicode id
            (.entity (Game 507 "" "" (.nullString [] true) false (.nullInt64 0 true) noTime)))
        = .ok
          ("UPDATE ref_game SET game_description = $2, rate = $3, write_date = $1 RETURNING game_id".toList,
            [Arg.time 0, Arg.str [], Arg.str "0".toList])
      ∧ rendered asciiUnicode
          (Build.Updates asciiUnicode id
            (.entity
              (Game 507 "" "" (.nullString "x".toList false) false (.nullInt64 9 false) noTime)))
        = .ok ("UPDATE ref_game SET write_date = $1 RETURNING game_id".toList, [Arg.time 0]) := by
  have hstep : (TagsToFieldStep U tag acc f).2
      = if f.val.valid then
          (acc.2.push (f.column U tag) (.str f.val.wrappedText)).push (f.column U tag)
            (.opts (f.options tag))
        else acc.2 := by
    rw [TagsToFieldStep_snd]
    unfold pushField Field.populated Field.text
    rw [isEmptyValue_nullable _ hk, renderValue_nullable _ hk]
    cases hv : f.val.valid <;> simp [ht]
  refine ⟨fun hv => ?_, fun hv => ?_, ?_, by decide, by decide⟩
  · rw [hstep, if_pos hv]
  · rw [hstep, hv]
    rfl
  · rw [hstep]
    cases hv : f.val.valid
    · simp
    · simp only [if_true, iff_true]
      exact FieldMap.push_push_ne _ _ _ _

set_option maxRecDepth 100000 in
/-- Witness of C24: the field `Description` of a game, holding a valid empty
string. -/
theorem nullable_emitted_iff_valid_witness :
    Value.isNullable (.nullString [] true) = true
      ∧ Field.TagGet ⟨"Description".toList, jsonSqlTag "game_description", .nullString [] true⟩
          "sql".toList ≠ []
      ∧ (TagsToFieldStep asciiUnicode "sql".toList ([], [])
          ⟨"Description".toList, jsonSqlTag "game_description", .nullString [] true⟩).2
        = FieldMap.push
            (FieldMap.push []
              (Field.column asciiUnicode "sql".toList
                ⟨"Description".toList, jsonSqlTag "game_description", .nullString [] true⟩)
              (.str (Value.wrappedText (.nullString [] true))))
            (Field.column asciiUnicode "sql".toList
              ⟨"Description".toList, jsonSqlTag "game_description", .nullString [] true⟩)
            (.opts
              (Field.options "sql".toList
                ⟨"Description".toList, jsonSqlTag "game_description", .nullString [] true⟩))
      ∧ (TagsToFieldStep asciiUnicode "sql".toList ([], [])
          ⟨"Description".toList, jsonSqlTag "game_description", .nullString [] true⟩).2
        = [("game_description".toList, [Iface.str [], Iface.opts []])] :=
  ⟨rfl, by decide,
    (nullable_emitted_iff_valid asciiUnicode "sql".toList ([], [])
      ⟨"Description".toList, jsonSqlTag "game_description", .nullString [] true⟩ rfl
      (by decide)).1 rfl,
    by decide⟩

/-- C25, amended. For every entity whose last field named `ID` (names compared
without regard to case) is `f`, with column `c`, when `f` holds a value that
`isEmptyValue` takes for empty and no other populated tagged field has the
column `c`: the statement of `Insert` on a fresh builder lists the columns of
the populated fields, `c` not among them, its arguments are the values of
these columns and two timestamps, and the text that `ToSQL` returns ends with
` RETURNING c`. -/
theorem identifier_recorded_when_empty (U : Unicode) (now : Nat → Nat) (e : Entity)
    (pre post : List Field) (f : Field)
    (hf : e.fields = pre ++ f :: post) (hid : equalFoldID f.Name = true)
    (hlast : ∀ g ∈ post, equalFoldID g.Name = false)
    (hempty : isEmptyValue f.val = true)
    (hother : ∀ g ∈ pre ++ post, g.populated "sql".toList = true →
      g.column U "sql".toList ≠ f.column U "sql".toList) :
    ∃ s body,
      Build.Insert U now (.entity e) = .ok s
        ∧ s.QueryStr
          = "INSERT INTO ".toList ++ e.TableName ++ " (".toList
            ++ Join (insertedColumns U "sql".toList e
                ++ ["create_date".toList, "write_date".toList]) ", ".toList
            ++ ") ".toList ++ "VALUES (".toList
            ++ Join (insertParams ((insertedColumns U "sql".toList e).length + 2)) ", ".toList
            ++ ")".toList
        ∧ f.column U "sql".toList ∉ insertedColumns U "sql".toList e
        ∧ s.Args
          = (insertedColumns U "sql".toList e).map
              (fun c => Arg.str (renderedOf U "sql".toList e c))
            ++ [Arg.time (now 0), Arg.time (now 1)]
        ∧ rendered U (.ok s)
          = .ok (body ++ " RETURNING ".toList ++ f.column U "sql".toList, s.Args) := by
  have hidc := idColumn_last U "sql".toList [] e pre post f hf hid hlast
  obtain ⟨s, r, h1, hraw, hID, hw, hq, ha, _, _⟩ := insert_build_fields U now e
  have hnot : f.column U "sql".toList ∉ insertedColumns U "sql".toList e := by
    intro hmem
    unfold insertedColumns at hmem
    rw [List.mem_filter, mem_sortStrings, mem_fieldMapOf_keys, mem_populatedColumns] at hmem
    obtain ⟨⟨g, hg, hpop, hcol⟩, _⟩ := hmem
    rw [hf] at hg
    rcases List.mem_append.1 hg with hg' | hg'
    · exact hother g (List.mem_append_left _ hg') hpop hcol
    · rcases List.mem_cons.1 hg' with hg'' | hg''
      · rw [hg''] at hpop
        have := nonempty_of_populated _ f hpop
        rw [hempty] at this
        exact Bool.noConfusion this
      · exact hother g (List.mem_append_right _ hg'') hpop hcol
  refine ⟨s, s.QueryStr ++ limitClause s, h1, hq, hnot, ha, ?_⟩
  have hret : returningClause U r.ID (s.QueryStr ++ limitClause s)
      = " RETURNING ".toList ++ f.column U "sql".toList := by
    rw [hq]
    simp only [List.append_assoc]
    rw [returningClause_insert, hID, hidc]
  rw [rendered_of_raw U s r hraw, hw]
  unfold withReturning
  simp only [whereClause, if_true, List.append_nil, whereArgs, List.map_nil, List.flatten_nil]
  rw [hret]
  simp only [List.append_assoc]

set_option maxRecDepth 100000 in
/-- Witness of C25: `User{Name: "budi"}`, whose field `ID` is zero. -/
theorem identifier_recorded_when_empty_witness :
    (User 0 "budi").fields
        = (User 0 "budi").fields.take 5
          ++ ⟨"ID".toList, [("json".toList, "user_id".toList), ("sql".toList, "id".toList)], .int 0⟩
            :: (User 0 "budi").fields.drop 6
      ∧ equalFoldID "ID".toList = true
      ∧ (∀ g ∈ (User 0 "budi").fields.drop 6, equalFoldID g.Name = false)
      ∧ isEmptyValue (.int 0) = true
      ∧ (∀ g ∈ (User 0 "budi").fields.take 5 ++ (User 0 "budi").fields.drop 6,
          g.populated "sql".toList = true →
            g.column asciiUnicode "sql".toList
              ≠ Field.column asciiUnicode "sql".toList
                  ⟨"ID".toList, [("json".toList, "user_id".toList), ("sql".toList, "id".toList)],
                    .int 0⟩)
      ∧ (∃ s body,
          Build.Insert asciiUnicode id (.entity (User 0 "budi")) = .ok s
            ∧ s.QueryStr
              = "INSERT INTO ".toList ++ (User 0 "budi").TableName ++ " (".toList
                ++ Join (insertedColumns asciiUnicode "sql".toList (User 0 "budi")
                    ++ ["create_date".toList, "write_date".toList]) ", ".toList
                ++ ") ".toList ++ "VALUES (".toList
                ++ Join
                  (insertParams
                    ((insertedColumns asciiUnicode "sql".toList (User 0 "budi")).length + 2))
                  ", ".toList
                ++ ")".toList
            ∧ Field.column asciiUnicode "sql".toList
                ⟨"ID".toList, [("json".toList, "user_id".toList), ("sql".toList, "id".toList)],
                  .int 0⟩
              ∉ insertedColumns asciiUnicode "sql".toList (User 0 "budi")
            ∧ s.Args
              = (insertedColumns asciiUnicode "sql".toList (User 0 "budi")).map
                  (fun c => Arg.str (renderedOf asciiUnicode "sql".toList (User 0 "budi") c))
                ++ [Arg.time (id 0), Arg.time (id 1)]
            ∧ rendered asciiUnicode (.ok s)
              = .ok
                (body ++ " RETURNING ".toList
                    ++ Field.column asciiUnicode "sql".toList
                      ⟨"ID".toList,
                        [("json".toList, "user_id".toList), ("sql".toList, "id".toList)], .int 0⟩,
                  s.Args))
      ∧ rendered asciiUnicode (Build.Insert asciiUnicode id (.entity (User 0 "budi")))
        = .ok
          ("INSERT INTO ref_user (name, create_date, write_date) VALUES ($1, $2, $3) RETURNING id".toList,
            [Arg.str "budi".toList, Arg.time 0, Arg.time 1]) :=
  ⟨rfl, rfl, by decide, rfl, by decide,
    identifier_recorded_when_empty asciiUnicode id (User 0 "budi")
      ((User 0 "budi").fields.take 5) ((User 0 "budi").fields.drop 6)
      ⟨"ID".toList, [("json".toList, "user_id".toList), ("sql".toList, "id".toList)], .int 0⟩
      rfl rfl (by decide) rfl (by decide),
    by decide⟩

set_option maxRecDepth 100000 in
/-- C25 as stated fails.  The field `ID` of `device` is an array of 16 zero bytes,
the zero value of its type, which `isEmptyValue` does not take for empty: `Insert`
lists its column `id` and passes its value.  The field `ID` of `legacy` is 0, and
its column `id` is listed for the populated field `Legacy` with the same tag. -/
theorem identifier_recorded_when_empty_counterexample :
    isEmptyValue (.coll 16 "[0 0 0 0 0 0 0 0 0 0 0 0 0 0 0 0]".toList) = false
      ∧ rendered asciiUnicode (Build.Insert asciiUnicode id (.entity device))
        = .ok
          ("INSERT INTO ref_device (id, name, create_date, write_date) VALUES ($1, $2, $3, $4) RETURNING id".toList,
            [Arg.str "[0 0 0 0 0 0 0 0 0 0 0 0 0 0 0 0]".toList, Arg.str "probe".toList,
              Arg.time 0, Arg.time 1])
      ∧ rendered asciiUnicode (Build.Insert asciiUnicode id (.entity legacy))
        = .ok
          ("INSERT INTO ref_legacy (id, create_date, write_date) VALUES ($1, $2, $3) RETURNING id".toList,
            [Arg.str "5".toList, Arg.time 0, Arg.time 1]) := by
  decide

/-! ## `isValidTag` and `parseTag` -/

theorem isValidTagLoop_iff (U : Unicode) (s : Str) :
    isValidTagLoop U s = true
      ↔ ∀ c ∈ s, U.isLetter c = true ∨ U.isDigit c = true
          ∨ c ∈ "!#$%&()*+-./:<=>?@[]^_\x7b|\x7d~ ".toList := by
  induction s with
  | nil => simp [isValidTagLoop]
  | cons c cs ih =>
    unfold isValidTagLoop
    by_cases hp : "!#$%&()*+-./:<=>?@[]^_\x7b|\x7d~ ".toList.contains c = true
    · rw [if_pos hp, ih]
      have hm : c ∈ "!#$%&()*+-./:<=>?@[]^_\x7b|\x7d~ ".toList := by
        simpa using hp
      constructor
      · intro h d hd
        rcases List.mem_cons.1 hd with rfl | hd'
        · exact Or.inr (Or.inr hm)
        · exact h d hd'
      · intro h d hd
        exact h d (List.mem_cons_of_mem _ hd)
    · rw [if_neg hp]
      have hm : c ∉ "!#$%&()*+-./:<=>?@[]^_\x7b|\x7d~ ".toList :=
        fun h => hp (by simpa using h)
      by_cases hl : (!U.isLetter c && !U.isDigit c) = true
      · rw [if_pos hl]
        simp only [Bool.and_eq_true, Bool.not_eq_true'] at hl
        constructor
        · intro h
          exact absurd h (by decide)
        · intro h
          rcases h c (List.mem_cons_self _ _) with h1 | h1 | h1
          · rw [hl.1] at h1
            exact absurd h1 (by decide)
          · rw [hl.2] at h1
            exact absurd h1 (by decide)
          · exact absurd h1 hm
      · rw [if_neg hl, ih]
        have hl' : U.isLetter c = true ∨ U.isDigit c = true := by
          cases h1 : U.isLetter c <;> cases h2 : U.isDigit c <;> simp_all
        constructor
        · intro h d hd
          rcases List.mem_cons.1 hd with rfl | hd'
          · rcases hl' with h1 | h1
            · exact Or.inl h1
            · exact Or.inr (Or.inl h1)
          · exact h d hd'
        · intro h d hd
          exact h d (List.mem_cons_of_mem _ hd)

/-- C26. `isValidTag(s)` holds if and only if `s` is not empty and each of its
characters is a letter, a digit, or one of the listed punctuation characters,
the space among them.  So it rejects the empty string, and every string with a
comma, a backslash (code 92), a double quote (34), a single quote (39) or a
semicolon in it. -/
theorem isValidTag_iff (U : Unicode) (s : Str) :
    (isValidTag U s = true
        ↔ s ≠ [] ∧ ∀ c ∈ s, U.isLetter c = true ∨ U.isDigit c = true
            ∨ c ∈ "!#$%&()*+-./:<=>?@[]^_\x7b|\x7d~ ".toList)
      ∧ isValidTag U [] = false
      ∧ (∀ c ∈ [',', Char.ofNat 92, Char.ofNat 34, Char.ofNat 39, ';'], c ∈ s →
          isValidTag U s = false) := by
  have main : isValidTag U s = true
      ↔ s ≠ [] ∧ ∀ c ∈ s, U.isLetter c = true ∨ U.isDigit c = true
          ∨ c ∈ "!#$%&()*+-./:<=>?@[]^_\x7b|\x7d~ ".toList := by
    unfold isValidTag
    by_cases hs : s = []
    · simp [hs]
    · rw [if_neg hs, isValidTagLoop_iff]
      simp [hs]
  refine ⟨main, by simp [isValidTag], ?_⟩
  intro c hc hmem
  cases hv : isValidTag U s with
  | false => rfl
  | true =>
    exfalso
    have hbad : c.toNat < 128 ∧ c.isAlpha = false ∧ c.isDigit = false
        ∧ c ∉ "!#$%&()*+-./:<=>?@[]^_\x7b|\x7d~ ".toList := by
      simp only [List.mem_cons, List.mem_singleton, List.not_mem_nil, or_false] at hc
      rcases hc with rfl | rfl | rfl | rfl | rfl <;> decide
    rcases (main.1 hv).2 c hmem with h | h | h
    · rw [U.isLetter_ascii c hbad.1, hbad.2.1] at h
      exact absurd h (by decide)
    · rw [U.isDigit_ascii c hbad.1, hbad.2.2.1] at h
      exact absurd h (by decide)
    · exact hbad.2.2.2 h

theorem splitComma_ne_nil (s : Str) : splitComma s ≠ [] := by
  cases s with
  | nil => simp [splitComma]
  | cons c cs =>
    unfold splitComma
    split
    · simp
    · split <;> simp

theorem splitComma_cons_of_ne (c : Char) (cs : Str) (h : c ≠ ',') :
    ∃ seg segs, splitComma cs = seg :: segs ∧ splitComma (c :: cs) = (c :: seg) :: segs := by
  cases hs : splitComma cs with
  | nil => exact absurd hs (splitComma_ne_nil cs)
  | cons seg segs =>
    refine ⟨seg, segs, rfl, ?_⟩
    rw [splitComma, if_neg h, hs]

theorem splitComma_cons_comma (cs : Str) : splitComma (',' :: cs) = [] :: splitComma cs := by
  rw [splitComma, if_pos rfl]

/-- Joining the segments with commas gives the text back. -/
theorem Join_splitComma (s : Str) : Join (splitComma s) [','] = s := by
  induction s with
  | nil => rfl
  | cons c cs ih =>
    by_cases h : c = ','
    · rw [h, splitComma_cons_comma, Join_cons_of_ne_nil _ _ _ (splitComma_ne_nil cs), ih]
      rfl
    · obtain ⟨seg, segs, h1, h2⟩ := splitComma_cons_of_ne c cs h
      rw [h2]
      rw [h1] at ih
      cases segs with
      | nil =>
        rw [Join_singleton] at ih ⊢
        rw [ih]
      | cons x xs =>
        rw [Join_cons_cons] at ih ⊢
        rw [← ih]
        simp

/-- No segment has a comma in it. -/
theorem splitComma_no_comma (s : Str) : ∀ seg ∈ splitComma s, ',' ∉ seg := by
  induction s with
  | nil => simp [splitComma]
  | cons c cs ih =>
    by_cases h : c = ','
    · rw [h, splitComma_cons_comma]
      intro seg hseg
      rcases List.mem_cons.1 hseg with rfl | h'
      · simp
      · exact ih seg h'
    · obtain ⟨seg0, segs, h1, h2⟩ := splitComma_cons_of_ne c cs h
      rw [h2]
      rw [h1] at ih
      intro seg hseg
      rcases List.mem_cons.1 hseg with rfl | h'
      · intro hmem
        rcases List.mem_cons.1 hmem with h3 | h3
        · exact h h3.symm
        · exact ih seg0 (List.mem_cons_self _ _) h3
      · exact ih seg (List.mem_cons_of_mem _ h')

/-- The first segment is the text before the first comma. -/
theorem splitComma_head (s : Str) :
    ∃ segs, splitComma s = s.takeWhile (fun c => c != ',') :: segs := by
  induction s with
  | nil => exact ⟨[], rfl⟩
  | cons c cs ih =>
    by_cases h : c = ','
    · rw [h, splitComma_cons_comma]
      exact ⟨splitComma cs, by simp⟩
    · obtain ⟨seg, segs, h1, h2⟩ := splitComma_cons_of_ne c cs h
      obtain ⟨segs', h3⟩ := ih
      rw [h1] at h3
      rw [h2]
      refine ⟨segs, ?_⟩
      have hc : (c != ',') = true := by simpa using h
      rw [List.takeWhile_cons, hc]
      simp only [if_true]
      rw [(List.cons.inj h3).1]

/-- C27. For every tag string `raw`, the name that `parseTag` returns is the part
of `raw` before its first comma, all of `raw` when it has none; the name and the
options are the segments of `raw` between its commas: joined with commas they
give `raw`, and none has a comma in it; and `Contains(o)` holds exactly for the
`o` among the options.  `parseTag("field,foobar,foo")` gives the name `field`,
and `Contains` holds for `foobar` and `foo`, not for `bar`. -/
theorem parseTag_segments (raw : Str) :
    (parseTag raw).1 = raw.takeWhile (fun c => c != ',')
      ∧ Join ((parseTag raw).1 :: (parseTag raw).2) [','] = raw
      ∧ ',' ∉ (parseTag raw).1
      ∧ (∀ o ∈ (parseTag raw).2, ',' ∉ o)
      ∧ (∀ o, tagOptions.Contains (parseTag raw).2 o = true ↔ o ∈ (parseTag raw).2)
      ∧ (parseTag "field,foobar,foo".toList).1 = "field".toList
      ∧ tagOptions.Contains (parseTag "field,foobar,foo".toList).2 "foobar".toList = true
      ∧ tagOptions.Contains (parseTag "field,foobar,foo".toList).2 "foo".toList = true
      ∧ tagOptions.Contains (parseTag "field,foobar,foo".toList).2 "bar".toList = false := by
  obtain ⟨segs, hsegs⟩ := splitComma_head raw
  have hp : parseTag raw = (raw.takeWhile (fun c => c != ','), segs) := by
    unfold parseTag
    rw [hsegs]
  have hj := Join_splitComma raw
  have hn := splitComma_no_comma raw
  rw [hsegs] at hj hn
  rw [hp]
  refine ⟨rfl, hj, hn _ (List.mem_cons_self _ _),
    fun o ho => hn o (List.mem_cons_of_mem _ ho), fun o => ?_, by decide, by decide, by decide,
    by decide⟩
  simp [tagOptions.Contains]

/-! ## `CloneStruct` -/

/-- C30. `CloneStruct(src, dest)` returns `NotPointer` when `dest` is not a
pointer and `NilPointer` when `dest` is a nil pointer, whatever `src` is: `dest`
is checked first.  When `dest` is a pointer that is not nil, it returns
`NotPointer` when `src` is not a pointer and `NilPointer` when `src` is a nil
pointer.  The two errors differ, and in each of the four cases `dest` is left as
it was. -/
theorem cloneStruct_pointer_errors {α β : Type} (marshal : α → Except String Str)
    (unmarshal : Str → β → β × Option String) (src : PtrArg α) (d : β) :
    CloneStruct marshal unmarshal src .notPointer = (some .NotPointer, .notPointer)
      ∧ CloneStruct marshal unmarshal src .nilPointer = (some .NilPointer, .nilPointer)
      ∧ CloneStruct marshal unmarshal .notPointer (.pointer d) = (some .NotPointer, .pointer d)
      ∧ CloneStruct marshal unmarshal .nilPointer (.pointer d) = (some .NilPointer, .pointer d)
      ∧ CloneError.NotPointer ≠ CloneError.NilPointer :=
  ⟨rfl, rfl, rfl, rfl, by decide⟩

/-! ## The execution layer -/

/-- C31, amended. When the connection is there (and, for `QueryCtx`, the query
succeeds) and the row callback returns an error `e`: `QueryRowCtx` and `QueryCtx`
return that same `e` when `e` is not the no-rows error of the driver, and they
return nil when it is. -/
theorem callback_error_passed_through {Row Rows : Type} (slave : Conn Row Rows)
    (fnRow : Row → Option GoError) (fnRows : Rows → Option GoError) (query : Str)
    (args : List Arg) (rs : Rows) (e : GoError)
    (hq : slave.QueryContext query args = .ok rs)
    (hrow : fnRow (slave.QueryRowContext query args) = some e)
    (hrows : fnRows rs = some e) :
    (e ≠ .ErrNoRows →
        DB.QueryRowCtx { Slave := some slave } fnRow query args = some e
          ∧ DB.QueryCtx { Slave := some slave } fnRows query args = some e)
      ∧ (e = .ErrNoRows →
        DB.QueryRowCtx { Slave := some slave } fnRow query args = none
          ∧ DB.QueryCtx { Slave := some slave } fnRows query args = none) := by
  constructor
  · intro he
    constructor
    · simp only [DB.QueryRowCtx, hrow, if_neg he]
    · simp only [DB.QueryCtx, hq, hrows, if_neg he]
  · intro he
    constructor
    · simp only [DB.QueryRowCtx, hrow, if_pos he]
    · simp only [DB.QueryCtx, hq, hrows, if_pos he]

/-- Witness of C31: a callback that returns the error `connection reset`. -/
theorem callback_error_passed_through_witness :
    scriptedConn.QueryContext "SELECT id FROM users".toList [] = .ok ()
      ∧ GoError.other "connection reset" ≠ GoError.ErrNoRows
      ∧ DB.QueryRowCtx { Slave := some scriptedConn }
          (fun _ => some (GoError.other "connection reset")) "SELECT id FROM users".toList []
        = some (GoError.other "connection reset")
      ∧ DB.QueryCtx { Slave := some scriptedConn }
          (fun _ => some (GoError.other "connection reset")) "SELECT id FROM users".toList []
        = some (GoError.other "connection reset") :=
  ⟨rfl, by decide,
    (callback_error_passed_through scriptedConn (fun _ => some (GoError.other "connection reset"))
      (fun _ => some (GoError.other "connection reset")) "SELECT id FROM users".toList [] ()
      (GoError.other "connection reset") rfl rfl rfl).1 (by decide)⟩

/-- C31 as stated fails.  A callback that returns `sql.ErrNoRows` makes
`QueryRowCtx` and `QueryCtx` return nil, not that error. -/
theorem callback_error_passed_through_counterexample :
    DB.QueryRowCtx { Slave := some scriptedConn } (fun _ => some GoError.ErrNoRows)
        "SELECT id FROM users WHERE id = $1".toList [Arg.int 9] = none
      ∧ DB.QueryCtx { Slave := some scriptedConn } (fun _ => some GoError.ErrNoRows)
        "SELECT id FROM users WHERE id = $1".toList [Arg.int 9] = none
      ∧ (none : Option GoError) ≠ some GoError.ErrNoRows := by
  refine ⟨rfl, rfl, by decide⟩

/-- C32, the code at the failing input.  When preparing, executing and closing
succeed and the driver reports `af` rows, `TxExecContext` returns 0 with a nil
error: `af` is not copied to `affected`.  When the count cannot be obtained, or
the statement cannot be closed, the error returned is nil as well. -/
theorem txExecContext_drops_count_and_errors (af : Int) (e : GoError) (query : Str)
    (args : List Arg) :
    TxExecContext (scriptedTx af none none) query args
        = ((0, none),
            [TxOp.PrepareContext query, TxOp.ExecContext args, TxOp.RowsAffected, TxOp.Close])
      ∧ TxExecContext (scriptedTx af (some e) none) query args
        = ((af, none), [TxOp.PrepareContext query, TxOp.ExecContext args, TxOp.RowsAffected])
      ∧ TxExecContext (scriptedTx af none (some e)) query args
        = ((0, none),
            [TxOp.PrepareContext query, TxOp.ExecContext args, TxOp.RowsAffected, TxOp.Close])
      ∧ (TxExecContext (scriptedTx 1 none none)
          "INSERT INTO users (id, name) VALUES ($1, $2) RETURNING id".toList
          [Arg.int 1003, Arg.str "TEST WithTransaction Func".toList]).1 = (0, none)
      ∧ ((0 : Int), (none : Option GoError)) ≠ (1, none) :=
  ⟨rfl, rfl, rfl, rfl, by decide⟩

/-! ## `colToFieldIndex`: the scan of one struct -/

theorem countOf_cons (k : Str) (n : Nat) (m : List (Str × Nat)) (S : Str) :
    countOf ((k, n) :: m) S = if S = k then n else countOf m S := by
  unfold countOf
  rw [List.lookup_cons]
  by_cases h : S = k
  · simp [h]
  · have hb : (S == k) = false := by simpa using h
    rw [hb, if_neg h]

theorem countOf_nil (S : Str) : countOf [] S = 0 := rfl

/-- With a field found already, the scan of a struct goes through when no field
of it satisfies the test, and ends the search when one does. -/
theorem scanFields_found (matchFn : Str → Option Bool) (p : StructField → Bool)
    (count : List (Str × Nat)) (s : fieldScan) :
    ∀ (fs : List StructField) (i : Nat) (v : ScanVars),
      (∀ f ∈ fs, matchFn f.Name = some (p f)) → v.result.isSome = true →
      (((withPaths s.index fs i).filter (fun x => p x.1) = [] →
          ∃ v', scanFields matchFn count s fs i v = .ok v' ∧ v'.result = v.result
            ∧ v'.visited = v.visited)
        ∧ ((withPaths s.index fs i).filter (fun x => p x.1) ≠ [] →
          scanFields matchFn count s fs i v = .error .annihilated)) := by
  intro fs
  induction fs with
  | nil =>
    intro i v _ _
    exact ⟨fun _ => ⟨v, rfl, rfl, rfl⟩, fun h => absurd rfl h⟩
  | cons f fs ih =>
    intro i v hm hres
    have hmf := hm f (List.mem_cons_self _ _)
    have hm' : ∀ g ∈ fs, matchFn g.Name = some (p g) :=
      fun g hg => hm g (List.mem_cons_of_mem _ hg)
    unfold scanFields
    rw [hmf]
    cases hp : p f with
    | true =>
      constructor
      · intro h
        simp [withPaths, hp] at h
      · intro _
        simp [hres]
    | false =>
      have hfil : (withPaths s.index (f :: fs) i).filter (fun x => p x.1)
          = (withPaths s.index fs (i + 1)).filter (fun x => p x.1) := by
        simp [withPaths, hp]
      rw [hfil]
      simp only [hres, Bool.true_or, if_true]
      exact ih (i + 1) v hm' hres

/-- With no field found yet, the scan of a struct finds the one field of it that
satisfies the test, ends the search when two do, and goes on when none does. -/
theorem scanFields_search (matchFn : Str → Option Bool) (p : StructField → Bool)
    (count : List (Str × Nat)) (s : fieldScan) (hc : countOf count s.typ ≤ 1) :
    ∀ (fs : List StructField) (i : Nat) (v : ScanVars),
      (∀ f ∈ fs, matchFn f.Name = some (p f)) → v.result = none →
      (((withPaths s.index fs i).filter (fun x => p x.1) = [] →
          ∃ v', scanFields matchFn count s fs i v = .ok v' ∧ v'.result = none
            ∧ v'.visited = v.visited)
        ∧ (∀ x, (withPaths s.index fs i).filter (fun x => p x.1) = [x] →
          ∃ v', scanFields matchFn count s fs i v = .ok v' ∧ v'.result = some x
            ∧ v'.visited = v.visited)
        ∧ (∀ x y l, (withPaths s.index fs i).filter (fun x => p x.1) = x :: y :: l →
          scanFields matchFn count s fs i v = .error .annihilated)) := by
  intro fs
  induction fs with
  | nil =>
    intro i v _ hres
    refine ⟨fun _ => ⟨v, rfl, hres, rfl⟩, fun x h => ?_, fun x y l h => ?_⟩
    · simp [withPaths] at h
    · simp [withPaths] at h
  | cons f fs ih =>
    intro i v hm hres
    have hmf := hm f (List.mem_cons_self _ _)
    have hm' : ∀ g ∈ fs, matchFn g.Name = some (p g) :=
      fun g hg => hm g (List.mem_cons_of_mem _ hg)
    have hnc : ¬ (countOf count s.typ > 1) := by omega
    unfold scanFields
    rw [hmf]
    cases hp : p f with
    | true =>
      have hfil : (withPaths s.index (f :: fs) i).filter (fun x => p x.1)
          = (f, s.index ++ [i]) :: (withPaths s.index fs (i + 1)).filter (fun x => p x.1) := by
        simp [withPaths, hp]
      rw [hfil]
      have hcond : (decide (countOf count s.typ > 1) || v.result.isSome) = false := by
        simp [hres, hnc]
      simp only [hcond, Bool.false_eq_true, if_false]
      obtain ⟨h1, h2⟩ := scanFields_found matchFn p count s fs (i + 1)
        { v with result := some (f, s.index ++ [i]) } hm' rfl
      refine ⟨fun h => by simp at h, fun x h => ?_, fun x y l h => ?_⟩
      · have hx := (List.cons.inj h).1
        have hrest := (List.cons.inj h).2
        obtain ⟨v', e1, e2, e3⟩ := h1 hrest
        exact ⟨v', e1, by rw [e2, ← hx], e3⟩
      · have hrest := (List.cons.inj h).2
        exact h2 (by rw [hrest]; simp)
    | false =>
      have hfil : (withPaths s.index (f :: fs) i).filter (fun x => p x.1)
          = (withPaths s.index fs (i + 1)).filter (fun x => p x.1) := by
        simp [withPaths, hp]
      rw [hfil]
      simp only
      split
      · exact ih (i + 1) v hm' hres
      · split
        · exact ih (i + 1) { v with nextCount := (f.Name, 2) :: v.nextCount } hm' hres
        · exact ih (i + 1)
            { v with
              nextCount := (f.Name, 1) :: v.nextCount
              next := v.next ++ [⟨f.Name, s.index ++ [i]⟩] } hm' hres

/-- With no field found and none that satisfies the test, the scan of a struct
queues its embedded structs, each counted once, when their names are distinct
and not counted yet. -/
theorem scanFields_queue (matchFn : Str → Option Bool) (p : StructField → Bool)
    (count : List (Str × Nat)) (s : fieldScan) (hc : countOf count s.typ ≤ 1) :
    ∀ (fs : List StructField) (i : Nat) (v : ScanVars),
      (∀ f ∈ fs, matchFn f.Name = some (p f)) → v.result = none →
      (withPaths s.index fs i).filter (fun x => p x.1) = [] →
      (((withPaths s.index fs i).filterMap toScan).map (fun t => t.typ)).Nodup →
      (∀ S ∈ ((withPaths s.index fs i).filterMap toScan).map (fun t => t.typ),
        countOf v.nextCount S = 0) →
      ∃ v', scanFields matchFn count s fs i v = .ok v' ∧ v'.result = none
        ∧ v'.visited = v.visited
        ∧ v'.next = v.next ++ (withPaths s.index fs i).filterMap toScan
        ∧ ∀ S, countOf v'.nextCount S
            = if S ∈ ((withPaths s.index fs i).filterMap toScan).map (fun t => t.typ) then 1
              else countOf v.nextCount S := by
  intro fs
  induction fs with
  | nil =>
    intro i v _ hres _ _ _
    exact ⟨v, rfl, hres, rfl, by simp [withPaths], fun S => by simp [withPaths]⟩
  | cons f fs ih =>
    intro i v hm hres hfil hnd hzero
    have hmf := hm f (List.mem_cons_self _ _)
    have hm' : ∀ g ∈ fs, matchFn g.Name = some (p g) :=
      fun g hg => hm g (List.mem_cons_of_mem _ hg)
    have hnc : ¬ (countOf count s.typ > 1) := by omega
    have hp : p f = false := by
      cases hpf : p f with
      | false => rfl
      | true => simp [withPaths, hpf] at hfil
    have hfil' : (withPaths s.index fs (i + 1)).filter (fun x => p x.1) = [] := by
      simpa [withPaths, hp] using hfil
    unfold scanFields
    rw [hmf, hp]
    simp only
    by_cases he : f.Embedded = .struct
    · have hQ : (withPaths s.index (f :: fs) i).filterMap toScan
          = ⟨f.Name, s.index ++ [i]⟩ :: (withPaths s.index fs (i + 1)).filterMap toScan := by
        simp [withPaths, toScan, he]
      rw [hQ] at hnd hzero ⊢
      rw [List.map_cons, List.nodup_cons] at hnd
      have hz0 : countOf v.nextCount f.Name = 0 := hzero f.Name (by simp)
      have hcond : (v.result.isSome || decide (f.Embedded ≠ .struct)) = false := by
        simp [hres, he]
      simp only [hcond, Bool.false_eq_true, if_false, hz0, gt_iff_lt, Nat.lt_irrefl, if_neg hnc]
      obtain ⟨v', e1, e2, e3, e4, e5⟩ := ih (i + 1)
        { v with
          nextCount := (f.Name, 1) :: v.nextCount
          next := v.next ++ [⟨f.Name, s.index ++ [i]⟩] } hm' hres hfil' hnd.2
        (by
          intro S hS
          show countOf ((f.Name, 1) :: v.nextCount) S = 0
          rw [countOf_cons]
          have hne : S ≠ f.Name := fun h => hnd.1 (h ▸ hS)
          rw [if_neg hne]
          exact hzero S (List.mem_cons_of_mem _ hS))
      refine ⟨v', e1, e2, e3, ?_, ?_⟩
      · rw [e4]
        simp
      · intro S
        rw [e5 S]
        show _ = if S ∈ f.Name :: _ then 1 else _
        by_cases hS : S ∈ ((withPaths s.index fs (i + 1)).filterMap toScan).map (fun t => t.typ)
        · rw [if_pos hS, if_pos (List.mem_cons_of_mem _ hS)]
        · rw [if_neg hS]
          show countOf ((f.Name, 1) :: v.nextCount) S = _
          rw [countOf_cons]
          by_cases hSf : S = f.Name
          · rw [if_pos hSf, if_pos (by rw [hSf]; exact List.mem_cons_self _ _)]
          · rw [if_neg hSf, if_neg (by
              intro h
              rcases List.mem_cons.1 h with h | h
              · exact hSf h
              · exact hS h)]
    · have hQ : (withPaths s.index (f :: fs) i).filterMap toScan
          = (withPaths s.index fs (i + 1)).filterMap toScan := by
        simp [withPaths, toScan, he]
      rw [hQ] at hnd hzero ⊢
      have hcond : (v.result.isSome || decide (f.Embedded ≠ .struct)) = true := by
        simp [he]
      simp only [hcond, if_true]
      exact ih (i + 1) v hm' hres hfil' hnd hzero

/-! ## `colToFieldIndex`: the scan of one depth level -/

theorem flatten_fieldsOf_cons (G : StructTypes) (s : fieldScan) (rest : List fieldScan) :
    (((s :: rest).map (fieldsOf G)).flatten)
      = fieldsOf G s ++ ((rest.map (fieldsOf G)).flatten) := by
  simp

/-- With a field found already, the scan of a level goes through when no field
of its structs satisfies the test, and ends the search when one does. -/
theorem scanLevel_found (G : StructTypes) (matchFn : Str → Option Bool)
    (p : StructField → Bool) (count : List (Str × Nat)) :
    ∀ (cs : List fieldScan) (v : ScanVars),
      (∀ s ∈ cs, ∀ f ∈ G.fields s.typ, matchFn f.Name = some (p f)) →
      v.result.isSome = true →
      (cs.map (fun t => t.typ)).Nodup →
      (∀ s ∈ cs, s.typ ∉ v.visited) →
      ((((cs.map (fieldsOf G)).flatten).filter (fun x => p x.1) = [] →
          ∃ v', scanLevel G matchFn count cs v = .ok v' ∧ v'.result = v.result)
        ∧ (((cs.map (fieldsOf G)).flatten).filter (fun x => p x.1) ≠ [] →
          scanLevel G matchFn count cs v = .error .annihilated)) := by
  intro cs
  induction cs with
  | nil =>
    intro v _ _ _ _
    exact ⟨fun _ => ⟨v, rfl, rfl⟩, fun h => absurd (by simp) h⟩
  | cons s rest ih =>
    intro v hm hres hnd hv
    rw [flatten_fieldsOf_cons, List.filter_append]
    have hvis : v.visited.contains s.typ = false := by
      have := hv s (List.mem_cons_self _ _)
      simpa using this
    rw [List.map_cons, List.nodup_cons] at hnd
    unfold scanLevel
    rw [hvis]
    simp only [Bool.false_eq_true, if_false]
    obtain ⟨h1, h2⟩ := scanFields_found matchFn p count s (G.fields s.typ) 0
      { v with visited := s.typ :: v.visited } (hm s (List.mem_cons_self _ _)) hres
    have ih' : ∀ v1 : ScanVars, v1.result = v.result → v1.visited = s.typ :: v.visited →
        ((((rest.map (fieldsOf G)).flatten).filter (fun x => p x.1) = [] →
          ∃ v', scanLevel G matchFn count rest v1 = .ok v' ∧ v'.result = v.result)
        ∧ (((rest.map (fieldsOf G)).flatten).filter (fun x => p x.1) ≠ [] →
          scanLevel G matchFn count rest v1 = .error .annihilated)) := by
      intro v1 hr hvv
      have := ih v1 (fun t ht => hm t (List.mem_cons_of_mem _ ht)) (by rw [hr]; exact hres)
        hnd.2 (by
          intro t ht
          rw [hvv]
          intro hmem
          rcases List.mem_cons.1 hmem with h | h
          · exact hnd.1 (h ▸ List.mem_map_of_mem (fun t => t.typ) ht)
          · exact hv t (List.mem_cons_of_mem _ ht) h)
      rw [hr] at this
      exact this
    by_cases hA : (fieldsOf G s).filter (fun x => p x.1) = []
    · obtain ⟨v1, e1, e2, e3⟩ := h1 hA
      have e1' : scanFields matchFn count s (G.fields s.typ) 0
          { v with visited := s.typ :: v.visited } = .ok v1 := e1
      rw [e1', hA, List.nil_append]
      exact ih' v1 e2 e3
    · have e1 := h2 hA
      have e1' : scanFields matchFn count s (G.fields s.typ) 0
          { v with visited := s.typ :: v.visited } = .error .annihilated := e1
      rw [e1']
      refine ⟨fun h => ?_, fun _ => rfl⟩
      exact absurd (List.append_eq_nil.1 h).1 hA

/-- With no field found yet, the scan of a level finds the one field of its
structs that satisfies the test, and ends the search when two do. -/
theorem scanLevel_search (G : StructTypes) (matchFn : Str → Option Bool)
    (p : StructField → Bool) (count : List (Str × Nat)) :
    ∀ (cs : List fieldScan) (v : ScanVars),
      (∀ s ∈ cs, ∀ f ∈ G.fields s.typ, matchFn f.Name = some (p f)) →
      v.result = none →
      (∀ s ∈ cs, countOf count s.typ ≤ 1) →
      (cs.map (fun t => t.typ)).Nodup →
      (∀ s ∈ cs, s.typ ∉ v.visited) →
      ((∀ x, ((cs.map (fieldsOf G)).flatten).filter (fun x => p x.1) = [x] →
          ∃ v', scanLevel G matchFn count cs v = .ok v' ∧ v'.result = some x)
        ∧ (∀ x y l, ((cs.map (fieldsOf G)).flatten).filter (fun x => p x.1) = x :: y :: l →
          scanLevel G matchFn count cs v = .error .annihilated)) := by
  intro cs
  induction cs with
  | nil =>
    intro v _ _ _ _ _
    exact ⟨fun x h => by simp at h, fun x y l h => by simp at h⟩
  | cons s rest ih =>
    intro v hm hres hc hnd hv
    rw [flatten_fieldsOf_cons, List.filter_append]
    have hvis : v.visited.contains s.typ = false := by
      have := hv s (List.mem_cons_self _ _)
      simpa using this
    rw [List.map_cons, List.nodup_cons] at hnd
    have hfresh : ∀ t ∈ rest, t.typ ∉ s.typ :: v.visited := by
      intro t ht hmem
      rcases List.mem_cons.1 hmem with h | h
      · exact hnd.1 (h ▸ List.mem_map_of_mem (fun t => t.typ) ht)
      · exact hv t (List.mem_cons_of_mem _ ht) h
    have hm' : ∀ t ∈ rest, ∀ f ∈ G.fields t.typ, matchFn f.Name = some (p f) :=
      fun t ht => hm t (List.mem_cons_of_mem _ ht)
    have hc' : ∀ t ∈ rest, countOf count t.typ ≤ 1 :=
      fun t ht => hc t (List.mem_cons_of_mem _ ht)
    unfold scanLevel
    rw [hvis]
    simp only [Bool.false_eq_true, if_false]
    obtain ⟨h1, h2, h3⟩ := scanFields_search matchFn p count s (hc s (List.mem_cons_self _ _))
      (G.fields s.typ) 0 { v with visited := s.typ :: v.visited }
      (hm s (List.mem_cons_self _ _)) hres
    cases hA : (fieldsOf G s).filter (fun x => p x.1) with
    | nil =>
      obtain ⟨v1, e1, e2, e3⟩ := h1 hA
      have e1' : scanFields matchFn count s (G.fields s.typ) 0
          { v with visited := s.typ :: v.visited } = .ok v1 := e1
      rw [e1', List.nil_append]
      exact ih v1 hm' e2 hc' hnd.2 (by intro t ht; rw [e3]; exact hfresh t ht)
    | cons a A =>
      cases A with
      | nil =>
        obtain ⟨v1, e1, e2, e3⟩ := h2 a hA
        have e1' : scanFields matchFn count s (G.fields s.typ) 0
            { v with visited := s.typ :: v.visited } = .ok v1 := e1
        rw [e1']
        obtain ⟨g1, g2⟩ := scanLevel_found G matchFn p count rest v1 hm' (by rw [e2]; rfl)
          hnd.2 (by intro t ht; rw [e3]; exact hfresh t ht)
        constructor
        · intro x hx
          have hx1 := (List.cons.inj hx).1
          have hx2 : ((rest.map (fieldsOf G)).flatten).filter (fun x => p x.1) = [] :=
            (List.cons.inj hx).2
          obtain ⟨v', f1, f2⟩ := g1 hx2
          exact ⟨v', f1, by rw [f2, e2, hx1]⟩
        · intro x y l hx
          have hx2 : ((rest.map (fieldsOf G)).flatten).filter (fun x => p x.1) = y :: l :=
            (List.cons.inj hx).2
          exact g2 (by rw [hx2]; simp)
      | cons b A =>
        have e1 := h3 a b A hA
        have e1' : scanFields matchFn count s (G.fields s.typ) 0
            { v with visited := s.typ :: v.visited } = .error .annihilated := e1
        rw [e1']
        exact ⟨fun x hx => by simp at hx, fun _ _ _ _ => rfl⟩

/-- With no field found and none that satisfies the test, the scan of a level
queues the embedded structs of its structs, each counted once, and marks its
structs as visited. -/
theorem scanLevel_queue (G : StructTypes) (matchFn : Str → Option Bool)
    (p : StructField → Bool) (count : List (Str × Nat)) :
    ∀ (cs : List fieldScan) (v : ScanVars),
      (∀ s ∈ cs, ∀ f ∈ G.fields s.typ, matchFn f.Name = some (p f)) →
      v.result = none →
      (∀ s ∈ cs, countOf count s.typ ≤ 1) →
      (cs.map (fun t => t.typ)).Nodup →
      (∀ s ∈ cs, s.typ ∉ v.visited) →
      ((cs.map (fieldsOf G)).flatten).filter (fun x => p x.1) = [] →
      ((((cs.map (fieldsOf G)).flatten).filterMap toScan).map (fun t => t.typ)).Nodup →
      (∀ S ∈ (((cs.map (fieldsOf G)).flatten).filterMap toScan).map (fun t => t.typ),
        countOf v.nextCount S = 0) →
      ∃ v', scanLevel G matchFn count cs v = .ok v' ∧ v'.result = none
        ∧ v'.next = v.next ++ ((cs.map (fieldsOf G)).flatten).filterMap toScan
        ∧ (∀ S, countOf v'.nextCount S
            = if S ∈ (((cs.map (fieldsOf G)).flatten).filterMap toScan).map (fun t => t.typ)
              then 1 else countOf v.nextCount S)
        ∧ (∀ S, S ∈ v'.visited ↔ (S ∈ cs.map (fun t => t.typ) ∨ S ∈ v.visited)) := by
  intro cs
  induction cs with
  | nil =>
    intro v _ hres _ _ _ _ _ _
    exact ⟨v, rfl, hres, by simp, fun S => by simp, fun S => by simp⟩
  | cons s rest ih =>
    intro v hm hres hc hnd hv hfil hq hzero
    rw [flatten_fieldsOf_cons] at hfil hq hzero ⊢
    rw [List.filter_append] at hfil
    rw [List.filterMap_append, List.map_append] at hq hzero
    rw [List.filterMap_append, List.map_append]
    have hvis : v.visited.contains s.typ = false := by
      have := hv s (List.mem_cons_self _ _)
      simpa using this
    rw [List.map_cons, List.nodup_cons] at hnd
    have hfresh : ∀ t ∈ rest, t.typ ∉ s.typ :: v.visited := by
      intro t ht hmem
      rcases List.mem_cons.1 hmem with h | h
      · exact hnd.1 (h ▸ List.mem_map_of_mem (fun t => t.typ) ht)
      · exact hv t (List.mem_cons_of_mem _ ht) h
    have hm' : ∀ t ∈ rest, ∀ f ∈ G.fields t.typ, matchFn f.Name = some (p f) :=
      fun t ht => hm t (List.mem_cons_of_mem _ ht)
    have hc' : ∀ t ∈ rest, countOf count t.typ ≤ 1 :=
      fun t ht => hc t (List.mem_cons_of_mem _ ht)
    have hA := (List.append_eq_nil.1 hfil).1
    have hB := (List.append_eq_nil.1 hfil).2
    have hq1 := (List.nodup_append.1 hq).1
    have hq2 := (List.nodup_append.1 hq).2.1
    have hq3 := (List.nodup_append.1 hq).2.2
    unfold scanLevel
    rw [hvis]
    simp only [Bool.false_eq_true, if_false]
    obtain ⟨v1, e1, e2, e3, e4, e5⟩ := scanFields_queue matchFn p count s
      (hc s (List.mem_cons_self _ _)) (G.fields s.typ) 0
      { v with visited := s.typ :: v.visited } (hm s (List.mem_cons_self _ _)) hres hA hq1
      (fun S hS => hzero S (List.mem_append_left _ hS))
    have e1' : scanFields matchFn count s (G.fields s.typ) 0
        { v with visited := s.typ :: v.visited } = .ok v1 := e1
    rw [e1']
    simp only
    obtain ⟨v', f1, f2, f3, f4, f5⟩ := ih v1 hm' e2 hc' hnd.2
      (by intro t ht; rw [e3]; exact hfresh t ht) hB hq2
      (by
        intro S hS
        rw [e5 S]
        have hno : S ∉ ((fieldsOf G s).filterMap toScan).map (fun t => t.typ) :=
          fun h => hq3 h hS
        have hno' : S ∉ ((withPaths s.index (G.fields s.typ) 0).filterMap toScan).map
            (fun t => t.typ) := hno
        rw [if_neg hno']
        exact hzero S (List.mem_append_right _ hS))
    refine ⟨v', f1, f2, ?_, ?_, ?_⟩
    · rw [f3, e4]
      simp [fieldsOf]
    · intro S
      rw [f4 S, e5 S]
      by_cases h2 : S ∈ (((rest.map (fieldsOf G)).flatten).filterMap toScan).map (fun t => t.typ)
      · rw [if_pos h2, if_pos (List.mem_append_right _ h2)]
      · rw [if_neg h2]
        by_cases h1 : S ∈ ((fieldsOf G s).filterMap toScan).map (fun t => t.typ)
        · have h1' : S ∈ ((withPaths s.index (G.fields s.typ) 0).filterMap toScan).map
              (fun t => t.typ) := h1
          rw [if_pos h1', if_pos (List.mem_append_left _ h1)]
        · have h1' : S ∉ ((withPaths s.index (G.fields s.typ) 0).filterMap toScan).map
              (fun t => t.typ) := h1
          rw [if_neg h1', if_neg (by
            intro h
            rcases List.mem_append.1 h with h | h
            · exact h1 h
            · exact h2 h)]
    · intro S
      rw [f5 S, e3]
      simp only [List.map_cons, List.mem_cons]
      constructor
      · rintro (h | h | h)
        · exact Or.inl (Or.inr h)
        · exact Or.inl (Or.inl h)
        · exact Or.inr h
      · rintro ((h | h) | h)
        · exact Or.inr (Or.inl h)
        · exact Or.inl h
        · exact Or.inr (Or.inr h)

/-! ## `colToFieldIndex`: the levels of a struct type with distinct names -/

theorem withPaths_map_fst (index : List Nat) :
    ∀ (fs : List StructField) (i : Nat), (withPaths index fs i).map (fun x => x.1) = fs := by
  intro fs
  induction fs with
  | nil => intro i; rfl
  | cons f fs ih =>
    intro i
    simp only [withPaths, List.map_cons]
    rw [ih (i + 1)]

theorem scansAt_succ (G : StructTypes) (T : Str) (d : Nat) :
    scansAt G T (d + 1) = (fieldsAt G T d).filterMap toScan := rfl

theorem toScan_types_sublist (X : List (StructField × List Nat)) :
    ((X.filterMap toScan).map (fun t => t.typ)).Sublist (X.map (fun x => x.1.Name)) := by
  induction X with
  | nil => simp
  | cons x X ih =>
    by_cases he : x.1.Embedded = .struct
    · have h : (x :: X).filterMap toScan = ⟨x.1.Name, x.2⟩ :: X.filterMap toScan := by
        simp [List.filterMap_cons, toScan, he]
      rw [h]
      simp only [List.map_cons]
      exact ih.cons₂ _
    · have h : (x :: X).filterMap toScan = X.filterMap toScan := by
        simp [List.filterMap_cons, toScan, he]
      rw [h]
      simp only [List.map_cons]
      exact ih.cons _

theorem types_succ_sublist (G : StructTypes) (T : Str) (d : Nat) :
    ((scansAt G T (d + 1)).map (fun t => t.typ)).Sublist
      ((fieldsAt G T d).map (fun x => x.1.Name)) :=
  toScan_types_sublist (fieldsAt G T d)

theorem namesUpTo_sublist (G : StructTypes) (T : Str) (d : Nat) :
    ∀ D, d ≤ D → (namesUpTo G T d).Sublist (namesUpTo G T D) := by
  intro D
  induction D with
  | zero =>
    intro h
    have : d = 0 := by omega
    subst this
    exact List.Sublist.refl _
  | succ D ih =>
    intro h
    by_cases hd : d = D + 1
    · subst hd
      exact List.Sublist.refl _
    · exact (ih (by omega)).trans (List.sublist_append_left _ _)

theorem levelNames_sublist_self (G : StructTypes) (T : Str) (d : Nat) :
    ((fieldsAt G T d).map (fun x => x.1.Name)).Sublist (namesUpTo G T d) := by
  cases d with
  | zero => exact List.Sublist.refl _
  | succ d => exact List.sublist_append_right _ _

theorem levelNames_sublist (G : StructTypes) (T : Str) (d D : Nat) (h : d ≤ D) :
    ((fieldsAt G T d).map (fun x => x.1.Name)).Sublist (namesUpTo G T D) :=
  (levelNames_sublist_self G T d).trans (namesUpTo_sublist G T d D h)

theorem levelNames_nodup (G : StructTypes) (T : Str) (d D : Nat) (h : d ≤ D)
    (hn : (namesUpTo G T D).Nodup) : ((fieldsAt G T d).map (fun x => x.1.Name)).Nodup :=
  hn.sublist (levelNames_sublist G T d D h)

theorem levelNames_disjoint (G : StructTypes) (T : Str) (i j D : Nat) (hij : i < j)
    (hj : j ≤ D) (hn : (namesUpTo G T D).Nodup) (n : Str)
    (h1 : n ∈ (fieldsAt G T i).map (fun x => x.1.Name)) :
    n ∉ (fieldsAt G T j).map (fun x => x.1.Name) := by
  obtain ⟨k, rfl⟩ : ∃ k, j = k + 1 := ⟨j - 1, by omega⟩
  have hnj : (namesUpTo G T (k + 1)).Nodup := hn.sublist (namesUpTo_sublist G T (k + 1) D hj)
  have hsplit : namesUpTo G T (k + 1)
      = namesUpTo G T k ++ (fieldsAt G T (k + 1)).map (fun x => x.1.Name) := rfl
  rw [hsplit] at hnj
  have hin : n ∈ namesUpTo G T k := (levelNames_sublist G T i k (by omega)).subset h1
  exact fun h2 => (List.nodup_append.1 hnj).2.2 hin h2

theorem fieldsAt_nil_of_scansAt (G : StructTypes) (T : Str) (d : Nat)
    (h : scansAt G T d = []) : fieldsAt G T d = [] := by
  unfold fieldsAt
  rw [h]
  rfl

theorem scansAt_nil_of_le (G : StructTypes) (T : Str) (k : Nat) (h : scansAt G T k = []) :
    ∀ m, k ≤ m → scansAt G T m = [] := by
  intro m
  induction m with
  | zero =>
    intro hk
    have : k = 0 := by omega
    subst this
    exact h
  | succ m ih =>
    intro hk
    by_cases hkm : k = m + 1
    · subst hkm
      exact h
    · rw [scansAt_succ, fieldsAt_nil_of_scansAt G T m (ih (by omega))]
      rfl

theorem le_of_mem_scansAt (G : StructTypes) (T : Str) (D d : Nat)
    (h : scansAt G T (D + 1) = []) (s : fieldScan) (hs : s ∈ scansAt G T d) : d ≤ D := by
  by_contra hd
  rw [scansAt_nil_of_le G T (D + 1) h d (by omega)] at hs
  simp at hs

theorem mem_fieldsAt_iff (G : StructTypes) (T : Str) (d : Nat) (x : StructField × List Nat) :
    x ∈ fieldsAt G T d ↔ ∃ s ∈ scansAt G T d, x ∈ fieldsOf G s := by
  unfold fieldsAt
  simp only [List.mem_flatten, List.mem_map]
  constructor
  · rintro ⟨l, ⟨s, hs, rfl⟩, hx⟩
    exact ⟨s, hs, hx⟩
  · rintro ⟨s, hs, hx⟩
    exact ⟨_, ⟨s, hs, rfl⟩, hx⟩

theorem le_of_mem_fieldsAt (G : StructTypes) (T : Str) (D d : Nat)
    (h : scansAt G T (D + 1) = []) (x : StructField × List Nat) (hx : x ∈ fieldsAt G T d) :
    d ≤ D := by
  obtain ⟨s, hs, _⟩ := (mem_fieldsAt_iff G T d x).1 hx
  exact le_of_mem_scansAt G T D d h s hs

theorem mem_fieldsOf_of_field (G : StructTypes) (s : fieldScan) (f : StructField)
    (hf : f ∈ G.fields s.typ) : ∃ q, (f, q) ∈ fieldsOf G s := by
  have h := withPaths_map_fst s.index (G.fields s.typ) 0
  rw [← h] at hf
  obtain ⟨x, hx, rfl⟩ := List.mem_map.1 hf
  exact ⟨x.2, hx⟩

theorem field_of_mem_fieldsOf (G : StructTypes) (s : fieldScan) (x : StructField × List Nat)
    (hx : x ∈ fieldsOf G s) : x.1 ∈ G.fields s.typ := by
  have h := withPaths_map_fst s.index (G.fields s.typ) 0
  rw [← h]
  exact List.mem_map_of_mem (fun x => x.1) hx

/-- The struct type `T` is not embedded in itself. -/
theorem top_not_deeper (G : StructTypes) (T : Str) (D : Nat) (h : DistinctNames G T D)
    (d : Nat) (s : fieldScan) (hs : s ∈ scansAt G T (d + 1)) : s.typ ≠ T := by
  intro hT
  have hd := le_of_mem_scansAt G T D (d + 1) h.1 s hs
  have hempty : G.fields T = [] := by
    cases hf : G.fields T with
    | nil => rfl
    | cons f fs =>
      exfalso
      have hf0 : f ∈ G.fields T := by rw [hf]; exact List.mem_cons_self _ _
      obtain ⟨q0, hq0⟩ := mem_fieldsOf_of_field G ⟨T, []⟩ f hf0
      have h0 : f.Name ∈ (fieldsAt G T 0).map (fun x => x.1.Name) :=
        List.mem_map_of_mem (fun x => x.1.Name)
          ((mem_fieldsAt_iff G T 0 (f, q0)).2 ⟨⟨T, []⟩, by simp [scansAt], hq0⟩)
      obtain ⟨q1, hq1⟩ := mem_fieldsOf_of_field G s f (by rw [hT]; exact hf0)
      have h1 : f.Name ∈ (fieldsAt G T (d + 1)).map (fun x => x.1.Name) :=
        List.mem_map_of_mem (fun x => x.1.Name)
          ((mem_fieldsAt_iff G T (d + 1) (f, q1)).2 ⟨s, hs, hq1⟩)
      exact levelNames_disjoint G T 0 (d + 1) D (by omega) hd h.2.1 f.Name h0 h1
  have h0 : fieldsAt G T 0 = [] := by
    simp [fieldsAt, scansAt, fieldsOf, hempty, withPaths]
  have h1 : scansAt G T 1 = [] := by
    rw [scansAt_succ, h0]
    rfl
  rw [scansAt_nil_of_le G T 1 h1 (d + 1) (by omega)] at hs
  simp at hs

/-- The struct types of a level are not those of a level above it. -/
theorem types_fresh (G : StructTypes) (T : Str) (D : Nat) (h : DistinctNames G T D)
    (k d : Nat) (hkd : k < d) (s : fieldScan) (hs : s ∈ scansAt G T d) :
    s.typ ∉ (scansAt G T k).map (fun t => t.typ) := by
  obtain ⟨e, rfl⟩ : ∃ e, d = e + 1 := ⟨d - 1, by omega⟩
  have hd := le_of_mem_scansAt G T D (e + 1) h.1 s hs
  cases k with
  | zero =>
    intro hmem
    have : s.typ = T := by simpa [scansAt] using hmem
    exact top_not_deeper G T D h e s hs this
  | succ k =>
    intro hmem
    have h1 : s.typ ∈ (fieldsAt G T k).map (fun x => x.1.Name) :=
      (types_succ_sublist G T k).subset hmem
    have h2 : s.typ ∈ (fieldsAt G T e).map (fun x => x.1.Name) :=
      (types_succ_sublist G T e).subset (List.mem_map_of_mem (fun t => t.typ) hs)
    exact levelNames_disjoint G T k e D (by omega) (by omega) h.2.1 s.typ h1 h2

/-- The struct types of a level are distinct. -/
theorem types_nodup (G : StructTypes) (T : Str) (D : Nat) (h : DistinctNames G T D)
    (d : Nat) : ((scansAt G T d).map (fun t => t.typ)).Nodup := by
  cases d with
  | zero => simp [scansAt]
  | succ d =>
    by_cases hd : d ≤ D
    · exact (levelNames_nodup G T d D hd h.2.1).sublist (types_succ_sublist G T d)
    · rw [scansAt_nil_of_le G T (D + 1) h.1 (d + 1) (by omega)]
      simp

/-! ## `colToFieldIndex`: the choice among the levels -/

theorem pick_nil_cons {α : Type} (L : List (List α)) : pick ([] :: L) = pick L := rfl

theorem pick_single_cons {α : Type} (x : α) (L : List (List α)) :
    pick ([x] :: L) = some x := rfl

theorem pick_many_cons {α : Type} (x y : α) (l : List α) (L : List (List α)) :
    pick ((x :: y :: l) :: L) = none := rfl

theorem pick_all_nil {α : Type} : ∀ (L : List (List α)), (∀ l ∈ L, l = []) → pick L = none := by
  intro L
  induction L with
  | nil => intro _; rfl
  | cons a L ih =>
    intro h
    have ha := h a (List.mem_cons_self _ _)
    subst ha
    rw [pick_nil_cons]
    exact ih (fun l hl => h l (List.mem_cons_of_mem _ hl))

/-- The choice among the levels `s`, `s + 1`, ..., when the first level that is
not empty is `d`. -/
theorem pick_range_first {α : Type} (F : Nat → List α) (d : Nat)
    (hlow : ∀ k, k < d → F k = []) (hd : F d ≠ []) :
    ∀ (n s : Nat), s ≤ d → d < s + n →
      pick ((List.range' s n).map F) = pick [F d] := by
  intro n
  induction n with
  | zero => intro s h1 h2; omega
  | succ n ih =>
    intro s h1 h2
    rw [List.range'_succ, List.map_cons]
    by_cases hs : s = d
    · subst hs
      cases hF : F s with
      | nil => exact absurd hF hd
      | cons a l =>
        cases l with
        | nil => rfl
        | cons b l => rfl
    · rw [hlow s (by omega), pick_nil_cons]
      exact ih (s + 1) (by omega) (by omega)

/-! ## `colToFieldIndex`: the search level by level -/

/-- On a struct type with distinct names the search goes down the levels, and
returns the choice among the fields that satisfy the test at the first level
that has one. -/
theorem scanLoop_levels (G : StructTypes) (T : Str) (D : Nat) (h : DistinctNames G T D)
    (matchFn : Str → Option Bool) (p : StructField → Bool)
    (hm : ∀ d, ∀ s ∈ scansAt G T d, ∀ f ∈ G.fields s.typ, matchFn f.Name = some (p f)) :
    ∀ (n d fuel : Nat) (v : ScanVars), d + n = D + 1 → n < fuel →
      v.result = none → v.next = scansAt G T d → (∀ S, countOf v.nextCount S ≤ 1) →
      (∀ S ∈ v.visited, ∃ k, k < d ∧ S ∈ (scansAt G T k).map (fun t => t.typ)) →
      scanLoop G matchFn fuel v
        = some (pick ((List.range' d n).map
            (fun k => (fieldsAt G T k).filter (fun x => p x.1)))) := by
  intro n
  induction n with
  | zero =>
    intro d fuel v hd hf hres hnext _ _
    obtain ⟨fuel, rfl⟩ : ∃ g, fuel = g + 1 := ⟨fuel - 1, by omega⟩
    have hdd : d = D + 1 := by omega
    subst hdd
    unfold scanLoop
    rw [hnext, h.1, hres]
    rfl
  | succ n ih =>
    intro d fuel v hd hf hres hnext hcount hvis
    obtain ⟨fuel, rfl⟩ : ∃ g, fuel = g + 1 := ⟨fuel - 1, by omega⟩
    rw [List.range'_succ, List.map_cons]
    unfold scanLoop
    rw [hnext]
    by_cases hcs : scansAt G T d = []
    · rw [hcs]
      simp only [List.length_nil, gt_iff_lt, Nat.lt_irrefl, if_false]
      rw [hres, pick_all_nil]
      intro l hl
      rcases List.mem_cons.1 hl with hl | hl
      · rw [hl, fieldsAt_nil_of_scansAt G T d hcs]
        rfl
      · obtain ⟨k, hk, rfl⟩ := List.mem_map.1 hl
        have hk' := (List.mem_range'_1.1 hk).1
        rw [fieldsAt_nil_of_scansAt G T k (scansAt_nil_of_le G T d hcs k (by omega))]
        rfl
    · have hpos : (scansAt G T d).length > 0 := List.length_pos.2 hcs
      rw [if_pos hpos]
      have hc : ∀ s ∈ scansAt G T d, countOf v.nextCount s.typ ≤ 1 := fun s _ => hcount s.typ
      have hnd := types_nodup G T D h d
      have hv0 : ∀ s ∈ scansAt G T d,
          s.typ ∉ ({ v with next := [], nextCount := [] } : ScanVars).visited := by
        intro s hs hmem
        obtain ⟨k, hk, hS⟩ := hvis _ hmem
        exact types_fresh G T D h k d hk s hs hS
      cases hM : (fieldsAt G T d).filter (fun x => p x.1) with
      | nil =>
        obtain ⟨v', e1, e2, e3, e4, e5⟩ := scanLevel_queue G matchFn p v.nextCount
          (scansAt G T d) { v with next := [], nextCount := [] } (hm d) hres hc hnd hv0 hM
          (types_nodup G T D h (d + 1)) (fun S _ => rfl)
        rw [e1]
        simp only [e2, Option.isSome_none, Bool.false_eq_true, if_false]
        rw [pick_nil_cons]
        refine ih (d + 1) fuel v' (by omega) (by omega) e2 ?_ ?_ ?_
        · rw [e3]
          rfl
        · intro S
          rw [e4 S]
          split
          · exact Nat.le_refl 1
          · exact Nat.zero_le 1
        · intro S hS
          rcases (e5 S).1 hS with hS | hS
          · exact ⟨d, by omega, hS⟩
          · obtain ⟨k, hk, hk'⟩ := hvis S hS
            exact ⟨k, by omega, hk'⟩
      | cons a A =>
        obtain ⟨g1, g2⟩ := scanLevel_search G matchFn p v.nextCount
          (scansAt G T d) { v with next := [], nextCount := [] } (hm d) hres hc hnd hv0
        cases A with
        | nil =>
          obtain ⟨v', e1, e2⟩ := g1 a hM
          rw [e1]
          simp only [e2, Option.isSome_some, if_true]
          rfl
        | cons b A =>
          rw [g2 a b A hM]
          rfl

theorem FieldByNameFunc_levels (G : StructTypes) (T : Str) (D : Nat)
    (h : DistinctNames G T D) (matchFn : Str → Option Bool) (p : StructField → Bool)
    (hm : ∀ d, ∀ s ∈ scansAt G T d, ∀ f ∈ G.fields s.typ, matchFn f.Name = some (p f))
    (fuel : Nat) (hfuel : D + 1 < fuel) :
    FieldByNameFunc fuel G T matchFn
      = some (pick ((List.range' 0 (D + 1)).map
          (fun k => (fieldsAt G T k).filter (fun x => p x.1)))) :=
  scanLoop_levels G T D h matchFn p hm (D + 1) 0 fuel _ (by omega) hfuel rfl rfl
    (fun S => by simp [countOf_nil]) (fun S hS => by simp at hS)

/-! ## `colToFieldIndex`: the field that a name resolves to -/

theorem find_by_name : ∀ (fs : List StructField), (fs.map (fun g => g.Name)).Nodup →
    ∀ f ∈ fs, fs.find? (fun tf => tf.Name == f.Name) = some f := by
  intro fs
  induction fs with
  | nil => intro _ f hf; simp at hf
  | cons g fs ih =>
    intro hn f hf
    rw [List.map_cons, List.nodup_cons] at hn
    rcases List.mem_cons.1 hf with hf | hf
    · subst hf
      simp
    · have hne : g.Name ≠ f.Name := by
        intro he
        exact hn.1 (he ▸ List.mem_map_of_mem (fun g => g.Name) hf)
      have hb : (g.Name == f.Name) = false := by simpa using hne
      rw [List.find?_cons, hb]
      exact ih hn.2 f hf

theorem filter_by_name : ∀ (X : List (StructField × List Nat)),
    (X.map (fun x => x.1.Name)).Nodup → ∀ x ∈ X,
    X.filter (fun y => y.1.Name == x.1.Name) = [x] := by
  intro X
  induction X with
  | nil => intro _ x hx; simp at hx
  | cons y X ih =>
    intro hn x hx
    rw [List.map_cons, List.nodup_cons] at hn
    rcases List.mem_cons.1 hx with hx | hx
    · subst hx
      have hrest : X.filter (fun y => y.1.Name == x.1.Name) = [] := by
        rw [List.filter_eq_nil_iff]
        intro z hz hzn
        have : z.1.Name = x.1.Name := by simpa using hzn
        exact hn.1 (this ▸ List.mem_map_of_mem (fun x => x.1.Name) hz)
      rw [List.filter_cons, hrest]
      simp
    · have hne : y.1.Name ≠ x.1.Name := by
        intro he
        exact hn.1 (he ▸ List.mem_map_of_mem (fun x => x.1.Name) hx)
      have hb : (y.1.Name == x.1.Name) = false := by simpa using hne
      rw [List.filter_cons, hb]
      exact ih hn.2 x hx

theorem fieldsAt_zero (G : StructTypes) (T : Str) :
    fieldsAt G T 0 = withPaths [] (G.fields T) 0 := by
  simp [fieldsAt, scansAt, fieldsOf]

/-- On a struct type with distinct names, `FieldByName` resolves the name of a
field, at any depth, to that field. -/
theorem FieldByName_field (G : StructTypes) (T : Str) (D : Nat) (h : DistinctNames G T D)
    (fuel : Nat) (hfuel : D + 1 < fuel) (d : Nat) (x : StructField × List Nat)
    (hx : x ∈ fieldsAt G T d) : FieldByName fuel G T x.1.Name = some x.1 := by
  have hd := le_of_mem_fieldsAt G T D d h.1 x hx
  have hname : x.1.Name ∈ (fieldsAt G T d).map (fun x => x.1.Name) :=
    List.mem_map_of_mem (fun x => x.1.Name) hx
  have hne : x.1.Name ≠ [] := by
    intro he
    exact h.2.2 (he ▸ (levelNames_sublist G T d D hd).subset hname)
  have hnames0 : (fieldsAt G T 0).map (fun x => x.1.Name)
      = (G.fields T).map (fun g => g.Name) := by
    rw [fieldsAt_zero]
    have := withPaths_map_fst [] (G.fields T) 0
    calc (withPaths [] (G.fields T) 0).map (fun x => x.1.Name)
        = ((withPaths [] (G.fields T) 0).map (fun x => x.1)).map (fun g => g.Name) := by
          rw [List.map_map]
          rfl
      _ = (G.fields T).map (fun g => g.Name) := by rw [this]
  unfold FieldByName
  rw [if_pos hne]
  cases d with
  | zero =>
    have hx0 : x.1 ∈ G.fields T := by
      rw [fieldsAt_zero] at hx
      have := List.mem_map_of_mem (fun x => x.1) hx
      rwa [withPaths_map_fst] at this
    have hn0 : ((G.fields T).map (fun g => g.Name)).Nodup := by
      rw [← hnames0]
      exact levelNames_nodup G T 0 D (by omega) h.2.1
    rw [find_by_name (G.fields T) hn0 x.1 hx0]
  | succ d =>
    have hnone : (G.fields T).find? (fun tf => tf.Name == x.1.Name) = none := by
      rw [List.find?_eq_none]
      intro g hg hgn
      have hgn' : g.Name = x.1.Name := by simpa using hgn
      have h0 : x.1.Name ∈ (fieldsAt G T 0).map (fun x => x.1.Name) := by
        rw [hnames0, ← hgn']
        exact List.mem_map_of_mem (fun g => g.Name) hg
      exact levelNames_disjoint G T 0 (d + 1) D (by omega) hd h.2.1 x.1.Name h0 hname
    rw [hnone]
    simp only
    have hany : (G.fields T).any (fun tf => decide (tf.Embedded ≠ .no)) = true := by
      have h1 : scansAt G T 1 ≠ [] := by
        intro h1
        have hs := scansAt_nil_of_le G T 1 h1 (d + 1) (by omega)
        rw [fieldsAt_nil_of_scansAt G T (d + 1) hs] at hx
        simp at hx
      rw [scansAt_succ] at h1
      obtain ⟨t, ht⟩ := List.exists_mem_of_ne_nil _ h1
      obtain ⟨y, hy, hyt⟩ := List.mem_filterMap.1 ht
      have hemb : y.1.Embedded = .struct := by
        unfold toScan at hyt
        by_contra hc
        rw [if_neg hc] at hyt
        simp at hyt
      have hy0 : y.1 ∈ G.fields T := by
        rw [fieldsAt_zero] at hy
        have := List.mem_map_of_mem (fun x => x.1) hy
        rwa [withPaths_map_fst] at this
      rw [List.any_eq_true]
      exact ⟨y.1, hy0, by simp [hemb]⟩
    rw [if_pos ⟨hne, hany⟩]
    rw [FieldByNameFunc_levels G T D h (fun s => some (s == x.1.Name))
      (fun g => g.Name == x.1.Name) (fun _ _ _ _ _ => rfl) fuel hfuel]
    have hF : (fieldsAt G T (d + 1)).filter (fun y => y.1.Name == x.1.Name) = [x] :=
      filter_by_name (fieldsAt G T (d + 1)) (levelNames_nodup G T (d + 1) D hd h.2.1) x hx
    rw [pick_range_first
      (fun k => (fieldsAt G T k).filter (fun y => y.1.Name == x.1.Name)) (d + 1)
      (by
        intro k hk
        show (fieldsAt G T k).filter (fun y => y.1.Name == x.1.Name) = []
        rw [List.filter_eq_nil_iff]
        intro z hz hzn
        have hzn' : z.1.Name = x.1.Name := by simpa using hzn
        have hzk : x.1.Name ∈ (fieldsAt G T k).map (fun x => x.1.Name) := by
          rw [← hzn']
          exact List.mem_map_of_mem (fun x => x.1.Name) hz
        exact levelNames_disjoint G T k (d + 1) D hk hd h.2.1 x.1.Name hzk hname)
      (by
        show (fieldsAt G T (d + 1)).filter (fun y => y.1.Name == x.1.Name) ≠ []
        rw [hF]
        simp)
      (D + 1) 0 (by omega) (by omega)]
    show (match some (pick [(fieldsAt G T (d + 1)).filter (fun y => y.1.Name == x.1.Name)]) with
      | none => none
      | some (some found) => some found.1
      | some none => some { Name := [], Tag := [], Embedded := .no }) = some x.1
    rw [hF]
    rfl

/-- The test that `colToFieldIndex` makes on the name of a field says whether
the field answers to the column. -/
theorem columnMatch_field (U : Unicode) (G : StructTypes) (T : Str) (D : Nat)
    (h : DistinctNames G T D) (fuel : Nat) (hfuel : D + 1 < fuel) (column : Str) (d : Nat)
    (x : StructField × List Nat) (hx : x ∈ fieldsAt G T d) :
    columnMatch fuel U G T (ToLower U column) x.1.Name = some (x.1.answers U column) := by
  unfold columnMatch
  rw [FieldByName_field G T D h fuel hfuel d x hx]
  simp only
  unfold StructField.answers StructField.scanName
  generalize (splitComma (x.1.TagGet "sql".toList)).headD [] = seg
  by_cases hdash : seg = "-".toList
  · rw [if_pos hdash, decide_eq_false (not_not.2 hdash)]
    rfl
  · rw [if_neg hdash, decide_eq_true hdash, Bool.true_and]

theorem colToFieldIndexLoop_eq (U : Unicode) (G : StructTypes) (T : Str) (D : Nat)
    (h : DistinctNames G T D) (fuel : Nat) (hfuel : D + 1 < fuel) :
    ∀ columns : List Str,
      colToFieldIndexLoop fuel U G T columns = some (columns.map (columnEntry U G T D)) := by
  intro columns
  induction columns with
  | nil => rfl
  | cons column columns ih =>
    unfold colToFieldIndexLoop
    rw [FieldByNameFunc_levels G T D h (columnMatch fuel U G T (ToLower U column))
      (fun f => f.answers U column)
      (by
        intro d s hs f hf
        obtain ⟨q, hq⟩ := mem_fieldsOf_of_field G s f hf
        exact columnMatch_field U G T D h fuel hfuel column d (f, q)
          ((mem_fieldsAt_iff G T d (f, q)).2 ⟨s, hs, hq⟩))
      fuel hfuel]
    rw [ih]
    rfl

/-! ## `colToFieldIndex`: the entries -/

set_option maxRecDepth 100000 in
/-- C33, amended. For every struct type in which no two fields, those of the
structs embedded in it at any depth included, have the same name (`D` bounds the
depth of embedding, and names are not empty, as those of Go are), and every list
of result column names, `colToFieldIndex` returns, whenever its searches are
given more than `D + 1` rounds, a nil error and exactly one entry per column, in
column order.  A field answers to a column when the first comma-separated
segment of its `sql` tag, or its own name when that segment is empty, equals the
column name once both are in lower case; a field whose segment is `-` answers
to no column.  The entry of a column is the index path of the field that answers
to it at the least depth at which a field does, when it is the only one at that
depth; it is empty when no field answers, or more than one at that depth.  For
`Match`, which embeds `Player`, which embeds `Audit`, the columns `match_id`,
`NICK`, `updated_by` and `secret` get the entries `[0]`, `[1, 1]`, `[1, 0, 1]`
and the empty one. -/
theorem colToFieldIndex_entries (U : Unicode) (G : StructTypes) (T : Str) (D fuel : Nat)
    (columns : List Str) (h : DistinctNames G T D) (hfuel : D + 1 < fuel) :
    colToFieldIndex fuel U G T columns = some (columns.map (columnEntry U G T D), none)
      ∧ (columns.map (columnEntry U G T D)).length = columns.length
      ∧ (∀ (column : Str) (d : Nat) (f : StructField) (q : List Nat), d ≤ D →
          (∀ k, k < d → answering U G T column k = []) →
          answering U G T column d = [(f, q)] → columnEntry U G T D column = q)
      ∧ (∀ column : Str, (∀ d, d ≤ D → answering U G T column d = []) →
          columnEntry U G T D column = [])
      ∧ (∀ (column : Str) (d : Nat) (x y : StructField × List Nat)
          (l : List (StructField × List Nat)), d ≤ D →
          (∀ k, k < d → answering U G T column k = []) →
          answering U G T column d = x :: y :: l → columnEntry U G T D column = [])
      ∧ (∀ (f : StructField) (column : Str),
          (splitComma (f.TagGet "sql".toList)).headD [] = "-".toList →
          f.answers U column = false)
      ∧ colToFieldIndex 4 asciiUnicode matchTypes "Match".toList
            ["match_id".toList, "NICK".toList, "updated_by".toList, "secret".toList]
          = some ([[0], [1, 1], [1, 0, 1], []], none) := by
  refine ⟨?_, ?_, ?_, ?_, ?_, ?_, ?_⟩
  · unfold colToFieldIndex
    rw [colToFieldIndexLoop_eq U G T D h fuel hfuel columns]
  · rw [List.length_map]
  · intro column d f q hd hlow hone
    unfold columnEntry
    rw [pick_range_first (answering U G T column) d hlow (by rw [hone]; simp) (D + 1) 0
      (by omega) (by omega), hone]
    rfl
  · intro column hall
    unfold columnEntry
    rw [pick_all_nil]
    intro l hl
    obtain ⟨k, hk, rfl⟩ := List.mem_map.1 hl
    have hk' := (List.mem_range'_1.1 hk).2
    exact hall k (by omega)
  · intro column d x y l hd hlow hmany
    unfold columnEntry
    rw [pick_range_first (answering U G T column) d hlow (by rw [hmany]; simp) (D + 1) 0
      (by omega) (by omega), hmany]
    rfl
  · intro f column hdash
    unfold StructField.answers
    rw [hdash]
    rfl
  · decide

set_option maxRecDepth 100000 in
/-- Witness of C33: the struct `Match`, whose embedded structs go two deep, and
the columns `match_id`, `NICK`, `updated_by`, `round`, `secret`, `-`, `player`
and `zzz`. -/
theorem colToFieldIndex_entries_witness :
    DistinctNames matchTypes "Match".toList 2
      ∧ 2 + 1 < 5
      ∧ colToFieldIndex 5 asciiUnicode matchTypes "Match".toList
            ["match_id".toList, "NICK".toList, "updated_by".toList, "round".toList,
              "secret".toList, "-".toList, "player".toList, "zzz".toList]
          = some (["match_id".toList, "NICK".toList, "updated_by".toList, "round".toList,
              "secret".toList, "-".toList, "player".toList, "zzz".toList].map
                (columnEntry asciiUnicode matchTypes "Match".toList 2), none)
      ∧ ["match_id".toList, "NICK".toList, "updated_by".toList, "round".toList,
            "secret".toList, "-".toList, "player".toList, "zzz".toList].map
              (columnEntry asciiUnicode matchTypes "Match".toList 2)
          = [[0], [1, 1], [1, 0, 1], [2], [], [], [1], []] :=
  ⟨by unfold DistinctNames; decide, by decide,
    (colToFieldIndex_entries asciiUnicode matchTypes "Match".toList 2 5
      ["match_id".toList, "NICK".toList, "updated_by".toList, "round".toList,
        "secret".toList, "-".toList, "player".toList, "zzz".toList]
      (by unfold DistinctNames; decide) (by decide)).1,
    by decide⟩

set_option maxRecDepth 100000 in
/-- C33 as stated fails.  In `Member` the fields `Name` and `Nick` both have the
`sql` tag `name`: each equals the column `name`, and the entry of that column is
empty, not the index path of either.  In `Order` the field `Title` and the field
`Label` of the embedded `Stamp` both have the tag `name`: the entry is the path
`[1]` of the first, at the lesser depth, not the path `[0, 0]` of the second.  In
`Shadow` the one field whose segment is `id` is the field `ID` of the embedded
`Base`, at the path `[1, 0]`; the name `ID` resolves to the field `ID` of `Shadow`
itself, whose segment is `-`, and the entry of the column `id` is empty.  In
`Pair` the one field whose segment is `left_id` is the field `ID` of the embedded
`Left`, at the path `[0, 0]`; the name `ID` is that of a field of `Right` too and
resolves to no field, and the entry of the column `left_id` is empty. -/
theorem colToFieldIndex_entries_counterexample :
    (answering asciiUnicode memberTypes "Member".toList "name".toList 0
          = [ (⟨"Name".toList, jsonSqlTag "name", .no⟩, [0]),
              (⟨"Nick".toList, jsonSqlTag "name", .no⟩, [1]) ]
        ∧ colToFieldIndex 5 asciiUnicode memberTypes "Member".toList ["name".toList]
          = some ([[]], none))
      ∧ (answering asciiUnicode orderTypes "Order".toList "name".toList 0
          = [ (⟨"Title".toList, jsonSqlTag "name", .no⟩, [1]) ]
        ∧ answering asciiUnicode orderTypes "Order".toList "name".toList 1
          = [ (⟨"Label".toList, jsonSqlTag "name", .no⟩, [0, 0]) ]
        ∧ colToFieldIndex 5 asciiUnicode orderTypes "Order".toList ["name".toList]
          = some ([[1]], none))
      ∧ (answering asciiUnicode shadowTypes "Shadow".toList "id".toList 0 = []
        ∧ answering asciiUnicode shadowTypes "Shadow".toList "id".toList 1
          = [ (⟨"ID".toList, jsonSqlTag "id", .no⟩, [1, 0]) ]
        ∧ scansAt shadowTypes "Shadow".toList 2 = []
        ∧ colToFieldIndex 5 asciiUnicode shadowTypes "Shadow".toList ["id".toList]
          = some ([[]], none))
      ∧ (answering asciiUnicode pairTypes "Pair".toList "left_id".toList 0 = []
        ∧ answering asciiUnicode pairTypes "Pair".toList "left_id".toList 1
          = [ (⟨"ID".toList, jsonSqlTag "left_id", .no⟩, [0, 0]) ]
        ∧ scansAt pairTypes "Pair".toList 2 = []
        ∧ colToFieldIndex 5 asciiUnicode pairTypes "Pair".toList ["left_id".toList]
          = some ([[]], none)) :=
  ⟨⟨by decide, by decide⟩, ⟨by decide, by decide, by decide⟩,
    ⟨by decide, by decide, by decide, by decide⟩,
    ⟨by decide, by decide, by decide, by decide⟩⟩

/-! ## The rewriting of the `?` marks by `Exec` -/

theorem renumber_question (n : Nat) (a b : Str) :
    renumber n (a ++ '?' :: b)
      = renumber n a ++ ('$' :: fmtNat (n + Count a '?' + 1))
        ++ renumber (n + Count a '?' + 1) b := by
  rw [renumber_append]
  show renumber n a ++ (if '?' = '?' then _ else _) = _
  rw [if_pos rfl, List.append_assoc]

theorem question_not_mem_renumber (n : Nat) (q : Str) : '?' ∉ renumber n q := by
  induction q generalizing n with
  | nil => simp [renumber]
  | cons c cs ih =>
    unfold renumber
    by_cases hc : c = '?'
    · rw [if_pos hc]
      intro h
      rcases List.mem_append.1 h with h | h
      · rcases List.mem_cons.1 h with h | h
        · exact absurd h (by decide)
        · exact question_not_mem_fmtNat _ h
      · exact ih _ h
    · rw [if_neg hc]
      intro h
      rcases List.mem_cons.1 h with h | h
      · exact hc h.symm
      · exact ih _ h

theorem question_not_mem_renderWhere (n : Nat) (ws : List WhereCond) :
    '?' ∉ renderWhere n ws := by
  induction ws generalizing n with
  | nil => simp [renderWhere]
  | cons w ws ih =>
    unfold renderWhere
    intro h
    rcases List.mem_append.1 h with h | h
    · exact question_not_mem_renumber _ _ h
    · exact ih _ h

theorem renderWhere_split (n : Nat) (pre post : List WhereCond) (w : WhereCond) :
    renderWhere n (pre ++ w :: post)
      = renderWhere n pre ++ renumber (n + (whereArgs pre).length) w.query
        ++ renderWhere (n + (whereArgs pre).length + w.args.length) post := by
  induction pre generalizing n with
  | nil => simp [renderWhere, whereArgs]
  | cons v pre ih =>
    rw [List.cons_append, renderWhere, ih, renderWhere, whereArgs_cons, List.length_append]
    simp only [List.append_assoc, Nat.add_assoc]

theorem range'_eq_iff_length (s a b : Nat) : List.range' s a = List.range' s b ↔ a = b := by
  constructor
  · intro h
    have := congrArg List.length h
    simpa using this
  · intro h
    rw [h]

/-- C34, amended. When `Exec` renders the pending fragments, `n0` arguments being
in the list, the fragment `w` that comes after the fragments `pre` is rendered
with its `?` marks rewritten from the number `N = n0 + (arguments of pre)` on:
the `?` that has `k - 1` marks before it in the fragment becomes `$` followed by
`N + k`, and no `?` is left in the rendered fragments.  For a fragment without
`$` and without a digit right after a `?`, the markers of its rendering are
exactly the positions of its own arguments if and only if it has as many `?` as
arguments; and when all fragments are such, each after the first starting with
a blank, the markers of the rendered fragments are `n0 + 1`, ..., `n0 + A` in
this order, `A` being the number of their arguments. -/
theorem exec_renumbers_fragments (r : SQL) (s : Query) (pre post : List WhereCond)
    (w : WhereCond) (hws : r.whereConditions = pre ++ w :: post) :
    (SQL.Exec r s).QueryStr
        = s.QueryStr ++ " WHERE ".toList ++ renderWhere s.Args.length pre
          ++ renumber (s.Args.length + (whereArgs pre).length) w.query
          ++ renderWhere (s.Args.length + (whereArgs pre).length + w.args.length) post
          ++ limitClause s
      ∧ (SQL.Exec r s).Args = s.Args ++ whereArgs r.whereConditions
      ∧ (∀ a b : Str, w.query = a ++ '?' :: b →
          renumber (s.Args.length + (whereArgs pre).length) w.query
            = renumber (s.Args.length + (whereArgs pre).length) a
              ++ ('$' :: fmtNat (s.Args.length + (whereArgs pre).length + Count a '?' + 1))
              ++ renumber (s.Args.length + (whereArgs pre).length + Count a '?' + 1) b)
      ∧ '?' ∉ renderWhere s.Args.length r.whereConditions
      ∧ ('$' ∉ w.query → noDigitAfterQuestion w.query = true →
          (markers (renumber (s.Args.length + (whereArgs pre).length) w.query)
              = List.range' (s.Args.length + (whereArgs pre).length + 1) w.args.length
            ↔ Count w.query '?' = w.args.length))
      ∧ ((∀ v ∈ r.whereConditions, FragOk v) →
          (∀ v ∈ r.whereConditions.tail, ∃ q, v.query = ' ' :: q) →
          markers (renderWhere s.Args.length r.whereConditions)
            = List.range' (s.Args.length + 1) (whereArgs r.whereConditions).length) := by
  refine ⟨?_, ?_, ?_, question_not_mem_renderWhere _ _, ?_, ?_⟩
  · rw [Exec_eq]
    show s.QueryStr ++ whereClause s.Args.length r.whereConditions ++ limitClause s = _
    unfold whereClause
    rw [hws, if_neg (by simp), renderWhere_split]
    simp only [List.append_assoc]
  · rw [Exec_eq]
  · intro a b hq
    rw [hq, renumber_question]
  · intro hd hq
    have hm := markers_renumber w.query (s.Args.length + (whereArgs pre).length) [] hd hq rfl
    rw [List.append_nil] at hm
    rw [hm]
    have : markers ([] : Str) = [] := rfl
    rw [this, List.append_nil, range'_eq_iff_length]
  · intro hok hblank
    have hm := markers_renderWhere r.whereConditions s.Args.length [] hok hblank rfl
    rw [List.append_nil] at hm
    rw [hm]
    have : markers ([] : Str) = [] := rfl
    rw [this, List.append_nil]

set_option maxRecDepth 100000 in
/-- Witness of C34: after `From(Game{}, "g")`, the fragments
`g.game_code = ? AND g.rate > ?` with two arguments and ` AND g.enabled = ?`
with one; the second is rendered ` AND g.enabled = $3`. -/
theorem exec_renumbers_fragments_witness :
    (SQL.Exec
          { Model := some (.entity emptyGame), ID := "game_id".toList, TagName := "sql".toList,
            whereConditions :=
              [⟨"g.game_code = ? AND g.rate > ?".toList, [Arg.str "uuid".toList, Arg.int 70]⟩]
                ++ ⟨" AND g.enabled = ?".toList, [Arg.bool true]⟩ :: [] }
          selectGames).QueryStr
        = selectGames.QueryStr ++ " WHERE ".toList
          ++ renderWhere selectGames.Args.length
            [⟨"g.game_code = ? AND g.rate > ?".toList, [Arg.str "uuid".toList, Arg.int 70]⟩]
          ++ renumber
            (selectGames.Args.length
              + (whereArgs
                  [⟨"g.game_code = ? AND g.rate > ?".toList,
                    [Arg.str "uuid".toList, Arg.int 70]⟩]).length)
            (WhereCond.mk " AND g.enabled = ?".toList [Arg.bool true]).query
          ++ renderWhere
            (selectGames.Args.length
              + (whereArgs
                  [⟨"g.game_code = ? AND g.rate > ?".toList,
                    [Arg.str "uuid".toList, Arg.int 70]⟩]).length
              + (WhereCond.mk " AND g.enabled = ?".toList [Arg.bool true]).args.length) []
          ++ limitClause selectGames
      ∧ (SQL.Exec
          { Model := some (.entity emptyGame), ID := "game_id".toList, TagName := "sql".toList,
            whereConditions :=
              [⟨"g.game_code = ? AND g.rate > ?".toList, [Arg.str "uuid".toList, Arg.int 70]⟩]
                ++ ⟨" AND g.enabled = ?".toList, [Arg.bool true]⟩ :: [] }
          selectGames).QueryStr
        = "SELECT g.* FROM ref_game g WHERE g.game_code = $1 AND g.rate > $2 AND g.enabled = $3 LIMIT 100 OFFSET 0".toList
      ∧ renumber 2 " AND g.enabled = ?".toList = " AND g.enabled = $3".toList :=
  ⟨(exec_renumbers_fragments
      { Model := some (.entity emptyGame), ID := "game_id".toList, TagName := "sql".toList,
        whereConditions :=
          [⟨"g.game_code = ? AND g.rate > ?".toList, [Arg.str "uuid".toList, Arg.int 70]⟩]
            ++ ⟨" AND g.enabled = ?".toList, [Arg.bool true]⟩ :: [] }
      selectGames
      [⟨"g.game_code = ? AND g.rate > ?".toList, [Arg.str "uuid".toList, Arg.int 70]⟩] []
      ⟨" AND g.enabled = ?".toList, [Arg.bool true]⟩ rfl).1,
    by decide, by decide⟩

set_option maxRecDepth 100000 in
/-- C34 as stated fails, in both directions.  A fragment with two `?` and one
argument followed by a fragment without `?` and with one argument gives the
markers `$1`, `$2` for two arguments.  A fragment with one `?` and one argument
that holds a `$3` of its own gives the markers `$3`, `$1`, and one whose `?` has
a digit after it gives the marker `$10`. -/
theorem exec_renumbers_fragments_counterexample :
    rendered asciiUnicode
        (runCalls asciiUnicode (Build.From asciiUnicode (.entity emptyGame) "g".toList)
          [Call.Where "g.rate BETWEEN ? AND ?".toList [Arg.int 1],
            Call.Where "g.enabled".toList [Arg.bool true]])
      = .ok ("SELECT g.* FROM ref_game g WHERE g.rate BETWEEN $1 AND $2 AND g.enabled LIMIT 100 OFFSET 0".toList,
          [Arg.int 1, Arg.bool true])
      ∧ markers "SELECT g.* FROM ref_game g WHERE g.rate BETWEEN $1 AND $2 AND g.enabled LIMIT 100 OFFSET 0".toList
        = List.range' 1 [Arg.int 1, Arg.bool true].length
      ∧ Count "g.rate BETWEEN ? AND ?".toList '?' ≠ [Arg.int 1].length
      ∧ rendered asciiUnicode
        (runCalls asciiUnicode (Build.From asciiUnicode (.entity emptyGame) "g".toList)
          [Call.Where "g.game_id = $3 OR g.game_code = ?".toList [Arg.str "uuid".toList]])
      = .ok ("SELECT g.* FROM ref_game g WHERE g.game_id = $3 OR g.game_code = $1 LIMIT 100 OFFSET 0".toList,
          [Arg.str "uuid".toList])
      ∧ Count "g.game_id = $3 OR g.game_code = ?".toList '?' = [Arg.str "uuid".toList].length
      ∧ markers "SELECT g.* FROM ref_game g WHERE g.game_id = $3 OR g.game_code = $1 LIMIT 100 OFFSET 0".toList
        = [3, 1]
      ∧ rendered asciiUnicode
        (runCalls asciiUnicode (Build.From asciiUnicode (.entity emptyGame) "g".toList)
          [Call.Where "g.rate > ?0".toList [Arg.int 7]])
      = .ok ("SELECT g.* FROM ref_game g WHERE g.rate > $10 LIMIT 100 OFFSET 0".toList,
          [Arg.int 7])
      ∧ Count "g.rate > ?0".toList '?' = [Arg.int 7].length
      ∧ markers "SELECT g.* FROM ref_game g WHERE g.rate > $10 LIMIT 100 OFFSET 0".toList = [10] := by
  decide

/-! ## The rows of `Inserts` -/

theorem markerRows_map_length (n : Nat) (ws : List Nat) :
    (markerRows n ws).map List.length = ws := by
  induction ws generalizing n with
  | nil => rfl
  | cons w ws ih =>
    unfold markerRows
    rw [List.map_cons, ih]
    simp

set_option maxRecDepth 100000 in
/-- C35, amended. For every non-empty slice passed to `Inserts` on a fresh
builder, the statement names the table of the first element, and its column list
is the ascending list of the populated tagged columns of the first element
followed by `create_date` and `write_date`, whatever the other elements hold.
The VALUES list has one tuple for each element, and the tuple of an element has
as many placeholders as the element has distinct columns of populated tagged
fields, plus 2.  So every tuple is as wide as the column list if and only if
every element has as many such columns as the first. -/
theorem inserts_columns_and_rows (U : Unicode) (now : Nat → Nat) (first : Entity)
    (rest : List Entity) :
    ∃ s cols rows,
      Build.Inserts U now (.slice (first :: rest)) = .ok s
        ∧ s.QueryStr
          = "INSERT INTO ".toList ++ first.TableName ++ " (".toList
            ++ Join (cols ++ ["create_date".toList, "write_date".toList]) ", ".toList
            ++ ") VALUES ".toList ++ valuesList rows
        ∧ Ascending cols
        ∧ (∀ c, c ∈ cols ↔ c ∈ populatedColumns U "sql".toList first)
        ∧ cols.length = populatedWidth U "sql".toList first
        ∧ rows.map List.length
          = (first :: rest).map (fun e => populatedWidth U "sql".toList e + 2)
        ∧ ((∀ row ∈ rows,
              row.length = (cols ++ ["create_date".toList, "write_date".toList]).length)
            ↔ ∀ e ∈ first :: rest,
              populatedWidth U "sql".toList e = populatedWidth U "sql".toList first) := by
  obtain ⟨s, r, h1, _, _, hq, _⟩ := inserts_build U now first rest
  have hlen : (sortStrings (fieldMapOf U "sql".toList first).keys).length
      = populatedWidth U "sql".toList first := by
    have := sortStrings_keys_length U "sql".toList first
    unfold rowWidth at this
    unfold populatedWidth
    omega
  have hrows : (markerRows 0 ((first :: rest).map (rowWidth U "sql".toList))).map List.length
      = (first :: rest).map (fun e => populatedWidth U "sql".toList e + 2) := by
    rw [markerRows_map_length]
    rfl
  refine ⟨s, sortStrings (fieldMapOf U "sql".toList first).keys,
    markerRows 0 ((first :: rest).map (rowWidth U "sql".toList)), h1, hq,
    ascending_sortStrings _ (fieldMapOf_keys_nodup U _ first), ?_, hlen, hrows, ?_⟩
  · intro c
    rw [mem_sortStrings, mem_fieldMapOf_keys]
  · rw [List.length_append, hlen]
    constructor
    · intro h e he
      have hmem : populatedWidth U "sql".toList e + 2
          ∈ (markerRows 0 ((first :: rest).map (rowWidth U "sql".toList))).map List.length := by
        rw [hrows]
        exact List.mem_map_of_mem (fun e => populatedWidth U "sql".toList e + 2) he
      obtain ⟨row, hrow, hl⟩ := List.mem_map.1 hmem
      have := h row hrow
      simp only [List.length_cons, List.length_nil] at this
      omega
    · intro h row hrow
      have hmem : row.length
          ∈ (first :: rest).map (fun e => populatedWidth U "sql".toList e + 2) := by
        rw [← hrows]
        exact List.mem_map_of_mem List.length hrow
      obtain ⟨e, he, hl⟩ := List.mem_map.1 hmem
      have := h e he
      simp only [List.length_cons, List.length_nil]
      omega

set_option maxRecDepth 100000 in
/-- C35 as stated fails.  `User{ID: 1, Name: "budi"}` and `twoNames` have two
populated tagged fields each; the two fields of `twoNames` share a column, and
its tuple has 3 placeholders, not 2 + 2, under a column list of 4. -/
theorem inserts_columns_and_rows_counterexample :
    ((User 1 "budi").fields.filter (fun f => f.populated "sql".toList)).length = 2
      ∧ (twoNames.fields.filter (fun f => f.populated "sql".toList)).length = 2
      ∧ rendered asciiUnicode
          (Build.Inserts asciiUnicode id (.slice [User 1 "budi", twoNames]))
        = .ok
          ("INSERT INTO ref_user (id, name, create_date, write_date) VALUES ($1, $2, $3, $4), ($5, $6, $7) RETURNING id".toList,
            [Arg.str "1".toList, Arg.str "budi".toList, Arg.time 0, Arg.time 1,
              Arg.str "budi".toList, Arg.time 2, Arg.time 3])
      ∧ ["$5".toList, "$6".toList, "$7".toList].length
        ≠ (twoNames.fields.filter (fun f => f.populated "sql".toList)).length + 2 := by
  decide

/-! ## The frame of `Join` -/

theorem operator_keeps_text (U : Unicode) (s : Query) (r : SQL) (m : Entity) (a op : Str)
    (hr : s.raw = some r) (hsel : "SELECT".toList <+: s.QueryStr) :
    ∃ s' r', SQL.operator U s.clone.1 s.clone.2 (.entity m) a op = .ok s' ∧ s'.raw = some r'
      ∧ s'.QueryStr = s.QueryStr ∧ s'.Rows = s.Rows ∧ s'.Offset = s.Offset := by
  have hcont : Contains s.QueryStr "SELECT".toList = true := by
    rw [Contains_iff]
    exact hsel.isInfix
  unfold SQL.operator
  rw [clone_fst_of_raw s r hr]
  simp only []
  rw [hcont]
  simp only [Bool.not_true, Bool.false_eq_true, if_false]
  rw [fieldsToArgs_entity]
  simp only []
  split
  · exact ⟨_, _, rfl, rfl, rfl, rfl, rfl⟩
  · exact ⟨_, _, rfl, rfl, rfl, rfl, rfl⟩

/-- Along a chain of calls after a SELECT that holds a FROM, every call returns,
the text still starts with SELECT and holds a FROM, and the limit and the page
are left as they were. -/
theorem runCalls_select (U : Unicode) (calls : List Call) (s : Query) (r : SQL)
    (hr : s.raw = some r) (hsel : "SELECT".toList <+: s.QueryStr)
    (hfrm : "FROM".toList <:+: s.QueryStr) :
    ∃ t r', runCalls U (.ok s) calls = .ok t ∧ t.raw = some r'
      ∧ "SELECT".toList <+: t.QueryStr ∧ "FROM".toList <:+: t.QueryStr
      ∧ t.Rows = s.Rows ∧ t.Offset = s.Offset := by
  induction calls generalizing s r with
  | nil => exact ⟨s, r, rfl, hr, hsel, hfrm, rfl, rfl⟩
  | cons c cs ih =>
    unfold runCalls
    rw [List.foldl_cons]
    simp only [andThen]
    cases c with
    | And m a =>
      obtain ⟨s', r', e, h1, h2, h3, h4⟩ := operator_keeps_text U s r m a "AND".toList hr hsel
      have e' : Call.run U s (Call.And m a) = .ok s' := e
      rw [e']
      obtain ⟨t, r'', k1, k2, k3, k4, k5, k6⟩ := ih s' r' h1 (h2 ▸ hsel) (h2 ▸ hfrm)
      exact ⟨t, r'', k1, k2, k3, k4, k5.trans h3, k6.trans h4⟩
    | Or m a =>
      obtain ⟨s', r', e, h1, h2, h3, h4⟩ := operator_keeps_text U s r m a "OR".toList hr hsel
      have e' : Call.run U s (Call.Or m a) = .ok s' := e
      rw [e']
      obtain ⟨t, r'', k1, k2, k3, k4, k5, k6⟩ := ih s' r' h1 (h2 ▸ hsel) (h2 ▸ hfrm)
      exact ⟨t, r'', k1, k2, k3, k4, k5.trans h3, k6.trans h4⟩
    | Where query args =>
      have hw : Call.run U s (Call.Where query args) = .ok (s.Where query args) := rfl
      rw [hw]
      have hraw : ∃ r', (s.Where query args).raw = some r' := by
        unfold Query.Where SQL.Where
        exact ⟨_, rfl⟩
      obtain ⟨r', hr'⟩ := hraw
      have hq : (s.Where query args).QueryStr = s.QueryStr := by
        unfold Query.Where SQL.Where
        rw [clone_fst_of_raw s r hr]
      have hR : (s.Where query args).Rows = s.Rows := by
        unfold Query.Where SQL.Where
        rw [clone_fst_of_raw s r hr]
      have hO : (s.Where query args).Offset = s.Offset := by
        unfold Query.Where SQL.Where
        rw [clone_fst_of_raw s r hr]
      obtain ⟨t, r'', k1, k2, k3, k4, k5, k6⟩ :=
        ih (s.Where query args) r' hr' (hq ▸ hsel) (hq ▸ hfrm)
      exact ⟨t, r'', k1, k2, k3, k4, k5.trans hR, k6.trans hO⟩
    | Join m b onArgs =>
      obtain ⟨text, e, h2, h3, _⟩ := join_select s r m b onArgs hr hsel hfrm
      have e' : Call.run U s (Call.Join m b onArgs)
          = .ok { s with raw := some r, QueryStr := text } := e
      rw [e']
      obtain ⟨t, r'', k1, k2, k3, k4, k5, k6⟩ :=
        ih { s with raw := some r, QueryStr := text } r rfl h2 h3
      exact ⟨t, r'', k1, k2, k3, k4, k5, k6⟩

/-- After `From` and any calls of `And`, `Or`, `Where` and `Join`, the chain has
returned a builder with a SELECT that holds a FROM. -/
theorem from_runCalls_select (U : Unicode) (s0 : Query) (e : Entity) (a : Str)
    (calls : List Call) :
    ∃ t r, runCalls U (s0.From U (.entity e) a) calls = .ok t ∧ t.raw = some r
      ∧ "SELECT".toList <+: t.QueryStr ∧ "FROM".toList <:+: t.QueryStr
      ∧ t.Rows = s0.Rows ∧ t.Offset = s0.Offset := by
  rw [from_entity]
  exact runCalls_select U calls _ _ rfl ⟨_, by simp only [List.append_assoc]; rfl⟩
    ⟨"SELECT ".toList ++ (a ++ ".* ".toList), " ".toList ++ (e.TableName ++ " ".toList ++ a),
      by simp⟩

set_option maxRecDepth 100000 in
/-- C36. On the builder that `From` and any further calls of `And`, `Or`, `Where`
and `Join` have returned, `Join(m, b, on...)` returns, and it changes the
statement text only: the argument list, the pending WHERE fragments and the
recorded identifier column (which `raw` holds), the limit and the page are the
same before and after, so `ToSQL` returns the same arguments, whatever fields of
`m` are populated.  Joining `newGame()`, all of whose fields are populated, to
`From(Game{}, "g")` gives no condition and no argument. -/
theorem join_changes_text_only (U : Unicode) (s0 : Query) (e : Entity) (a : Str)
    (calls : List Call) (m : Entity) (b : Str) (onArgs : List Str) :
    (∃ t r t',
        runCalls U (s0.From U (.entity e) a) calls = .ok t ∧ t.raw = some r
          ∧ t.Join (.entity m) b onArgs = .ok t'
          ∧ t'.Args = t.Args ∧ t'.raw = some r ∧ t'.Rows = t.Rows ∧ t'.Offset = t.Offset
          ∧ ∃ x y,
              rendered U (.ok t) = .ok (x, t.Args ++ whereArgs r.whereConditions)
                ∧ rendered U (.ok t') = .ok (y, t.Args ++ whereArgs r.whereConditions))
      ∧ rendered asciiUnicode
          (runCalls asciiUnicode (Build.From asciiUnicode (.entity emptyGame) "g".toList)
            [Call.Join newGame "n".toList ["n.game_id = g.game_id".toList]])
        = .ok
          ("SELECT g.*, n.* FROM ref_game g JOIN ref_game n ON n.game_id = g.game_id LIMIT 100 OFFSET 0".toList,
            []) := by
  refine ⟨?_, by decide⟩
  obtain ⟨t, r, h1, h2, h3, h4, _, _⟩ := from_runCalls_select U s0 e a calls
  obtain ⟨text, hj, _, _, _⟩ := join_select t r m b onArgs h2 h3 h4
  have hx := rendered_of_raw U t r h2
  have hy := rendered_of_raw U { t with raw := some r, QueryStr := text } r rfl
  exact ⟨t, r, { t with raw := some r, QueryStr := text }, h1, h2, hj, rfl, rfl, rfl, rfl,
    _, _, hx, hy⟩

/-! ## The default cap and the offset -/

set_option maxRecDepth 100000 in
/-- C37. On a SELECT built with `From` on a fresh builder and any further calls
of `And`, `Or`, `Where` and `Join`, `Limit` never called or called with 0: for
every page number `p` the LIMIT/OFFSET clause is ` LIMIT 100 OFFSET 0`, so the
text and the arguments that `ToSQL` returns are those of page 1.  The cap 100 is
written after LIMIT and does not enter the offset.  `From(Game{}, "g")` with
`Page(7)` renders `SELECT g.* FROM ref_game g LIMIT 100 OFFSET 0`. -/
theorem default_cap_not_in_offset (U : Unicode) (e : Entity) (a : Str) (calls : List Call)
    (p : Int) :
    (∃ t r,
        runCalls U (Build.From U (.entity e) a) calls = .ok t ∧ t.raw = some r
          ∧ t.Rows = 0
          ∧ limitClause (t.Page p) = " LIMIT 100 OFFSET 0".toList
          ∧ limitClause ((t.Limit 0).Page p) = " LIMIT 100 OFFSET 0".toList
          ∧ rendered U (.ok (t.Page p))
            = .ok
              (withReturning U r.ID
                  (t.QueryStr ++ whereClause t.Args.length r.whereConditions
                    ++ " LIMIT 100 OFFSET 0".toList),
                t.Args ++ whereArgs r.whereConditions)
          ∧ rendered U (.ok ((t.Limit 0).Page p)) = rendered U (.ok (t.Page p))
          ∧ rendered U (.ok (t.Page p)) = rendered U (.ok (t.Page 1)))
      ∧ rendered asciiUnicode
          (andThen (Build.From asciiUnicode (.entity emptyGame) "g".toList)
            (fun s => .ok (s.Page 7)))
        = .ok ("SELECT g.* FROM ref_game g LIMIT 100 OFFSET 0".toList, []) := by
  refine ⟨?_, by decide⟩
  obtain ⟨t, r, h1, h2, h3, _, h5, _⟩ := from_runCalls_select U Build e a calls
  have hR : t.Rows = 0 := h5
  have hsel : Contains t.QueryStr "SELECT".toList = true := by
    rw [Contains_iff]
    exact h3.isInfix
  have hlim : ∀ q : Int, limitClause (t.Page q) = " LIMIT 100 OFFSET 0".toList :=
    fun q => limitClause_default (t.Page q) hsel hR
  have hlim0 : limitClause ((t.Limit 0).Page p) = " LIMIT 100 OFFSET 0".toList :=
    limitClause_default ((t.Limit 0).Page p) hsel rfl
  have hren : ∀ q : Int, rendered U (.ok (t.Page q))
      = .ok
        (withReturning U r.ID
            (t.QueryStr ++ whereClause t.Args.length r.whereConditions
              ++ " LIMIT 100 OFFSET 0".toList),
          t.Args ++ whereArgs r.whereConditions) := by
    intro q
    have h := rendered_of_raw U (t.Page q) r h2
    rw [hlim q] at h
    exact h
  have hren0 : rendered U (.ok ((t.Limit 0).Page p))
      = .ok
        (withReturning U r.ID
            (t.QueryStr ++ whereClause t.Args.length r.whereConditions
              ++ " LIMIT 100 OFFSET 0".toList),
          t.Args ++ whereArgs r.whereConditions) := by
    have h := rendered_of_raw U ((t.Limit 0).Page p) r h2
    rw [hlim0] at h
    exact h
  exact ⟨t, r, h1, h2, hR, hlim p, hlim0, hren p, by rw [hren0, hren p],
    by rw [hren p, hren 1]⟩

/-! ## `Updates` without a recorded identifier -/

theorem Contains_nil (k : Str) : Contains k [] = true := by
  rw [Contains_iff]
  exact List.nil_infix

theorem idColumn_nil_of_invalid (U : Unicode) (tag : Str) (fs : List Field)
    (h : ∀ f ∈ fs, equalFoldID f.Name = true → isValidTag U (parseTag (f.TagGet tag)).1 = false) :
    fs.foldl (fun ID f => if equalFoldID f.Name then f.column U tag else ID) [] = [] := by
  induction fs with
  | nil => rfl
  | cons f fs ih =>
    rw [List.foldl_cons]
    have hstep : (if equalFoldID f.Name then f.column U tag else ([] : Str)) = [] := by
      by_cases hn : equalFoldID f.Name = true
      · rw [if_pos hn]
        unfold Field.column
        rw [h f (List.mem_cons_self _ _) hn]
        rfl
      · rw [if_neg hn]
    rw [hstep]
    exact ih (fun g hg => h g (List.mem_cons_of_mem _ hg))

theorem update_text_no_select (T : Str) (hT : Contains T "SELECT".toList = false) :
    Contains ("UPDATE ".toList ++ T ++ " SET write_date = $1".toList) "SELECT".toList = false := by
  rw [Contains_eq_false_iff] at hT ⊢
  have e : "UPDATE ".toList ++ T ++ " SET write_date = $1".toList
      = "UPDATE".toList ++ ' ' :: (T ++ ' ' :: "SET write_date = $1".toList) := by
    simp
  rw [e, infix_append_sep _ _ _ _ (by decide), infix_append_sep _ _ _ _ (by decide)]
  intro h
  rcases h with h | h | h
  · exact absurd h (by decide)
  · exact hT h
  · exact absurd h (by decide)

/-- C38, amended. For every entity that has no field named `ID` (case ignored),
or whose fields named `ID` have an invalid tag name, and whose table name `T`
does not contain `SELECT`: `Updates(e).ToSQL()` on a fresh builder returns the
text `UPDATE T SET write_date = $1 RETURNING ` with an empty identifier, and
the write timestamp as only argument, whatever fields of the entity are
populated. -/
theorem updates_without_identifier (U : Unicode) (now : Nat → Nat) (e : Entity)
    (hid : (∀ f ∈ e.fields, equalFoldID f.Name = false)
      ∨ (∀ f ∈ e.fields, equalFoldID f.Name = true →
          isValidTag U (parseTag (f.TagGet "sql".toList)).1 = false))
    (hT : Contains e.TableName "SELECT".toList = false) :
    rendered U (Build.Updates U now (.entity e))
      = .ok
        ("UPDATE ".toList ++ e.TableName ++ " SET write_date = $1".toList
            ++ " RETURNING ".toList,
          [Arg.time (now 0)]) := by
  have hinv : ∀ f ∈ e.fields, equalFoldID f.Name = true →
      isValidTag U (parseTag (f.TagGet "sql".toList)).1 = false := by
    rcases hid with h | h
    · intro f hf hn
      rw [h f hf] at hn
      exact absurd hn (by decide)
    · exact h
  have hidc : idColumn U "sql".toList [] e = [] :=
    idColumn_nil_of_invalid U "sql".toList e.fields hinv
  have hassigned : assignedColumns U "sql".toList [] e = [] := by
    unfold assignedColumns
    rw [List.filter_eq_nil_iff]
    intro k _
    rw [Contains_nil]
    decide
  obtain ⟨s, r, h1, hraw, hID, hws, hq, hargs, _, _⟩ := updates_build U now e
  rw [hidc] at hID
  rw [hidc, hassigned] at hq hargs
  have hq' : s.QueryStr = "UPDATE ".toList ++ e.TableName ++ " SET write_date = $1".toList := by
    have hn : numberedAssignments [] 2 = [] := rfl
    rw [hq, hn, List.nil_append, Join_singleton]
    simp only [List.append_assoc]
    rfl
  have hargs' : s.Args = [Arg.time (now 0)] := by
    rw [hargs]
    rfl
  have hlim : limitClause s = [] :=
    limitClause_no_select s (by rw [hq']; exact update_text_no_select e.TableName hT)
  rw [h1, rendered_of_raw U s r hraw, hws, hlim, hID, hargs', hq']
  have hw : whereClause [Arg.time (now 0)].length [] = [] := rfl
  have hwa : whereArgs [] = [] := rfl
  rw [hw, hwa, List.append_nil, List.append_nil, List.append_nil]
  unfold withReturning
  rw [List.append_assoc "UPDATE ".toList, returningClause_update, List.append_nil]

set_option maxRecDepth 100000 in
/-- Witness of C38: `note` has no field named `ID`, and the field `ID` of
`badge` has the tag `,omitempty`. -/
theorem updates_without_identifier_witness :
    ((∀ f ∈ note.fields, equalFoldID f.Name = false)
        ∨ (∀ f ∈ note.fields, equalFoldID f.Name = true →
            isValidTag asciiUnicode (parseTag (f.TagGet "sql".toList)).1 = false))
      ∧ Contains note.TableName "SELECT".toList = false
      ∧ rendered asciiUnicode (Build.Updates asciiUnicode id (.entity note))
        = .ok
          ("UPDATE ".toList ++ note.TableName ++ " SET write_date = $1".toList
              ++ " RETURNING ".toList,
            [Arg.time (id 0)])
      ∧ rendered asciiUnicode (Build.Updates asciiUnicode id (.entity note))
        = .ok ("UPDATE ref_note SET write_date = $1 RETURNING ".toList, [Arg.time 0])
      ∧ rendered asciiUnicode (Build.Updates asciiUnicode id (.entity badge))
        = .ok ("UPDATE ref_badge SET write_date = $1 RETURNING ".toList, [Arg.time 0]) :=
  ⟨Or.inl (by decide), by decide,
    updates_without_identifier asciiUnicode id note (Or.inl (by decide)) (by decide),
    by decide, by decide⟩

set_option maxRecDepth 100000 in
/-- C38 as stated fails.  `selectedItem` has no field named `ID` and its table
name contains `SELECT`: the text has a LIMIT/OFFSET clause before RETURNING. -/
theorem updates_without_identifier_counterexample :
    (∀ f ∈ selectedItem.fields, equalFoldID f.Name = false)
      ∧ rendered asciiUnicode (Build.Updates asciiUnicode id (.entity selectedItem))
        = .ok
          ("UPDATE SELECTED_ITEMS SET write_date = $1 LIMIT 100 OFFSET 0 RETURNING ".toList,
            [Arg.time 0])
      ∧ "UPDATE SELECTED_ITEMS SET write_date = $1 LIMIT 100 OFFSET 0 RETURNING ".toList
        ≠ "UPDATE SELECTED_ITEMS SET write_date = $1 RETURNING ".toList := by
  decide

/-! ## Values of struct kind -/

theorem isEmptyValue_structKind (v : Value) (h : v.structKind = true) :
    isEmptyValue v = false := by
  cases v <;> simp_all [Value.structKind, isEmptyValue]

set_option maxRecDepth 100000 in
/-- C39. `isEmptyValue` is false for every value of struct kind.  So a tagged
field that holds a bare time, or a struct that is not a nullable wrapper, is
emitted whatever it holds: the round of `TagsToField` for it adds its rendered
value under its column, and the column is a key of the map that `TagsToField`
returns.  The zero time is rendered `0001-01-01T00:00:00Z`, and `Insert` of
`event` passes it. -/
theorem struct_kind_is_emitted (U : Unicode) (tag : Str) (e : Entity) (f : Field)
    (hf : f ∈ e.fields) (ht : f.TagGet tag ≠ [])
    (hk : (∃ t, f.val = .time t) ∨ (∃ x, f.val = .struct x)) :
    (∀ v : Value, v.structKind = true → isEmptyValue v = false)
      ∧ isEmptyValue f.val = false
      ∧ (∀ acc : Str × FieldMap,
          (TagsToFieldStep U tag acc f).2
            = (acc.2.push (f.column U tag) (.str f.text)).push (f.column U tag)
                (.opts (f.options tag)))
      ∧ (∀ r : SQL, ∃ r' m, SQL.TagsToField U r tag (.entity e) = .ok (r', m)
          ∧ f.column U tag ∈ m.keys)
      ∧ isEmptyValue zeroTime = false
      ∧ renderValue zeroTime = some "0001-01-01T00:00:00Z".toList
      ∧ rendered asciiUnicode (Build.Insert asciiUnicode id (.entity event))
        = .ok
          ("INSERT INTO ref_event (at, place, create_date, write_date) VALUES ($1, $2, $3, $4) RETURNING id".toList,
            [Arg.str "0001-01-01T00:00:00Z".toList, Arg.str "\x7b0 0\x7d".toList, Arg.time 0,
              Arg.time 1]) := by
  have hkind : f.val.structKind = true := by
    rcases hk with ⟨t, h⟩ | ⟨x, h⟩ <;> rw [h] <;> rfl
  have hvalid : f.val.valid = true := by
    rcases hk with ⟨t, h⟩ | ⟨x, h⟩ <;> rw [h] <;> rfl
  have hempty := isEmptyValue_structKind f.val hkind
  have hpop : f.populated tag = true := by
    unfold Field.populated
    rw [hempty, hvalid]
    simp [ht]
  refine ⟨isEmptyValue_structKind, hempty, ?_, ?_, rfl, rfl, by decide⟩
  · intro acc
    rw [TagsToFieldStep_snd]
    unfold pushField
    rw [if_pos hpop]
  · intro r
    refine ⟨_, _, TagsToField_entity U r tag e, ?_⟩
    rw [mem_fieldMapOf_keys, mem_populatedColumns]
    exact ⟨f, hf, hpop, rfl⟩

set_option maxRecDepth 100000 in
/-- Witness of C39: the field `At` of `event`, a bare time at its zero value. -/
theorem struct_kind_is_emitted_witness :
    (⟨"At".toList, jsonSqlTag "at", zeroTime⟩ : Field) ∈ event.fields
      ∧ (⟨"At".toList, jsonSqlTag "at", zeroTime⟩ : Field).TagGet "sql".toList ≠ []
      ∧ isEmptyValue (⟨"At".toList, jsonSqlTag "at", zeroTime⟩ : Field).val = false
      ∧ (∀ r : SQL, ∃ r' m,
          SQL.TagsToField asciiUnicode r "sql".toList (.entity event) = .ok (r', m)
            ∧ (⟨"At".toList, jsonSqlTag "at", zeroTime⟩ : Field).column asciiUnicode
                "sql".toList ∈ m.keys)
      ∧ (⟨"At".toList, jsonSqlTag "at", zeroTime⟩ : Field).column asciiUnicode "sql".toList
        = "at".toList :=
  ⟨by decide, by decide,
    (struct_kind_is_emitted asciiUnicode "sql".toList event ⟨"At".toList, jsonSqlTag "at", zeroTime⟩
      (by decide) (by decide) (Or.inl ⟨_, rfl⟩)).2.1,
    (struct_kind_is_emitted asciiUnicode "sql".toList event ⟨"At".toList, jsonSqlTag "at", zeroTime⟩
      (by decide) (by decide) (Or.inl ⟨_, rfl⟩)).2.2.2.1,
    by decide⟩

/-! ## `TxExecContextWithID` and the RETURNING clause -/

theorem rendered_contains_returning (U : Unicode) (s : Query) (r : SQL) (hr : s.raw = some r)
    (hhead : ∃ rest, s.QueryStr = "INSERT INTO ".toList ++ rest
      ∨ s.QueryStr = "UPDATE ".toList ++ rest) :
    ∃ text A, rendered U (.ok s) = .ok (text, A) ∧ Contains text "RETURNING".toList = true := by
  refine ⟨_, _, rendered_of_raw U s r hr, ?_⟩
  obtain ⟨rest, hq⟩ := hhead
  have hret : returningClause U r.ID
      (s.QueryStr ++ whereClause s.Args.length r.whereConditions ++ limitClause s)
      = " RETURNING ".toList ++ r.ID := by
    rcases hq with hq | hq
    · rw [hq, List.append_assoc, List.append_assoc, returningClause_insert]
    · rw [hq, List.append_assoc, List.append_assoc, returningClause_update]
  unfold withReturning
  rw [hret, Contains_iff]
  exact ⟨s.QueryStr ++ whereClause s.Args.length r.whereConditions ++ limitClause s
      ++ " ".toList, " ".toList ++ r.ID, by simp⟩

theorem txExecContextWithID_prepares (tx : Tx) (query : Str) (args : List Arg)
    (h : Contains query "RETURNING".toList = true) :
    (TxExecContextWithID tx query args).2.head? = some (TxOp.PrepareContext query) := by
  unfold TxExecContextWithID
  rw [if_pos h]
  cases tx.PrepareContext query with
  | error er => rfl
  | ok stmt =>
    simp only
    cases stmt.QueryRowScan args with
    | error er => rfl
    | ok ids =>
      simp only
      cases stmt.Close with
      | none => rfl
      | some errStmt => rfl

set_option maxRecDepth 100000 in
/-- C40. For every query text without the substring `RETURNING`,
`TxExecContextWithID` returns a nil identifier and an error, and makes no call on
the transaction.  Every text that `ToSQL` returns for a statement built by
`Insert`, `Inserts` or `Updates` on a fresh builder, whatever `Where` calls came
after, contains `RETURNING`, so `TxExecContextWithID` goes on to prepare it.
The text of `Updates(&User{ID: 3, Name: "budi"})` before `ToSQL` is refused,
the text that `ToSQL` returns is prepared and queried. -/
theorem txExecContextWithID_requires_returning (U : Unicode) (now : Nat → Nat) (tx : Tx)
    (args : List Arg) :
    (∀ query : Str, Contains query "RETURNING".toList = false →
        TxExecContextWithID tx query args
          = ((none, some (GoError.other "query has no RETUNING id syntax")), []))
      ∧ (∀ (e : Entity) (ws : List WhereCond), ∃ s text A,
          Build.Insert U now (.entity e) = .ok s
            ∧ rendered U (.ok (whereCalls s ws)) = .ok (text, A)
            ∧ Contains text "RETURNING".toList = true
            ∧ (TxExecContextWithID tx text args).2.head? = some (TxOp.PrepareContext text))
      ∧ (∀ (first : Entity) (rest : List Entity) (ws : List WhereCond), ∃ s text A,
          Build.Inserts U now (.slice (first :: rest)) = .ok s
            ∧ rendered U (.ok (whereCalls s ws)) = .ok (text, A)
            ∧ Contains text "RETURNING".toList = true
            ∧ (TxExecContextWithID tx text args).2.head? = some (TxOp.PrepareContext text))
      ∧ (∀ (e : Entity) (ws : List WhereCond), ∃ s text A,
          Build.Updates U now (.entity e) = .ok s
            ∧ rendered U (.ok (whereCalls s ws)) = .ok (text, A)
            ∧ Contains text "RETURNING".toList = true
            ∧ (TxExecContextWithID tx text args).2.head? = some (TxOp.PrepareContext text))
      ∧ TxExecContextWithID (scriptedTx 1 none none)
          "UPDATE ref_user SET name = $2, write_date = $1".toList
          [Arg.time 0, Arg.str "budi".toList]
        = ((none, some (GoError.other "query has no RETUNING id syntax")), [])
      ∧ TxExecContextWithID (scriptedTx 1 none none)
          "UPDATE ref_user SET name = $2, write_date = $1 RETURNING id".toList
          [Arg.time 0, Arg.str "budi".toList]
        = ((some (Arg.int 7), none),
            [TxOp.PrepareContext
                "UPDATE ref_user SET name = $2, write_date = $1 RETURNING id".toList,
              TxOp.QueryRowContext [Arg.time 0, Arg.str "budi".toList], TxOp.Close])
      ∧ rendered asciiUnicode (Build.Updates asciiUnicode id (.entity (User 3 "budi")))
        = .ok ("UPDATE ref_user SET name = $2, write_date = $1 RETURNING id".toList,
            [Arg.time 0, Arg.str "budi".toList]) := by
  have key : ∀ (s : Query) (r : SQL) (ws : List WhereCond), s.raw = some r →
      (∃ rest, s.QueryStr = "INSERT INTO ".toList ++ rest
        ∨ s.QueryStr = "UPDATE ".toList ++ rest) →
      ∃ text A, rendered U (.ok (whereCalls s ws)) = .ok (text, A)
        ∧ Contains text "RETURNING".toList = true
        ∧ (TxExecContextWithID tx text args).2.head? = some (TxOp.PrepareContext text) := by
    intro s r ws hr hhead
    obtain ⟨r', hr', _, _, hq, _, _, _⟩ := whereCalls_raw ws s r hr
    obtain ⟨text, A, h1, h2⟩ := rendered_contains_returning U (whereCalls s ws) r' hr'
      (by rw [hq]; exact hhead)
    exact ⟨text, A, h1, h2, txExecContextWithID_prepares tx text args h2⟩
  refine ⟨?_, ?_, ?_, ?_, by decide, by decide, by decide⟩
  · intro query h
    unfold TxExecContextWithID
    rw [h]
    rfl
  · intro e ws
    obtain ⟨s, r, rest, h1, h2, h3⟩ := insert_head U now e
    obtain ⟨text, A, k⟩ := key s r ws h2 ⟨rest, Or.inl h3⟩
    exact ⟨s, text, A, h1, k⟩
  · intro first rest ws
    obtain ⟨s, r, h1, h2, _, h3, _⟩ := inserts_build U now first rest
    obtain ⟨text, A, k⟩ := key s r ws h2 ⟨_, Or.inl (by rw [h3]; simp only [List.append_assoc]; rfl)⟩
    exact ⟨s, text, A, h1, k⟩
  · intro e ws
    obtain ⟨s, r, h1, h2, _, _, h3, _⟩ := updates_build U now e
    obtain ⟨text, A, k⟩ := key s r ws h2 ⟨_, Or.inr (by rw [h3]; simp only [List.append_assoc]; rfl)⟩
    exact ⟨s, text, A, h1, k⟩

end Tyr
